import Mathlib

/-!
Dependency-injection graph (`inject`): embedding and verification.

The development embeds `graph.go`, `object.go` and `tag.go` of the `inject`
package.  Go values live in an explicit heap:

* `World.mem` holds the allocated struct variables; a pointer is a cell index
  together with a path of field and element indices, so that the address of a
  nested struct (`field.Addr()`, `&p.Arr[0]`) is representable.  Every variable
  and every `reflect.New` is a cell of its own: Go promises distinct addresses
  only to variables of non-zero size, so a statement that two pointers differ
  is a statement about struct types that have a size;
* `World.maps` holds the maps, each with its entries; a map value is an index
  into it;
* `World.objs` holds the `Object` records; a `*Object` is an index into it;
* `World.g` is the `Graph` (its `Logger` is nil, as in the package's test).

Functions return the final world together with an `Outcome`, because the Go
code mutates the graph and the user's structs in place also when it returns
an error.  The `reflect` package and `structtag.Extract` are libraries outside
the repository: which types implement an interface type, which types have
identical underlying types, and tag extraction are parameters of the
environment `Env`.
-/

namespace Inject


/-! ## Types and values -/

/-- Runtime type descriptors (`reflect.Type`).  Struct, interface and map types
are given by their names (the name of a defined type, or the text of a type
literal such as `map[string]int`); pointer and array types are the literals
`*T` and `[n]T` (a program that declares a defined pointer or array type, such
as `type P *T`, is outside this universe); `Other` stands for every remaining
kind (string, int, slice, func, chan, ...), whose values have no component that
a pointer can address. -/
inductive GoType where
  | Struct (name : String)
  | Ptr (elem : GoType)
  | Interface (name : String)
  | Map (name : String)
  | Array (len : Nat) (elem : GoType)
  | Other (name : String)
  deriving DecidableEq, Repr, Inhabited

/-- The kinds distinguished by the package (`reflect.Kind`). -/
inductive Kind where
  | Struct
  | Ptr
  | Interface
  | Map
  | Array
  | Other
  deriving DecidableEq, Repr, Inhabited

/-- The kind of a type, `t.Kind()`. -/
def GoType.Kind : GoType → Kind
  | .Struct _ => .Struct
  | .Ptr _ => .Ptr
  | .Interface _ => .Interface
  | .Map _ => .Map
  | .Array _ _ => .Array
  | .Other _ => .Other

/-- The element type of a pointer or array type, `t.Elem()`; `none` where the
call panics or the element type is not modelled (the package calls `Elem` on
pointer types only). -/
def GoType.Elem : GoType → Option GoType
  | .Ptr e => some e
  | .Array _ e => some e
  | _ => none

/-- Runtime values.  `nil` is the nil pointer, nil map and nil interface;
`ptr c p` points to the component reached from cell `c` along the path `p` of
field and element indices; `map k` is the `k`-th map of the heap; `other 0` is
the zero value of a type of kind `Other`; `iface t v` is a non-nil interface
holding `v` of dynamic type `t`; `struct fs` is a struct or an array stored in
place, with its fields or its elements as components. -/
inductive Val where
  | nil
  | ptr (cell : Nat) (path : List Nat)
  | map (id : Nat)
  | other (n : Nat)
  | iface (t : GoType) (v : Val)
  | struct (fs : List Val)
  deriving Repr, Inhabited

mutual
/-- Whether a value is the zero value of its type: what
`reflect.DeepEqual(v.Interface(), reflect.Zero(t).Interface())` computes for a
value `v` of type `t` (every pointer, map and interface inside is nil, every
other component is zero). -/
def Val.isZero : Val → Bool
  | .nil => true
  | .other n => n == 0
  | .struct fs => Val.allZero fs
  | .ptr _ _ => false
  | .map _ => false
  | .iface _ _ => false
/-- All values of a list are zero values. -/
def Val.allZero : List Val → Bool
  | [] => true
  | f :: fs => f.isZero && Val.allZero fs
end

/-- `v.IsNil()` for a value of pointer or interface kind. -/
def Val.IsNil : Val → Bool
  | .nil => true
  | _ => false

/-- The component of a value at a path of field and element indices. -/
def Val.get : Val → List Nat → Option Val
  | v, [] => some v
  | .struct fs, i :: p =>
    match fs.get? i with
    | some f => f.get p
    | none => none
  | .nil, _ :: _ => none
  | .ptr _ _, _ :: _ => none
  | .map _, _ :: _ => none
  | .other _, _ :: _ => none
  | .iface _ _, _ :: _ => none

/-- Replace the component of a value at a path of field and element indices. -/
def Val.set : Val → List Nat → Val → Val
  | _, [], x => x
  | .struct fs, i :: p, x =>
    match fs.get? i with
    | some f => .struct (fs.set i (f.set p x))
    | none => .struct fs
  | .nil, _ :: _, _ => .nil
  | .ptr c q, _ :: _, _ => .ptr c q
  | .map k, _ :: _, _ => .map k
  | .other n, _ :: _, _ => .other n
  | .iface t v, _ :: _, _ => .iface t v

/-- A struct field as `reflect.StructField` describes it.  `Exported` is
`PkgPath == ""`; a field reached through a pointer to its struct can be set
(`CanSet`) exactly when it is exported. -/
structure StructField where
  Name : String
  Typ : GoType
  Tag : String
  Exported : Bool
  Anonymous : Bool
  deriving DecidableEq, Repr, Inhabited

/-- What `structtag.Extract(name, tag)` returns. -/
structure Extracted where
  found : Bool
  value : String
  err : Option String
  deriving DecidableEq, Repr, Inhabited

/-- The program the graph runs in: the declared struct types, which types
implement which interface types, which pairs of different types have identical
underlying types with at most one of the two a defined type (none, unless the
program says so), and the tag extractor. -/
structure Env where
  structs : List (String × List StructField)
  implements : GoType → String → Bool
  Extract : String → String → Extracted
  identicalUnderlying : GoType → GoType → Bool := fun _ _ => false

/-- The fields of a struct type, in declaration order. -/
def Env.fields (env : Env) (s : String) : List StructField :=
  match env.structs.lookup s with
  | some fs => fs
  | none => []

/-- `t.AssignableTo(u)` of package `reflect`: the types are identical; or `u`
is an interface type that `t` implements; or the two are of the same kind, at
most one of them is a defined type and their underlying types are identical,
which for struct types includes that they have the same fields.  The pointer
and array types modelled are type literals, assignable to one another only
when identical. -/
def GoType.AssignableTo (env : Env) (t u : GoType) : Bool :=
  t == u ||
    match t, u with
    | _, .Interface i => env.implements t i
    | .Map _, .Map _ => env.identicalUnderlying t u
    | .Other _, .Other _ => env.identicalUnderlying t u
    | .Struct a, .Struct b => env.identicalUnderlying t u && env.fields a == env.fields b
    | _, _ => false

/-- The depth to which nested struct values are unfolded by `Zero`. -/
def Env.depth (env : Env) : Nat := env.structs.length + 1

/-- The zero value of a type, given the zero values of the struct types. -/
def zeroOf (structZero : String → Val) : GoType → Val
  | .Ptr _ => .nil
  | .Interface _ => .nil
  | .Map _ => .nil
  | .Other _ => .other 0
  | .Struct s => structZero s
  | .Array n e => .struct (List.replicate n (zeroOf structZero e))

/-- The zero value of a type, unfolding nested struct types to the given
depth. -/
def zeroVal (env : Env) : Nat → GoType → Val
  | 0 => zeroOf (fun _ => .struct [])
  | d + 1 => zeroOf (fun s => .struct ((env.fields s).map (fun f => zeroVal env d f.Typ)))

/-- The zero value of a type, `reflect.Zero(t)`. -/
def Zero (env : Env) (t : GoType) : Val := zeroVal env env.depth t

/-! ## tag.go -/

/-- The parsed `inject` directive of a field. -/
structure tag where
  Name : String
  Inline : Bool
  Private : Bool
  deriving DecidableEq, Repr, Inhabited

/-- The plain request, `&tag{}`. -/
def injectOnly : tag := { Name := "", Inline := false, Private := false }

/-- The private request, `&tag{Private: true}`. -/
def injectPrivate : tag := { Name := "", Inline := false, Private := true }

/-- The inline request, `&tag{Inline: true}`. -/
def injectInline : tag := { Name := "", Inline := true, Private := false }

/-- The directive of an annotation string: an error, no tag, or a tag. -/
def parseTag (env : Env) (t : String) : Except String (Option tag) :=
  let r := env.Extract "inject" t
  match r.err with
  | some e => .error e
  | none =>
    if !r.found then .ok none
    else if r.value == "" then .ok (some injectOnly)
    else if r.value == "inline" then .ok (some injectInline)
    else if r.value == "private" then .ok (some injectPrivate)
    else .ok (some { Name := r.value, Inline := false, Private := false })

/-! ## object.go -/

/-- An object of the graph.  `Value` is an `interface{}`: nil or a dynamic type
with its value.  `Fields` is a Go map from field names to `*Object`, nil until
the first dependency is recorded. -/
structure Object where
  Value : Option (GoType × Val)
  Name : String
  Completed : Bool
  Fields : Option (List (String × Nat))
  reflectType : Option GoType
  reflectValue : Option (GoType × Val)
  private_ : Bool
  created : Bool
  embedded : Bool
  deriving Repr, Inhabited

/-- Assignment `m[k] = v` on a Go map kept as an association list. -/
def mapInsert (m : List (String × Nat)) (k : String) (v : Nat) : List (String × Nat) :=
  match m with
  | [] => [(k, v)]
  | (k1, v1) :: rest => if k1 == k then (k, v) :: rest else (k1, v1) :: mapInsert rest k v

/-- The dependency recorded for a field, `o.Fields[field]`; a nil map and a
missing key read nil. -/
def Object.dependency (o : Object) (field : String) : Option Nat :=
  match o.Fields with
  | none => none
  | some m => m.lookup field

/-- Record that a field was injected with an object. -/
def Object.addDependency (o : Object) (field : String) (dependency : Nat) : Object :=
  match o.Fields with
  | none => { o with Fields := some (mapInsert [] field dependency) }
  | some m => { o with Fields := some (mapInsert m field dependency) }

/-! ## graph.go -/

/-- The graph: the unnamed bucket in registration order, the set of unnamed
types, and the named bucket.  A nil Go map and an empty one are both the empty
list: the code only tells them apart to `make` the map before writing it. -/
structure Graph where
  unnamed : List Nat
  unnamedType : List (GoType × Bool)
  named : List (String × Nat)
  deriving Repr, Inhabited

/-- The heap together with the graph: the allocated variables, the maps with
their entries (the package makes maps and never reads or writes an entry), the
`Object` records and the graph. -/
structure World where
  mem : List Val
  maps : List (List (Val × Val))
  objs : List Object
  g : Graph
  deriving Repr, Inhabited

/-- The errors the package returns, one per `fmt.Errorf` site. -/
inductive Err where
  | fieldsSpecified
  | notStructPtr
  | twoUnnamed (t : GoType)
  | twoNamed (name : String)
  | tagFormat (field : String)
  | unexported (field : String)
  | inlineNonStruct (field : String)
  | namedNotFound (name field : String)
  | namedNotAssignable (name field : String)
  | privateInline (field : String)
  | inlineUntagged (field : String)
  | mapNotPrivate (field : String)
  | unsupported (field : String)
  | privateInterface (field : String)
  | unhandledNamed (name : String)
  | twoAssignable (field : String) (first second : Nat)
  | noAssignable (field : String)
  deriving DecidableEq, Repr, Inhabited

/-- How a call ends: it returns nil, returns an error, panics (a nil
dereference or a failed `reflect` call), or the step budget of the model's
worklist loop is used up. -/
inductive Outcome where
  | nil
  | error (e : Err)
  | panic
  | outOfFuel
  deriving DecidableEq, Repr, Inhabited

/-- Read the struct component at an address. -/
def World.load (w : World) (c : Nat) (p : List Nat) : Option Val :=
  match w.mem.get? c with
  | some v => v.get p
  | none => none

/-- Write the struct component at an address. -/
def World.store (w : World) (c : Nat) (p : List Nat) (x : Val) : World :=
  match w.mem.get? c with
  | some v => { w with mem := w.mem.set c (v.set p x) }
  | none => w

/-- Overwrite an `Object` record. -/
def World.setObj (w : World) (id : Nat) (o : Object) : World :=
  { w with objs := w.objs.set id o }

/-- The call `object.addDependency(field, dependency)` on the object `id`. -/
def World.addDependency (w : World) (id : Nat) (field : String) (dependency : Nat) : World :=
  match w.objs.get? id with
  | some o => w.setObj id (o.addDependency field dependency)
  | none => w

/-- Lookup `m[k]` in a Go map of booleans; a missing key reads false. -/
def typeFlag (m : List (GoType × Bool)) (t : GoType) : Bool :=
  match m.lookup t with
  | some b => b
  | none => false

/-- Whether a type is a pointer to a struct. -/
def isStructPtr (t : GoType) : Bool :=
  t.Kind == .Ptr &&
    match t.Elem with
    | some e => e.Kind == .Struct
    | none => false

/-- Whether a field value of the given type is nil or zero. -/
def isNilOrZero (v : Val) (t : GoType) : Bool :=
  match t.Kind with
  | .Interface => v.IsNil
  | .Ptr => v.IsNil
  | _ => v.isZero

/-- The value `field.Set(reflect.ValueOf(x))` stores in a field of type
`fieldType`; `none` when the call panics (`x` is the nil interface, or its type
is not assignable to the field's). -/
def setValue (env : Env) (fieldType : GoType) (x : Option (GoType × Val)) : Option Val :=
  match x with
  | none => none
  | some (t, v) =>
    if t.AssignableTo env fieldType then
      match fieldType with
      | .Interface _ => some (.iface t v)
      | _ => some v
    else none

/-- The value `field.Set(reflect.ValueOf(x))` stores in the field `sf` when the
call is not guarded by `CanSet`: it panics also when the field is not
exported. -/
def fieldSet (env : Env) (sf : StructField) (x : Option (GoType × Val)) : Option Val :=
  if sf.Exported then setValue env sf.Typ x else none

/-- Provide objects to the graph. -/
def Graph.Provide : World → List Nat → World × Outcome
  | w, [] => (w, .nil)
  | w, id :: rest =>
    match w.objs.get? id with
    | none => (w, .panic)
    | some o =>
      let object : Object :=
        { o with reflectType := o.Value.map Prod.fst, reflectValue := o.Value }
      let w1 := w.setObj id object
      if object.Fields.isSome then (w1, .error .fieldsSpecified)
      else if object.Name == "" then
        match object.reflectType with
        | none => (w1, .panic)
        | some t =>
          if !isStructPtr t then (w1, .error .notStructPtr)
          else if !object.private_ then
            if typeFlag w1.g.unnamedType t then (w1, .error (.twoUnnamed t))
            else Graph.Provide { w1 with g := { w1.g with unnamed := w1.g.unnamed ++ [id] } } rest
          else Graph.Provide w1 rest
      else
        match w1.g.named.lookup object.Name with
        | some _ => (w1, .error (.twoNamed object.Name))
        | none =>
          Graph.Provide { w1 with g := { w1.g with named := w1.g.named ++ [(object.Name, id)] } } rest

/-- The result of scanning the unnamed bucket for an existing instance. -/
inductive Scan where
  | panic
  | notFound
  | found (id : Nat)
  deriving DecidableEq, Repr, Inhabited

/-- The loop of `populateExplicit` over `g.unnamed` that looks for the first
object that is not private and whose type is assignable to the field's. -/
def findExisting (env : Env) (w : World) (fieldType : GoType) : List Nat → Scan
  | [] => .notFound
  | e :: rest =>
    match w.objs.get? e with
    | none => .panic
    | some existedObject =>
      if existedObject.private_ then findExisting env w fieldType rest
      else
        match existedObject.reflectType with
        | none => .panic
        | some et =>
          if et.AssignableTo env fieldType then .found e
          else findExisting env w fieldType rest

/-- The named branch of `populateExplicit` (graph.go:171-190) for the field at
`(c, q)`: the object registered under `tag.Name` is assigned. -/
def assignNamed (env : Env) (w : World) (id c : Nat) (q : List Nat) (sf : StructField)
    (tag : tag) : World × Option Outcome :=
  match w.g.named.lookup tag.Name with
  | none => (w, some (.error (.namedNotFound tag.Name sf.Name)))
  | some eid =>
    match w.objs.get? eid with
    | none => (w, some .panic)
    | some existedObject =>
      match existedObject.reflectType with
      | none => (w, some .panic)
      | some et =>
        if !et.AssignableTo env sf.Typ then
          (w, some (.error (.namedNotAssignable tag.Name sf.Name)))
        else
          match setValue env sf.Typ existedObject.Value with
          | none => (w, some .panic)
          | some v => ((w.store c q v).addDependency id sf.Name eid, none)

/-- The struct branch of `populateExplicit` (graph.go:192-211) for the field at
`(c, q)`: the address of an inline struct is provided as a private object. -/
def provideInline (w : World) (c : Nat) (q : List Nat) (sf : StructField) (tag : tag) :
    World × Option Outcome :=
  if tag.Private then (w, some (.error (.privateInline sf.Name)))
  else if !tag.Inline then (w, some (.error (.inlineUntagged sf.Name)))
  else
    let newObject : Object :=
      { Value := some (.Ptr sf.Typ, .ptr c q), Name := "", Completed := false,
        Fields := none, reflectType := none, reflectValue := none, private_ := true,
        created := false, embedded := sf.Anonymous }
    let w1 : World := { w with objs := w.objs ++ [newObject] }
    match Graph.Provide w1 [w.objs.length] with
    | (w2, .nil) => (w2, none)
    | (w2, r) => (w2, some r)

/-- The map branch of `populateExplicit` (graph.go:218-230) for the field at
`(c, q)`. -/
def makeMapField (w : World) (c : Nat) (q : List Nat) (sf : StructField) (tag : tag) :
    World × Option Outcome :=
  if !tag.Private then (w, some (.error (.mapNotPrivate sf.Name)))
  else (({ w with maps := w.maps ++ [[]] } : World).store c q (.map w.maps.length), none)

/-- The pointer branch of `populateExplicit` (graph.go:237-273) for the field at
`(c, q)`: an existing instance is assigned, or one is created, provided and
assigned. -/
def injectPointer (env : Env) (w : World) (id c : Nat) (q : List Nat) (sf : StructField)
    (tag : tag) : World × Option Outcome :=
  match (if !tag.Private then findExisting env w sf.Typ w.g.unnamed else .notFound) with
  | .panic => (w, some .panic)
  | .found eid =>
    match w.objs.get? eid with
    | none => (w, some .panic)
    | some existedObject =>
      match setValue env sf.Typ existedObject.Value with
      | none => (w, some .panic)
      | some v => ((w.store c q v).addDependency id sf.Name eid, none)
  | .notFound =>
    match sf.Typ.Elem with
    | none => (w, some .panic)
    | some elem =>
      let newValue : Val := .ptr w.mem.length []
      let newObject : Object :=
        { Value := some (sf.Typ, newValue), Name := "", Completed := false,
          Fields := none, reflectType := none, reflectValue := none,
          private_ := tag.Private, created := true, embedded := false }
      let w1 : World :=
        { w with mem := w.mem ++ [Zero env elem], objs := w.objs ++ [newObject] }
      match Graph.Provide w1 [w.objs.length] with
      | (w2, .nil) => ((w2.store c q newValue).addDependency id sf.Name w.objs.length, none)
      | (w2, r) => (w2, some r)

/-- One iteration of the field loop of `populateExplicit`, for the field `i`
(described by `sf`) of the struct at address `(c, p)` wrapped by the object
`id`.  The second component is `none` when the loop goes on to the next field
and the returned outcome otherwise. -/
def explicitStep (env : Env) (w : World) (id c : Nat) (p : List Nat) (i : Nat)
    (sf : StructField) : World × Option Outcome :=
  match parseTag env sf.Tag with
  | .error _ => (w, some (.error (.tagFormat sf.Name)))
  | .ok none => (w, none)
  | .ok (some tag) =>
    if !sf.Exported then (w, some (.error (.unexported sf.Name)))
    else if tag.Inline && sf.Typ.Kind != .Struct then
      (w, some (.error (.inlineNonStruct sf.Name)))
    else
      match w.load c (p ++ [i]) with
      | none => (w, some .panic)
      | some field =>
        if !isNilOrZero field sf.Typ then (w, none)
        else if tag.Name != "" then assignNamed env w id c (p ++ [i]) sf tag
        else if sf.Typ.Kind == .Struct then provideInline w c (p ++ [i]) sf tag
        else if sf.Typ.Kind == .Interface then (w, none)
        else if sf.Typ.Kind == .Map then makeMapField w c (p ++ [i]) sf tag
        else if !isStructPtr sf.Typ then (w, some (.error (.unsupported sf.Name)))
        else injectPointer env w id c (p ++ [i]) sf tag

/-- The struct a traversal of `object` walks: the struct type named by
`object.reflectType.Elem()` and the address `object.reflectValue.Elem()`.
`none` when one of the `reflect` calls panics (nil type, nil pointer, not a
pointer to a struct). -/
def Object.target (object : Object) : Option (String × Nat × List Nat) :=
  match object.reflectType, object.reflectValue with
  | some (.Ptr (.Struct s)), some (_, .ptr c p) => some (s, c, p)
  | _, _ => none

/-- Whether the traversals skip the object: `object.Name != "" &&
!isStructPtr(object.reflectType)`; `none` when the test panics on a nil
type. -/
def Object.ignored (object : Object) : Option Bool :=
  if object.Name != "" then
    match object.reflectType with
    | none => none
    | some t => some (!isStructPtr t)
  else some false

/-- The loop `for i := 0; i < NumField(); i++` shared by `populateExplicit` and
`populateUnnamedInterface`, from field `i` on: `step` is the loop body. -/
def fieldLoop (step : World → Nat → StructField → World × Option Outcome) :
    List StructField → Nat → World → World × Outcome
  | [], _, w => (w, .nil)
  | sf :: rest, i, w =>
    match step w i sf with
    | (w1, none) => fieldLoop step rest (i + 1) w1
    | (w1, some r) => (w1, r)

/-- The skeleton shared by `populateExplicit` and `populateUnnamedInterface`:
named value types are ignored, then the fields of the struct are visited in
order. -/
def traverse (env : Env)
    (step : World → Nat → Nat → List Nat → Nat → StructField → World × Option Outcome)
    (w : World) (id : Nat) : World × Outcome :=
  match w.objs.get? id with
  | none => (w, .panic)
  | some object =>
    match object.ignored with
    | none => (w, .panic)
    | some true => (w, .nil)
    | some false =>
      match object.target with
      | none => (w, .panic)
      | some (s, c, p) => fieldLoop (fun w1 i sf => step w1 id c p i sf) (env.fields s) 0 w

/-- The loop of `populateUnnamedInterface` over `g.unnamed`: every object that
is not private and assignable to the field is assigned at once; a second one
is an error. -/
def interfaceScan (env : Env) (id c : Nat) (q : List Nat) (sf : StructField) :
    List Nat → Option Nat → World → World × Option Outcome × Option Nat
  | [], foundObject, w => (w, none, foundObject)
  | e :: rest, foundObject, w =>
    match w.objs.get? e with
    | none => (w, some .panic, foundObject)
    | some existedObject =>
      if existedObject.private_ then interfaceScan env id c q sf rest foundObject w
      else
        match existedObject.reflectType with
        | none => (w, some .panic, foundObject)
        | some et =>
          if et.AssignableTo env sf.Typ then
            match foundObject with
            | some f => (w, some (.error (.twoAssignable sf.Name f e)), foundObject)
            | none =>
              match fieldSet env sf existedObject.Value with
              | none => (w, some .panic, foundObject)
              | some v =>
                interfaceScan env id c q sf rest (some e)
                  ((w.store c q v).addDependency id sf.Name e)
          else interfaceScan env id c q sf rest foundObject w

/-- One iteration of the field loop of `populateUnnamedInterface`. -/
def interfaceStep (env : Env) (w : World) (id c : Nat) (p : List Nat) (i : Nat)
    (sf : StructField) : World × Option Outcome :=
  match parseTag env sf.Tag with
  | .error _ => (w, some (.error (.tagFormat sf.Name)))
  | .ok none => (w, none)
  | .ok (some tag) =>
    if sf.Typ.Kind != .Interface then (w, none)
    else if tag.Private then (w, some (.error (.privateInterface sf.Name)))
    else
      match w.load c (p ++ [i]) with
      | none => (w, some .panic)
      | some field =>
        if !isNilOrZero field sf.Typ then (w, none)
        else if tag.Name != "" then (w, some (.error (.unhandledNamed tag.Name)))
        else
          match interfaceScan env id c (p ++ [i]) sf w.g.unnamed none w with
          | (w1, some r, _) => (w1, some r)
          | (w1, none, none) => (w1, some (.error (.noAssignable sf.Name)))
          | (w1, none, some _) => (w1, none)

/-- Resolve the pointer, map, struct and named fields of an object. -/
def Graph.populateExplicit (env : Env) (w : World) (id : Nat) : World × Outcome :=
  traverse env (explicitStep env) w id

/-- Resolve the interface fields of an object. -/
def Graph.populateUnnamedInterface (env : Env) (w : World) (id : Nat) : World × Outcome :=
  traverse env (interfaceStep env) w id

/-- The order in which a `range` over a Go map visits its entries: any order,
selected by a list of choices (each choice picks one of the remaining
entries). -/
def rangeOrder {α : Type} (ord : List Nat) (entries : List α) : List α :=
  match entries, ord with
  | [], _ => []
  | x :: xs, [] => x :: xs
  | x :: xs, c :: cs =>
    match (x :: xs).get? (c % (xs.length + 1)) with
    | some y => y :: rangeOrder cs ((x :: xs).eraseIdx (c % (xs.length + 1)))
    | none => []

/-- A `range` loop over objects that skips the completed ones and calls `f` on
the others, returning at the first outcome that is not nil. -/
def forEachIncomplete (f : World → Nat → World × Outcome) : List Nat → World → World × Outcome
  | [], w => (w, .nil)
  | id :: rest, w =>
    match w.objs.get? id with
    | none => (w, .panic)
    | some object =>
      if object.Completed then forEachIncomplete f rest w
      else
        match f w id with
        | (w1, .nil) => forEachIncomplete f rest w1
        | (w1, r) => (w1, r)

/-- The worklist loop of `Populate` over the growing unnamed bucket, with
cursor `i`. -/
def unnamedLoop (env : Env) : Nat → Nat → World → World × Outcome
  | 0, _, w => (w, .outOfFuel)
  | fuel + 1, i, w =>
    if i == w.g.unnamed.length then (w, .nil)
    else
      match w.g.unnamed.get? i with
      | none => (w, .panic)
      | some id =>
        match w.objs.get? id with
        | none => (w, .panic)
        | some object =>
          if object.Completed then unnamedLoop env fuel (i + 1) w
          else
            match Graph.populateExplicit env w id with
            | (w1, .nil) => unnamedLoop env fuel (i + 1) w1
            | (w1, r) => (w1, r)

/-- Populate the incomplete objects.  `ord1` and `ord3` select the orders in
which the two loops over the named bucket visit it; `fuel` bounds the number of
iterations of the worklist loop. -/
def Graph.Populate (env : Env) (ord1 ord3 : List Nat) (fuel : Nat) (w : World) :
    World × Outcome :=
  match forEachIncomplete (Graph.populateExplicit env)
      ((rangeOrder ord1 w.g.named).map Prod.snd) w with
  | (w1, .nil) =>
    match unnamedLoop env fuel 0 w1 with
    | (w2, .nil) =>
      match forEachIncomplete (Graph.populateUnnamedInterface env) w2.g.unnamed w2 with
      | (w3, .nil) =>
        forEachIncomplete (Graph.populateUnnamedInterface env)
          ((rangeOrder ord3 w3.g.named).map Prod.snd) w3
      | (w3, r) => (w3, r)
    | (w2, r) => (w2, r)
  | (w1, r) => (w1, r)

/-- Swap the elements at positions `i` and `j`. -/
def swapAt (xs : List Nat) (i j : Nat) : List Nat :=
  match xs.get? i, xs.get? j with
  | some a, some b => (xs.set i b).set j a
  | _, _ => xs

/-- The shuffle loop of `Objects`: `n` more iterations from index `i`, where
`rnd i` is the random source's draw for `rand.Intn(i + 1)`. -/
def shuffle (rnd : Nat → Nat) : Nat → Nat → List Nat → List Nat
  | 0, _, xs => xs
  | n + 1, i, xs => shuffle rnd n (i + 1) (swapAt xs i (rnd i % (i + 1)))

/-- The objects of a list that are not embedded; `none` when an object is
missing (a nil dereference). -/
def notEmbedded (w : World) : List Nat → Option (List Nat)
  | [] => some []
  | id :: rest =>
    match w.objs.get? id, notEmbedded w rest with
    | some object, some out => if !object.embedded then some (id :: out) else some out
    | _, _ => none

/-- All known objects, named as well as unnamed, in random order. -/
def Graph.Objects (w : World) (ord : List Nat) (rnd : Nat → Nat) : Option (List Nat) :=
  match notEmbedded w w.g.unnamed, notEmbedded w ((rangeOrder ord w.g.named).map Prod.snd) with
  | some us, some ns => some (shuffle rnd (us ++ ns).length 0 (us ++ ns))
  | _, _ => none

/-! ## Notions used to state the properties -/

/-- A value without components: neither a struct nor an array. -/
def Val.isLeaf : Val → Bool
  | .struct _ => false
  | _ => true

/-- An `Object` as a caller of the package writes it, `&Object{Value: v}` with a
name and the completed flag: the cached and the internal fields are zero. -/
def Object.provided (t : GoType) (v : Val) (name : String) (completed : Bool) : Object :=
  { Value := some (t, v), Name := name, Completed := completed, Fields := none,
    reflectType := none, reflectValue := none, private_ := false, created := false,
    embedded := false }

/-- The zero `Graph` with a given heap of structs and objects. -/
def World.fresh (mem : List Val) (objs : List Object) : World :=
  { mem := mem, maps := [], objs := objs, g := { unnamed := [], unnamedType := [], named := [] } }

/-- The tag extractor of the examples: what `structtag.Extract` returns on the
annotation strings that occur in them. -/
def exampleExtract (key t : String) : Extracted :=
  if key == "inject" then
    if t == "" then { found := false, value := "", err := none }
    else if t == "inject:\"\"" then { found := true, value := "", err := none }
    else if t == "inject:\"private\"" then { found := true, value := "private", err := none }
    else if t == "inject:\"inline\"" then { found := true, value := "inline", err := none }
    else if t == "inject:\"x\"" then { found := true, value := "x", err := none }
    else { found := false, value := "", err := some "invalid tag" }
  else { found := false, value := "", err := none }

/-- An exported field with the given annotation. -/
def exportedField (name : String) (t : GoType) (tagString : String) : StructField :=
  { Name := name, Typ := t, Tag := tagString, Exported := true, Anonymous := false }

/-- The program of the first example: `type A struct{}`. -/
def dupEnv : Env :=
  { structs := [("A", [])], implements := fun _ _ => false, Extract := exampleExtract }

/-- Two variables `a1, a2 := &A{}, &A{}`, each wrapped by `&Object{Value: ...}`. -/
def dupWorld : World :=
  World.fresh [.struct [], .struct []]
    [Object.provided (.Ptr (.Struct "A")) (.ptr 0 []) "" false,
     Object.provided (.Ptr (.Struct "A")) (.ptr 1 []) "" false]

/-- The program of the private example:
`type A struct { B *B "inject:\"private\"" }`, `type B struct { C *C "inject:\"\"" }`,
`type C struct{}`. -/
def privateEnv : Env :=
  { structs :=
      [("A", [exportedField "B" (.Ptr (.Struct "B")) "inject:\"private\""]),
       ("B", [exportedField "C" (.Ptr (.Struct "C")) "inject:\"\""]),
       ("C", [])],
    implements := fun _ _ => false, Extract := exampleExtract }

/-- The variable `a := &A{}` wrapped by `&Object{Value: a}`. -/
def privateWorld : World :=
  World.fresh [.struct [.nil]] [Object.provided (.Ptr (.Struct "A")) (.ptr 0 []) "" false]

/-- The program of the inline example:
`type P struct { S S "inject:\"inline\"" }`, `type S struct { F *T "inject:\"\"" }`,
`type T struct{}`. -/
def inlineEnv : Env :=
  { structs :=
      [("P", [exportedField "S" (.Struct "S") "inject:\"inline\""]),
       ("S", [exportedField "F" (.Ptr (.Struct "T")) "inject:\"\""]),
       ("T", [])],
    implements := fun _ _ => false, Extract := exampleExtract }

/-- The variable `p := &P{}` wrapped by `&Object{Value: p}`. -/
def inlineWorld : World :=
  World.fresh [.struct [.struct [.nil]]] [Object.provided (.Ptr (.Struct "P")) (.ptr 0 []) "" false]

/-- The record of an object the engine created for a pointer field of type `t`
with the new instance in cell `cell`, after `Provide` cached its type. -/
def createdObject (t : GoType) (cell : Nat) (priv : Bool) : Object :=
  { Value := some (t, .ptr cell []), Name := "", Completed := false, Fields := none,
    reflectType := some t, reflectValue := some (t, .ptr cell []), private_ := priv,
    created := true, embedded := false }

/-- The record of the object the engine builds for an inline struct field of
type `t` at the address `(c, q)`, after `Provide` cached its type. -/
def inlineObject (t : GoType) (c : Nat) (q : List Nat) (anonymous : Bool) : Object :=
  { Value := some (.Ptr t, .ptr c q), Name := "", Completed := false, Fields := none,
    reflectType := some (.Ptr t), reflectValue := some (.Ptr t, .ptr c q), private_ := true,
    created := false, embedded := anonymous }

/-- The world after the engine allocated a zero struct of type `s` and
registered the object created for it. -/
def World.allocated (env : Env) (w : World) (t : GoType) (s : String) (priv : Bool) : World :=
  { w with
    mem := w.mem ++ [Zero env (.Struct s)],
    objs := w.objs ++ [createdObject t w.mem.length priv],
    g := { w.g with unnamed := if priv then w.g.unnamed else w.g.unnamed ++ [w.objs.length] } }

/-- What one visit of the field at `(c, q)` of the object `id` can do to the
world. -/
inductive Effect (env : Env) (w : World) (id c : Nat) (q : List Nat) (sf : StructField) :
    World → Prop where
  | skip : Effect env w id c q sf w
  | assign (z v : Val) (eid : Nat) (e : Object)
      (hz : w.load c q = some z) (hzero : isNilOrZero z sf.Typ = true)
      (he : w.objs.get? eid = some e) (hv : setValue env sf.Typ e.Value = some v)
      (hsrc : (∃ n, w.g.named.lookup n = some eid) ∨ (eid ∈ w.g.unnamed ∧ e.private_ = false)) :
      Effect env w id c q sf ((w.store c q v).addDependency id sf.Name eid)
  | inline (z : Val) (s : String) (hz : w.load c q = some z) (hs : sf.Typ = .Struct s) :
      Effect env w id c q sf
        { w with objs := w.objs ++ [inlineObject sf.Typ c q sf.Anonymous] }
  | makeMap (z : Val) (hz : w.load c q = some z) (hzero : isNilOrZero z sf.Typ = true) :
      Effect env w id c q sf
        (({ w with maps := w.maps ++ [[]] } : World).store c q (.map w.maps.length))
  | create (z : Val) (s : String) (priv : Bool)
      (hz : w.load c q = some z) (hzero : isNilOrZero z sf.Typ = true)
      (ht : sf.Typ = .Ptr (.Struct s))
      (hflag : priv = false → typeFlag w.g.unnamedType sf.Typ = false)
      (hnone : priv = false → findExisting env w sf.Typ w.g.unnamed = .notFound) :
      Effect env w id c q sf
        (((w.allocated env sf.Typ s priv).store c q (.ptr w.mem.length [])).addDependency
          id sf.Name w.objs.length)
  | createFailed (z : Val) (s : String) (hz : w.load c q = some z) (ht : sf.Typ = .Ptr (.Struct s)) :
      Effect env w id c q sf
        { w with mem := w.mem ++ [Zero env (.Struct s)],
                 objs := w.objs ++ [createdObject sf.Typ w.mem.length false] }

/-- Two records of the same object that differ at most in the dependency map
`Fields`. -/
def Object.agrees (o o1 : Object) : Prop := { o1 with Fields := o.Fields } = o

/-- The object is in one of the two buckets of the graph. -/
def World.registered (w : World) (id : Nat) : Prop :=
  id ∈ w.g.unnamed ∨ id ∈ w.g.named.map Prod.snd

/-- The world `w1` extends `w` the way the traversals of `Populate` extend a
world: the unnamed bucket is appended to, the named bucket and the type set are
kept, no memory is released, and the objects of `w` are kept up to their
dependency maps. -/
structure Ext (w w1 : World) : Prop where
  unnamed : ∃ l, w1.g.unnamed = w.g.unnamed ++ l
  named : w1.g.named = w.g.named
  flags : w1.g.unnamedType = w.g.unnamedType
  mem : w.mem.length ≤ w1.mem.length
  objs : ∀ id o, w.objs.get? id = some o → ∃ o1, w1.objs.get? id = some o1 ∧ o.agrees o1

/-- The traversal of the object `id`, which is registered and not completed,
visits field `i`, described by `sf`, of its struct of type `s` at `(c, p)`. -/
structure Visit (env : Env) (w : World) (id c : Nat) (p : List Nat) (i : Nat)
    (sf : StructField) : Prop where
  reg : w.registered id
  obj : ∃ object s, w.objs.get? id = some object ∧ object.Completed = false ∧
    object.target = some (s, c, p) ∧ (env.fields s).get? i = some sf

/-- The object `id` is registered and not completed, and its traversal walks
the struct of type `s` at `(c, p)`. -/
structure Walk (w : World) (id : Nat) (s : String) (c : Nat) (p : List Nat) : Prop where
  reg : w.registered id
  obj : ∃ object, w.objs.get? id = some object ∧ object.Completed = false ∧
    object.target = some (s, c, p)

/-- A step function all of whose visits have an effect of the list. -/
def Effectful (env : Env)
    (step : World → Nat → Nat → List Nat → Nat → StructField → World × Option Outcome) : Prop :=
  ∀ w id c p i sf, Effect env w id c (p ++ [i]) sf (step w id c p i sf).1


/-- No bucket of the graph holds a dangling `*Object`. -/
def World.validIds (w : World) : Prop := ∀ id, w.registered id → id < w.objs.length

/-- The program of the completed-object example:
`type A struct { B *B "inject:\"\"" }`, `type B struct { C *C "inject:\"\"" }`,
`type C struct{}`. -/
def completedEnv : Env :=
  { structs :=
      [("A", [exportedField "B" (.Ptr (.Struct "B")) "inject:\"\""]),
       ("B", [exportedField "C" (.Ptr (.Struct "C")) "inject:\"\""]),
       ("C", [])],
    implements := fun _ _ => false, Extract := exampleExtract }

/-- The variables `a := &A{}` and `b := &B{}`, wrapped by `&Object{Value: a}` and
`&Object{Value: b, Completed: true}`. -/
def completedWorld : World :=
  World.fresh [.struct [.nil], .struct [.nil]]
    [Object.provided (.Ptr (.Struct "A")) (.ptr 0 []) "" false,
     Object.provided (.Ptr (.Struct "B")) (.ptr 1 []) "" true]

/-- The program of the overlap examples: `type T struct{}`,
`type S struct { A *T "inject:\"\""; B int }`, `type P struct { S S "inject:\"inline\"" }`. -/
def overlapEnv : Env :=
  { structs :=
      [("T", []),
       ("S", [exportedField "A" (.Ptr (.Struct "T")) "inject:\"\"",
              exportedField "B" (.Other "int") ""]),
       ("P", [exportedField "S" (.Struct "S") "inject:\"inline\""])],
    implements := fun _ _ => false, Extract := exampleExtract }

/-- The variable `p := &P{S: S{B: 1}}`, wrapped by `&Object{Value: p}`, and the
address of its nested struct, wrapped by `&Object{Value: &p.S}`. -/
def overlapWorld : World :=
  World.fresh [.struct [.struct [.nil, .other 1]]]
    [Object.provided (.Ptr (.Struct "P")) (.ptr 0 []) "" false,
     Object.provided (.Ptr (.Struct "S")) (.ptr 0 [0]) "" false]

/-- The variable `p := &P{}`, wrapped by `&Object{Value: p, Completed: true}`,
and the address of its nested struct, wrapped by `&Object{Value: &p.S}`. -/
def overlapCompletedWorld : World :=
  World.fresh [.struct [.struct [.nil, .other 0]]]
    [Object.provided (.Ptr (.Struct "P")) (.ptr 0 []) "" true,
     Object.provided (.Ptr (.Struct "S")) (.ptr 0 [0]) "" false]

/-- The variable `a := &A{B: b}` with `b := &B{}`, wrapped by
`&Object{Value: a}`, after `Provide`. -/
def keptWorld : World :=
  { mem := [.struct [.ptr 1 []], .struct [.nil]], maps := [],
    objs := [{ Object.provided (.Ptr (.Struct "A")) (.ptr 0 []) "" false with
                reflectType := some (.Ptr (.Struct "A")),
                reflectValue := some (.Ptr (.Struct "A"), .ptr 0 []) }],
    g := { unnamed := [0], unnamedType := [], named := [] } }

/-- The variables `a := &A{}` and `b := &B{}`, wrapped by `&Object{Value: a}` and
`&Object{Value: b, Completed: true}`, after `Provide`. -/
def completedProvided : World := (Graph.Provide completedWorld [0, 1]).1

/-- Two records of the same object that differ at most in the cached type and
value. -/
def Object.recached (o o1 : Object) : Prop :=
  { o1 with reflectType := o.reflectType, reflectValue := o.reflectValue } = o

/-- What a call of `Provide` does to a world: it appends objects of the heap to
the buckets and caches their types. -/
structure Provided (w w1 : World) : Prop where
  mem : w1.mem = w.mem
  maps : w1.maps = w.maps
  flags : w1.g.unnamedType = w.g.unnamedType
  len : w1.objs.length = w.objs.length
  objs : ∀ id o, w.objs.get? id = some o → ∃ o1, w1.objs.get? id = some o1 ∧ o.recached o1
  unnamed : ∃ l, w1.g.unnamed = w.g.unnamed ++ l ∧ ∀ x ∈ l, x < w.objs.length
  named : ∃ l, w1.g.named = w.g.named ++ l ∧ ∀ x ∈ l, x.2 < w.objs.length

/-- The worlds reached later from `w`: by further visits of the traversals, and
by further calls of `Provide` to which the caller may bring new objects that
satisfy `allowed`. -/
inductive Later (env : Env) (allowed : Object → Prop) (w : World) : World → Prop where
  | refl : Later env allowed w w
  | explicit {w1 : World} (id c : Nat) (p : List Nat) (i : Nat) (sf : StructField) :
      Later env allowed w w1 → Later env allowed w (explicitStep env w1 id c p i sf).1
  | interface {w1 : World} (id c : Nat) (p : List Nat) (i : Nat) (sf : StructField) :
      Later env allowed w w1 → Later env allowed w (interfaceStep env w1 id c p i sf).1
  | provide {w1 : World} (os : List Object) (ids : List Nat) :
      (∀ o ∈ os, allowed o) → Later env allowed w w1 →
      Later env allowed w (Graph.Provide { w1 with objs := w1.objs ++ os } ids).1

/-- The variable `a := &A{}` of the completed-object program, wrapped by
`&Object{Value: a}`, after `Provide`. -/
def plainWorld : World :=
  { mem := [.struct [.nil]], maps := [],
    objs := [{ Object.provided (.Ptr (.Struct "A")) (.ptr 0 []) "" false with
                reflectType := some (.Ptr (.Struct "A")),
                reflectValue := some (.Ptr (.Struct "A"), .ptr 0 []) }],
    g := { unnamed := [0], unnamedType := [], named := [] } }

/-- Whether the object `eid` is one the scans of the unnamed bucket settle on
for a field of type `t`: it is not private and its type is assignable to
`t`. -/
def isCandidate (env : Env) (w : World) (t : GoType) (eid : Nat) : Bool :=
  match w.objs.get? eid with
  | some e =>
    !e.private_ &&
      match e.reflectType with
      | some et => et.AssignableTo env t
      | none => false
  | none => false

/-- The objects of the unnamed bucket that are not private and assignable to
`t`, in registration order. -/
def candidates (env : Env) (w : World) (t : GoType) : List Nat :=
  w.g.unnamed.filter (isCandidate env w t)

/-- Every object of the unnamed bucket exists and carries the cached type of
its value, as `Provide` leaves it. -/
def World.cached (w : World) : Prop :=
  ∀ eid ∈ w.g.unnamed, ∃ e et v, w.objs.get? eid = some e ∧ e.reflectType = some et ∧
    e.Value = some (et, v)

/-- The program of the interface example: `*A` and `*B` implement `I1`, no type
implements `I2`, and `type H struct { X I1 "inject:\"\""; Y I2 "inject:\"\"" }`. -/
def ifaceEnv : Env :=
  { structs :=
      [("A", []), ("B", []),
       ("H", [exportedField "X" (.Interface "I1") "inject:\"\"",
              exportedField "Y" (.Interface "I2") "inject:\"\""])],
    implements := fun t i =>
      i == "I1" && (t == .Ptr (.Struct "A") || t == .Ptr (.Struct "B")),
    Extract := exampleExtract }

/-- The variables `h := &H{}`, `a := &A{}` and `b := &B{}`, each wrapped by
`&Object{Value: ...}`. -/
def ifaceWorld : World :=
  World.fresh [.struct [.nil, .nil], .struct [], .struct []]
    [Object.provided (.Ptr (.Struct "H")) (.ptr 0 []) "" false,
     Object.provided (.Ptr (.Struct "A")) (.ptr 1 []) "" false,
     Object.provided (.Ptr (.Struct "B")) (.ptr 2 []) "" false]

/-- The variables `h := &H{}` and `a := &A{}`, each wrapped by
`&Object{Value: ...}`, after `Provide`. -/
def ifaceOneWorld : World :=
  (Graph.Provide (World.fresh [.struct [.nil, .nil], .struct []]
    [Object.provided (.Ptr (.Struct "H")) (.ptr 0 []) "" false,
     Object.provided (.Ptr (.Struct "A")) (.ptr 1 []) "" false]) [0, 1]).1

/-- The value an interface field holds after the object `eid` was assigned to
it: the object's value with its dynamic type. -/
def ifaceValue (w : World) (eid : Nat) : Val :=
  match w.objs.get? eid with
  | some e =>
    match e.Value with
    | some (t, v) => .iface t v
    | none => .nil
  | none => .nil

/-- The struct types reachable from the root types through pointer fields. -/
inductive Reach (env : Env) (roots : List String) : String → Prop where
  | root {s : String} : s ∈ roots → Reach env roots s
  | field {s s2 : String} {sf : StructField} :
      Reach env roots s → sf ∈ env.fields s → sf.Typ = .Ptr (.Struct s2) → Reach env roots s2

/-- The field carries no `inject` annotation, or it is an exported
plain-request field whose type is a pointer to a struct. -/
def plainPointerOrBare (env : Env) (sf : StructField) : Prop :=
  parseTag env sf.Tag = .ok none ∨
    (parseTag env sf.Tag = .ok (some injectOnly) ∧ sf.Exported = true ∧
      ∃ s2, sf.Typ = .Ptr (.Struct s2))

/-- The types of all the fields the program declares. -/
def Env.fieldTypes (env : Env) : List GoType :=
  (env.structs.map (fun d => d.2.map (fun f => f.Typ))).flatten

/-- The objects `&Object{Value: v}` for a list of pointers to structs, each
given by the name of its struct type and its address. -/
def provideAll (vals : List (String × Nat × List Nat)) : List Object :=
  vals.map (fun v => Object.provided (.Ptr (.Struct v.1)) (.ptr v.2.1 v.2.2) "" false)

/-- The number of field types for which the unnamed bucket holds no existing
instance yet: it bounds the number of instances still to be created. -/
def missing (env : Env) (w : World) : Nat :=
  env.fieldTypes.countP (fun t => findExisting env w t w.g.unnamed == .notFound)

/-- The state of a graph of plain pointer fields during `Populate`: nothing is
named, no type is flagged, and every object of the unnamed bucket is a
provided or created object, not completed and not private, whose cached type
is a pointer to a struct of a type in `R` and whose struct has the shape of
its type. -/
structure Good (env : Env) (R : String → Prop) (w : World) : Prop where
  named : w.g.named = []
  flags : ∀ t, typeFlag w.g.unnamedType t = false
  objs : ∀ id ∈ w.g.unnamed, ∃ o s c p fs,
    w.objs.get? id = some o ∧ o.Completed = false ∧ o.private_ = false ∧ o.Name = "" ∧
    o.reflectType = some (.Ptr (.Struct s)) ∧ o.reflectValue = some (.Ptr (.Struct s), .ptr c p) ∧
    o.Value = some (.Ptr (.Struct s), .ptr c p) ∧ R s ∧
    w.load c p = some (.struct fs) ∧ fs.length = (env.fields s).length

/-- The world `w1` comes after `w` in a run on a graph of plain pointer fields:
it extends `w`, values that are not nil stay so, and every object appended to
the unnamed bucket has used up one missing field type. -/
structure Progress (env : Env) (w w1 : World) : Prop where
  ext : Ext w w1
  nonNil : ∀ c q v, w.load c q = some v → v.IsNil = false →
    ∃ v1, w1.load c q = some v1 ∧ v1.IsNil = false
  measure : missing env w1 + w1.g.unnamed.length ≤ missing env w + w.g.unnamed.length

/-- Every annotated field of the struct of the object `id` holds a value that
is not nil. -/
def Filled (env : Env) (w : World) (id : Nat) : Prop :=
  ∃ o s c p, w.objs.get? id = some o ∧ o.target = some (s, c, p) ∧
    ∀ i sf, (env.fields s).get? i = some sf → parseTag env sf.Tag ≠ .ok none →
      ∃ v, w.load c (p ++ [i]) = some v ∧ v.IsNil = false

/-- Every field of every struct type in `R` is without annotation or an
exported plain-request pointer to a struct of a type in `R`. -/
def PlainFields (env : Env) (R : String → Prop) : Prop :=
  ∀ s, R s → ∀ sf ∈ env.fields s, plainPointerOrBare env sf ∧
    ∀ s2, sf.Typ = .Ptr (.Struct s2) → R s2

/-- The program of `test/singleton_pointer/types.go`. -/
def serverEnv : Env :=
  { structs :=
      [("Config", [exportedField "Port" (.Other "string") "",
                   exportedField "Memory" (.Other "string") ""]),
       ("DB", [exportedField "Username" (.Other "string") "",
               exportedField "Password" (.Other "string") ""]),
       ("UserService", [exportedField "Db" (.Ptr (.Struct "DB")) "inject:\"\"",
                        exportedField "Conf" (.Ptr (.Struct "Config")) "inject:\"\""]),
       ("PostService", [exportedField "Db" (.Ptr (.Struct "DB")) "inject:\"\""]),
       ("UserController",
         [exportedField "UserService" (.Ptr (.Struct "UserService")) "inject:\"\"",
          exportedField "Conf" (.Ptr (.Struct "Config")) "inject:\"\""]),
       ("PostController",
         [exportedField "UserService" (.Ptr (.Struct "UserService")) "inject:\"\"",
          exportedField "PostService" (.Ptr (.Struct "PostService")) "inject:\"\"",
          exportedField "Conf" (.Ptr (.Struct "Config")) "inject:\"\""]),
       ("Server", [exportedField "UserApi" (.Ptr (.Struct "UserService")) "inject:\"\"",
                   exportedField "PostApi" (.Ptr (.Struct "PostController")) "inject:\"\""])],
    implements := fun _ _ => false,
    Extract := exampleExtract }

/-- The heap of `TestForSingletonPointerDependencyInject` before `Provide`:
the empty `server` in cell 0, the loaded `config` in cell 1 and the connected
`db` in cell 2 (the strings are numbered). -/
def serverMem : List Val :=
  [.struct [.nil, .nil], .struct [.other 1, .other 2], .struct [.other 3, .other 4]]

/-- The values the test provides: `&server`, `config` and `db`. -/
def serverVals : List (String × Nat × List Nat) :=
  [("Server", 0, []), ("Config", 1, []), ("DB", 2, [])]

/-- A property of fields that the visits establish: `Sound env step I P` says
that a visit of `step` that goes on to the next field keeps the invariant `I`,
makes `P` hold of the visited field, and keeps `P` for the fields of the
objects that are walked. -/
def Sound (env : Env)
    (step : World → Nat → Nat → List Nat → Nat → StructField → World × Option Outcome)
    (I : World → Prop) (P : World → Nat → Nat → List Nat → Nat → StructField → Prop) : Prop :=
  ∀ w id c p i sf w1, I w → Visit env w id c p i sf → step w id c p i sf = (w1, none) →
    I w1 ∧ P w1 id c p i sf ∧
      ∀ id2 c2 p2 i2 sf2, Visit env w id2 c2 p2 i2 sf2 → P w id2 c2 p2 i2 sf2 →
        P w1 id2 c2 p2 i2 sf2

/-- The object `id` exists and, unless it is completed, `P` holds of every
field of the struct it wraps. -/
def Done (env : Env) (P : World → Nat → Nat → List Nat → Nat → StructField → Prop)
    (w : World) (id : Nat) : Prop :=
  ∃ o, w.objs.get? id = some o ∧ (o.Completed = false → ∀ s c p, o.target = some (s, c, p) →
    ∀ i sf, (env.fields s).get? i = some sf → P w id c p i sf)

/-- What keeps `P` along an extension of the world. -/
def Stable (env : Env) (P : World → Nat → Nat → List Nat → Nat → StructField → Prop)
    (w w1 : World) : Prop :=
  ∀ id c p i sf, Visit env w id c p i sf → P w id c p i sf → P w1 id c p i sf

/-- The field is an exported plain-request field of type `*t`. -/
def plainPointer (env : Env) (sf : StructField) (t : String) : Prop :=
  parseTag env sf.Tag = .ok (some injectOnly) ∧ sf.Exported = true ∧ sf.Typ = .Ptr (.Struct t)

/-- The component at `(c, q)` holds the instance of `*t`: the value of the
first object of the unnamed bucket that is not private and whose type is
`*t`. -/
def Singleton (env : Env) (w : World) (t : String) (c : Nat) (q : List Nat) : Prop :=
  ∃ e o v, findExisting env w (.Ptr (.Struct t)) w.g.unnamed = .found e ∧
    w.objs.get? e = some o ∧ o.Value = some (.Ptr (.Struct t), v) ∧ w.load c q = some v

/-- The worlds `Populate` starts from and runs through: no bucket holds a
dangling object, the unnamed objects carry their cached types, the structs
that are walked are allocated, none of them lies inside another one, and two
walks of one struct agree on its type. -/
structure Sane (w : World) : Prop where
  valid : w.validIds
  cached : w.cached
  alloc : ∀ id s c p, Walk w id s c p → c < w.mem.length
  separate : ∀ id id2 s s2 c p p2, Walk w id s c p → Walk w id2 s2 c p2 → p <+: p2 →
    p2 = p ∧ s2 = s

/-- The field at `(c, q)` of the object `id` is nil in the world `w0` that
`Populate` starts from, when the object is registered there; the fields of the
objects registered later start as nil. -/
def nilAtStart (w0 : World) (id c : Nat) (q : List Nat) : Prop :=
  w0.registered id → w0.load c q = some .nil

/-- The field `i` of the struct at `(c, p)` of the object `id`, when it is an
exported plain-request pointer field that was nil at the start, holds the
instance of its type. -/
def Shared (env : Env) (w0 w : World) (id c : Nat) (p : List Nat) (i : Nat)
    (sf : StructField) : Prop :=
  ∀ t, plainPointer env sf t → nilAtStart w0 id c (p ++ [i]) →
    Singleton env w t c (p ++ [i])

/-- The invariant of `Populate` behind the reuse of instances: the world is
sane, and every exported plain-request pointer field that was nil at the start
is still nil or holds the instance of its type. -/
structure Reuse (env : Env) (w0 w : World) : Prop where
  sane : Sane w
  fields : ∀ id c p i sf t, Visit env w id c p i sf → plainPointer env sf t →
    nilAtStart w0 id c (p ++ [i]) →
    w.load c (p ++ [i]) = some .nil ∨ Singleton env w t c (p ++ [i])

/-- The invariant of `Populate` behind the uniqueness of created instances,
relative to the world `w0` that `Populate` starts from: the world is sane,
every object appended to the unnamed bucket since the start is a created one,
and a type without an instance at the start has at most one instance. -/
structure Grown (env : Env) (w0 w : World) : Prop where
  sane : Sane w
  created : ∀ e ∈ w.g.unnamed, e ∈ w0.g.unnamed ∨
    (w0.objs.length ≤ e ∧ ∃ o, w.objs.get? e = some o ∧ o.created = true)
  single : ∀ t, findExisting env w0 (.Ptr (.Struct t)) w0.g.unnamed = .notFound →
    (candidates env w (.Ptr (.Struct t))).length ≤ 1

/-- The world of `TestForSingletonPointerDependencyInject` after `Provide`. -/
def serverProvided : World :=
  (Graph.Provide (World.fresh serverMem (provideAll serverVals)) [0, 1, 2]).1

/-- The world of `TestForSingletonPointerDependencyInject` after `Populate`. -/
def serverPopulated : World := (Graph.Populate serverEnv [] [] 20 serverProvided).1

/-- The program of the copied-struct example: `type T struct { N int }`,
`type S struct { F *T "inject:\"\"" }` and
`type P struct { S S "inject:\"x\""; F *T "inject:\"\"" }`. -/
def copyEnv : Env :=
  { structs :=
      [("T", [exportedField "N" (.Other "int") ""]),
       ("S", [exportedField "F" (.Ptr (.Struct "T")) "inject:\"\""]),
       ("P", [exportedField "S" (.Struct "S") "inject:\"x\"",
              exportedField "F" (.Ptr (.Struct "T")) "inject:\"\""])],
    implements := fun _ _ => false, Extract := exampleExtract }

/-- The variables `p := &P{}` and `t0 := &T{N: 7}`, with the objects
`&Object{Value: p}`, `&Object{Value: &p.S}` and
`&Object{Value: S{F: t0}, Name: "x"}`. -/
def copyWorld : World :=
  World.fresh [.struct [.struct [.nil], .nil], .struct [.other 7]]
    [Object.provided (.Ptr (.Struct "P")) (.ptr 0 []) "" false,
     Object.provided (.Ptr (.Struct "S")) (.ptr 0 [0]) "" false,
     Object.provided (.Struct "S") (.struct [.ptr 1 []]) "x" false]

/-- The world of the copied-struct example after `Provide`. -/
def copyProvided : World := (Graph.Provide copyWorld [0, 1, 2]).1

/-- The world of the copied-struct example after `Populate`. -/
def copyPopulated : World := (Graph.Populate copyEnv [] [] 10 copyProvided).1

/-- The program of the named-request examples: `type T struct{}` and
`type A struct { X *T "inject:\"x\"" }`. -/
def namedEnv : Env :=
  { structs :=
      [("T", []),
       ("A", [exportedField "X" (.Ptr (.Struct "T")) "inject:\"x\""])],
    implements := fun _ _ => false, Extract := exampleExtract }

/-- The object `&Object{Name: name, Completed: completed}`, whose `Value` is
nil. -/
def Object.valueless (name : String) (completed : Bool) : Object :=
  { Value := none, Name := name, Completed := completed, Fields := none,
    reflectType := none, reflectValue := none, private_ := false, created := false,
    embedded := false }

/-- The variable `a := &A{}` with the objects `&Object{Value: a}` and
`&Object{Name: "x", Completed: true}`. -/
def valuelessWorld : World :=
  World.fresh [.struct [.nil]]
    [Object.provided (.Ptr (.Struct "A")) (.ptr 0 []) "" false, Object.valueless "x" true]

/-- The variables `a := &A{}` and `t := &T{}` with the objects
`&Object{Value: a}` and `&Object{Value: t, Name: "x"}`, after `Provide`. -/
def namedProvided : World :=
  (Graph.Provide (World.fresh [.struct [.nil], .struct []]
    [Object.provided (.Ptr (.Struct "A")) (.ptr 0 []) "" false,
     Object.provided (.Ptr (.Struct "T")) (.ptr 1 []) "x" false]) [0, 1]).1

/-- The program of the map example:
`type M struct { A map[string]int "inject:\"private\""; B map[string]int "inject:\"\"" }`. -/
def mapEnv : Env :=
  { structs :=
      [("M", [exportedField "A" (.Map "map[string]int") "inject:\"private\"",
              exportedField "B" (.Map "map[string]int") "inject:\"\""])],
    implements := fun _ _ => false, Extract := exampleExtract }

/-- The objects `&Object{Value: 7, Name: "x"}` and `&Object{Value: 8, Name: "x"}`
(two values of type `int`), the first of them provided. -/
def renamedProvided : World :=
  (Graph.Provide (World.fresh []
    [Object.provided (.Other "int") (.other 7) "x" false,
     Object.provided (.Other "int") (.other 8) "x" false]) [0]).1

/-- The object `&Object{Name: "x"}`, whose `Value` is nil, alone in the
heap. -/
def valuelessAlone : World := World.fresh [] [Object.valueless "x" false]

/-- Whether the object `id` exists and is not embedded. -/
def World.listed (w : World) (id : Nat) : Bool :=
  match w.objs.get? id with
  | some o => !o.embedded
  | none => false

/-- The bound behind the termination of `Populate`: no bucket holds a dangling
object, and the number of missing field types plus the length of the unnamed
bucket is at most `m`. -/
def Bounded (env : Env) (m : Nat) (w : World) : Prop :=
  w.validIds ∧ missing env w + w.g.unnamed.length ≤ m

/-- The program of the unexported-field example: `*A` and `*B` implement `I1`
and `type H struct { x I1 "inject:\"\"" }`. -/
def hiddenEnv : Env :=
  { structs :=
      [("A", []), ("B", []),
       ("H", [{ Name := "x", Typ := .Interface "I1", Tag := "inject:\"\"", Exported := false,
                Anonymous := false }])],
    implements := fun t i =>
      i == "I1" && (t == .Ptr (.Struct "A") || t == .Ptr (.Struct "B")),
    Extract := exampleExtract }

/-- The variables `h := &H{}`, `a := &A{}` and `b := &B{}`, each wrapped by
`&Object{Value: ...}`, after `Provide`. -/
def hiddenProvided : World :=
  (Graph.Provide (World.fresh [.struct [.nil], .struct [], .struct []]
    [Object.provided (.Ptr (.Struct "H")) (.ptr 0 []) "" false,
     Object.provided (.Ptr (.Struct "A")) (.ptr 1 []) "" false,
     Object.provided (.Ptr (.Struct "B")) (.ptr 2 []) "" false]) [0, 1, 2]).1

/-- The world of the interface example after `Provide`. -/
def ifaceProvided : World := (Graph.Provide ifaceWorld [0, 1, 2]).1

/-- The field carries the directive `tg`, is exported, and asks for inlining
only when its type is a struct type: the tests every visit of
`populateExplicit` makes before it reads the field. -/
def Annotated (env : Env) (sf : StructField) (tg : tag) : Prop :=
  parseTag env sf.Tag = .ok (some tg) ∧ sf.Exported = true ∧
    (tg.Inline = true → sf.Typ.Kind = .Struct)

/-- What a visit of `populateExplicit` that goes on to the next field did to the
world, with the branch of the code it took. -/
inductive Explicit (env : Env) (w : World) (id c : Nat) (q : List Nat) (sf : StructField) :
    World → Prop where
  | bare (htag : parseTag env sf.Tag = .ok none) : Explicit env w id c q sf w
  | kept (tg : tag) (z : Val) (ha : Annotated env sf tg) (hz : w.load c q = some z)
      (hnz : isNilOrZero z sf.Typ = false) : Explicit env w id c q sf w
  | deferred (tg : tag) (z : Val) (ha : Annotated env sf tg) (hz : w.load c q = some z)
      (hzero : isNilOrZero z sf.Typ = true) (hname : tg.Name = "")
      (hk : sf.Typ.Kind = .Interface) : Explicit env w id c q sf w
  | named (tg : tag) (z : Val) (eid : Nat) (e : Object) (et : GoType) (x : Val)
      (ha : Annotated env sf tg) (hz : w.load c q = some z)
      (hzero : isNilOrZero z sf.Typ = true) (hname : tg.Name ≠ "")
      (hl : w.g.named.lookup tg.Name = some eid) (he : w.objs.get? eid = some e)
      (het : e.reflectType = some et) (hass : et.AssignableTo env sf.Typ = true)
      (hx : setValue env sf.Typ e.Value = some x) :
      Explicit env w id c q sf ((w.store c q x).addDependency id sf.Name eid)
  | inline (tg : tag) (z : Val) (s : String) (ha : Annotated env sf tg)
      (hz : w.load c q = some z) (hzero : isNilOrZero z sf.Typ = true) (hname : tg.Name = "")
      (hs : sf.Typ = .Struct s) (hpriv : tg.Private = false) (hinl : tg.Inline = true) :
      Explicit env w id c q sf
        { w with objs := w.objs ++ [inlineObject sf.Typ c q sf.Anonymous] }
  | makeMap (tg : tag) (z : Val) (ha : Annotated env sf tg) (hz : w.load c q = some z)
      (hzero : isNilOrZero z sf.Typ = true) (hname : tg.Name = "")
      (hk : sf.Typ.Kind = .Map) (hpriv : tg.Private = true) :
      Explicit env w id c q sf (({ w with maps := w.maps ++ [[]] } : World).store c q (.map w.maps.length))
  | found (tg : tag) (z : Val) (eid : Nat) (e : Object) (x : Val) (ha : Annotated env sf tg)
      (hz : w.load c q = some z) (hzero : isNilOrZero z sf.Typ = true) (hname : tg.Name = "")
      (hsp : isStructPtr sf.Typ = true) (hpriv : tg.Private = false)
      (hf : findExisting env w sf.Typ w.g.unnamed = .found eid)
      (he : w.objs.get? eid = some e) (hx : setValue env sf.Typ e.Value = some x) :
      Explicit env w id c q sf ((w.store c q x).addDependency id sf.Name eid)
  | create (tg : tag) (z : Val) (s : String) (ha : Annotated env sf tg)
      (hz : w.load c q = some z) (hzero : isNilOrZero z sf.Typ = true) (hname : tg.Name = "")
      (ht : sf.Typ = .Ptr (.Struct s))
      (hnone : tg.Private = false → findExisting env w sf.Typ w.g.unnamed = .notFound)
      (hflag : tg.Private = false → typeFlag w.g.unnamedType sf.Typ = false) :
      Explicit env w id c q sf
        (((w.allocated env sf.Typ s tg.Private).store c q (.ptr w.mem.length [])).addDependency
          id sf.Name w.objs.length)

/-- What a visit of `populateUnnamedInterface` that goes on to the next field
did to the world, with the branch of the code it took. -/
inductive Resolve (env : Env) (w : World) (id c : Nat) (q : List Nat) (sf : StructField) :
    World → Prop where
  | bare (htag : parseTag env sf.Tag = .ok none) : Resolve env w id c q sf w
  | other (tg : tag) (htag : parseTag env sf.Tag = .ok (some tg))
      (hk : sf.Typ.Kind ≠ .Interface) : Resolve env w id c q sf w
  | kept (tg : tag) (z : Val) (htag : parseTag env sf.Tag = .ok (some tg))
      (hk : sf.Typ.Kind = .Interface) (hpriv : tg.Private = false)
      (hz : w.load c q = some z) (hnz : isNilOrZero z sf.Typ = false) : Resolve env w id c q sf w
  | assigned (tg : tag) (z : Val) (eid : Nat) (e : Object) (x : Val)
      (htag : parseTag env sf.Tag = .ok (some tg))
      (hk : sf.Typ.Kind = .Interface) (hpriv : tg.Private = false)
      (hz : w.load c q = some z) (hzero : isNilOrZero z sf.Typ = true) (hname : tg.Name = "")
      (hexp : sf.Exported = true) (hmem : eid ∈ w.g.unnamed)
      (he : w.objs.get? eid = some e) (hp : e.private_ = false)
      (hx : setValue env sf.Typ e.Value = some x) :
      Resolve env w id c q sf ((w.store c q x).addDependency id sf.Name eid)

mutual
/-- Whether a value has the shape of a value of the given type: a pointer, map
or interface is nil or of its kind, a struct value has one component of the
right shape for each field of its struct type, and an array value has as many
components of the shape of the element type as the array type has elements. -/
def Val.hasType (env : Env) : Val → GoType → Bool
  | .nil, t => t.Kind == .Ptr || t.Kind == .Interface || t.Kind == .Map
  | .ptr _ _, t => t.Kind == .Ptr
  | .map _, t => t.Kind == .Map
  | .iface _ _, t => t.Kind == .Interface
  | .other _, t => t.Kind == .Other
  | .struct fs, t =>
    match t with
    | .Struct s => Val.haveTypes env fs ((env.fields s).map (fun f => f.Typ))
    | .Array n e => Val.haveTypes env fs (List.replicate n e)
    | _ => false
/-- The values of a list have the shapes of the types of a list, one by one. -/
def Val.haveTypes (env : Env) : List Val → List GoType → Bool
  | [], ts => ts.isEmpty
  | v :: vs, ts =>
    match ts with
    | [] => false
    | t :: rest => v.hasType env t && Val.haveTypes env vs rest
end

/-- The type of the component of a value of type `t` at a path of field and
element indices. -/
def typeAt (env : Env) : GoType → List Nat → Option GoType
  | t, [] => some t
  | t, i :: p =>
    match t with
    | .Struct s =>
      match (env.fields s).get? i with
      | some sf => typeAt env sf.Typ p
      | none => none
    | .Array n e => if i < n then typeAt env e p else none
    | _ => none

/-- The zero value of every declared struct type has the shape of the type: no
struct type contains itself by value. -/
def Env.zeroTyped (env : Env) : Prop :=
  ∀ d ∈ env.structs, (Zero env (.Struct d.1)).hasType env (.Struct d.1) = true

/-- The heap is well-formed for the cell types `ct`: no bucket holds a dangling
object, every cell holds a value of the shape of its type, every struct that is
walked lies in a cell at a path where the cell's type has that struct type, and
the value of every registered object has the shape of its dynamic type. -/
structure Typed (env : Env) (ct : List GoType) (w : World) : Prop where
  valid : w.validIds
  len : ct.length = w.mem.length
  cells : ∀ c t v, ct.get? c = some t → w.mem.get? c = some v → v.hasType env t = true
  walks : ∀ id s c p, Walk w id s c p →
    ∃ t, ct.get? c = some t ∧ typeAt env t p = some (.Struct s)
  values : ∀ id o t v, w.registered id → w.objs.get? id = some o → o.Value = some (t, v) →
    v.hasType env t = true

/-- Every component of `w` at a typed address is, in `w1`, as it was or not
zero. -/
def Settles (env : Env) (ct : List GoType) (w w1 : World) : Prop :=
  ∀ c t q u v, ct.get? c = some t → typeAt env t q = some u → w.load c q = some v →
    ∃ v1, w1.load c q = some v1 ∧ (v1 = v ∨ v1.isZero = false)

/-- The heap is well-formed for some assignment of types to its cells. -/
def WellTyped (env : Env) (w : World) : Prop := ∃ ct, Typed env ct w

/-- The field, when it is an interface field that carries a named request,
holds a value that is not zero. -/
def Bound (env : Env) (w : World) (_id c : Nat) (p : List Nat) (i : Nat) (sf : StructField) :
    Prop :=
  ∀ tg, parseTag env sf.Tag = .ok (some tg) → tg.Name ≠ "" → sf.Typ.Kind = .Interface →
    ∃ v, w.load c (p ++ [i]) = some v ∧ v.isZero = false

/-- The program of the named-interface example: `*A` implements `I1` and
`type H struct { X I1 "inject:\"x\"" }`. -/
def boundEnv : Env :=
  { structs := [("A", []), ("H", [exportedField "X" (.Interface "I1") "inject:\"x\""])],
    implements := fun t i => i == "I1" && t == .Ptr (.Struct "A"),
    Extract := exampleExtract }

/-- The variables `h := &H{}` and `a := &A{}` with the objects
`&Object{Value: h}` and `&Object{Value: a, Name: "x"}`, after `Provide`. -/
def boundProvided : World :=
  (Graph.Provide (World.fresh [.struct [.nil], .struct []]
    [Object.provided (.Ptr (.Struct "H")) (.ptr 0 []) "" false,
     Object.provided (.Ptr (.Struct "A")) (.ptr 1 []) "x" false]) [0, 1]).1

/-- Where the object `e` (with record `eo`) whose value `x` was assigned to
the field `sf` with directive `tg` comes from: the named bucket under the
requested name; the unnamed bucket, or the creation of a private instance for a
private request, when the value is not zero; or the first match of the field's
type in the unnamed bucket. -/
def Source (env : Env) (w : World) (sf : StructField) (tg : tag) (e : Nat) (eo : Object)
    (x : Val) : Prop :=
  (tg.Name ≠ "" ∧ w.g.named.lookup tg.Name = some e) ∨
  (tg.Name = "" ∧ x.isZero = false ∧ (sf.Typ.Kind = .Ptr ∨ sf.Typ.Kind = .Interface) ∧
    (e ∈ w.g.unnamed ∨ (eo.created = true ∧ eo.private_ = true ∧ tg.Private = true))) ∨
  (tg.Name = "" ∧ isStructPtr sf.Typ = true ∧ tg.Private = false ∧
    findExisting env w sf.Typ w.g.unnamed = .found e)

/-- The entry `f -> e` of the dependency map of the object `o` is backed by a
field: `o` is not completed, `f` names an exported annotated field of its
struct, the field holds the value of `e`, and `e` comes from a source the
field's directive allows. -/
def Entry (env : Env) (w : World) (o : Object) (f : String) (e : Nat) : Prop :=
  o.Completed = false ∧ ∃ s c p i sf tg eo x, o.target = some (s, c, p) ∧
    (env.fields s).get? i = some sf ∧ sf.Name = f ∧ parseTag env sf.Tag = .ok (some tg) ∧
    sf.Exported = true ∧ w.objs.get? e = some eo ∧ setValue env sf.Typ eo.Value = some x ∧
    w.load c (p ++ [i]) = some x ∧ Source env w sf tg e eo x

/-- Every entry of the dependency map of every registered object is backed by
a field. -/
def Recorded (env : Env) (w : World) : Prop :=
  ∀ id o f e, w.registered id → w.objs.get? id = some o → o.dependency f = some e →
    Entry env w o f e

/-- The exported fields of every declared struct type have distinct names. -/
def Env.distinctNames (env : Env) : Prop :=
  ∀ d ∈ env.structs, ((d.2.filter (fun f => f.Exported)).map (fun f => f.Name)).Nodup

/-- The object `id` is registered and its dependency map has the entry
`f -> e`. -/
def World.entry (w : World) (id : Nat) (f : String) (e : Nat) : Prop :=
  w.registered id ∧ ∃ o, w.objs.get? id = some o ∧ o.dependency f = some e

/-- The entry `f -> e` of the dependency map of the object `id`, with record
`o`, is justified: `f` names an annotated field of the struct of `o`, the field
holds the value of `e`, and `e` is a registered named object, an object of the
unnamed bucket, or an object created for that field: a created private object,
recorded for a field with the private request, to which no other entry of a
registered object refers. -/
def Justified (env : Env) (w : World) (id : Nat) (o : Object) (f : String) (e : Nat) : Prop :=
  ∃ s c p i sf tg eo x, o.target = some (s, c, p) ∧ (env.fields s).get? i = some sf ∧
    sf.Name = f ∧ parseTag env sf.Tag = .ok (some tg) ∧ w.objs.get? e = some eo ∧
    setValue env sf.Typ eo.Value = some x ∧ w.load c (p ++ [i]) = some x ∧
    ((∃ n, w.g.named.lookup n = some e) ∨ e ∈ w.g.unnamed ∨
      (eo.created = true ∧ eo.private_ = true ∧ tg.Private = true ∧
        ∀ id2 f2, w.entry id2 f2 e → id2 = id ∧ f2 = f))

/-- What a visit that goes on did to the field at `(c, q)` of the object `id`,
whose record was `o`: it left the field and the record alone; or it made a map
for a map field and left the record alone; or it assigned the value of an
object `e` and recorded the edge from the field's name to `e`, where `e` was
registered before the visit or is the object the visit created. -/
def Traced (env : Env) (w w2 : World) (id c : Nat) (q : List Nat) (sf : StructField)
    (o : Object) : Prop :=
  (w2.load c q = w.load c q ∧ w2.objs.get? id = some o) ∨
  (∃ k, w2.load c q = some (.map k) ∧ sf.Typ.Kind = .Map ∧ w2.objs.get? id = some o) ∨
  (∃ e eo x, w2.objs.get? id = some (o.addDependency sf.Name e) ∧ w2.objs.get? e = some eo ∧
    setValue env sf.Typ eo.Value = some x ∧ w2.load c q = some x ∧
    (w.registered e ∨ (w.objs.get? e = none ∧ eo.created = true)))

/-- The program of the drifting-field example: `type T struct{}`,
`type S struct { F *T "inject:\"\"" }` and `type P struct { S S "inject:\"x\"" }`. -/
def driftEnv : Env :=
  { structs :=
      [("T", []),
       ("S", [exportedField "F" (.Ptr (.Struct "T")) "inject:\"\""]),
       ("P", [exportedField "S" (.Struct "S") "inject:\"x\""])],
    implements := fun _ _ => false, Extract := exampleExtract }

/-- The variable `p := &P{}` with the objects `&Object{Value: p}`,
`&Object{Value: S{}, Name: "x"}` and `&Object{Value: &p.S}`, after `Provide`. -/
def driftProvided : World :=
  (Graph.Provide (World.fresh [.struct [.struct [.nil]]]
    [Object.provided (.Ptr (.Struct "P")) (.ptr 0 []) "" false,
     Object.provided (.Struct "S") (.struct [.nil]) "x" false,
     Object.provided (.Ptr (.Struct "S")) (.ptr 0 [0]) "" false]) [0, 1, 2]).1

/-- The world of the drifting-field example after `Populate`. -/
def driftPopulated : World := (Graph.Populate driftEnv [] [] 10 driftProvided).1

/-- Where a second visit of the field `sf` with directive `tg` would take the
object `e` (with record `eo`) from: the named bucket under the requested name,
or the first match of the field's type in the unnamed bucket. -/
def Origin (env : Env) (w : World) (sf : StructField) (tg : tag) (e : Nat) (eo : Object) : Prop :=
  (tg.Name ≠ "" ∧ w.g.named.lookup tg.Name = some e ∧
    ∃ et, eo.reflectType = some et ∧ et.AssignableTo env sf.Typ = true) ∨
  (tg.Name = "" ∧ isStructPtr sf.Typ = true ∧ tg.Private = false ∧
    findExisting env w sf.Typ w.g.unnamed = .found e)

/-- A visit of `populateExplicit` would change nothing that is registered: the
field has no annotation; or it is not nil or zero; or it is an interface field
left to pass 3; or it is an inline struct; or it holds the value the visit
would assign again, with the edge already recorded. -/
def Settled (env : Env) (w : World) (id c : Nat) (p : List Nat) (i : Nat) (sf : StructField) :
    Prop :=
  parseTag env sf.Tag = .ok none ∨
  ∃ tg z, Annotated env sf tg ∧ w.load c (p ++ [i]) = some z ∧
    (isNilOrZero z sf.Typ = false ∨
     (tg.Name = "" ∧ sf.Typ.Kind = .Interface) ∨
     (tg.Name = "" ∧ sf.Typ.Kind = .Struct ∧ tg.Private = false ∧ tg.Inline = true) ∨
     (∃ e eo o, Origin env w sf tg e eo ∧ w.objs.get? e = some eo ∧
        setValue env sf.Typ eo.Value = some z ∧ w.objs.get? id = some o ∧
        o.dependency sf.Name = some e))

/-- A visit of `populateUnnamedInterface` would change nothing: the field has
no annotation, is not an interface field, or holds a value that is not zero. -/
def Resolved (env : Env) (w : World) (_id c : Nat) (p : List Nat) (i : Nat) (sf : StructField) :
    Prop :=
  parseTag env sf.Tag = .ok none ∨
  ∃ tg, parseTag env sf.Tag = .ok (some tg) ∧
    (sf.Typ.Kind ≠ .Interface ∨
      (tg.Private = false ∧ ∃ z, w.load c (p ++ [i]) = some z ∧ z.isZero = false))

/-- How a visit of the field `sf` came to assign the object `e`: by the
requested name, as the first match of the field's type, as an interface match,
or by creating it for want of a match. -/
def Binds (env : Env) (w : World) (sf : StructField) (e : Nat) : Prop :=
  ∃ tg, parseTag env sf.Tag = .ok (some tg) ∧ sf.Exported = true ∧
    ((tg.Name ≠ "" ∧ w.g.named.lookup tg.Name = some e) ∨
     (tg.Name = "" ∧ isStructPtr sf.Typ = true ∧ tg.Private = false ∧
        findExisting env w sf.Typ w.g.unnamed = .found e) ∨
     (tg.Name = "" ∧ sf.Typ.Kind = .Interface) ∨
     (tg.Name = "" ∧ isStructPtr sf.Typ = true ∧
        (tg.Private = false → findExisting env w sf.Typ w.g.unnamed = .notFound)))

/-- What a visit of the field `sf` of the object `id` does to the records of
the objects: they are kept, but for the edge the visit records when it assigns
an object. -/
def Records (env : Env) (w w1 : World) (id : Nat) (sf : StructField) : Prop :=
  ∀ k o, w.objs.get? k = some o → ∃ o1, w1.objs.get? k = some o1 ∧
    (o1 = o ∨ (k = id ∧ ∃ e, o1 = o.addDependency sf.Name e ∧ Binds env w sf e))

/-- The traversals get past the head of the object `id`: it is completed, or
ignored as a named value, or it wraps a pointer to a struct. -/
def Walkable (w : World) (id : Nat) : Prop :=
  ∃ o, w.objs.get? id = some o ∧ (o.Completed = true ∨ o.ignored = some true ∨
    (o.ignored = some false ∧ ∃ s c p, o.target = some (s, c, p)))

/-- The world `w` is the world `w1` with wrappers of inline structs appended to
the heap: the memory, the maps, the graph and the objects of `w1` are the same,
and the appended objects are private and not created. -/
def Junk (w1 w : World) : Prop :=
  w.mem = w1.mem ∧ w.maps = w1.maps ∧ w.g = w1.g ∧
    ∃ extra, w.objs = w1.objs ++ extra ∧ ∀ o ∈ extra, o.created = false ∧ o.private_ = true

/-- The inline example after `Provide`: `p := &P{}` is the only object of the
unnamed bucket. -/
def inlineProvided : World := (Graph.Provide inlineWorld [0]).1

/-- The inline example after `Populate`. -/
def inlinePopulated : World := (Graph.Populate inlineEnv [] [] 3 inlineProvided).1

/-- The program of the second map example, with the plain-request field first:
`type M struct { B map[string]int "inject:\"\""; A map[string]int "inject:\"private\"" }`. -/
def mapFirstEnv : Env :=
  { structs :=
      [("M", [exportedField "B" (.Map "map[string]int") "inject:\"\"",
              exportedField "A" (.Map "map[string]int") "inject:\"private\""])],
    implements := fun _ _ => false, Extract := exampleExtract }

/-- The variable `m := &M{}` of the second map example with the object
`&Object{Value: m}`, after `Provide`. -/
def mapFirstProvided : World :=
  (Graph.Provide (World.fresh [.struct [.nil, .nil]]
    [Object.provided (.Ptr (.Struct "M")) (.ptr 0 []) "" false]) [0]).1

/-- The variable `m := &M{}` of the map example and the map
`map[string]int{"a": 2}` (the string is numbered), with the objects
`&Object{Value: m}` and `&Object{Value: theMap, Name: "x"}`, after `Provide`. -/
def mapHeldProvided : World :=
  (Graph.Provide
    { World.fresh [.struct [.nil, .nil]]
        [Object.provided (.Ptr (.Struct "M")) (.ptr 0 []) "" false,
         Object.provided (.Map "map[string]int") (.map 0) "x" false] with
      maps := [[(.other 1, .other 2)]] } [0, 1]).1

/-- The variable `a := &A{}` wrapped by `o1 := &Object{Value: a}`, after the
call `Provide(o1, o1)`. -/
def twiceProvided : World :=
  (Graph.Provide (World.fresh [.struct []]
    [Object.provided (.Ptr (.Struct "A")) (.ptr 0 []) "" false]) [0, 0]).1

/-- The program of the defined-map example: `type MyMap map[string]int` and
`type A struct { M map[string]int "inject:\"x\"" }`.  The types `MyMap` and
`map[string]int` have identical underlying types and only `MyMap` is a defined
type, so each is assignable to the other. -/
def definedMapEnv : Env :=
  { structs := [("A", [exportedField "M" (.Map "map[string]int") "inject:\"x\""])],
    implements := fun _ _ => false, Extract := exampleExtract,
    identicalUnderlying := fun t u =>
      (t == .Map "MyMap" && u == .Map "map[string]int") ||
        (t == .Map "map[string]int" && u == .Map "MyMap") }

/-- The variable `a := &A{}` and the map `mm := MyMap{}` of the defined-map
example, with the objects `&Object{Value: a}` and
`&Object{Value: mm, Name: "x"}`, after `Provide`. -/
def definedMapProvided : World :=
  (Graph.Provide
    { World.fresh [.struct [.nil]]
        [Object.provided (.Ptr (.Struct "A")) (.ptr 0 []) "" false,
         Object.provided (.Map "MyMap") (.map 0) "x" false] with
      maps := [[]] } [0, 1]).1

/-- The program of the array example: `type T struct { N int }`,
`type E struct { A *T "inject:\"\""; B int }` and
`type P struct { Arr [1]E "inject:\"\"" }`. -/
def arrayEnv : Env :=
  { structs :=
      [("T", [exportedField "N" (.Other "int") ""]),
       ("E", [exportedField "A" (.Ptr (.Struct "T")) "inject:\"\"",
              exportedField "B" (.Other "int") ""]),
       ("P", [exportedField "Arr" (.Array 1 (.Struct "E")) "inject:\"\""])],
    implements := fun _ _ => false, Extract := exampleExtract }

/-- The variable `p := &P{Arr: [1]E{{B: 1}}}`, wrapped by `&Object{Value: p}`,
and the address of the element of its array, wrapped by
`&Object{Value: &p.Arr[0]}`. -/
def arrayWorld : World :=
  World.fresh [.struct [.struct [.struct [.nil, .other 1]]]]
    [Object.provided (.Ptr (.Struct "P")) (.ptr 0 []) "" false,
     Object.provided (.Ptr (.Struct "E")) (.ptr 0 [0, 0]) "" false]

/-- The variable `p := &P{Arr: [1]E{{B: 1}}}` of the array example, wrapped by
`&Object{Value: p}`, after `Provide`. -/
def arrayAlone : World :=
  (Graph.Provide (World.fresh [.struct [.struct [.struct [.nil, .other 1]]]]
    [Object.provided (.Ptr (.Struct "P")) (.ptr 0 []) "" false]) [0]).1

/-- Every created private object has no name, is in no bucket, and is the
target of at most one entry of the dependency maps of the registered
objects. -/
def Owned (w : World) : Prop :=
  ∀ e eo, w.objs.get? e = some eo → eo.created = true → eo.private_ = true →
    eo.Name = "" ∧ ¬ w.registered e ∧
      ∀ id2 f2 id3 f3, w.entry id2 f2 e → w.entry id3 f3 e → id3 = id2 ∧ f3 = f2

/-- The record carries the cached type and value of its `Value`, as `Provide`
leaves it. -/
def Object.isCached (o : Object) : Prop :=
  o.reflectType = o.Value.map Prod.fst ∧ o.reflectValue = o.Value

/-- Every registered object and every created object carries the cached type
and value of its `Value`. -/
def Kept (w : World) : Prop :=
  ∀ k o, w.objs.get? k = some o → (w.registered k ∨ o.created = true) → o.isCached

/-- The world `w1` is `w` with variables and objects appended to the heap. -/
def Inert (w w1 : World) : Prop :=
  w1.g = w.g ∧ (∃ extra, w1.objs = w.objs ++ extra) ∧ ∃ cells, w1.mem = w.mem ++ cells

/-- The invariant of the calls of `Provide` and `Populate` behind the entries of
the dependency maps: no bucket holds a dangling object, every entry of a
registered object is backed by a field, the created private objects are out of
the buckets and recorded at most once, and the registered and the created
objects carry their cached types. -/
def Tracked (env : Env) (w : World) : Prop :=
  w.validIds ∧ Recorded env w ∧ Owned w ∧ Kept w

/-- The graphs a caller can build without writing to the structs and the
objects it has handed over: it starts from the zero `Graph`; it allocates
variables, maps and `Object` records (whose unexported field `created` it
cannot set); it calls `Provide`; and it calls `Populate`, whatever the outcome,
on graphs that are sane, so that no struct of a registered object that is not
completed lies inside the struct of another one. -/
inductive Built (env : Env) : World → Prop where
  | empty : Built env (World.fresh [] [])
  | alloc {w : World} (mem : List Val) (maps : List (List (Val × Val))) (objs : List Object) :
      (∀ o ∈ objs, o.created = false) → Built env w →
      Built env { w with mem := w.mem ++ mem, maps := w.maps ++ maps, objs := w.objs ++ objs }
  | provide {w : World} (ids : List Nat) : Built env w → Built env (Graph.Provide w ids).1
  | populate {w : World} (ord1 ord3 : List Nat) (fuel : Nat) :
      Built env w → Sane w → Built env (Graph.Populate env ord1 ord3 fuel w).1

/-- The record of an object after `Provide` cached the type and the value of
its `Value`. -/
def Object.recache (o : Object) : Object :=
  { o with reflectType := o.Value.map Prod.fst, reflectValue := o.Value }

/-! ## The heap -/

theorem set_length_append_single {α : Type} (l : List α) (a b : α) :
    (l ++ [a]).set l.length b = l ++ [b] := by
  induction l with
  | nil => rfl
  | cons x xs ih => simp [List.set, ih]

theorem isStructPtr_iff {t : GoType} : isStructPtr t = true ↔ ∃ s, t = .Ptr (.Struct s) := by
  constructor
  · intro h
    cases t with
    | Ptr e =>
      cases e with
      | Struct s => exact ⟨s, rfl⟩
      | _ => simp [isStructPtr, GoType.Kind, GoType.Elem] at h
    | _ => simp [isStructPtr, GoType.Kind] at h
  · rintro ⟨s, rfl⟩
    simp [isStructPtr, GoType.Kind, GoType.Elem]

theorem kind_struct_iff {t : GoType} : t.Kind = .Struct ↔ ∃ s, t = .Struct s := by
  cases t <;> simp [GoType.Kind]

/-- `Provide` of one freshly allocated unnamed object whose value is a pointer
to a struct. -/
theorem Provide_fresh (w : World) (o : Object) (s : String) (v : Val)
    (hV : o.Value = some (.Ptr (.Struct s), v)) (hN : o.Name = "") (hF : o.Fields = none) :
    Graph.Provide { w with objs := w.objs ++ [o] } [w.objs.length] =
      if o.private_ then
        ({ w with objs := w.objs ++ [{ o with reflectType := some (.Ptr (.Struct s)),
                                              reflectValue := some (.Ptr (.Struct s), v) }] }, .nil)
      else if typeFlag w.g.unnamedType (.Ptr (.Struct s)) then
        ({ w with objs := w.objs ++ [{ o with reflectType := some (.Ptr (.Struct s)),
                                              reflectValue := some (.Ptr (.Struct s), v) }] },
          .error (.twoUnnamed (.Ptr (.Struct s))))
      else
        ({ w with objs := w.objs ++ [{ o with reflectType := some (.Ptr (.Struct s)),
                                              reflectValue := some (.Ptr (.Struct s), v) }],
                  g := { w.g with unnamed := w.g.unnamed ++ [w.objs.length] } }, .nil) := by
  simp only [Graph.Provide, List.get?_eq_getElem?, List.getElem?_concat_length, hV, hN, hF,
    World.setObj, set_length_append_single, Option.map, Option.isSome]
  have hs : isStructPtr (.Ptr (.Struct s)) = true := isStructPtr_iff.mpr ⟨s, rfl⟩
  cases hp : o.private_ <;> simp [hs, hp]

theorem Val.allZero_get {fs : List Val} (h : Val.allZero fs = true) {i : Nat} {f : Val}
    (hf : fs.get? i = some f) : f.isZero = true := by
  induction fs generalizing i with
  | nil => simp at hf
  | cons a rest ih =>
    simp only [Val.allZero, Bool.and_eq_true] at h
    cases i with
    | zero => simp at hf; subst hf; exact h.1
    | succ k => simp at hf; exact ih h.2 (by simpa using hf)

theorem Val.isZero_get {v : Val} {q : List Nat} {x : Val} (h : v.isZero = true)
    (hx : v.get q = some x) : x.isZero = true := by
  induction q generalizing v with
  | nil => simp [Val.get] at hx; subst hx; exact h
  | cons i r ih =>
    cases v with
    | struct fs =>
      simp only [Val.get] at hx
      split at hx
      · rename_i f hf
        exact ih (Val.allZero_get (by simpa [Val.isZero] using h) hf) hx
      · simp at hx
    | _ => simp [Val.get] at hx

theorem Val.get_set_same {m : Val} {q : List Nat} {z : Val} (x : Val) (h : m.get q = some z) :
    (m.set q x).get q = some x := by
  induction q generalizing m z with
  | nil => simp [Val.get, Val.set]
  | cons i r ih =>
    cases m with
    | struct fs =>
      simp only [Val.get] at h
      split at h
      · rename_i f hf
        simp only [Val.set, hf, Val.get]
        have hi : i < fs.length := by
          rw [List.get?_eq_getElem?] at hf
          exact (List.getElem?_eq_some_iff.mp hf).1
        simp [List.getElem?_set, hi, ih h]
      · simp at h
    | _ => simp [Val.get] at h


theorem Val.get_cons_struct {m : Val} {i : Nat} {r : List Nat} {z : Val}
    (h : m.get (i :: r) = some z) :
    ∃ fs f, m = .struct fs ∧ fs.get? i = some f ∧ f.get r = some z := by
  cases m with
  | struct fs =>
    simp only [Val.get] at h
    split at h
    · rename_i f hf; exact ⟨fs, f, rfl, hf, h⟩
    · simp at h
  | _ => simp [Val.get] at h

theorem Val.set_struct {fs : List Val} {i : Nat} {r : List Nat} {f : Val} (x : Val)
    (hf : fs.get? i = some f) :
    (Val.struct fs).set (i :: r) x = .struct (fs.set i (f.set r x)) := by
  simp only [Val.set, hf]

theorem Val.get_struct {fs : List Val} {i : Nat} {r : List Nat} :
    (Val.struct fs).get (i :: r) = (fs.get? i).bind (fun f => f.get r) := by
  simp only [Val.get]
  cases h : fs.get? i <;> simp

/-- Writing over a zero value leaves every non-zero value outside the locations
inside which the write happens unchanged. -/
theorem Val.get_set_frame {m : Val} {q q2 : List Nat} {z v : Val} (x : Val)
    (hz : m.get q = some z) (hzero : z.isZero = true)
    (hv : m.get q2 = some v) (hnz : v.isZero = false)
    (hout : ∀ r, q ≠ q2 ++ r) : (m.set q x).get q2 = some v := by
  induction q generalizing m q2 with
  | nil =>
    simp only [Val.get, Option.some.injEq] at hz
    subst hz
    rw [Val.isZero_get hzero hv] at hnz
    exact absurd hnz (by simp)
  | cons i r ih =>
    obtain ⟨fs, f, rfl, hf, hfz⟩ := Val.get_cons_struct hz
    cases q2 with
    | nil => exact absurd rfl (hout (i :: r))
    | cons j r2 =>
      obtain ⟨fs2, g, h2, hg, hgv⟩ := Val.get_cons_struct hv
      cases h2
      rw [Val.set_struct x hf, Val.get_struct]
      by_cases hij : i = j
      · subst hij
        rw [hf] at hg
        cases hg
        have hi : i < fs.length := by
          rw [List.get?_eq_getElem?] at hf
          exact (List.getElem?_eq_some_iff.mp hf).1
        simp only [List.get?_eq_getElem?, List.getElem?_set, hi, if_true, Option.bind]
        exact ih hfz hgv (fun t ht => hout t (by simp [ht]))
      · rw [List.get?_eq_getElem?, List.getElem?_set_ne hij, ← List.get?_eq_getElem?, hg]
        simpa using hgv

/-- Writing a leaf location leaves the other leaf locations unchanged. -/
theorem Val.get_set_leaf {m : Val} {q q2 : List Nat} {z v : Val} (x : Val)
    (hz : m.get q = some z) (hzl : z.isLeaf = true)
    (hv : m.get q2 = some v) (hvl : v.isLeaf = true)
    (hne : q ≠ q2) : (m.set q x).get q2 = some v := by
  induction q generalizing m q2 with
  | nil =>
    simp only [Val.get, Option.some.injEq] at hz
    subst hz
    cases q2 with
    | nil => exact absurd rfl hne
    | cons j r2 =>
      obtain ⟨fs2, g, h2, _, _⟩ := Val.get_cons_struct hv
      subst h2
      simp [Val.isLeaf] at hzl
  | cons i r ih =>
    obtain ⟨fs, f, rfl, hf, hfz⟩ := Val.get_cons_struct hz
    cases q2 with
    | nil =>
      simp only [Val.get, Option.some.injEq] at hv
      subst hv
      simp [Val.isLeaf] at hvl
    | cons j r2 =>
      obtain ⟨fs2, g, h2, hg, hgv⟩ := Val.get_cons_struct hv
      cases h2
      rw [Val.set_struct x hf, Val.get_struct]
      by_cases hij : i = j
      · subst hij
        rw [hf] at hg
        cases hg
        have hi : i < fs.length := by
          rw [List.get?_eq_getElem?] at hf
          exact (List.getElem?_eq_some_iff.mp hf).1
        simp only [List.get?_eq_getElem?, List.getElem?_set, hi, if_true, Option.bind]
        exact ih hfz hgv (fun ht => hne (by simp [ht]))
      · rw [List.get?_eq_getElem?, List.getElem?_set_ne hij, ← List.get?_eq_getElem?, hg]
        simpa using hgv

/-- Writing a leaf location keeps every struct value a struct value with the
same number of fields. -/
theorem Val.get_set_shape {m : Val} {q q2 : List Nat} {z : Val} {fs : List Val} (x : Val)
    (hz : m.get q = some z) (hzl : z.isLeaf = true)
    (hv : m.get q2 = some (.struct fs)) :
    ∃ fs2, (m.set q x).get q2 = some (.struct fs2) ∧ fs2.length = fs.length := by
  induction q generalizing m q2 fs with
  | nil =>
    simp only [Val.get, Option.some.injEq] at hz
    subst hz
    cases q2 with
    | nil =>
      simp only [Val.get, Option.some.injEq] at hv
      subst hv
      simp [Val.isLeaf] at hzl
    | cons j r2 =>
      obtain ⟨fs2, g, h2, _, _⟩ := Val.get_cons_struct hv
      subst h2
      simp [Val.isLeaf] at hzl
  | cons i r ih =>
    obtain ⟨fs1, f, rfl, hf, hfz⟩ := Val.get_cons_struct hz
    have hi : i < fs1.length := by
      rw [List.get?_eq_getElem?] at hf
      exact (List.getElem?_eq_some_iff.mp hf).1
    cases q2 with
    | nil =>
      simp only [Val.get, Option.some.injEq, Val.struct.injEq] at hv
      subst hv
      rw [Val.set_struct x hf]
      exact ⟨_, rfl, by simp⟩
    | cons j r2 =>
      obtain ⟨fs2, g, h2, hg, hgv⟩ := Val.get_cons_struct hv
      cases h2
      rw [Val.set_struct x hf, Val.get_struct]
      by_cases hij : i = j
      · subst hij
        rw [hf] at hg
        cases hg
        simp only [List.get?_eq_getElem?, List.getElem?_set, hi, if_true, Option.bind]
        exact ih hfz hgv
      · rw [List.get?_eq_getElem?, List.getElem?_set_ne hij, ← List.get?_eq_getElem?, hg]
        exact ⟨fs, by simpa using hgv, rfl⟩

theorem findExisting_found {env : Env} {w : World} {t : GoType} {ids : List Nat} {eid : Nat}
    (h : findExisting env w t ids = .found eid) :
    eid ∈ ids ∧ ∃ e et, w.objs.get? eid = some e ∧ e.private_ = false ∧
      e.reflectType = some et ∧ et.AssignableTo env t = true := by
  induction ids with
  | nil => simp [findExisting] at h
  | cons a rest ih =>
    simp only [findExisting] at h
    split at h
    · simp at h
    · rename_i e he
      split at h
      · obtain ⟨h1, h2⟩ := ih h
        exact ⟨List.mem_cons_of_mem _ h1, h2⟩
      · rename_i hp
        split at h
        · simp at h
        · rename_i et het
          split at h
          · rename_i hassign
            simp only [Scan.found.injEq] at h
            subst h
            exact ⟨List.mem_cons_self _ _, e, et, he, by simpa using hp, het, hassign⟩
          · obtain ⟨h1, h2⟩ := ih h
            exact ⟨List.mem_cons_of_mem _ h1, h2⟩

theorem isNilOrZero_isZero {z : Val} {t : GoType} (h : isNilOrZero z t = true) :
    z.isZero = true := by
  unfold isNilOrZero at h
  split at h
  · cases z <;> simp_all [Val.IsNil, Val.isZero]
  · cases z <;> simp_all [Val.IsNil, Val.isZero]
  · exact h

theorem assignNamed_effect {env : Env} {w : World} {id c : Nat} {q : List Nat}
    {sf : StructField} {z : Val} (tg : tag)
    (hz : w.load c q = some z) (hzero : isNilOrZero z sf.Typ = true) :
    Effect env w id c q sf (assignNamed env w id c q sf tg).1 := by
  unfold assignNamed
  split
  · exact .skip
  · rename_i eid hlook
    split
    · exact .skip
    · rename_i e he
      split
      · exact .skip
      · split
        · exact .skip
        · split
          · exact .skip
          · rename_i v hv
            exact .assign z v eid e hz hzero he hv (Or.inl ⟨_, hlook⟩)

theorem provideInline_effect {env : Env} {w : World} {id c : Nat} {q : List Nat}
    {sf : StructField} {z : Val} (tg : tag)
    (hz : w.load c q = some z) (hk : sf.Typ.Kind = .Struct) :
    Effect env w id c q sf (provideInline w c q sf tg).1 := by
  unfold provideInline
  split
  · exact .skip
  · split
    · exact .skip
    · obtain ⟨s, hs⟩ := kind_struct_iff.mp hk
      have hP := Provide_fresh w
        { Value := some (.Ptr sf.Typ, .ptr c q), Name := "",
          Completed := false, Fields := none, reflectType := none,
          reflectValue := none, private_ := true, created := false,
          embedded := sf.Anonymous } s (.ptr c q) (by simp [hs]) rfl rfl
      simp only [if_true] at hP
      dsimp only
      rw [hP]
      have := @Effect.inline env w id c q sf z s hz hs
      simpa [inlineObject, hs] using this

theorem makeMapField_effect {env : Env} {w : World} {id c : Nat} {q : List Nat}
    {sf : StructField} {z : Val} (tg : tag)
    (hz : w.load c q = some z) (hzero : isNilOrZero z sf.Typ = true) :
    Effect env w id c q sf (makeMapField w c q sf tg).1 := by
  unfold makeMapField
  split
  · exact .skip
  · exact .makeMap z hz hzero

theorem injectPointer_effect {env : Env} {w : World} {id c : Nat} {q : List Nat}
    {sf : StructField} {z : Val} (tg : tag)
    (hz : w.load c q = some z) (hzero : isNilOrZero z sf.Typ = true)
    (hsp : isStructPtr sf.Typ = true) :
    Effect env w id c q sf (injectPointer env w id c q sf tg).1 := by
  obtain ⟨s, hs⟩ := isStructPtr_iff.mp hsp
  unfold injectPointer
  split
  · exact .skip
  · rename_i eid hfound
    split
    · exact .skip
    · rename_i e he
      split
      · exact .skip
      · rename_i v hv
        have hf : findExisting env w sf.Typ w.g.unnamed = .found eid := by
          split at hfound
          · exact hfound
          · simp at hfound
        obtain ⟨hmem, e2, et, he2, hpriv, _, _⟩ := findExisting_found hf
        rw [he] at he2
        cases he2
        exact .assign z v eid e hz hzero he hv (Or.inr ⟨hmem, hpriv⟩)
  · rename_i hnf
    simp only [hs, GoType.Elem]
    have hP := Provide_fresh { w with mem := w.mem ++ [Zero env (.Struct s)] }
        { Value := some (.Ptr (.Struct s), .ptr w.mem.length []), Name := "",
          Completed := false, Fields := none, reflectType := none,
          reflectValue := none, private_ := tg.Private, created := true,
          embedded := false } s (.ptr w.mem.length []) rfl rfl rfl
    dsimp only at hP ⊢
    rw [hP]
    cases hpriv : tg.Private
    · simp only [Bool.false_eq_true, if_false]
      by_cases hflag : typeFlag w.g.unnamedType (.Ptr (.Struct s)) = true
      · simp only [hflag, if_true]
        have := @Effect.createFailed env w id c q sf z s hz hs
        simpa [createdObject, hs] using this
      · simp only [hflag, if_false]
        have := @Effect.create env w id c q sf z s false hz hzero hs
          (by intro _; simpa [hs] using hflag)
          (by intro _; simpa [hpriv, hs] using hnf)
        simpa [createdObject, World.allocated, hs] using this
    · simp only [if_true]
      have := @Effect.create env w id c q sf z s true hz hzero hs
          (by intro h; cases h) (by intro h; cases h)
      simpa [createdObject, World.allocated, hs] using this

/-- Every visit of `populateExplicit` has one of the listed effects. -/
theorem explicitStep_effect (env : Env) (w : World) (id c : Nat) (p : List Nat) (i : Nat)
    (sf : StructField) :
    Effect env w id c (p ++ [i]) sf (explicitStep env w id c p i sf).1 := by
  unfold explicitStep
  split
  · exact .skip
  · exact .skip
  · rename_i tg htag
    split
    · exact .skip
    · split
      · exact .skip
      · split
        · exact .skip
        · rename_i z hz
          split
          · exact .skip
          · rename_i hzero
            simp only [Bool.not_eq_true, Bool.not_eq_false'] at hzero
            split
            · exact assignNamed_effect tg hz hzero
            · split
              · rename_i hk
                exact provideInline_effect tg hz (by simpa using hk)
              · split
                · exact .skip
                · split
                  · exact makeMapField_effect tg hz hzero
                  · split
                    · exact .skip
                    · rename_i hsp
                      exact injectPointer_effect tg hz hzero (by simpa using hsp)
theorem fieldSet_some {env : Env} {sf : StructField} {x : Option (GoType × Val)} {v : Val}
    (h : fieldSet env sf x = some v) : sf.Exported = true ∧ setValue env sf.Typ x = some v := by
  unfold fieldSet at h
  split at h
  · rename_i he; exact ⟨he, h⟩
  · cases h

theorem interfaceScan_found_world {env : Env} {id c : Nat} {q : List Nat} {sf : StructField}
    (ids : List Nat) (f : Nat) (w : World) :
    (interfaceScan env id c q sf ids (some f) w).1 = w := by
  induction ids with
  | nil => rfl
  | cons a rest ih =>
    simp only [interfaceScan]
    split
    · rfl
    · split
      · exact ih
      · split
        · rfl
        · split
          · rfl
          · exact ih

theorem interfaceScan_effect (env : Env) (id : Nat) {c : Nat} {q : List Nat} (sf : StructField)
    {z : Val} (ids : List Nat) (w : World) (hsub : ∀ e ∈ ids, e ∈ w.g.unnamed)
    (hz : w.load c q = some z) (hzero : isNilOrZero z sf.Typ = true) :
    Effect env w id c q sf (interfaceScan env id c q sf ids none w).1 := by
  induction ids with
  | nil => exact .skip
  | cons a rest ih =>
    have ih2 := ih (fun e he => hsub e (List.mem_cons_of_mem _ he))
    simp only [interfaceScan]
    split
    · exact .skip
    · rename_i e he
      split
      · exact ih2
      · rename_i hp
        split
        · exact .skip
        · split
          · split
            · exact .skip
            · rename_i v hv
              rw [interfaceScan_found_world]
              exact .assign z v a e hz hzero he (fieldSet_some hv).2
                (Or.inr ⟨hsub a (List.mem_cons_self _ _), by simpa using hp⟩)
          · exact ih2

/-- Every visit of `populateUnnamedInterface` has one of the listed effects. -/
theorem interfaceStep_effect (env : Env) (w : World) (id c : Nat) (p : List Nat) (i : Nat)
    (sf : StructField) :
    Effect env w id c (p ++ [i]) sf (interfaceStep env w id c p i sf).1 := by
  unfold interfaceStep
  split
  · exact .skip
  · exact .skip
  · split
    · exact .skip
    · split
      · exact .skip
      · split
        · exact .skip
        · rename_i z hz
          split
          · exact .skip
          · rename_i hzero
            simp only [Bool.not_eq_true, Bool.not_eq_false'] at hzero
            split
            · exact .skip
            · have h := interfaceScan_effect env id sf w.g.unnamed w
                (fun _ h => h) hz hzero
              split
              · rename_i heq; rw [heq] at h; exact h
              · rename_i heq; rw [heq] at h; exact h
              · rename_i heq; rw [heq] at h; exact h
/-! ## Projections of the primitive updates -/

@[simp] theorem store_objs (w : World) (c : Nat) (q : List Nat) (x : Val) :
    (w.store c q x).objs = w.objs := by
  unfold World.store; split <;> rfl

@[simp] theorem store_g (w : World) (c : Nat) (q : List Nat) (x : Val) :
    (w.store c q x).g = w.g := by
  unfold World.store; split <;> rfl

@[simp] theorem store_maps (w : World) (c : Nat) (q : List Nat) (x : Val) :
    (w.store c q x).maps = w.maps := by
  unfold World.store; split <;> rfl

@[simp] theorem store_mem_length (w : World) (c : Nat) (q : List Nat) (x : Val) :
    (w.store c q x).mem.length = w.mem.length := by
  unfold World.store; split <;> simp

@[simp] theorem addDependency_mem (w : World) (id : Nat) (n : String) (e : Nat) :
    (w.addDependency id n e).mem = w.mem := by
  unfold World.addDependency World.setObj; split <;> rfl

@[simp] theorem addDependency_g (w : World) (id : Nat) (n : String) (e : Nat) :
    (w.addDependency id n e).g = w.g := by
  unfold World.addDependency World.setObj; split <;> rfl

@[simp] theorem addDependency_maps (w : World) (id : Nat) (n : String) (e : Nat) :
    (w.addDependency id n e).maps = w.maps := by
  unfold World.addDependency World.setObj; split <;> rfl

@[simp] theorem addDependency_objs_length (w : World) (id : Nat) (n : String) (e : Nat) :
    (w.addDependency id n e).objs.length = w.objs.length := by
  unfold World.addDependency World.setObj; split <;> simp

@[simp] theorem addDependency_load (w : World) (id : Nat) (n : String) (e : Nat) (c : Nat)
    (q : List Nat) : (w.addDependency id n e).load c q = w.load c q := by
  simp [World.load]

theorem addDependency_get (w : World) (id : Nat) (n : String) (e : Nat) (k : Nat) :
    (w.addDependency id n e).objs.get? k =
      if k = id then (w.objs.get? k).map (fun o => o.addDependency n e) else w.objs.get? k := by
  unfold World.addDependency World.setObj
  split
  · rename_i o ho
    by_cases hk : k = id
    · subst hk
      have hlt : k < w.objs.length := by
        rw [List.get?_eq_getElem?] at ho
        exact (List.getElem?_eq_some_iff.mp ho).1
      rw [List.get?_eq_getElem?] at ho
      simp [List.getElem?_set, hlt, ho]
    · simp [hk, List.getElem?_set_ne (Ne.symm hk)]
  · rename_i ho
    by_cases hk : k = id
    · subst hk
      rw [List.get?_eq_getElem?] at ho
      simp [ho]
    · simp [hk]

/-- The fields of an object other than `Fields` are kept by `addDependency`. -/
theorem Object.addDependency_same (o : Object) (n : String) (e : Nat) :
    (o.addDependency n e).Value = o.Value ∧ (o.addDependency n e).Name = o.Name ∧
    (o.addDependency n e).Completed = o.Completed ∧
    (o.addDependency n e).reflectType = o.reflectType ∧
    (o.addDependency n e).reflectValue = o.reflectValue ∧
    (o.addDependency n e).private_ = o.private_ ∧
    (o.addDependency n e).created = o.created ∧
    (o.addDependency n e).embedded = o.embedded := by
  unfold Object.addDependency
  split <;> simp

theorem load_store_same {w : World} {c : Nat} {q : List Nat} {z : Val} (x : Val)
    (h : w.load c q = some z) : (w.store c q x).load c q = some x := by
  unfold World.load at h
  split at h
  · rename_i m hm
    have hlt : c < w.mem.length := by
      rw [List.get?_eq_getElem?] at hm
      exact (List.getElem?_eq_some_iff.mp hm).1
    simp only [World.store, hm, World.load, List.get?_eq_getElem?, List.getElem?_set, hlt]
    simp [Val.get_set_same x h]
  · simp at h

theorem load_store_other_cell {w : World} {c c2 : Nat} {q q2 : List Nat} (x : Val)
    (h : c ≠ c2) : (w.store c q x).load c2 q2 = w.load c2 q2 := by
  unfold World.store
  split
  · simp [World.load, List.getElem?_set_ne h]
  · rfl

/-- Writing over a zero value keeps the non-zero values that do not contain the
written location. -/
theorem load_store_frame {w : World} {c c2 : Nat} {q q2 : List Nat} {z v : Val} (x : Val)
    (hz : w.load c q = some z) (hzero : z.isZero = true)
    (hv : w.load c2 q2 = some v) (hnz : v.isZero = false)
    (hout : c = c2 → ∀ r, q ≠ q2 ++ r) : (w.store c q x).load c2 q2 = some v := by
  by_cases hc : c = c2
  · subst hc
    unfold World.load at hz hv
    split at hz
    · rename_i m hm
      have hlt : c < w.mem.length := by
        rw [List.get?_eq_getElem?] at hm
        exact (List.getElem?_eq_some_iff.mp hm).1
      simp only [hm] at hv
      simp only [World.store, hm, World.load, List.get?_eq_getElem?, List.getElem?_set, hlt]
      simp [Val.get_set_frame x hz hzero hv hnz (hout rfl)]
    · simp at hz
  · rw [load_store_other_cell x hc]; exact hv

/-- Writing a leaf location keeps the other leaf locations. -/
theorem load_store_leaf {w : World} {c c2 : Nat} {q q2 : List Nat} {z v : Val} (x : Val)
    (hz : w.load c q = some z) (hzl : z.isLeaf = true)
    (hv : w.load c2 q2 = some v) (hvl : v.isLeaf = true)
    (hne : c = c2 → q ≠ q2) : (w.store c q x).load c2 q2 = some v := by
  by_cases hc : c = c2
  · subst hc
    unfold World.load at hz hv
    split at hz
    · rename_i m hm
      have hlt : c < w.mem.length := by
        rw [List.get?_eq_getElem?] at hm
        exact (List.getElem?_eq_some_iff.mp hm).1
      simp only [hm] at hv
      simp only [World.store, hm, World.load, List.get?_eq_getElem?, List.getElem?_set, hlt]
      simp [Val.get_set_leaf x hz hzl hv hvl (hne rfl)]
    · simp at hz
  · rw [load_store_other_cell x hc]; exact hv

/-- Writing a leaf location keeps the shape of every struct. -/
theorem load_store_shape {w : World} {c c2 : Nat} {q q2 : List Nat} {z : Val} {fs : List Val}
    (x : Val) (hz : w.load c q = some z) (hzl : z.isLeaf = true)
    (hv : w.load c2 q2 = some (.struct fs)) :
    ∃ fs2, (w.store c q x).load c2 q2 = some (.struct fs2) ∧ fs2.length = fs.length := by
  by_cases hc : c = c2
  · subst hc
    unfold World.load at hz hv
    split at hz
    · rename_i m hm
      have hlt : c < w.mem.length := by
        rw [List.get?_eq_getElem?] at hm
        exact (List.getElem?_eq_some_iff.mp hm).1
      simp only [hm] at hv
      simp only [World.store, hm, World.load, List.get?_eq_getElem?, List.getElem?_set, hlt]
      simpa using Val.get_set_shape x hz hzl hv
    · simp at hz
  · rw [load_store_other_cell x hc]; exact ⟨fs, hv, rfl⟩

theorem load_lt {w : World} {c : Nat} {q : List Nat} {z : Val} (h : w.load c q = some z) :
    c < w.mem.length := by
  unfold World.load at h
  split at h
  · rename_i m hm
    rw [List.get?_eq_getElem?] at hm
    exact (List.getElem?_eq_some_iff.mp hm).1
  · simp at h

theorem load_append {w : World} {c : Nat} {q : List Nat} {z : Val} (extra : List Val)
    (h : w.load c q = some z) :
    World.load { w with mem := w.mem ++ extra } c q = some z := by
  have hlt := load_lt h
  unfold World.load at h ⊢
  simp only [List.get?_eq_getElem?, List.getElem?_append_left hlt]
  simpa using h

theorem Object.agrees_refl (o : Object) : o.agrees o := rfl

theorem Object.agrees_trans {a b c : Object} (h1 : a.agrees b) (h2 : b.agrees c) :
    a.agrees c := by
  unfold Object.agrees at *
  cases a; cases b; cases c
  simp_all

theorem Object.agrees_addDependency (o : Object) (n : String) (e : Nat) :
    o.agrees (o.addDependency n e) := by
  unfold Object.agrees Object.addDependency
  split <;> rfl

theorem Object.agrees_target {o o1 : Object} (h : o.agrees o1) : o1.target = o.target := by
  unfold Object.agrees at h
  cases o; cases o1
  simp_all [Object.target]

theorem Object.agrees_ignored {o o1 : Object} (h : o.agrees o1) : o1.ignored = o.ignored := by
  unfold Object.agrees at h
  cases o; cases o1
  simp_all [Object.ignored]

theorem Object.agrees_Completed {o o1 : Object} (h : o.agrees o1) :
    o1.Completed = o.Completed := by
  unfold Object.agrees at h
  cases o; cases o1
  simp_all

theorem Ext.refl (w : World) : Ext w w :=
  ⟨⟨[], by simp⟩, rfl, rfl, le_refl _, fun _ o h => ⟨o, h, Object.agrees_refl o⟩⟩

theorem Ext.trans {a b c : World} (h1 : Ext a b) (h2 : Ext b c) : Ext a c := by
  obtain ⟨l1, hl1⟩ := h1.unnamed
  obtain ⟨l2, hl2⟩ := h2.unnamed
  refine ⟨⟨l1 ++ l2, by rw [hl2, hl1, List.append_assoc]⟩, h2.named.trans h1.named,
    h2.flags.trans h1.flags, le_trans h1.mem h2.mem, ?_⟩
  intro id o ho
  obtain ⟨o1, ho1, ha1⟩ := h1.objs id o ho
  obtain ⟨o2, ho2, ha2⟩ := h2.objs id o1 ho1
  exact ⟨o2, ho2, Object.agrees_trans ha1 ha2⟩

theorem Ext.registered {w w1 : World} (h : Ext w w1) {id : Nat} (hr : w.registered id) :
    w1.registered id := by
  obtain ⟨l, hl⟩ := h.unnamed
  cases hr with
  | inl hu => left; rw [hl]; exact List.mem_append_left _ hu
  | inr hn => right; rw [h.named]; exact hn

theorem ext_addDependency (w : World) (id : Nat) (n : String) (e : Nat) :
    Ext w (w.addDependency id n e) := by
  refine ⟨⟨[], by simp⟩, by simp, by simp, by simp, ?_⟩
  intro k o ho
  rw [addDependency_get]
  by_cases hk : k = id
  · simp only [hk, if_true]
    rw [hk] at ho
    rw [List.get?_eq_getElem?] at ho
    exact ⟨o.addDependency n e, by simp [ho], Object.agrees_addDependency o n e⟩
  · simp only [hk, if_false]
    exact ⟨o, ho, Object.agrees_refl o⟩

theorem ext_store (w : World) (c : Nat) (q : List Nat) (x : Val) : Ext w (w.store c q x) :=
  ⟨⟨[], by simp⟩, by simp, by simp, by simp, fun _ o h => ⟨o, by simpa using h, Object.agrees_refl o⟩⟩

theorem get?_append_old {α : Type} {l : List α} {k : Nat} {a : α} (extra : List α)
    (h : l.get? k = some a) : (l ++ extra).get? k = some a := by
  rw [List.get?_eq_getElem?] at h ⊢
  have hlt := (List.getElem?_eq_some_iff.mp h).1
  rw [List.getElem?_append_left hlt]; exact h

theorem ext_allocated (env : Env) (w : World) (t : GoType) (s : String) (priv : Bool) :
    Ext w (w.allocated env t s priv) := by
  refine ⟨?_, rfl, rfl, by simp [World.allocated], ?_⟩
  · cases priv
    · exact ⟨[w.objs.length], by simp [World.allocated]⟩
    · exact ⟨[], by simp [World.allocated]⟩
  · intro k o ho
    exact ⟨o, get?_append_old _ ho, Object.agrees_refl o⟩

/-- Every effect of a visit extends the world. -/
theorem Effect.ext {env : Env} {w w1 : World} {id c : Nat} {q : List Nat} {sf : StructField}
    (h : Effect env w id c q sf w1) : Ext w w1 := by
  cases h with
  | skip => exact Ext.refl w
  | assign z v eid e hz hzero he hv hsrc =>
    exact (ext_store w c q v).trans (ext_addDependency _ id sf.Name eid)
  | inline z s hz hs =>
    exact ⟨⟨[], by simp⟩, rfl, rfl, le_refl _,
      fun _ o ho => ⟨o, get?_append_old _ ho, Object.agrees_refl o⟩⟩
  | makeMap z hz hzero =>
    exact Ext.trans (b := { w with maps := w.maps ++ [[]] }) ⟨⟨[], by simp⟩, rfl, rfl, le_refl _,
      fun _ o ho => ⟨o, ho, Object.agrees_refl o⟩⟩ (ext_store _ c q _)
  | create z s priv hz hzero ht hflag hnone =>
    exact ((ext_allocated env w sf.Typ s priv).trans (ext_store _ c q _)).trans
      (ext_addDependency _ id sf.Name _)
  | createFailed z s hz ht =>
    exact ⟨⟨[], by simp⟩, rfl, rfl, by simp,
      fun _ o ho => ⟨o, get?_append_old _ ho, Object.agrees_refl o⟩⟩


theorem Walk.extend {w w1 : World} {id : Nat} {s : String} {c : Nat} {p : List Nat}
    (h : Walk w id s c p) (he : Ext w w1) : Walk w1 id s c p := by
  obtain ⟨o, ho, hc, ht⟩ := h.obj
  obtain ⟨o1, ho1, ha⟩ := he.objs id o ho
  exact ⟨he.registered h.reg, o1, ho1, by rw [Object.agrees_Completed ha, hc],
    by rw [Object.agrees_target ha, ht]⟩

theorem Walk.visit {env : Env} {w : World} {id : Nat} {s : String} {c : Nat} {p : List Nat}
    (h : Walk w id s c p) {i : Nat} {sf : StructField} (hf : (env.fields s).get? i = some sf) :
    Visit env w id c p i sf := by
  obtain ⟨o, ho, hc, ht⟩ := h.obj
  exact ⟨h.reg, o, s, ho, hc, ht, hf⟩

theorem fieldLoop_inv {env : Env}
    {step : World → Nat → Nat → List Nat → Nat → StructField → World × Option Outcome}
    (hstep : Effectful env step) (I : World → Prop)
    (hI : ∀ w id c p i sf, I w → Visit env w id c p i sf → I (step w id c p i sf).1)
    {id : Nat} {s : String} {c : Nat} {p : List Nat} :
    ∀ (rest : List StructField) (i : Nat) (w : World),
      (∀ k sf, rest.get? k = some sf → (env.fields s).get? (i + k) = some sf) →
      Walk w id s c p → I w →
      I (fieldLoop (fun w1 j sf => step w1 id c p j sf) rest i w).1 ∧
      Ext w (fieldLoop (fun w1 j sf => step w1 id c p j sf) rest i w).1 := by
  intro rest
  induction rest with
  | nil => intro i w _ _ hi; exact ⟨hi, Ext.refl w⟩
  | cons sf rest ih =>
    intro i w hfields hwalk hi
    have hv : Visit env w id c p i sf := hwalk.visit (by simpa using hfields 0 sf rfl)
    have h1 := hI w id c p i sf hi hv
    have he := (hstep w id c p i sf).ext
    simp only [fieldLoop]
    split
    · rename_i w1 heq
      rw [heq] at h1 he
      have := ih (i + 1) w1
        (fun k sf2 hk => by
          have := hfields (k + 1) sf2 (by simpa using hk)
          rw [show i + 1 + k = i + (k + 1) by omega]; exact this)
        (hwalk.extend he) h1
      exact ⟨this.1, he.trans this.2⟩
    · rename_i w1 r heq
      rw [heq] at h1 he
      exact ⟨h1, he⟩

theorem traverse_inv {env : Env}
    {step : World → Nat → Nat → List Nat → Nat → StructField → World × Option Outcome}
    (hstep : Effectful env step) (I : World → Prop)
    (hI : ∀ w id c p i sf, I w → Visit env w id c p i sf → I (step w id c p i sf).1)
    {w : World} {id : Nat} {o : Object} (hreg : w.registered id)
    (ho : w.objs.get? id = some o) (hc : o.Completed = false) (hi : I w) :
    I (traverse env step w id).1 ∧ Ext w (traverse env step w id).1 := by
  unfold traverse
  simp only [ho]
  split
  · exact ⟨hi, Ext.refl w⟩
  · exact ⟨hi, Ext.refl w⟩
  · split
    · exact ⟨hi, Ext.refl w⟩
    · rename_i s c p ht
      exact fieldLoop_inv hstep I hI (env.fields s) 0 w (fun k sf hk => by simpa using hk)
        ⟨hreg, o, ho, hc, ht⟩ hi

theorem forEachIncomplete_inv {env : Env}
    {step : World → Nat → Nat → List Nat → Nat → StructField → World × Option Outcome}
    (hstep : Effectful env step) (I : World → Prop)
    (hI : ∀ w id c p i sf, I w → Visit env w id c p i sf → I (step w id c p i sf).1) :
    ∀ (ids : List Nat) (w : World), (∀ id ∈ ids, w.registered id) → I w →
      I (forEachIncomplete (traverse env step) ids w).1 ∧
      Ext w (forEachIncomplete (traverse env step) ids w).1 := by
  intro ids
  induction ids with
  | nil => intro w _ hi; exact ⟨hi, Ext.refl w⟩
  | cons id rest ih =>
    intro w hreg hi
    simp only [forEachIncomplete]
    split
    · exact ⟨hi, Ext.refl w⟩
    · rename_i o ho
      split
      · exact ih w (fun k hk => hreg k (List.mem_cons_of_mem _ hk)) hi
      · rename_i hc
        have h1 := traverse_inv hstep I hI (hreg id (List.mem_cons_self _ _)) ho
          (by simpa using hc) hi
        split
        · rename_i w1 heq
          rw [heq] at h1
          have := ih w1 (fun k hk => h1.2.registered (hreg k (List.mem_cons_of_mem _ hk))) h1.1
          exact ⟨this.1, h1.2.trans this.2⟩
        · rename_i w1 r _ heq
          rw [heq] at h1
          exact h1

theorem unnamedLoop_inv {env : Env} (I : World → Prop)
    (hI : ∀ w id c p i sf, I w → Visit env w id c p i sf → I (explicitStep env w id c p i sf).1) :
    ∀ (fuel i : Nat) (w : World), I w →
      I (unnamedLoop env fuel i w).1 ∧ Ext w (unnamedLoop env fuel i w).1 := by
  intro fuel
  induction fuel with
  | zero => intro i w hi; exact ⟨hi, Ext.refl w⟩
  | succ fuel ih =>
    intro i w hi
    simp only [unnamedLoop]
    split
    · exact ⟨hi, Ext.refl w⟩
    · split
      · exact ⟨hi, Ext.refl w⟩
      · rename_i id hid
        split
        · exact ⟨hi, Ext.refl w⟩
        · rename_i o ho
          split
          · exact ih (i + 1) w hi
          · rename_i hc
            have hreg : w.registered id := Or.inl (List.get?_mem hid)
            have h1 := traverse_inv (explicitStep_effect env) I hI hreg ho (by simpa using hc) hi
            unfold Graph.populateExplicit
            split
            · rename_i w1 heq
              rw [heq] at h1
              have := ih (i + 1) w1 h1.1
              exact ⟨this.1, h1.2.trans this.2⟩
            · rename_i w1 r _ heq
              rw [heq] at h1
              exact h1

theorem mem_rangeOrder {α : Type} (ord : List Nat) (xs : List α) {a : α}
    (h : a ∈ rangeOrder ord xs) : a ∈ xs := by
  induction ord generalizing xs with
  | nil =>
    cases xs with
    | nil => simp [rangeOrder] at h
    | cons x rest => simpa [rangeOrder] using h
  | cons c cs ih =>
    cases xs with
    | nil => simp [rangeOrder] at h
    | cons x rest =>
      simp only [rangeOrder] at h
      split at h
      · rename_i y hy
        rcases List.mem_cons.mp h with h1 | h1
        · subst h1; exact List.get?_mem hy
        · exact List.mem_of_mem_eraseIdx (ih _ h1)
      · simp at h

/-- The invariant principle of `Populate`: a property kept by every visit of a
registered object that is not completed holds after `Populate`, whatever the
outcome; moreover `Populate` extends the world. -/
theorem Populate_inv (env : Env) (I : World → Prop)
    (hE : ∀ w id c p i sf, I w → Visit env w id c p i sf → I (explicitStep env w id c p i sf).1)
    (hN : ∀ w id c p i sf, I w → Visit env w id c p i sf → I (interfaceStep env w id c p i sf).1)
    (ord1 ord3 : List Nat) (fuel : Nat) (w : World) (hi : I w) :
    I (Graph.Populate env ord1 ord3 fuel w).1 ∧ Ext w (Graph.Populate env ord1 ord3 fuel w).1 := by
  have hnamed : ∀ (ord : List Nat) (w1 : World),
      ∀ id ∈ (rangeOrder ord w1.g.named).map Prod.snd, w1.registered id := by
    intro ord w1 id hid
    obtain ⟨a, ha, rfl⟩ := List.mem_map.mp hid
    exact Or.inr (List.mem_map.mpr ⟨a, mem_rangeOrder ord _ ha, rfl⟩)
  unfold Graph.Populate
  have h1 := forEachIncomplete_inv (explicitStep_effect env) I hE _ w (hnamed ord1 w) hi
  split
  · rename_i w1 heq1
    unfold Graph.populateExplicit at heq1
    rw [heq1] at h1
    have h2 := unnamedLoop_inv I hE fuel 0 w1 h1.1
    split
    · rename_i w2 heq2
      rw [heq2] at h2
      have h3 := forEachIncomplete_inv (interfaceStep_effect env) I hN w2.g.unnamed w2
        (fun id hid => Or.inl hid) h2.1
      split
      · rename_i w3 heq3
        unfold Graph.populateUnnamedInterface at heq3
        rw [heq3] at h3
        have h4 := forEachIncomplete_inv (interfaceStep_effect env) I hN _ w3 (hnamed ord3 w3) h3.1
        exact ⟨h4.1, ((h1.2.trans h2.2).trans h3.2).trans h4.2⟩
      · rename_i w3 r _ heq3
        unfold Graph.populateUnnamedInterface at heq3
        rw [heq3] at h3
        exact ⟨h3.1, (h1.2.trans h2.2).trans h3.2⟩
    · rename_i w2 r _ heq2
      rw [heq2] at h2
      exact ⟨h2.1, h1.2.trans h2.2⟩
  · rename_i w1 r _ heq1
    unfold Graph.populateExplicit at heq1
    rw [heq1] at h1
    exact h1


/-- The invariant principle in terms of effects. -/
theorem Populate_inv_effect (env : Env) (I : World → Prop)
    (hI : ∀ w w1 id c p i sf, I w → Visit env w id c p i sf →
      Effect env w id c (p ++ [i]) sf w1 → I w1)
    (ord1 ord3 : List Nat) (fuel : Nat) (w : World) (hi : I w) :
    I (Graph.Populate env ord1 ord3 fuel w).1 ∧ Ext w (Graph.Populate env ord1 ord3 fuel w).1 :=
  Populate_inv env I
    (fun w id c p i sf h hv => hI w _ id c p i sf h hv (explicitStep_effect env w id c p i sf))
    (fun w id c p i sf h hv => hI w _ id c p i sf h hv (interfaceStep_effect env w id c p i sf))
    ord1 ord3 fuel w hi

theorem createdObject_target (s : String) (cell : Nat) (priv : Bool) :
    (createdObject (.Ptr (.Struct s)) cell priv).target = some (s, cell, []) := rfl

theorem get?_append_new {α : Type} (l : List α) (a : α) : (l ++ [a]).get? l.length = some a := by
  simp

theorem get?_lt {α : Type} {l : List α} {k : Nat} {a : α} (h : l.get? k = some a) :
    k < l.length := by
  rw [List.get?_eq_getElem?] at h
  exact (List.getElem?_eq_some_iff.mp h).1

theorem Ext.objs_length {w w1 : World} (h : Ext w w1) : w.objs.length ≤ w1.objs.length := by
  by_contra hlt
  push_neg at hlt
  have hpos : 0 < w.objs.length := by omega
  have : ∃ o, w.objs.get? w1.objs.length = some o := by
    rw [List.get?_eq_getElem?]
    exact ⟨w.objs[w1.objs.length], by simp [hlt]⟩
  obtain ⟨o, ho⟩ := this
  obtain ⟨o1, ho1, _⟩ := h.objs _ o ho
  exact absurd (get?_lt ho1) (by omega)

/-- After an effect, a registered object was registered before or is the
object just created, whose struct lies in the new cell. -/
theorem Effect.registered_cases {env : Env} {w w1 : World} {id c : Nat} {q : List Nat}
    {sf : StructField} (h : Effect env w id c q sf w1)
    {id2 : Nat} (hr : w1.registered id2) :
    w.registered id2 ∨
      (∃ s o2, w1.objs.get? id2 = some o2 ∧ o2.target = some (s, w.mem.length, [])) := by
  cases h with
  | skip => exact Or.inl hr
  | assign z v eid e hz hzero he hv hsrc => left; simpa [World.registered] using hr
  | inline z s hz hs => exact Or.inl hr
  | makeMap z hz hzero => left; simpa [World.registered] using hr
  | createFailed z s hz ht => exact Or.inl hr
  | create z s priv hz hzero ht hflag hnone =>
    simp only [World.registered, addDependency_g, store_g] at hr
    cases priv with
    | true => left; simpa [World.registered, World.allocated] using hr
    | false =>
      simp only [World.allocated, Bool.false_eq_true, if_false, List.mem_append,
        List.mem_singleton] at hr
      rcases hr with (hr | hr) | hr
      · exact Or.inl (Or.inl hr)
      · right
        subst hr
        rw [addDependency_get]
        refine ⟨s, ?_⟩
        simp only [store_objs, World.allocated]
        rw [get?_append_new]
        split
        · exact ⟨_, rfl, by
            rw [Object.agrees_target (Object.agrees_addDependency _ _ _), ht]; rfl⟩
        · exact ⟨_, rfl, by rw [ht]; rfl⟩
      · exact Or.inl (Or.inr hr)

theorem Effect.validIds {env : Env} {w w1 : World} {id c : Nat} {q : List Nat}
    {sf : StructField} (h : Effect env w id c q sf w1) (hvalid : w.validIds) :
    w1.validIds := by
  intro id2 hr
  have hlen := h.ext.objs_length
  cases h with
  | skip => exact hvalid id2 hr
  | assign z v eid e hz hzero he hv hsrc =>
    have := hvalid id2 (by simpa [World.registered] using hr)
    simpa using this
  | inline z s hz hs =>
    have := hvalid id2 hr
    simp; omega
  | makeMap z hz hzero =>
    have := hvalid id2 (by simpa [World.registered] using hr)
    simpa using this
  | createFailed z s hz ht =>
    have := hvalid id2 hr
    simp; omega
  | create z s priv hz hzero ht hflag hnone =>
    simp only [World.registered, addDependency_g, store_g] at hr
    simp only [addDependency_objs_length, store_objs, World.allocated, List.length_append,
      List.length_singleton]
    cases priv with
    | true =>
      have := hvalid id2 (by simpa [World.registered, World.allocated] using hr)
      omega
    | false =>
      simp only [World.allocated, Bool.false_eq_true, if_false, List.mem_append,
        List.mem_singleton] at hr
      rcases hr with (hr | hr) | hr
      · have := hvalid id2 (Or.inl hr); omega
      · omega
      · have := hvalid id2 (Or.inr hr); omega

theorem lookup_mapInsert_ne (m : List (String × Nat)) {k k2 : String} (v : Nat) (h : k ≠ k2) :
    (mapInsert m k v).lookup k2 = m.lookup k2 := by
  induction m with
  | nil =>
    simp only [mapInsert, List.lookup]
    have : (k2 == k) = false := by simpa using Ne.symm h
    simp [this]
  | cons a rest ih =>
    obtain ⟨k1, v1⟩ := a
    simp only [mapInsert]
    split
    · rename_i hk
      have hk1 : k1 = k := by simpa using hk
      subst hk1
      have : (k2 == k1) = false := by simpa using Ne.symm h
      simp [List.lookup, this]
    · simp only [List.lookup]
      split
      · rfl
      · exact ih

theorem Object.dependency_addDependency_ne (o : Object) {k k2 : String} (v : Nat)
    (h : k ≠ k2) : (o.addDependency k v).dependency k2 = o.dependency k2 := by
  unfold Object.addDependency Object.dependency
  cases hf : o.Fields with
  | none => simpa using lookup_mapInsert_ne [] v h
  | some m => simpa using lookup_mapInsert_ne m v h

/-- The record of an object after an effect of a visit of another object. -/
theorem Effect.objs_other {env : Env} {w w1 : World} {id c : Nat} {q : List Nat}
    {sf : StructField} (h : Effect env w id c q sf w1) {k : Nat} {o : Object}
    (ho : w.objs.get? k = some o) (hk : k ≠ id) : w1.objs.get? k = some o := by
  cases h with
  | skip => exact ho
  | assign z x eid e hz hzero he hx hsrc =>
    rw [addDependency_get]; simpa [hk] using ho
  | inline z s hz hs => exact get?_append_old _ ho
  | makeMap z hz hzero => simpa using ho
  | createFailed z s hz ht => exact get?_append_old _ ho
  | create z s priv hz hzero ht hflag hnone =>
    rw [addDependency_get]
    simp only [hk, if_false, store_objs, World.allocated]
    exact get?_append_old _ ho

/-- The record of the visited object after an effect: unchanged, or one
dependency recorded for the visited field, whose value was nil or zero. -/
theorem Effect.objs_self {env : Env} {w w1 : World} {id c : Nat} {q : List Nat}
    {sf : StructField} (h : Effect env w id c q sf w1) {o : Object}
    (ho : w.objs.get? id = some o) :
    w1.objs.get? id = some o ∨
      ∃ z d, w.load c q = some z ∧ z.isZero = true ∧
        w1.objs.get? id = some (o.addDependency sf.Name d) := by
  cases h with
  | skip => exact Or.inl ho
  | assign z x eid e hz hzero he hx hsrc =>
    right
    refine ⟨z, eid, hz, isNilOrZero_isZero hzero, ?_⟩
    rw [addDependency_get, if_pos rfl, store_objs, ho]; rfl
  | inline z s hz hs => exact Or.inl (get?_append_old _ ho)
  | makeMap z hz hzero => left; simpa using ho
  | createFailed z s hz ht => exact Or.inl (get?_append_old _ ho)
  | create z s priv hz hzero ht hflag hnone =>
    right
    refine ⟨z, w.objs.length, hz, isNilOrZero_isZero hzero, ?_⟩
    rw [addDependency_get]
    simp only [if_true, store_objs, World.allocated]
    rw [get?_append_old _ ho]; rfl


theorem Val.get_append (m : Val) (q r : List Nat) :
    m.get (q ++ r) = (m.get q).bind (fun x => x.get r) := by
  induction q generalizing m with
  | nil => simp [Val.get]
  | cons i q ih =>
    cases m with
    | struct fs =>
      simp only [List.cons_append, Val.get]
      cases fs.get? i with
      | none => simp
      | some f => simpa using ih f
    | _ => simp [Val.get]

theorem Val.get_leaf {v : Val} (h : v.isLeaf = true) {r : List Nat} (hr : r ≠ []) :
    v.get r = none := by
  cases r with
  | nil => exact absurd rfl hr
  | cons i r => cases v <;> simp_all [Val.get, Val.isLeaf]

theorem load_append_path (w : World) (c : Nat) (q r : List Nat) :
    w.load c (q ++ r) = (w.load c q).bind (fun x => x.get r) := by
  unfold World.load
  cases w.mem.get? c with
  | none => rfl
  | some m => exact Val.get_append m q r

/-- Effects keep the non-zero values that do not properly contain the visited
field. -/
theorem Effect.load_frame {env : Env} {w w1 : World} {id c : Nat} {q : List Nat}
    {sf : StructField} (h : Effect env w id c q sf w1) {c2 : Nat} {q2 : List Nat} {v : Val}
    (hv : w.load c2 q2 = some v) (hnz : v.isZero = false)
    (hout : c = c2 → ∀ r z, r ≠ [] → q = q2 ++ r → w.load c q = some z → False) :
    w1.load c2 q2 = some v := by
  have hfull : ∀ z, w.load c q = some z → z.isZero = true → c = c2 → ∀ r, q ≠ q2 ++ r := by
    intro z hz hzero hc r
    by_cases hr : r = []
    · subst hr
      intro hq
      subst hc
      rw [List.append_nil] at hq
      subst hq
      rw [hz] at hv
      cases hv
      rw [hzero] at hnz
      cases hnz
    · exact fun hq => hout hc r z hr hq hz
  cases h with
  | skip => exact hv
  | assign z x eid e hz hzero he hx hsrc =>
    rw [addDependency_load]
    exact load_store_frame x hz (isNilOrZero_isZero hzero) hv hnz
      (hfull z hz (isNilOrZero_isZero hzero))
  | inline z s hz hs => exact hv
  | makeMap z hz hzero =>
    exact load_store_frame (w := { w with maps := w.maps ++ [[]] }) _ hz (isNilOrZero_isZero hzero)
      hv hnz (hfull z hz (isNilOrZero_isZero hzero))
  | createFailed z s hz ht => exact load_append _ hv
  | create z s priv hz hzero ht hflag hnone =>
    rw [addDependency_load]
    exact load_store_frame (w := w.allocated env sf.Typ s priv) _ (load_append _ hz)
      (isNilOrZero_isZero hzero) (load_append _ hv) hnz (hfull z hz (isNilOrZero_isZero hzero))

/-- A registered object of the world after an effect is an object of the world
before with the same record up to `Fields`, or its struct lies in a new
cell. -/
theorem Effect.registered_old {env : Env} {w w1 : World} {id c : Nat} {q : List Nat}
    {sf : StructField} (h : Effect env w id c q sf w1) (hvalid : w.validIds)
    {id2 : Nat} {o2 : Object} (hr : w1.registered id2) (ho2 : w1.objs.get? id2 = some o2) :
    (w.registered id2 ∧ ∃ o, w.objs.get? id2 = some o ∧ o.agrees o2) ∨
      (∃ s, o2.target = some (s, w.mem.length, [])) := by
  rcases h.registered_cases hr with hold | ⟨s, o3, ho3, ht⟩
  · left
    refine ⟨hold, ?_⟩
    have hlt := hvalid id2 hold
    have : ∃ o, w.objs.get? id2 = some o := by
      rw [List.get?_eq_getElem?]; exact ⟨w.objs[id2], by simp [hlt]⟩
    obtain ⟨o, ho⟩ := this
    obtain ⟨o1, ho1, ha⟩ := h.ext.objs id2 o ho
    rw [ho2] at ho1
    cases ho1
    exact ⟨o, ho, ha⟩
  · right
    rw [ho2] at ho3
    cases ho3
    exact ⟨s, ht⟩


/-- Writing a location keeps the values at the locations that neither contain
it nor lie inside it. -/
theorem Val.get_set_disjoint (m : Val) {q q2 : List Nat} (x : Val)
    (h1 : ∀ r, q ≠ q2 ++ r) (h2 : ∀ r, q2 ≠ q ++ r) : (m.set q x).get q2 = m.get q2 := by
  induction q generalizing m q2 with
  | nil => exact absurd rfl (h2 q2)
  | cons i r ih =>
    cases q2 with
    | nil => exact absurd rfl (h1 (i :: r))
    | cons j r2 =>
      cases m with
      | struct fs =>
        simp only [Val.set]
        cases hf : fs.get? i with
        | none => rfl
        | some f =>
          simp only [Val.get_struct]
          by_cases hij : i = j
          · subst hij
            have hi : i < fs.length := get?_lt hf
            simp only [List.get?_eq_getElem?, List.getElem?_set, hi, if_true, Option.bind]
            rw [List.get?_eq_getElem?] at hf
            rw [hf]
            exact ih f (fun t ht => h1 t (by simp [ht])) (fun t ht => h2 t (by simp [ht]))
          · rw [List.get?_eq_getElem?, List.getElem?_set_ne hij, ← List.get?_eq_getElem?]
      | _ => simp [Val.set]

theorem load_store_disjoint (w : World) {c c2 : Nat} {q q2 : List Nat} (x : Val)
    (h : c = c2 → (∀ r, q ≠ q2 ++ r) ∧ (∀ r, q2 ≠ q ++ r)) :
    (w.store c q x).load c2 q2 = w.load c2 q2 := by
  by_cases hc : c = c2
  · subst hc
    unfold World.store
    cases hm : w.mem.get? c with
    | none => rfl
    | some m =>
      have hlt : c < w.mem.length := get?_lt hm
      simp only [World.load, hm, List.get?_eq_getElem?, List.getElem?_set, hlt]
      simp [Val.get_set_disjoint m x (h rfl).1 (h rfl).2]
  · exact load_store_other_cell x hc

/-- Effects keep the values at the locations that neither contain the visited
field nor lie inside it. -/
theorem Effect.load_disjoint {env : Env} {w w1 : World} {id c : Nat} {q : List Nat}
    {sf : StructField} (h : Effect env w id c q sf w1) {c2 : Nat} {q2 : List Nat} {v : Val}
    (hv : w.load c2 q2 = some v)
    (hout : c = c2 → (∀ r, q ≠ q2 ++ r) ∧ (∀ r, q2 ≠ q ++ r)) : w1.load c2 q2 = some v := by
  cases h with
  | skip => exact hv
  | assign z x eid e hz hzero he hx hsrc =>
    rw [addDependency_load, load_store_disjoint w x hout]; exact hv
  | inline z s hz hs => exact hv
  | makeMap z hz hzero =>
    rw [load_store_disjoint _ _ hout]; exact hv
  | createFailed z s hz ht => exact load_append _ hv
  | create z s priv hz hzero ht hflag hnone =>
    rw [addDependency_load, load_store_disjoint _ _ hout]; exact load_append _ hv


theorem validIds_of_unnamed {w : World} (ids : List Nat) (hu : w.g.unnamed = ids)
    (hn : w.g.named = []) (h : ∀ id ∈ ids, id < w.objs.length) : w.validIds := by
  intro id hr
  rcases hr with hr | hr
  · exact h id (hu ▸ hr)
  · rw [hn] at hr; simp at hr

theorem Object.recached_refl (o : Object) : o.recached o := rfl

theorem Object.recached_trans {a b c : Object} (h1 : a.recached b) (h2 : b.recached c) :
    a.recached c := by
  unfold Object.recached at *
  cases a; cases b; cases c
  simp_all

theorem Provided.start (w : World) : Provided w w :=
  ⟨rfl, rfl, rfl, rfl, fun _ o h => ⟨o, h, Object.recached_refl o⟩, ⟨[], by simp⟩, ⟨[], by simp⟩⟩

theorem Provided.andThen {a b c : World} (h1 : Provided a b) (h2 : Provided b c) :
    Provided a c := by
  obtain ⟨l1, hl1, hv1⟩ := h1.unnamed
  obtain ⟨l2, hl2, hv2⟩ := h2.unnamed
  obtain ⟨n1, hn1, hw1⟩ := h1.named
  obtain ⟨n2, hn2, hw2⟩ := h2.named
  refine ⟨h2.mem.trans h1.mem, h2.maps.trans h1.maps, h2.flags.trans h1.flags,
    h2.len.trans h1.len, ?_, ⟨l1 ++ l2, by rw [hl2, hl1, List.append_assoc], ?_⟩,
    ⟨n1 ++ n2, by rw [hn2, hn1, List.append_assoc], ?_⟩⟩
  · intro id o ho
    obtain ⟨o1, ho1, ha1⟩ := h1.objs id o ho
    obtain ⟨o2, ho2, ha2⟩ := h2.objs id o1 ho1
    exact ⟨o2, ho2, Object.recached_trans ha1 ha2⟩
  · intro x hx
    rcases List.mem_append.mp hx with h | h
    · exact hv1 x h
    · have := hv2 x h; rw [h1.len] at this; exact this
  · intro x hx
    rcases List.mem_append.mp hx with h | h
    · exact hw1 x h
    · have := hw2 x h; rw [h1.len] at this; exact this

theorem provided_setObj {w : World} {id : Nat} {o : Object} (ho : w.objs.get? id = some o)
    (t : Option GoType) (v : Option (GoType × Val)) :
    Provided w (w.setObj id { o with reflectType := t, reflectValue := v }) := by
  refine ⟨rfl, rfl, rfl, by simp [World.setObj], ?_, ⟨[], by simp [World.setObj]⟩,
    ⟨[], by simp [World.setObj]⟩⟩
  intro k o2 ho2
  by_cases hk : k = id
  · subst hk
    rw [ho] at ho2
    cases ho2
    refine ⟨{ o with reflectType := t, reflectValue := v }, ?_, rfl⟩
    have := get?_lt ho
    simp [World.setObj, List.getElem?_set, this]
  · refine ⟨o2, ?_, Object.recached_refl o2⟩
    simp only [World.setObj, List.get?_eq_getElem?, List.getElem?_set_ne (Ne.symm hk)]
    simpa using ho2

/-- `Provide` only appends objects of the heap to the buckets and caches their
types. -/
theorem Provide_provided : ∀ (ids : List Nat) (w : World), Provided w (Graph.Provide w ids).1 := by
  intro ids
  induction ids with
  | nil => intro w; exact Provided.start w
  | cons id rest ih =>
    intro w
    simp only [Graph.Provide]
    split
    · exact Provided.start w
    · rename_i o ho
      have h1 := provided_setObj ho (o.Value.map Prod.fst) o.Value
      have hlt := get?_lt ho
      split
      · exact h1
      · split
        · split
          · exact h1
          · split
            · exact h1
            · split
              · split
                · exact h1
                · refine Provided.andThen (Provided.andThen h1 ?_) (ih _)
                  exact ⟨rfl, rfl, rfl, rfl, fun _ o2 h => ⟨o2, h, Object.recached_refl o2⟩,
                    ⟨[id], rfl, by simpa [World.setObj] using hlt⟩, ⟨[], by simp⟩⟩
              · exact Provided.andThen h1 (ih _)
        · split
          · exact h1
          · refine Provided.andThen (Provided.andThen h1 ?_) (ih _)
            exact ⟨rfl, rfl, rfl, rfl, fun _ o2 h => ⟨o2, h, Object.recached_refl o2⟩,
              ⟨[], by simp⟩, ⟨[_], rfl, by simpa [World.setObj] using hlt⟩⟩

theorem swapAt_perm (xs : List Nat) (i j : Nat) : (swapAt xs i j).Perm xs := by
  unfold swapAt
  split
  · rename_i a b ha hb
    rw [List.get?_eq_getElem?] at ha hb
    obtain ⟨hi, hai⟩ := List.getElem?_eq_some_iff.mp ha
    obtain ⟨hj, hbj⟩ := List.getElem?_eq_some_iff.mp hb
    rw [List.perm_iff_count]
    intro x
    by_cases hij : i = j
    · subst hij
      have hab : a = b := by rw [← hai, ← hbj]
      subst hab
      rw [List.count_set _ _ _ _ (by simpa using hi)]
      rw [List.count_set _ _ _ _ hi]
      simp only [List.getElem_set_self, hai]
      have := List.count_pos_iff.mpr (show a ∈ xs from hai ▸ List.getElem_mem hi)
      by_cases hx : a = x
      · subst hx; simp; omega
      · simp [hx]
    · rw [List.count_set _ _ _ _ (by simpa using hj)]
      rw [List.count_set _ _ _ _ hi]
      rw [List.getElem_set_ne hij]
      simp only [hai, hbj]
      have h1 := List.count_pos_iff.mpr (show a ∈ xs from hai ▸ List.getElem_mem hi)
      have h2 := List.count_pos_iff.mpr (show b ∈ xs from hbj ▸ List.getElem_mem hj)
      by_cases hxa : a = x <;> by_cases hxb : b = x
      · subst hxa; subst hxb; simp; omega
      · subst hxa; simp [hxb]; omega
      · subst hxb
        have hba : ¬ b = a := fun h => hxa h.symm
        simp [hxa, hba]
      · simp [hxa, hxb]
  · exact List.Perm.refl _

theorem shuffle_perm (rnd : Nat → Nat) : ∀ (n i : Nat) (xs : List Nat),
    (shuffle rnd n i xs).Perm xs := by
  intro n
  induction n with
  | zero => intro i xs; exact List.Perm.refl _
  | succ n ih =>
    intro i xs
    simp only [shuffle]
    exact (ih (i + 1) _).trans (swapAt_perm xs i _)

theorem notEmbedded_some (w : World) : ∀ (ids : List Nat), (∀ id ∈ ids, id < w.objs.length) →
    ∃ out, notEmbedded w ids = some out ∧
      ∀ id, id ∈ out ↔ id ∈ ids ∧ ∃ o, w.objs.get? id = some o ∧ o.embedded = false := by
  intro ids
  induction ids with
  | nil => intro _; exact ⟨[], rfl, by simp⟩
  | cons a rest ih =>
    intro h
    obtain ⟨out, hout, hmem⟩ := ih (fun id hid => h id (List.mem_cons_of_mem _ hid))
    have ha := h a (List.mem_cons_self _ _)
    have hget : w.objs.get? a = some w.objs[a] := by
      rw [List.get?_eq_getElem?]; simp [ha]
    simp only [notEmbedded, hget, hout]
    cases he : w.objs[a].embedded
    · refine ⟨a :: out, by simp, ?_⟩
      intro id
      simp only [List.mem_cons, hmem]
      constructor
      · rintro (h1 | h1)
        · subst h1; exact ⟨Or.inl rfl, _, hget, he⟩
        · exact ⟨Or.inr h1.1, h1.2⟩
      · rintro ⟨h1 | h1, h2⟩
        · exact Or.inl h1
        · exact Or.inr ⟨h1, h2⟩
    · refine ⟨out, by simp, ?_⟩
      intro id
      simp only [List.mem_cons, hmem]
      constructor
      · rintro h1
        exact ⟨Or.inr h1.1, h1.2⟩
      · rintro ⟨h1 | h1, o, ho, hoe⟩
        · subst h1
          rw [hget] at ho
          cases ho
          rw [he] at hoe
          cases hoe
        · exact ⟨h1, o, ho, hoe⟩

/-- `Objects` returns every object of the unnamed bucket that is not
embedded, whatever the random source draws. -/
theorem Objects_mem_unnamed {w : World} (hvalid : w.validIds) {id : Nat} {o : Object}
    (hid : id ∈ w.g.unnamed) (ho : w.objs.get? id = some o) (he : o.embedded = false)
    (ord : List Nat) (rnd : Nat → Nat) :
    ∃ out, Graph.Objects w ord rnd = some out ∧ id ∈ out := by
  obtain ⟨us, hus, hmu⟩ := notEmbedded_some w w.g.unnamed (fun k hk => hvalid k (Or.inl hk))
  obtain ⟨ns, hns, _⟩ := notEmbedded_some w ((rangeOrder ord w.g.named).map Prod.snd)
    (fun k hk => hvalid k (by
      obtain ⟨a, ha, rfl⟩ := List.mem_map.mp hk
      exact Or.inr (List.mem_map.mpr ⟨a, mem_rangeOrder ord _ ha, rfl⟩)))
  refine ⟨shuffle rnd (us ++ ns).length 0 (us ++ ns), by simp only [Graph.Objects, hus, hns], ?_⟩
  rw [(shuffle_perm rnd _ 0 _).mem_iff]
  exact List.mem_append_left _ ((hmu id).mpr ⟨hid, o, ho, he⟩)

/-- The visit of a nil pointer-to-struct field with a plain or a private tag
for which no existing instance is found (or looked for): an instance is
created, provided and assigned. -/
theorem explicitStep_create {env : Env} {w : World} (id : Nat) {c : Nat} {p : List Nat} {i : Nat}
    {sf : StructField} {s : String} {tg : tag}
    (htag : parseTag env sf.Tag = .ok (some tg)) (hname : tg.Name = "")
    (hinline : tg.Inline = false) (hexp : sf.Exported = true)
    (htyp : sf.Typ = .Ptr (.Struct s)) (hnil : w.load c (p ++ [i]) = some .nil)
    (hnone : tg.Private = false → findExisting env w sf.Typ w.g.unnamed = .notFound)
    (hflag : tg.Private = false → typeFlag w.g.unnamedType sf.Typ = false) :
    explicitStep env w id c p i sf =
      (((w.allocated env sf.Typ s tg.Private).store c (p ++ [i]) (.ptr w.mem.length [])).addDependency
        id sf.Name w.objs.length, none) := by
  have hP := Provide_fresh { w with mem := w.mem ++ [Zero env (.Struct s)] }
      { Value := some (.Ptr (.Struct s), .ptr w.mem.length []), Name := "",
        Completed := false, Fields := none, reflectType := none,
        reflectValue := none, private_ := tg.Private, created := true,
        embedded := false } s (.ptr w.mem.length []) rfl rfl rfl
  dsimp only at hP
  have hscan : (if (!tg.Private) = true then findExisting env w sf.Typ w.g.unnamed
      else Scan.notFound) = Scan.notFound := by
    cases hp : tg.Private
    · simpa using hnone hp
    · simp
  unfold explicitStep
  simp only [htag, hexp, hinline, hnil, hname, htyp, isNilOrZero, GoType.Kind, Val.IsNil,
    isStructPtr, GoType.Elem]
  simp only [Bool.not_true, Bool.false_eq_true, if_false, Bool.false_and, bne_self_eq_false,
    Bool.not_false, Bool.true_and, beq_self_eq_true, if_true]
  simp only [injectPointer, htyp, GoType.Elem]
  rw [htyp] at hscan
  simp only [hscan, hP]
  cases hp : tg.Private
  · have hf := hflag hp
    rw [htyp] at hf
    simp [hf, World.allocated, createdObject]
  · simp [World.allocated, createdObject]


theorem Later.induction (env : Env) (allowed : Object → Prop) {w : World} (J : World → Prop)
    (hE : ∀ w1 w2 id c q sf, J w1 → Effect env w1 id c q sf w2 → J w2)
    (hP : ∀ w1 os ids, (∀ o ∈ os, allowed o) → J w1 →
      J (Graph.Provide { w1 with objs := w1.objs ++ os } ids).1)
    {w2 : World} (h : Later env allowed w w2) (h0 : J w) : J w2 := by
  induction h with
  | refl => exact h0
  | explicit id c p i sf _ ih => exact hE _ _ id c _ sf ih (explicitStep_effect env _ id c p i sf)
  | interface id c p i sf _ ih => exact hE _ _ id c _ sf ih (interfaceStep_effect env _ id c p i sf)
  | provide os ids hall _ ih => exact hP _ os ids hall ih

theorem Object.agrees_embedded {o o1 : Object} (h : o.agrees o1) : o1.embedded = o.embedded := by
  unfold Object.agrees at h
  cases o; cases o1
  simp_all

theorem Object.agrees_private {o o1 : Object} (h : o.agrees o1) : o1.private_ = o.private_ := by
  unfold Object.agrees at h
  cases o; cases o1
  simp_all

theorem Object.agrees_Value {o o1 : Object} (h : o.agrees o1) : o1.Value = o.Value := by
  unfold Object.agrees at h
  cases o; cases o1
  simp_all

theorem Object.recached_embedded {o o1 : Object} (h : o.recached o1) :
    o1.embedded = o.embedded := by
  unfold Object.recached at h
  cases o; cases o1
  simp_all

theorem Provided.keepsValid {w w1 : World} (h : Provided w w1) (hv : w.validIds) : w1.validIds := by
  intro id hr
  obtain ⟨l, hl, hlv⟩ := h.unnamed
  obtain ⟨n, hn, hnv⟩ := h.named
  rw [h.len]
  rcases hr with hr | hr
  · rw [hl] at hr
    rcases List.mem_append.mp hr with h1 | h1
    · exact hv id (Or.inl h1)
    · exact hlv id h1
  · rw [hn, List.map_append] at hr
    rcases List.mem_append.mp hr with h1 | h1
    · exact hv id (Or.inr h1)
    · obtain ⟨a, ha, rfl⟩ := List.mem_map.mp h1
      exact hnv a ha

theorem validIds_append {w : World} (hv : w.validIds) (os : List Object) :
    World.validIds { w with objs := w.objs ++ os } := by
  intro id hr
  have := hv id hr
  simp only [List.length_append]
  omega

/-- An object of the unnamed bucket that is not embedded stays one in every
later world, and `Objects` returns it. -/
theorem Later.objects_mem {env : Env} {allowed : Object → Prop} {w w2 : World} {id : Nat}
    {o : Object} (h : Later env allowed w w2) (hvalid : w.validIds) (hid : id ∈ w.g.unnamed)
    (ho : w.objs.get? id = some o) (he : o.embedded = false) (ord : List Nat) (rnd : Nat → Nat) :
    ∃ out, Graph.Objects w2 ord rnd = some out ∧ id ∈ out := by
  have key := Later.induction env allowed
    (fun w1 => w1.validIds ∧ id ∈ w1.g.unnamed ∧
      ∃ o1, w1.objs.get? id = some o1 ∧ o1.embedded = false)
    ?_ ?_ h ⟨hvalid, hid, o, ho, he⟩
  · obtain ⟨hv2, hid2, o2, ho2, he2⟩ := key
    exact Objects_mem_unnamed hv2 hid2 ho2 he2 ord rnd
  · intro w1 w3 id3 c q sf ⟨hv1, hid1, o1, ho1, he1⟩ heff
    obtain ⟨l, hl⟩ := heff.ext.unnamed
    obtain ⟨o3, ho3, ha⟩ := heff.ext.objs id o1 ho1
    exact ⟨heff.validIds hv1, by rw [hl]; exact List.mem_append_left _ hid1, o3, ho3,
      by rw [Object.agrees_embedded ha, he1]⟩
  · intro w1 os ids _ ⟨hv1, hid1, o1, ho1, he1⟩
    have hp := Provide_provided ids { w1 with objs := w1.objs ++ os }
    obtain ⟨l, hl, _⟩ := hp.unnamed
    obtain ⟨o3, ho3, ha⟩ := hp.objs id o1 (get?_append_old os ho1)
    exact ⟨hp.keepsValid (validIds_append hv1 os), by rw [hl]; exact List.mem_append_left _ hid1,
      o3, ho3, by rw [Object.recached_embedded ha, he1]⟩

/-- `Populate` is a sequence of visits. -/
theorem Later.populate {env : Env} {allowed : Object → Prop} {w w1 : World}
    (h : Later env allowed w w1) (ord1 ord3 : List Nat) (fuel : Nat) :
    Later env allowed w (Graph.Populate env ord1 ord3 fuel w1).1 :=
  (Populate_inv env (fun w2 => Later env allowed w w2)
    (fun _ id c p i sf hl _ => Later.explicit id c p i sf hl)
    (fun _ id c p i sf hl _ => Later.interface id c p i sf hl) ord1 ord3 fuel w1 h).1


theorem get?_append_cases {α : Type} {l extra : List α} {k : Nat} {a : α}
    (h : (l ++ extra).get? k = some a) : l.get? k = some a ∨ a ∈ extra := by
  rw [List.get?_eq_getElem?] at h
  by_cases hk : k < l.length
  · rw [List.getElem?_append_left hk] at h
    left; rw [List.get?_eq_getElem?]; exact h
  · rw [List.getElem?_append_right (by omega)] at h
    exact Or.inr (List.getElem?_mem h)

theorem isCandidate_ext {env : Env} {w w1 : World} (h : Ext w w1) (t : GoType) {eid : Nat}
    {e : Object} (he : w.objs.get? eid = some e) :
    isCandidate env w1 t eid = isCandidate env w t eid := by
  obtain ⟨e1, he1, ha⟩ := h.objs eid e he
  unfold isCandidate
  rw [he, he1]
  unfold Object.agrees at ha
  cases e; cases e1
  simp_all

theorem isCandidate_eq {env : Env} {w : World} (t : GoType) {eid : Nat} {e : Object}
    {et : GoType} (he : w.objs.get? eid = some e) (het : e.reflectType = some et) :
    isCandidate env w t eid = (!e.private_ && et.AssignableTo env t) := by
  unfold isCandidate
  rw [he]
  simp only [het]

/-- The interface loop once an object has been found: a further candidate is
an error, and the world is not changed. -/
theorem interfaceScan_after {env : Env} {id c : Nat} {q : List Nat} {sf : StructField}
    (f : Nat) : ∀ (ids : List Nat) (w : World),
    (∀ eid ∈ ids, ∃ e et v, w.objs.get? eid = some e ∧ e.reflectType = some et ∧
      e.Value = some (et, v)) →
    interfaceScan env id c q sf ids (some f) w =
      match ids.filter (isCandidate env w sf.Typ) with
      | [] => (w, none, some f)
      | b :: _ => (w, some (.error (.twoAssignable sf.Name f b)), some f) := by
  intro ids
  induction ids with
  | nil => intro w _; rfl
  | cons a rest ih =>
    intro w hwf
    obtain ⟨e, et, v, he, het, hv⟩ := hwf a (List.mem_cons_self _ _)
    have ih2 := ih w (fun x hx => hwf x (List.mem_cons_of_mem _ hx))
    simp only [interfaceScan, he, het]
    cases hp : e.private_
    · by_cases hassign : GoType.AssignableTo env et sf.Typ = true
      · have hc : isCandidate env w sf.Typ a = true := by
          rw [isCandidate_eq _ he het, hassign, hp]; rfl
        simp only [Bool.false_eq_true, if_false, hassign, if_true, List.filter_cons, hc]
      · have hc : isCandidate env w sf.Typ a = false := by
          rw [isCandidate_eq _ he het]; simp [hassign]
        simp only [Bool.false_eq_true, if_false, hassign, List.filter_cons, hc]
        exact ih2
    · have hc : isCandidate env w sf.Typ a = false := by
        rw [isCandidate_eq _ he het, hp]; rfl
      simp only [if_true, List.filter_cons, hc, Bool.false_eq_true, if_false]
      exact ih2


theorem Object.agrees_reflectType {o o1 : Object} (h : o.agrees o1) :
    o1.reflectType = o.reflectType := by
  unfold Object.agrees at h
  cases o; cases o1
  simp_all

/-- The interface loop from its start, in terms of the candidates. -/
theorem interfaceScan_start (env : Env) (id : Nat) {c : Nat} {q : List Nat} {sf : StructField}
    {n : String} (hk : sf.Typ = .Interface n) (hexp : sf.Exported = true) :
    ∀ (ids : List Nat) (w : World),
    (∀ eid ∈ ids, ∃ e et v, w.objs.get? eid = some e ∧ e.reflectType = some et ∧
      e.Value = some (et, v)) →
    interfaceScan env id c q sf ids none w =
      match ids.filter (isCandidate env w sf.Typ) with
      | [] => (w, none, none)
      | [a] => ((w.store c q (ifaceValue w a)).addDependency id sf.Name a, none, some a)
      | a :: b :: _ =>
        ((w.store c q (ifaceValue w a)).addDependency id sf.Name a,
          some (.error (.twoAssignable sf.Name a b)), some a) := by
  intro ids
  induction ids with
  | nil => intro w _; rfl
  | cons a rest ih =>
    intro w hwf
    obtain ⟨e, et, v, he, het, hv⟩ := hwf a (List.mem_cons_self _ _)
    have hrest := fun x hx => hwf x (List.mem_cons_of_mem _ hx)
    have ih2 := ih w hrest
    simp only [interfaceScan, he, het]
    cases hp : e.private_
    · by_cases hassign : GoType.AssignableTo env et sf.Typ = true
      · have hc : isCandidate env w sf.Typ a = true := by
          rw [isCandidate_eq _ he het, hassign, hp]; rfl
        have hset : fieldSet env sf e.Value = some (.iface et v) := by
          have hassign2 := hassign
          rw [hk] at hassign2
          simp only [fieldSet, hexp, if_true, hv, setValue, hk, hassign2]
        have hval : ifaceValue w a = .iface et v := by
          simp only [ifaceValue, he, hv]
        simp only [Bool.false_eq_true, if_false, hassign, if_true, List.filter_cons, hc, hset]
        have hext : Ext w ((w.store c q (.iface et v)).addDependency id sf.Name a) :=
          (ext_store w c q _).trans (ext_addDependency _ id sf.Name a)
        have hwf1 : ∀ eid ∈ rest, ∃ e5 et5 v5,
            ((w.store c q (.iface et v)).addDependency id sf.Name a).objs.get? eid = some e5 ∧
            e5.reflectType = some et5 ∧ e5.Value = some (et5, v5) := by
          intro x hx
          obtain ⟨e2, et2, v2, he2, het2, hv2⟩ := hrest x hx
          obtain ⟨e3, he3, ha⟩ := hext.objs x e2 he2
          exact ⟨e3, et2, v2, he3, by rw [Object.agrees_reflectType ha, het2],
            by rw [Object.agrees_Value ha, hv2]⟩
        rw [interfaceScan_after a rest _ hwf1]
        have hfilter : rest.filter (isCandidate env
            ((w.store c q (.iface et v)).addDependency id sf.Name a) sf.Typ) =
            rest.filter (isCandidate env w sf.Typ) := by
          apply List.filter_congr
          intro x hx
          obtain ⟨e2, _, _, he2, _, _⟩ := hrest x hx
          exact isCandidate_ext hext _ he2
        rw [hfilter]
        cases rest.filter (isCandidate env w sf.Typ) <;> simp only [hval]
      · have hc : isCandidate env w sf.Typ a = false := by
          rw [isCandidate_eq _ he het]; simp [hassign]
        simp only [Bool.false_eq_true, if_false, hassign, List.filter_cons, hc]
        exact ih2
    · have hc : isCandidate env w sf.Typ a = false := by
        rw [isCandidate_eq _ he het, hp]; rfl
      simp only [if_true, List.filter_cons, hc, Bool.false_eq_true, if_false]
      exact ih2


theorem lookup_mapInsert_self (m : List (String × Nat)) (k : String) (v : Nat) :
    (mapInsert m k v).lookup k = some v := by
  induction m with
  | nil => simp [mapInsert, List.lookup]
  | cons a rest ih =>
    obtain ⟨k1, v1⟩ := a
    simp only [mapInsert]
    split
    · simp [List.lookup]
    · rename_i hk
      have : (k == k1) = false := by
        rw [beq_eq_false_iff_ne]
        intro h
        exact hk (by simp [h])
      simp only [List.lookup, this]
      exact ih

theorem Object.dependency_addDependency_self (o : Object) (k : String) (v : Nat) :
    (o.addDependency k v).dependency k = some v := by
  unfold Object.addDependency Object.dependency
  cases hf : o.Fields with
  | none => simpa using lookup_mapInsert_self [] k v
  | some m => simpa using lookup_mapInsert_self m k v


/-! ## Graphs of plain pointer fields -/

theorem load_field {w : World} {c : Nat} {p : List Nat} {fs : List Val}
    (h : w.load c p = some (.struct fs)) (i : Nat) :
    w.load c (p ++ [i]) = fs.get? i := by
  rw [load_append_path, h]
  simp only [Option.bind, Val.get]
  cases fs.get? i <;> rfl

theorem Zero_struct (env : Env) (s : String) :
    Zero env (.Struct s) = .struct ((env.fields s).map (fun f => zeroVal env env.structs.length f.Typ)) := by
  simp [Zero, Env.depth, zeroVal, zeroOf]

theorem zeroVal_ptr (env : Env) (d : Nat) (t : GoType) : zeroVal env d (.Ptr t) = .nil := by
  cases d <;> rfl

/-- Writing over a nil value keeps the values that are not nil so. -/
theorem load_store_nonNil {w : World} {c c2 : Nat} {q q2 : List Nat} {v : Val} (x : Val)
    (hz : w.load c q = some .nil) (hv : w.load c2 q2 = some v) (hnn : v.IsNil = false) :
    ∃ v1, (w.store c q x).load c2 q2 = some v1 ∧ v1.IsNil = false := by
  cases hl : v.isLeaf
  · cases v with
    | struct fs =>
      obtain ⟨fs2, h2, _⟩ := load_store_shape x hz rfl hv
      exact ⟨_, h2, rfl⟩
    | _ => simp [Val.isLeaf] at hl
  · refine ⟨v, load_store_leaf x hz rfl hv hl ?_, hnn⟩
    intro hc hq
    subst hc; subst hq
    rw [hz] at hv
    cases hv
    simp [Val.IsNil] at hnn

theorem findExisting_notFound_append {env : Env} {w : World} {t : GoType} :
    ∀ (ids extra : List Nat), findExisting env w t ids = .notFound →
      findExisting env w t (ids ++ extra) = findExisting env w t extra := by
  intro ids
  induction ids with
  | nil => intro extra _; rfl
  | cons a rest ih =>
    intro extra h
    simp only [findExisting, List.cons_append] at h ⊢
    split
    · rename_i ho; rw [ho] at h; simp at h
    · rename_i e he
      rw [he] at h
      simp only at h
      split
      · rename_i hp
        simp only [hp, if_true] at h
        exact ih extra h
      · rename_i hp
        simp only [hp, if_false] at h
        split
        · rename_i hr; rw [hr] at h; simp at h
        · rename_i et het
          rw [het] at h
          simp only at h
          split
          · rename_i ha; simp only [ha, if_true] at h; cases h
          · rename_i ha
            simp only [ha, if_false] at h
            exact ih extra h

theorem findExisting_found_append {env : Env} {w : World} {t : GoType} {e : Nat} :
    ∀ (ids extra : List Nat), findExisting env w t ids = .found e →
      findExisting env w t (ids ++ extra) = .found e := by
  intro ids
  induction ids with
  | nil => intro extra h; simp [findExisting] at h
  | cons a rest ih =>
    intro extra h
    simp only [findExisting, List.cons_append] at h ⊢
    split
    · rename_i ho; rw [ho] at h; simp at h
    · rename_i e1 he
      rw [he] at h
      simp only at h
      split
      · rename_i hp
        simp only [hp, if_true] at h
        exact ih extra h
      · rename_i hp
        simp only [hp, if_false] at h
        split
        · rename_i hr; rw [hr] at h; simp at h
        · rename_i et het
          rw [het] at h
          simp only at h
          split
          · rename_i ha; simp only [ha, if_true] at h; exact h
          · rename_i ha
            simp only [ha, if_false] at h
            exact ih extra h

/-- The scan for an existing instance reads only the private flags and the
cached types of the objects of the list. -/
theorem findExisting_congr {env : Env} {w w1 : World} {t : GoType} :
    ∀ (ids : List Nat),
      (∀ id ∈ ids, ∃ o o1, w.objs.get? id = some o ∧ w1.objs.get? id = some o1 ∧
        o1.private_ = o.private_ ∧ o1.reflectType = o.reflectType) →
      findExisting env w1 t ids = findExisting env w t ids := by
  intro ids
  induction ids with
  | nil => intro _; rfl
  | cons a rest ih =>
    intro h
    obtain ⟨o, o1, ho, ho1, hp, hr⟩ := h a (List.mem_cons_self _ _)
    have ih2 := ih (fun x hx => h x (List.mem_cons_of_mem _ hx))
    simp only [findExisting, ho, ho1, hp, hr, ih2]


theorem countP_succ_le {α : Type} (l : List α) (p q : α → Bool)
    (hpq : ∀ x, q x = true → p x = true) {a : α} (ha : a ∈ l) (hpa : p a = true)
    (hqa : q a = false) : l.countP q + 1 ≤ l.countP p := by
  induction l with
  | nil => simp at ha
  | cons x rest ih =>
    have hmono : rest.countP q ≤ rest.countP p := List.countP_mono_left (fun y _ h => hpq y h)
    rcases List.mem_cons.mp ha with h | h
    · subst h
      simp only [List.countP_cons, hpa, hqa, if_true, Bool.false_eq_true, if_false]
      omega
    · have := ih h
      simp only [List.countP_cons]
      cases hq : q x
      · cases hp : p x
        · simp only [Bool.false_eq_true, if_false]; omega
        · simp only [Bool.false_eq_true, if_false, if_true]; omega
      · simp only [hpq x hq, if_true]; omega

theorem assignable_self (env : Env) (t : GoType) : t.AssignableTo env t = true := by
  simp [GoType.AssignableTo]

theorem assignable_ptr {env : Env} {t : GoType} {u : GoType} (h : t.AssignableTo env (.Ptr u) = true) :
    t = .Ptr u := by
  simpa [GoType.AssignableTo] using h

theorem findExisting_no_panic {env : Env} {w : World} {t : GoType} :
    ∀ (ids : List Nat),
      (∀ id ∈ ids, ∃ o et, w.objs.get? id = some o ∧ o.reflectType = some et) →
      findExisting env w t ids ≠ .panic := by
  intro ids
  induction ids with
  | nil => intro _ h; cases h
  | cons a rest ih =>
    intro h
    obtain ⟨o, et, ho, het⟩ := h a (List.mem_cons_self _ _)
    have ih2 := ih (fun x hx => h x (List.mem_cons_of_mem _ hx))
    simp only [findExisting, ho, het]
    split
    · exact ih2
    · split
      · intro h2; cases h2
      · exact ih2

/-- The visit of a field without annotation. -/
theorem explicitStep_bare {env : Env} (w : World) (id c : Nat) (p : List Nat) (i : Nat)
    {sf : StructField} (htag : parseTag env sf.Tag = .ok none) :
    explicitStep env w id c p i sf = (w, none) := by
  unfold explicitStep
  simp only [htag]

/-- The visit of a plain-request pointer field that is not nil. -/
theorem explicitStep_nonNil {env : Env} {w : World} (id : Nat) {c : Nat} {p : List Nat}
    {i : Nat} {sf : StructField} {s : String} {v : Val}
    (htag : parseTag env sf.Tag = .ok (some injectOnly)) (hexp : sf.Exported = true)
    (htyp : sf.Typ = .Ptr (.Struct s)) (hv : w.load c (p ++ [i]) = some v)
    (hnn : v.IsNil = false) :
    explicitStep env w id c p i sf = (w, none) := by
  unfold explicitStep
  simp only [htag, hexp, hv, htyp, isNilOrZero, GoType.Kind, injectOnly, hnn]
  simp

/-- The visit of a nil plain-request pointer field for which an existing
instance is found. -/
theorem explicitStep_existing {env : Env} {w : World} (id : Nat) {c : Nat} {p : List Nat}
    {i : Nat} {sf : StructField} {s : String} {eid : Nat} {e : Object} {v : Val}
    (htag : parseTag env sf.Tag = .ok (some injectOnly)) (hexp : sf.Exported = true)
    (htyp : sf.Typ = .Ptr (.Struct s)) (hnil : w.load c (p ++ [i]) = some .nil)
    (hfound : findExisting env w sf.Typ w.g.unnamed = .found eid)
    (he : w.objs.get? eid = some e) (hset : setValue env sf.Typ e.Value = some v) :
    explicitStep env w id c p i sf =
      ((w.store c (p ++ [i]) v).addDependency id sf.Name eid, none) := by
  unfold explicitStep
  simp only [htag, hexp, hnil, htyp, isNilOrZero, GoType.Kind, Val.IsNil, injectOnly,
    isStructPtr, GoType.Elem]
  simp only [Bool.not_true, Bool.false_eq_true, if_false, Bool.false_and, bne_self_eq_false,
    Bool.not_false, Bool.true_and, beq_self_eq_true, if_true]
  rw [htyp] at hfound hset
  simp only [injectPointer, htyp, Bool.not_false, if_true, hfound, he, hset]
  simp


theorem Progress.same (env : Env) (w : World) : Progress env w w :=
  ⟨Ext.refl w, fun _ _ v h hn => ⟨v, h, hn⟩, le_refl _⟩

theorem Progress.chain {env : Env} {a b c : World} (h1 : Progress env a b)
    (h2 : Progress env b c) : Progress env a c := by
  refine ⟨h1.ext.trans h2.ext, ?_, le_trans h2.measure h1.measure⟩
  intro k q v hv hn
  obtain ⟨v1, hv1, hn1⟩ := h1.nonNil k q v hv hn
  exact h2.nonNil k q v1 hv1 hn1

theorem Object.agrees_Name {o o1 : Object} (h : o.agrees o1) : o1.Name = o.Name := by
  unfold Object.agrees at h
  cases o; cases o1
  simp_all

theorem Object.agrees_reflectValue {o o1 : Object} (h : o.agrees o1) :
    o1.reflectValue = o.reflectValue := by
  unfold Object.agrees at h
  cases o; cases o1
  simp_all

/-- The scans of a world and of an extension of it with the same unnamed
bucket agree. -/
theorem missing_same {env : Env} {w w1 : World} (hext : Ext w w1)
    (hu : w1.g.unnamed = w.g.unnamed) (hvalid : ∀ id ∈ w.g.unnamed, ∃ o, w.objs.get? id = some o) :
    missing env w1 = missing env w := by
  unfold missing
  apply List.countP_congr
  intro t _
  have : findExisting env w1 t w1.g.unnamed = findExisting env w t w.g.unnamed := by
    rw [hu]
    apply findExisting_congr
    intro id hid
    obtain ⟨o, ho⟩ := hvalid id hid
    obtain ⟨o1, ho1, ha⟩ := hext.objs id o ho
    exact ⟨o, o1, ho, ho1, Object.agrees_private ha, Object.agrees_reflectType ha⟩
  rw [this]

/-- Assigning to a nil field keeps a graph of plain pointer fields good. -/
theorem good_assign {env : Env} {R : String → Prop} {w : World} {c : Nat} {q : List Nat}
    (hgood : Good env R w) (hnil : w.load c q = some .nil) (x : Val) (id : Nat) (n : String)
    (e : Nat) :
    Good env R ((w.store c q x).addDependency id n e) ∧
    Progress env w ((w.store c q x).addDependency id n e) := by
  have hext : Ext w ((w.store c q x).addDependency id n e) :=
    (ext_store w c q x).trans (ext_addDependency _ id n e)
  refine ⟨⟨by simpa using hgood.named, by simpa using hgood.flags, ?_⟩, ⟨hext, ?_, ?_⟩⟩
  · intro k hk
    simp only [addDependency_g, store_g] at hk
    obtain ⟨o, s, c2, p2, fs, ho, h1, h2, h3, h4, h5, h6, h7, h8, h9⟩ := hgood.objs k hk
    obtain ⟨o1, ho1, ha⟩ := hext.objs k o ho
    obtain ⟨fs2, hfs2, hlen⟩ := load_store_shape x hnil rfl h8
    exact ⟨o1, s, c2, p2, fs2, ho1, by rw [Object.agrees_Completed ha, h1],
      by rw [Object.agrees_private ha, h2], by rw [Object.agrees_Name ha, h3],
      by rw [Object.agrees_reflectType ha, h4], by rw [Object.agrees_reflectValue ha, h5],
      by rw [Object.agrees_Value ha, h6], h7, by rw [addDependency_load]; exact hfs2,
      by rw [hlen, h9]⟩
  · intro k q2 v hv hn
    rw [addDependency_load]
    exact load_store_nonNil x hnil hv hn
  · rw [missing_same hext (by simp) (fun k hk => by
      obtain ⟨o, _, _, _, _, ho, _⟩ := hgood.objs k hk
      exact ⟨o, ho⟩)]
    simp


theorem findExisting_single {env : Env} {w : World} {t : GoType} {n : Nat} {o : Object}
    (ho : w.objs.get? n = some o) (hp : o.private_ = false) (ht : o.reflectType = some t) :
    findExisting env w t [n] = .found n := by
  simp only [findExisting, ho, hp, ht, assignable_self]
  simp

/-- Appending a created object for a field type without existing instance
uses up a missing field type. -/
theorem missing_created {env : Env} {w w1 : World} {t0 : GoType} {o : Object}
    (hext : Ext w w1) (hu : w1.g.unnamed = w.g.unnamed ++ [w.objs.length])
    (hvalid : ∀ id ∈ w.g.unnamed, ∃ o et, w.objs.get? id = some o ∧ o.reflectType = some et)
    (hnew : w1.objs.get? w.objs.length = some o) (hp : o.private_ = false)
    (ht : o.reflectType = some t0) (hmem : t0 ∈ env.fieldTypes)
    (hnone : findExisting env w t0 w.g.unnamed = .notFound) :
    missing env w1 + 1 ≤ missing env w := by
  have hcongr : ∀ t, findExisting env w1 t w.g.unnamed = findExisting env w t w.g.unnamed := by
    intro t
    apply findExisting_congr
    intro id hid
    obtain ⟨o2, _, ho2, _⟩ := hvalid id hid
    obtain ⟨o1, ho1, ha⟩ := hext.objs id o2 ho2
    exact ⟨o2, o1, ho2, ho1, Object.agrees_private ha, Object.agrees_reflectType ha⟩
  unfold missing
  refine countP_succ_le _ _ _ ?_ hmem ?_ ?_
  · intro t hq
    rw [hu] at hq
    cases hf : findExisting env w t w.g.unnamed with
    | panic => exact absurd hf (findExisting_no_panic _ hvalid)
    | notFound => rfl
    | found e =>
      rw [findExisting_found_append _ _ (by rw [hcongr]; exact hf)] at hq
      simp at hq
  · rw [hnone]; rfl
  · rw [hu, findExisting_notFound_append _ _ (by rw [hcongr]; exact hnone),
      findExisting_single hnew hp ht]
    rfl

/-- Creating an instance for a nil field keeps a graph of plain pointer fields
good. -/
theorem good_create {env : Env} {R : String → Prop} {w : World} {c : Nat} {q : List Nat}
    {s2 : String} (hgood : Good env R w) (hnil : w.load c q = some .nil) (hR : R s2)
    (hmem : GoType.Ptr (.Struct s2) ∈ env.fieldTypes)
    (hnone : findExisting env w (.Ptr (.Struct s2)) w.g.unnamed = .notFound)
    {id : Nat} (hid : id < w.objs.length) (n : String) :
    Good env R (((w.allocated env (.Ptr (.Struct s2)) s2 false).store c q
      (.ptr w.mem.length [])).addDependency id n w.objs.length) ∧
    Progress env w (((w.allocated env (.Ptr (.Struct s2)) s2 false).store c q
      (.ptr w.mem.length [])).addDependency id n w.objs.length) := by
  have hext : Ext w (((w.allocated env (.Ptr (.Struct s2)) s2 false).store c q
      (.ptr w.mem.length [])).addDependency id n w.objs.length) :=
    ((ext_allocated env w _ s2 false).trans (ext_store _ c q _)).trans
      (ext_addDependency _ id n _)
  have hc : c < w.mem.length := load_lt hnil
  have hnil2 : (w.allocated env (.Ptr (.Struct s2)) s2 false).load c q = some .nil :=
    load_append (w := w) _ hnil
  have hnewobj : (((w.allocated env (.Ptr (.Struct s2)) s2 false).store c q
      (.ptr w.mem.length [])).addDependency id n w.objs.length).objs.get? w.objs.length =
      some (createdObject (.Ptr (.Struct s2)) w.mem.length false) := by
    rw [addDependency_get, if_neg (by omega), store_objs]
    simp only [World.allocated]
    exact get?_append_new _ _
  have hunnamed : (((w.allocated env (.Ptr (.Struct s2)) s2 false).store c q
      (.ptr w.mem.length [])).addDependency id n w.objs.length).g.unnamed =
      w.g.unnamed ++ [w.objs.length] := by
    simp [World.allocated]
  refine ⟨⟨by simpa [World.allocated] using hgood.named,
    by simpa [World.allocated] using hgood.flags, ?_⟩, ⟨hext, ?_, ?_⟩⟩
  · intro k hk
    rw [hunnamed] at hk
    rcases List.mem_append.mp hk with hk | hk
    · obtain ⟨o, s, c2, p2, fs, ho, h1, h2, h3, h4, h5, h6, h7, h8, h9⟩ := hgood.objs k hk
      obtain ⟨o1, ho1, ha⟩ := hext.objs k o ho
      obtain ⟨fs2, hfs2, hlen⟩ := load_store_shape (.ptr w.mem.length []) hnil2 rfl
        (load_append (w := w) [Zero env (.Struct s2)] h8)
      exact ⟨o1, s, c2, p2, fs2, ho1, by rw [Object.agrees_Completed ha, h1],
        by rw [Object.agrees_private ha, h2], by rw [Object.agrees_Name ha, h3],
        by rw [Object.agrees_reflectType ha, h4], by rw [Object.agrees_reflectValue ha, h5],
        by rw [Object.agrees_Value ha, h6], h7, by rw [addDependency_load]; exact hfs2,
        by rw [hlen, h9]⟩
    · simp only [List.mem_singleton] at hk
      subst hk
      refine ⟨_, s2, w.mem.length, [],
        (env.fields s2).map (fun f => zeroVal env env.structs.length f.Typ),
        hnewobj, rfl, rfl, rfl, rfl, rfl, rfl, hR, ?_, ?_⟩
      · rw [addDependency_load, load_store_other_cell _ (by omega)]
        unfold World.load
        simp only [World.allocated]
        rw [get?_append_new, Zero_struct]
        rfl
      · simp
  · intro k q2 v hv hn
    rw [addDependency_load]
    exact load_store_nonNil _ hnil2 (load_append (w := w) _ hv) hn
  · have := missing_created hext hunnamed (fun k hk => by
      obtain ⟨o, s, _, _, _, ho, _, _, _, h4, _⟩ := hgood.objs k hk
      exact ⟨o, _, ho, h4⟩) hnewobj rfl rfl hmem hnone
    rw [hunnamed]
    simp only [List.length_append, List.length_singleton]
    omega


/-- One visit on a graph of plain pointer fields: it goes on without error,
keeps the graph good, and leaves the visited field, when annotated, not nil. -/
theorem good_step {env : Env} {R : String → Prop} {w : World} (id : Nat) {c : Nat} {p : List Nat}
    {s : String} {fs : List Val} {i : Nat} {sf : StructField}
    (hgood : Good env R w) (hid : id < w.objs.length)
    (hload : w.load c p = some (.struct fs)) (hlen : fs.length = (env.fields s).length)
    (hfield : (env.fields s).get? i = some sf) (hsf : plainPointerOrBare env sf)
    (hR : ∀ s2, sf.Typ = .Ptr (.Struct s2) → R s2) (hT : sf.Typ ∈ env.fieldTypes) :
    ∃ w1, explicitStep env w id c p i sf = (w1, none) ∧ Good env R w1 ∧ Progress env w w1 ∧
      (parseTag env sf.Tag ≠ .ok none →
        ∃ v, w1.load c (p ++ [i]) = some v ∧ v.IsNil = false) := by
  rcases hsf with hbare | ⟨htag, hexp, s2, htyp⟩
  · exact ⟨w, explicitStep_bare w id c p i hbare, hgood, Progress.same env w,
      fun h => absurd hbare h⟩
  · have hi : i < fs.length := by rw [hlen]; exact get?_lt hfield
    have hv : w.load c (p ++ [i]) = some fs[i] := by
      rw [load_field hload, List.get?_eq_getElem?]; simp [hi]
    cases hn : fs[i].IsNil
    · exact ⟨w, explicitStep_nonNil id htag hexp htyp hv hn, hgood, Progress.same env w,
        fun _ => ⟨_, hv, hn⟩⟩
    · have hnil : w.load c (p ++ [i]) = some .nil := by
        rw [hv]
        cases hfi : fs[i] <;> rw [hfi] at hn <;> simp [Val.IsNil] at hn
      have hvalid : ∀ k ∈ w.g.unnamed, ∃ o et, w.objs.get? k = some o ∧
          o.reflectType = some et := by
        intro k hk
        obtain ⟨o, s3, _, _, _, ho, _, _, _, h4, _⟩ := hgood.objs k hk
        exact ⟨o, _, ho, h4⟩
      cases hf : findExisting env w sf.Typ w.g.unnamed with
      | panic => exact absurd hf (findExisting_no_panic _ hvalid)
      | found eid =>
        obtain ⟨hmem, e, et, he, _, het, hassign⟩ := findExisting_found hf
        obtain ⟨e2, s3, c3, p3, fs3, he2, _, _, _, h4, _, h6, _⟩ := hgood.objs eid hmem
        rw [he] at he2
        cases he2
        rw [het] at h4
        cases h4
        have hset : setValue env sf.Typ e.Value = some (.ptr c3 p3) := by
          rw [htyp] at hassign
          simp only [h6, setValue, hassign, if_true, htyp]
        obtain ⟨hg1, hp1⟩ := good_assign hgood hnil (.ptr c3 p3) id sf.Name eid
        refine ⟨_, explicitStep_existing id htag hexp htyp hnil hf he hset, hg1, hp1, ?_⟩
        intro _
        exact ⟨.ptr c3 p3, by rw [addDependency_load]; exact load_store_same _ hnil, rfl⟩
      | notFound =>
        have hstep := explicitStep_create id htag rfl rfl hexp htyp hnil (fun _ => hf)
          (fun _ => hgood.flags _)
        rw [htyp] at hf hT hstep
        obtain ⟨hg1, hp1⟩ := good_create hgood hnil (hR s2 htyp) hT hf hid sf.Name
        refine ⟨_, hstep, hg1, hp1, ?_⟩
        intro _
        refine ⟨.ptr w.mem.length [], ?_, rfl⟩
        rw [addDependency_load]
        exact load_store_same _ (load_append (w := w) _ hnil)


theorem lookup_mem {α : Type} {l : List (String × α)} {k : String} {v : α}
    (h : l.lookup k = some v) : (k, v) ∈ l := by
  induction l with
  | nil => simp at h
  | cons a rest ih =>
    obtain ⟨k1, v1⟩ := a
    simp only [List.lookup] at h
    split at h
    · rename_i hk
      simp only [Option.some.injEq] at h
      have : k = k1 := by simpa using hk
      subst this; subst h
      exact List.mem_cons_self _ _
    · exact List.mem_cons_of_mem _ (ih h)

theorem fields_mem_fieldTypes {env : Env} {s : String} {sf : StructField}
    (h : sf ∈ env.fields s) : sf.Typ ∈ env.fieldTypes := by
  unfold Env.fields at h
  split at h
  · rename_i fs hl
    unfold Env.fieldTypes
    rw [List.mem_flatten]
    exact ⟨fs.map (fun f => f.Typ), List.mem_map.mpr ⟨(s, fs), lookup_mem hl, rfl⟩,
      List.mem_map.mpr ⟨sf, h, rfl⟩⟩
  · simp at h

theorem good_fieldLoop {env : Env} {R : String → Prop} (hfields : PlainFields env R)
    (id : Nat) {s : String} (c : Nat) (p : List Nat) (hR : R s) :
    ∀ (rest : List StructField) (i : Nat) (w : World),
      (∀ k sf, rest.get? k = some sf → (env.fields s).get? (i + k) = some sf) →
      Good env R w → id ∈ w.g.unnamed →
      (∃ o, w.objs.get? id = some o ∧ o.reflectType = some (.Ptr (.Struct s)) ∧
        o.reflectValue = some (.Ptr (.Struct s), .ptr c p)) →
      ∃ w1, fieldLoop (fun w2 j sf => explicitStep env w2 id c p j sf) rest i w = (w1, .nil) ∧
        Good env R w1 ∧ Progress env w w1 ∧
        ∀ k sf, rest.get? k = some sf → parseTag env sf.Tag ≠ .ok none →
          ∃ v, w1.load c (p ++ [i + k]) = some v ∧ v.IsNil = false := by
  intro rest
  induction rest with
  | nil =>
    intro i w _ hgood _ _
    exact ⟨w, rfl, hgood, Progress.same env w, fun k sf h => by simp at h⟩
  | cons sf rest ih =>
    intro i w hidx hgood hid ⟨o, ho, hrt, hrv⟩
    obtain ⟨o2, s2, c2, p2, fs, ho2, _, _, _, h4, h5, _, _, hload, hlen⟩ := hgood.objs id hid
    rw [ho] at ho2
    cases ho2
    rw [hrt] at h4
    cases h4
    rw [hrv] at h5
    cases h5
    have hfield : (env.fields s).get? i = some sf := by simpa using hidx 0 sf rfl
    have hmem : sf ∈ env.fields s := List.get?_mem hfield
    obtain ⟨hsf, hRsf⟩ := hfields s hR sf hmem
    obtain ⟨w1, hstep, hg1, hp1, hnn1⟩ := good_step id hgood (get?_lt ho) hload hlen
      hfield hsf hRsf (fields_mem_fieldTypes hmem)
    obtain ⟨o1, ho1, ha⟩ := hp1.ext.objs id o ho
    obtain ⟨l, hl⟩ := hp1.ext.unnamed
    obtain ⟨w2, hloop, hg2, hp2, hnn2⟩ := ih (i + 1) w1
      (fun k sf2 hk => by
        have := hidx (k + 1) sf2 (by simpa using hk)
        rw [show i + 1 + k = i + (k + 1) by omega]; exact this)
      hg1 (by rw [hl]; exact List.mem_append_left _ hid)
      ⟨o1, ho1, by rw [Object.agrees_reflectType ha, hrt],
        by rw [Object.agrees_reflectValue ha, hrv]⟩
    refine ⟨w2, by simp only [fieldLoop, hstep]; exact hloop, hg2, hp1.chain hp2, ?_⟩
    intro k sf2 hk hann
    cases k with
    | zero =>
      simp only [List.get?_cons_zero, Option.some.injEq] at hk
      subst hk
      obtain ⟨v, hv, hn⟩ := hnn1 hann
      exact hp2.nonNil _ _ v hv hn
    | succ k =>
      have := hnn2 k sf2 (by simpa using hk) hann
      rw [show i + (k + 1) = i + 1 + k by omega]
      exact this


theorem Filled.progress {env : Env} {w w1 : World} {id : Nat} (h : Filled env w id)
    (hp : Progress env w w1) : Filled env w1 id := by
  obtain ⟨o, s, c, p, ho, ht, hf⟩ := h
  obtain ⟨o1, ho1, ha⟩ := hp.ext.objs id o ho
  refine ⟨o1, s, c, p, ho1, by rw [Object.agrees_target ha, ht], ?_⟩
  intro i sf hi hann
  obtain ⟨v, hv, hn⟩ := hf i sf hi hann
  exact hp.nonNil _ _ v hv hn

theorem good_traverse {env : Env} {R : String → Prop} (hfields : PlainFields env R)
    {w : World} {id : Nat} (hgood : Good env R w) (hid : id ∈ w.g.unnamed) :
    ∃ w1, traverse env (explicitStep env) w id = (w1, .nil) ∧ Good env R w1 ∧
      Progress env w w1 ∧ Filled env w1 id := by
  obtain ⟨o, s, c, p, fs, ho, _, _, hname, hrt, hrv, _, hR, _, _⟩ := hgood.objs id hid
  obtain ⟨w1, hloop, hg1, hp1, hnn⟩ := good_fieldLoop hfields id c p hR
    (env.fields s) 0 w (fun k sf hk => by simpa using hk) hgood hid ⟨o, ho, hrt, hrv⟩
  have htarget : o.target = some (s, c, p) := by simp only [Object.target, hrt, hrv]
  refine ⟨w1, ?_, hg1, hp1, ?_⟩
  · unfold traverse
    simp only [ho, Object.ignored, hname, htarget]
    simpa using hloop
  · obtain ⟨o1, ho1, ha⟩ := hp1.ext.objs id o ho
    refine ⟨o1, s, c, p, ho1, by rw [Object.agrees_target ha, htarget], ?_⟩
    intro i sf hi hann
    simpa using hnn i sf hi hann

theorem good_unnamedLoop {env : Env} {R : String → Prop} (hfields : PlainFields env R) :
    ∀ (fuel i : Nat) (w : World), Good env R w → i ≤ w.g.unnamed.length →
      (∀ j id, j < i → w.g.unnamed.get? j = some id → Filled env w id) →
      (w.g.unnamed.length - i) + missing env w < fuel →
      ∃ w1, unnamedLoop env fuel i w = (w1, .nil) ∧ Good env R w1 ∧ Progress env w w1 ∧
        ∀ id ∈ w1.g.unnamed, Filled env w1 id := by
  intro fuel
  induction fuel with
  | zero => intro i w _ _ _ h; omega
  | succ fuel ih =>
    intro i w hgood hile hfilled hfuel
    by_cases hi : i = w.g.unnamed.length
    · refine ⟨w, by simp [unnamedLoop, hi], hgood, Progress.same env w, ?_⟩
      intro id hid
      obtain ⟨j, hj⟩ := List.get?_of_mem hid
      exact hfilled j id (by rw [hi]; exact get?_lt hj) hj
    · have hlt : i < w.g.unnamed.length := by omega
      have hget : w.g.unnamed.get? i = some w.g.unnamed[i] := by
        rw [List.get?_eq_getElem?]; simp [hlt]
      have hid : w.g.unnamed[i] ∈ w.g.unnamed := List.getElem_mem hlt
      obtain ⟨o, _, _, _, _, ho, hcomp, _⟩ := hgood.objs _ hid
      obtain ⟨w1, htr, hg1, hp1, hf1⟩ := good_traverse hfields hgood hid
      obtain ⟨l, hl⟩ := hp1.ext.unnamed
      have hm := hp1.measure
      obtain ⟨w2, hloop, hg2, hp2, hall⟩ := ih (i + 1) w1 hg1
        (by rw [hl, List.length_append]; omega)
        (fun j id hj hjid => by
          by_cases hji : j = i
          · subst hji
            have : w1.g.unnamed.get? j = some w.g.unnamed[j] := by
              rw [hl, List.get?_eq_getElem?, List.getElem?_append_left hlt]; simp [hlt]
            rw [this] at hjid
            cases hjid
            exact hf1
          · have hjlt : j < i := by omega
            have : w.g.unnamed.get? j = some id := by
              rw [hl, List.get?_eq_getElem?, List.getElem?_append_left (by omega)] at hjid
              rw [List.get?_eq_getElem?]; exact hjid
            exact (hfilled j id hjlt this).progress hp1)
        (by
          rw [hl, List.length_append] at hm ⊢
          omega)
      refine ⟨w2, ?_, hg2, hp1.chain hp2, hall⟩
      have hne : (i == w.g.unnamed.length) = false := by simpa using hi
      simp only [unnamedLoop, hne, Bool.false_eq_true, if_false, hget, ho, hcomp,
        Graph.populateExplicit, htr]
      exact hloop


theorem plain_interfaceStep {env : Env} {sf : StructField} (hp : plainPointerOrBare env sf)
    (w : World) (id c : Nat) (p : List Nat) (i : Nat) :
    interfaceStep env w id c p i sf = (w, none) := by
  rcases hp with h | ⟨h, _, s2, ht⟩
  · simp only [interfaceStep, h]
  · simp [interfaceStep, h, ht, GoType.Kind]

theorem plain_interface_fieldLoop {env : Env} (id c : Nat) (p : List Nat) :
    ∀ (rest : List StructField) (i : Nat) (w : World),
      (∀ sf ∈ rest, plainPointerOrBare env sf) →
      fieldLoop (fun w1 j sf => interfaceStep env w1 id c p j sf) rest i w = (w, .nil) := by
  intro rest
  induction rest with
  | nil => intro i w _; rfl
  | cons sf rest ih =>
    intro i w h
    simp only [fieldLoop, plain_interfaceStep (h sf (List.mem_cons_self _ _))]
    exact ih (i + 1) w (fun sf2 h2 => h sf2 (List.mem_cons_of_mem _ h2))

theorem plain_interface_pass {env : Env} {R : String → Prop} (hfields : PlainFields env R)
    {w : World} (hgood : Good env R w) :
    ∀ ids : List Nat, (∀ id ∈ ids, id ∈ w.g.unnamed) →
      forEachIncomplete (Graph.populateUnnamedInterface env) ids w = (w, .nil) := by
  intro ids
  induction ids with
  | nil => intro _; rfl
  | cons id rest ih =>
    intro h
    obtain ⟨o, s, c, p, fs, ho, hcomp, _, hname, hrt, hrv, _, hR, _, _⟩ :=
      hgood.objs id (h id (List.mem_cons_self _ _))
    have htarget : o.target = some (s, c, p) := by simp only [Object.target, hrt, hrv]
    have htr : Graph.populateUnnamedInterface env w id = (w, .nil) := by
      unfold Graph.populateUnnamedInterface traverse
      simp only [ho, Object.ignored, hname, htarget]
      simpa using plain_interface_fieldLoop id c p (env.fields s) 0 w
        (fun sf hsf => (hfields s hR sf hsf).1)
    simp only [forEachIncomplete, ho, hcomp, Bool.false_eq_true, if_false, htr]
    exact ih (fun id2 h2 => h id2 (List.mem_cons_of_mem _ h2))

theorem good_provide {env : Env} {R : String → Prop} :
    ∀ (ids : List Nat) (w : World), Good env R w →
      (∀ id ∈ ids, ∃ o s c p fs, w.objs.get? id = some o ∧
        o.Value = some (.Ptr (.Struct s), .ptr c p) ∧ o.Name = "" ∧ o.Completed = false ∧
        o.Fields = none ∧ o.private_ = false ∧ R s ∧
        w.load c p = some (.struct fs) ∧ fs.length = (env.fields s).length) →
      ∃ w1, Graph.Provide w ids = (w1, .nil) ∧ Good env R w1 ∧
        w1.g.unnamed = w.g.unnamed ++ ids := by
  intro ids
  induction ids with
  | nil => intro w hg _; exact ⟨w, rfl, hg, by simp⟩
  | cons id rest ih =>
    intro w hgood hids
    obtain ⟨o, s, c, p, fs, ho, hV, hN, hC, hF, hP, hR, hload, hlen⟩ :=
      hids id (List.mem_cons_self _ _)
    have hlt := get?_lt ho
    let object : Object :=
      { o with reflectType := o.Value.map Prod.fst, reflectValue := o.Value }
    let w2 : World :=
      { w.setObj id object with g := { w.g with unnamed := w.g.unnamed ++ [id] } }
    have hself : w2.objs.get? id = some object := by
      simp [w2, World.setObj, List.getElem?_set, hlt]
    have hother : ∀ k, k ≠ id → w2.objs.get? k = w.objs.get? k := by
      intro k hk
      simp [w2, World.setObj, List.getElem?_set, Ne.symm hk]
    have hloadeq : ∀ k q, w2.load k q = w.load k q := fun _ _ => rfl
    have hgood2 : Good env R w2 := by
      refine ⟨hgood.named, hgood.flags, ?_⟩
      intro k hk
      by_cases hkid : k = id
      · subst hkid
        exact ⟨object, s, c, p, fs, hself, hC, hP, hN, by simp [object, hV],
          by simp [object, hV], hV, hR, by rw [hloadeq]; exact hload, hlen⟩
      · have hk2 : k ∈ w.g.unnamed := by
          have : k ∈ w.g.unnamed ++ [id] := hk
          rcases List.mem_append.mp this with h | h
          · exact h
          · simp at h; exact absurd h hkid
        obtain ⟨o2, s2, c2, p2, fs2, h1, h2⟩ := hgood.objs k hk2
        exact ⟨o2, s2, c2, p2, fs2, by rw [hother k hkid]; exact h1, h2⟩
    have hids2 : ∀ k ∈ rest, ∃ o s c p fs, w2.objs.get? k = some o ∧
        o.Value = some (.Ptr (.Struct s), .ptr c p) ∧ o.Name = "" ∧ o.Completed = false ∧
        o.Fields = none ∧ o.private_ = false ∧ R s ∧
        w2.load c p = some (.struct fs) ∧ fs.length = (env.fields s).length := by
      intro k hk
      by_cases hkid : k = id
      · subst hkid
        exact ⟨object, s, c, p, fs, hself, hV, hN, hC, hF, hP, hR, hload, hlen⟩
      · obtain ⟨o2, s2, c2, p2, fs2, h1, h2⟩ := hids k (List.mem_cons_of_mem _ hk)
        exact ⟨o2, s2, c2, p2, fs2, by rw [hother k hkid]; exact h1, h2⟩
    obtain ⟨w3, hprov, hg3, hu3⟩ := ih w2 hgood2 hids2
    refine ⟨w3, ?_, hg3, by rw [hu3]; simp [w2, World.setObj]⟩
    have hflag : ∀ x, typeFlag (w.setObj id x).g.unnamedType (.Ptr (.Struct s)) = false :=
      fun _ => hgood.flags _
    have hsp : isStructPtr (.Ptr (.Struct s)) = true := isStructPtr_iff.mpr ⟨s, rfl⟩
    simp only [Graph.Provide, ho, hF, hN, hV, Option.map, Option.isSome, hsp, hP, hflag,
      Bool.false_eq_true, if_false, beq_self_eq_true, if_true, Bool.not_true, Bool.not_false]
    cases o
    simp only at hV hN hC hF hP
    subst hV hN hC hF hP
    exact hprov


theorem serverEnv_plain (s : String) (sf : StructField) (h : sf ∈ serverEnv.fields s) :
    plainPointerOrBare serverEnv sf := by
  have hall : ∀ d ∈ serverEnv.structs, ∀ f ∈ d.2,
      parseTag serverEnv f.Tag = .ok none ∨
        (parseTag serverEnv f.Tag = .ok (some injectOnly) ∧ f.Exported = true ∧
          (isStructPtr f.Typ = true)) := by
    intro d hd f hf
    simp only [serverEnv, List.mem_cons, List.mem_singleton, List.not_mem_nil, or_false] at hd
    rcases hd with rfl | rfl | rfl | rfl | rfl | rfl | rfl <;>
      simp only [List.mem_cons, List.mem_singleton, List.not_mem_nil, or_false] at hf <;>
      rcases hf with rfl | rfl | rfl <;>
      first
        | exact Or.inl rfl
        | exact Or.inr ⟨rfl, rfl, rfl⟩
  unfold Env.fields at h
  split at h
  · rename_i fs hl
    rcases hall _ (lookup_mem hl) sf h with h1 | ⟨h1, h2, h3⟩
    · exact Or.inl h1
    · exact Or.inr ⟨h1, h2, isStructPtr_iff.mp h3⟩
  · simp at h


theorem matchProvide_ne_nil (r : World × Outcome) (f : World → World) :
    (match r with
      | (w2, .nil) => (f w2, (none : Option Outcome))
      | (w2, r) => (w2, some r)).2 ≠ some .nil := by
  obtain ⟨w2, o⟩ := r
  cases o <;> simp

theorem assignNamed_ne_nil (env : Env) (w : World) (id c : Nat) (q : List Nat)
    (sf : StructField) (tg : tag) : (assignNamed env w id c q sf tg).2 ≠ some .nil := by
  unfold assignNamed
  repeat' split
  all_goals simp

theorem provideInline_ne_nil (w : World) (c : Nat) (q : List Nat) (sf : StructField)
    (tg : tag) : (provideInline w c q sf tg).2 ≠ some .nil := by
  unfold provideInline
  split
  · simp
  · split
    · simp
    · exact matchProvide_ne_nil _ _

theorem makeMapField_ne_nil (w : World) (c : Nat) (q : List Nat) (sf : StructField)
    (tg : tag) : (makeMapField w c q sf tg).2 ≠ some .nil := by
  unfold makeMapField
  split <;> simp

theorem injectPointer_ne_nil (env : Env) (w : World) (id c : Nat) (q : List Nat)
    (sf : StructField) (tg : tag) : (injectPointer env w id c q sf tg).2 ≠ some .nil := by
  unfold injectPointer
  split
  · simp
  · split
    · simp
    · split <;> simp
  · split
    · simp
    · exact matchProvide_ne_nil _ _

theorem explicitStep_ne_nil (env : Env) (w : World) (id c : Nat) (p : List Nat) (i : Nat)
    (sf : StructField) : (explicitStep env w id c p i sf).2 ≠ some .nil := by
  unfold explicitStep
  repeat' split
  all_goals first
    | exact assignNamed_ne_nil _ _ _ _ _ _ _
    | exact provideInline_ne_nil _ _ _ _ _
    | exact makeMapField_ne_nil _ _ _ _ _
    | exact injectPointer_ne_nil _ _ _ _ _ _ _
    | simp

theorem interfaceScan_ne_nil (env : Env) (id c : Nat) (q : List Nat) (sf : StructField) :
    ∀ (ids : List Nat) (f : Option Nat) (w : World),
      (interfaceScan env id c q sf ids f w).2.1 ≠ some .nil := by
  intro ids
  induction ids with
  | nil => intro f w; simp [interfaceScan]
  | cons e rest ih =>
    intro f w
    unfold interfaceScan
    repeat' split
    all_goals first
      | exact ih _ _
      | simp

theorem interfaceStep_ne_nil (env : Env) (w : World) (id c : Nat) (p : List Nat) (i : Nat)
    (sf : StructField) : (interfaceStep env w id c p i sf).2 ≠ some .nil := by
  unfold interfaceStep
  repeat' split
  all_goals first
    | simp; done
    | (rename_i h; have := interfaceScan_ne_nil env id c (p ++ [i]) sf w.g.unnamed none w
       rw [h] at this; simpa using this)


theorem Visit.later {env : Env} {w w1 : World} {id c : Nat} {p : List Nat} {i : Nat}
    {sf : StructField} (h : Visit env w id c p i sf) (he : Ext w w1) :
    Visit env w1 id c p i sf := by
  obtain ⟨hreg, o, s, ho, hc, ht, hf⟩ := h
  have hw : Walk w id s c p := ⟨hreg, o, ho, hc, ht⟩
  exact (hw.extend he).visit hf

theorem Stable.compose {env : Env} {P : World → Nat → Nat → List Nat → Nat → StructField → Prop}
    {a b c : World} (h1 : Stable env P a b) (he : Ext a b) (h2 : Stable env P b c) :
    Stable env P a c :=
  fun id k p i sf hv hp => h2 id k p i sf (hv.later he) (h1 id k p i sf hv hp)

theorem Done.stable {env : Env} {P : World → Nat → Nat → List Nat → Nat → StructField → Prop}
    {w w1 : World} {id : Nat} (h : Done env P w id) (hreg : w.registered id) (he : Ext w w1)
    (hs : Stable env P w w1) : Done env P w1 id := by
  obtain ⟨o, ho, hdone⟩ := h
  obtain ⟨o1, ho1, ha⟩ := he.objs id o ho
  refine ⟨o1, ho1, ?_⟩
  intro hc s c p ht i sf hf
  have hc0 : o.Completed = false := by rw [← Object.agrees_Completed ha]; exact hc
  have ht0 : o.target = some (s, c, p) := by rw [← Object.agrees_target ha]; exact ht
  exact hs id c p i sf ⟨hreg, o, s, ho, hc0, ht0, hf⟩ (hdone hc0 s c p ht0 i sf hf)

theorem fieldLoop_post {env : Env}
    {step : World → Nat → Nat → List Nat → Nat → StructField → World × Option Outcome}
    (hstep : Effectful env step)
    (hnil : ∀ w id c p i sf, (step w id c p i sf).2 ≠ some .nil)
    {I : World → Prop} {P : World → Nat → Nat → List Nat → Nat → StructField → Prop}
    (hI : Sound env step I P) {id : Nat} {s : String} {c : Nat} {p : List Nat} :
    ∀ (rest : List StructField) (i : Nat) (w w1 : World),
      (∀ k sf, rest.get? k = some sf → (env.fields s).get? (i + k) = some sf) →
      Walk w id s c p → I w →
      fieldLoop (fun w2 j sf => step w2 id c p j sf) rest i w = (w1, .nil) →
      I w1 ∧ Ext w w1 ∧ Stable env P w w1 ∧
        ∀ k sf, rest.get? k = some sf → P w1 id c p (i + k) sf := by
  intro rest
  induction rest with
  | nil =>
    intro i w w1 _ _ hi h
    simp only [fieldLoop, Prod.mk.injEq] at h
    obtain ⟨h, _⟩ := h
    subst h
    exact ⟨hi, Ext.refl w, fun _ _ _ _ _ _ hp => hp, fun k sf hk => by simp at hk⟩
  | cons sf rest ih =>
    intro i w w1 hfields hwalk hi h
    have hf0 : (env.fields s).get? i = some sf := by simpa using hfields 0 sf rfl
    have hv : Visit env w id c p i sf := hwalk.visit hf0
    have he := (hstep w id c p i sf).ext
    have hn := hnil w id c p i sf
    simp only [fieldLoop] at h
    cases hs : step w id c p i sf with
    | mk wa o =>
      rw [hs] at h he hn
      cases o with
      | some r =>
        simp only [Prod.mk.injEq] at h
        exact absurd (by rw [h.2]) hn
      | none =>
        simp only at h
        obtain ⟨hia, hpa, hsa⟩ := hI w id c p i sf wa hi hv hs
        obtain ⟨hi1, he1, hs1, hp1⟩ := ih (i + 1) wa w1
          (fun k sf2 hk => by
            have := hfields (k + 1) sf2 (by simpa using hk)
            rw [show i + 1 + k = i + (k + 1) by omega]; exact this)
          (hwalk.extend he) hia h
        refine ⟨hi1, he.trans he1, Stable.compose hsa he hs1, ?_⟩
        intro k sf2 hk
        cases k with
        | zero =>
          simp only [List.get?_cons_zero, Option.some.injEq] at hk
          subst hk
          exact hs1 id c p i sf (hv.later he) hpa
        | succ k =>
          have := hp1 k sf2 (by simpa using hk)
          rw [show i + (k + 1) = i + 1 + k by omega]; exact this

theorem target_of_ignored {o : Object} (h : o.ignored = some true) : o.target = none := by
  unfold Object.ignored at h
  split at h
  · split at h
    · cases h
    · rename_i t ht
      simp only [Option.some.injEq, Bool.not_eq_true'] at h
      unfold Object.target
      split
      · rename_i hrt _
        rw [ht] at hrt
        simp only [Option.some.injEq] at hrt
        subst hrt
        simp [isStructPtr, GoType.Kind, GoType.Elem] at h
      · rfl
  · cases h

theorem traverse_post {env : Env}
    {step : World → Nat → Nat → List Nat → Nat → StructField → World × Option Outcome}
    (hstep : Effectful env step)
    (hnil : ∀ w id c p i sf, (step w id c p i sf).2 ≠ some .nil)
    {I : World → Prop} {P : World → Nat → Nat → List Nat → Nat → StructField → Prop}
    (hI : Sound env step I P)
    {w w1 : World} {id : Nat} {o : Object} (hreg : w.registered id)
    (ho : w.objs.get? id = some o) (hc : o.Completed = false) (hi : I w)
    (h : traverse env step w id = (w1, .nil)) :
    I w1 ∧ Ext w w1 ∧ Stable env P w w1 ∧ Done env P w1 id := by
  unfold traverse at h
  simp only [ho] at h
  split at h
  · cases h
  · rename_i hign
    simp only [Prod.mk.injEq] at h
    obtain ⟨h, _⟩ := h
    subst h
    refine ⟨hi, Ext.refl w, fun _ _ _ _ _ _ hp => hp, o, ho, ?_⟩
    intro _ s c p ht
    rw [target_of_ignored hign] at ht
    cases ht
  · split at h
    · cases h
    · rename_i s c p ht
      obtain ⟨hi1, he1, hs1, hp1⟩ := fieldLoop_post hstep hnil hI (env.fields s) 0 w w1
        (fun k sf hk => by simpa using hk) ⟨hreg, o, ho, hc, ht⟩ hi h
      obtain ⟨o1, ho1, ha⟩ := he1.objs id o ho
      refine ⟨hi1, he1, hs1, o1, ho1, ?_⟩
      intro _ s2 c2 p2 ht2 i sf hf
      rw [Object.agrees_target ha, ht] at ht2
      cases ht2
      simpa using hp1 i sf hf


theorem Stable.unchanged (env : Env) (P : World → Nat → Nat → List Nat → Nat → StructField → Prop)
    (w : World) : Stable env P w w := fun _ _ _ _ _ _ hp => hp

theorem Ext.registered_of {w w1 : World} (h : Ext w w1) {id : Nat} (hr : w.registered id) :
    w1.registered id := by
  obtain ⟨l, hl⟩ := h.unnamed
  rcases hr with hr | hr
  · exact Or.inl (by rw [hl]; exact List.mem_append_left _ hr)
  · exact Or.inr (by rw [h.named]; exact hr)

theorem forEachIncomplete_post {env : Env}
    {step : World → Nat → Nat → List Nat → Nat → StructField → World × Option Outcome}
    (hstep : Effectful env step)
    (hnil : ∀ w id c p i sf, (step w id c p i sf).2 ≠ some .nil)
    {I : World → Prop} {P : World → Nat → Nat → List Nat → Nat → StructField → Prop}
    (hI : Sound env step I P) :
    ∀ (ids : List Nat) (w w1 : World), (∀ id ∈ ids, w.registered id) → I w →
      forEachIncomplete (traverse env step) ids w = (w1, .nil) →
      I w1 ∧ Ext w w1 ∧ Stable env P w w1 ∧ ∀ id ∈ ids, Done env P w1 id := by
  intro ids
  induction ids with
  | nil =>
    intro w w1 _ hi h
    simp only [forEachIncomplete, Prod.mk.injEq] at h
    obtain ⟨h, _⟩ := h
    subst h
    exact ⟨hi, Ext.refl w, Stable.unchanged env P w, fun id hid => by simp at hid⟩
  | cons id rest ih =>
    intro w w1 hreg hi h
    have hregid := hreg id (List.mem_cons_self _ _)
    simp only [forEachIncomplete] at h
    cases ho : w.objs.get? id with
    | none => rw [ho] at h; cases h
    | some o =>
      rw [ho] at h
      simp only at h
      cases hc : o.Completed with
      | true =>
        simp only [hc, if_true] at h
        obtain ⟨hi1, he1, hs1, hd1⟩ := ih w w1
          (fun id2 h2 => hreg id2 (List.mem_cons_of_mem _ h2)) hi h
        refine ⟨hi1, he1, hs1, ?_⟩
        intro id2 hid2
        rcases List.mem_cons.mp hid2 with h2 | h2
        · subst h2
          obtain ⟨o1, ho1, ha⟩ := he1.objs id2 o ho
          refine ⟨o1, ho1, ?_⟩
          intro hc1
          rw [Object.agrees_Completed ha, hc] at hc1
          cases hc1
        · exact hd1 id2 h2
      | false =>
        simp only [hc, Bool.false_eq_true, if_false] at h
        cases ht : traverse env step w id with
        | mk wa r =>
          rw [ht] at h
          cases r with
          | nil =>
            simp only at h
            obtain ⟨hia, hea, hsa, hda⟩ := traverse_post hstep hnil hI hregid ho hc hi ht
            obtain ⟨hi1, he1, hs1, hd1⟩ := ih wa w1
              (fun id2 h2 => hea.registered_of (hreg id2 (List.mem_cons_of_mem _ h2))) hia h
            refine ⟨hi1, hea.trans he1, Stable.compose hsa hea hs1, ?_⟩
            intro id2 hid2
            rcases List.mem_cons.mp hid2 with h2 | h2
            · subst h2
              exact hda.stable (hea.registered_of hregid) he1 hs1
            · exact hd1 id2 h2
          | error e => simp only [Prod.mk.injEq] at h; cases h.2
          | panic => simp only [Prod.mk.injEq] at h; cases h.2
          | outOfFuel => simp only [Prod.mk.injEq] at h; cases h.2

theorem unnamedLoop_post {env : Env}
    {I : World → Prop} {P : World → Nat → Nat → List Nat → Nat → StructField → Prop}
    (hI : Sound env (explicitStep env) I P) :
    ∀ (fuel i : Nat) (w w1 : World), I w →
      (∀ j id, j < i → w.g.unnamed.get? j = some id → Done env P w id) →
      unnamedLoop env fuel i w = (w1, .nil) →
      I w1 ∧ Ext w w1 ∧ Stable env P w w1 ∧ ∀ id ∈ w1.g.unnamed, Done env P w1 id := by
  intro fuel
  induction fuel with
  | zero => intro i w w1 _ _ h; simp [unnamedLoop] at h
  | succ fuel ih =>
    intro i w w1 hi hdone h
    simp only [unnamedLoop] at h
    by_cases hlen : i = w.g.unnamed.length
    · simp only [hlen, beq_self_eq_true, if_true, Prod.mk.injEq] at h
      obtain ⟨h, _⟩ := h
      subst h
      refine ⟨hi, Ext.refl w, Stable.unchanged env P w, ?_⟩
      intro id hid
      obtain ⟨j, hj⟩ := List.get?_of_mem hid
      exact hdone j id (by rw [hlen]; exact get?_lt hj) hj
    · have hne : (i == w.g.unnamed.length) = false := by simpa using hlen
      simp only [hne, Bool.false_eq_true, if_false] at h
      cases hg : w.g.unnamed.get? i with
      | none => rw [hg] at h; cases h
      | some id =>
        rw [hg] at h
        simp only at h
        have hregid : w.registered id := Or.inl (List.get?_mem hg)
        cases ho : w.objs.get? id with
        | none => rw [ho] at h; cases h
        | some o =>
          rw [ho] at h
          simp only at h
          have hnext : ∀ (wa : World), Ext w wa → Stable env P w wa → Done env P wa id →
              ∀ j id2, j < i + 1 → wa.g.unnamed.get? j = some id2 → Done env P wa id2 := by
            intro wa hea hsa hda j id2 hj hjid
            obtain ⟨l, hl⟩ := hea.unnamed
            have hilt : i < w.g.unnamed.length := get?_lt hg
            have hjold : w.g.unnamed.get? j = some id2 := by
              rw [hl, List.get?_eq_getElem?, List.getElem?_append_left (by omega)] at hjid
              rw [List.get?_eq_getElem?]; exact hjid
            by_cases hji : j = i
            · subst hji
              rw [hg] at hjold
              cases hjold
              exact hda
            · exact (hdone j id2 (by omega) hjold).stable (Or.inl (List.get?_mem hjold)) hea hsa
          cases hc : o.Completed with
          | true =>
            simp only [hc, if_true] at h
            exact ih (i + 1) w w1 hi
              (hnext w (Ext.refl w) (Stable.unchanged env P w)
                ⟨o, ho, fun hc1 => by rw [hc] at hc1; cases hc1⟩) h
          | false =>
            simp only [hc, Bool.false_eq_true, if_false] at h
            cases ht : Graph.populateExplicit env w id with
            | mk wa r =>
              rw [ht] at h
              cases r with
              | nil =>
                simp only at h
                obtain ⟨hia, hea, hsa, hda⟩ := traverse_post (explicitStep_effect env)
                  (explicitStep_ne_nil env) hI hregid ho hc hi ht
                obtain ⟨hi1, he1, hs1, hd1⟩ := ih (i + 1) wa w1 hia (hnext wa hea hsa hda) h
                exact ⟨hi1, hea.trans he1, Stable.compose hsa hea hs1, hd1⟩
              | error e => simp only [Prod.mk.injEq] at h; cases h.2
              | panic => simp only [Prod.mk.injEq] at h; cases h.2
              | outOfFuel => simp only [Prod.mk.injEq] at h; cases h.2

theorem mem_eraseIdx_or {α : Type} {a y : α} :
    ∀ (l : List α) (k : Nat), a ∈ l → l.get? k = some y → a = y ∨ a ∈ l.eraseIdx k := by
  intro l
  induction l with
  | nil => intro k h; simp at h
  | cons x rest ih =>
    intro k ha hk
    cases k with
    | zero =>
      simp only [List.get?_cons_zero, Option.some.injEq] at hk
      subst hk
      rcases List.mem_cons.mp ha with h | h
      · exact Or.inl h
      · exact Or.inr (by simpa using h)
    | succ k =>
      simp only [List.get?_cons_succ] at hk
      rcases List.mem_cons.mp ha with h | h
      · exact Or.inr (by simp [h])
      · rcases ih k h hk with h2 | h2
        · exact Or.inl h2
        · exact Or.inr (by simp [h2])

theorem rangeOrder_mem {α : Type} (ord : List Nat) (xs : List α) {a : α} (h : a ∈ xs) :
    a ∈ rangeOrder ord xs := by
  induction ord generalizing xs with
  | nil =>
    cases xs with
    | nil => simp at h
    | cons x rest => simpa [rangeOrder] using h
  | cons c cs ih =>
    cases xs with
    | nil => simp at h
    | cons x rest =>
      simp only [rangeOrder]
      have hlt : c % (rest.length + 1) < (x :: rest).length := by
        simp only [List.length_cons]; exact Nat.mod_lt _ (Nat.succ_pos _)
      have hget : (x :: rest).get? (c % (rest.length + 1)) =
          some ((x :: rest)[c % (rest.length + 1)]) := by
        rw [List.get?_eq_getElem?]; simp [hlt]
      rw [hget]
      rcases mem_eraseIdx_or _ _ h hget with h1 | h1
      · exact List.mem_cons.mpr (Or.inl h1)
      · exact List.mem_cons.mpr (Or.inr (ih _ h1))


theorem interfaceScan_g (env : Env) (id c : Nat) (q : List Nat) (sf : StructField) :
    ∀ (ids : List Nat) (f : Option Nat) (w : World),
      (interfaceScan env id c q sf ids f w).1.g = w.g := by
  intro ids
  induction ids with
  | nil => intro f w; rfl
  | cons e rest ih =>
    intro f w
    unfold interfaceScan
    repeat' split
    all_goals first
      | rfl
      | exact ih _ _
      | (rw [ih]; simp)

theorem interfaceStep_g (env : Env) (w : World) (id c : Nat) (p : List Nat) (i : Nat)
    (sf : StructField) : (interfaceStep env w id c p i sf).1.g = w.g := by
  unfold interfaceStep
  repeat' split
  all_goals first
    | rfl
    | (rename_i h
       have := interfaceScan_g env id c (p ++ [i]) sf w.g.unnamed none w
       rw [h] at this; exact this)

/-- The coverage principle of `Populate`. Let the visits of `populateExplicit`
that go on keep `I`, establish `P` for the visited field and keep `P`, and let
the visits of `populateUnnamedInterface` that go on keep `I` and `P`. When
`Populate` returns nil, `I` holds of the final world and `P` holds of every
field of every registered object that is not completed. -/
theorem Populate_post (env : Env) {I : World → Prop}
    {P : World → Nat → Nat → List Nat → Nat → StructField → Prop}
    (hE : Sound env (explicitStep env) I P)
    (hN : ∀ w id c p i sf w1, I w → Visit env w id c p i sf →
      interfaceStep env w id c p i sf = (w1, none) → I w1 ∧ Stable env P w w1)
    (ord1 ord3 : List Nat) (fuel : Nat) (w w1 : World) (hi : I w)
    (h : Graph.Populate env ord1 ord3 fuel w = (w1, .nil)) :
    I w1 ∧ Ext w w1 ∧ ∀ id, w1.registered id → Done env P w1 id := by
  have hnamed : ∀ (ord : List Nat) (w2 : World),
      ∀ id ∈ (rangeOrder ord w2.g.named).map Prod.snd, w2.registered id := by
    intro ord w2 id hid
    obtain ⟨a, ha, rfl⟩ := List.mem_map.mp hid
    exact Or.inr (List.mem_map.mpr ⟨a, mem_rangeOrder ord _ ha, rfl⟩)
  unfold Graph.Populate at h
  cases h1 : forEachIncomplete (Graph.populateExplicit env)
      ((rangeOrder ord1 w.g.named).map Prod.snd) w with
  | mk wa r1 =>
  rw [h1] at h
  cases r1 with
  | error e => simp only [Prod.mk.injEq] at h; cases h.2
  | panic => simp only [Prod.mk.injEq] at h; cases h.2
  | outOfFuel => simp only [Prod.mk.injEq] at h; cases h.2
  | nil =>
  simp only at h
  obtain ⟨hia, hea, hsa, hda⟩ := forEachIncomplete_post (explicitStep_effect env)
    (explicitStep_ne_nil env) hE _ w wa (hnamed ord1 w) hi h1
  cases h2 : unnamedLoop env fuel 0 wa with
  | mk wb r2 =>
  rw [h2] at h
  cases r2 with
  | error e => simp only [Prod.mk.injEq] at h; cases h.2
  | panic => simp only [Prod.mk.injEq] at h; cases h.2
  | outOfFuel => simp only [Prod.mk.injEq] at h; cases h.2
  | nil =>
  simp only at h
  obtain ⟨hib, heb, hsb, hdb⟩ := unnamedLoop_post hE fuel 0 wa wb hia
    (fun j id hj _ => absurd hj (Nat.not_lt_zero _)) h2
  -- every registered object of `wb` is done
  have hdoneb : ∀ id, wb.registered id → Done env P wb id := by
    intro id hr
    rcases hr with hr | hr
    · exact hdb id hr
    · rw [heb.named, hea.named] at hr
      obtain ⟨a, ha, rfl⟩ := List.mem_map.mp hr
      have h3 : a.2 ∈ (rangeOrder ord1 w.g.named).map Prod.snd :=
        List.mem_map.mpr ⟨a, rangeOrder_mem ord1 _ ha, rfl⟩
      have hrega : wa.registered a.2 := Or.inr (by rw [hea.named]; exact hr)
      exact (hda a.2 h3).stable hrega heb hsb
  -- the interface passes
  have hS : Sound env (interfaceStep env)
      (fun w2 => I w2 ∧ Ext wb w2 ∧ Stable env P wb w2 ∧ w2.g = wb.g)
      (fun _ _ _ _ _ _ => True) := by
    intro w2 id c p i sf w3 hi2 hv hstep
    obtain ⟨hi2, he2, hs2, hg2⟩ := hi2
    obtain ⟨hi3, hs3⟩ := hN w2 id c p i sf w3 hi2 hv hstep
    have he3 : Ext w2 w3 := by
      have := (interfaceStep_effect env w2 id c p i sf).ext
      rw [hstep] at this; exact this
    have hg3 : w3.g = w2.g := by
      have := interfaceStep_g env w2 id c p i sf
      rw [hstep] at this; exact this
    exact ⟨⟨hi3, he2.trans he3, Stable.compose hs2 he2 hs3, by rw [hg3, hg2]⟩, trivial,
      fun _ _ _ _ _ _ _ => trivial⟩
  cases h3 : forEachIncomplete (Graph.populateUnnamedInterface env) wb.g.unnamed wb with
  | mk wc r3 =>
  rw [h3] at h
  cases r3 with
  | error e => simp only [Prod.mk.injEq] at h; cases h.2
  | panic => simp only [Prod.mk.injEq] at h; cases h.2
  | outOfFuel => simp only [Prod.mk.injEq] at h; cases h.2
  | nil =>
  simp only at h
  obtain ⟨hic, _, _, _⟩ := forEachIncomplete_post (interfaceStep_effect env)
    (interfaceStep_ne_nil env) hS wb.g.unnamed wb wc (fun id hid => Or.inl hid)
    ⟨hib, Ext.refl wb, Stable.unchanged env P wb, rfl⟩ h3
  obtain ⟨⟨hi1, he1, hs1, hg1⟩, _, _, _⟩ := forEachIncomplete_post (interfaceStep_effect env)
    (interfaceStep_ne_nil env) hS _ wc w1 (hnamed ord3 wc) hic h
  refine ⟨hi1, (hea.trans heb).trans he1, ?_⟩
  intro id hr
  have hrb : wb.registered id := by
    unfold World.registered at hr ⊢
    rw [hg1] at hr; exact hr
  exact (hdoneb id hrb).stable hrb he1 hs1


/-- A visit leaves the unnamed bucket alone or appends the object it created
for a plain request. -/
theorem Effect.unnamed_cases {env : Env} {w w1 : World} {id c : Nat} {q : List Nat}
    {sf : StructField} (h : Effect env w id c q sf w1) :
    w1.g.unnamed = w.g.unnamed ∨
      (w1.g.unnamed = w.g.unnamed ++ [w.objs.length] ∧
        findExisting env w sf.Typ w.g.unnamed = .notFound ∧
        w.load c q = some .nil ∧
        ∃ s o, sf.Typ = .Ptr (.Struct s) ∧ w1.objs.get? w.objs.length = some o ∧
          (createdObject sf.Typ w.mem.length false).agrees o ∧
          w1.load w.mem.length [] = some (Zero env (.Struct s))) := by
  cases h with
  | skip => exact Or.inl rfl
  | assign z v eid e hz hzero he hv hsrc => left; simp
  | inline z s hz hs => exact Or.inl rfl
  | makeMap z hz hzero => left; simp
  | createFailed z s hz ht => exact Or.inl rfl
  | create z s priv hz hzero ht hflag hnone =>
    cases priv with
    | true => left; simp [World.allocated]
    | false =>
      right
      have hc : c < w.mem.length := load_lt hz
      have hznil : z = .nil := by
        rw [ht] at hzero
        simp only [isNilOrZero, GoType.Kind] at hzero
        cases z <;> simp_all [Val.IsNil]
      refine ⟨by simp [World.allocated], hnone rfl, by rw [← hznil]; exact hz, s, ?_⟩
      have hobj : ((w.allocated env sf.Typ s false).store c q (.ptr w.mem.length [])).objs.get?
          w.objs.length = some (createdObject sf.Typ w.mem.length false) := by
        simp only [store_objs, World.allocated]
        exact get?_append_new _ _
      obtain ⟨o1, ho1, ha⟩ := (ext_addDependency _ id sf.Name w.objs.length).objs _ _ hobj
      refine ⟨o1, ht, ho1, ha, ?_⟩
      rw [addDependency_load, load_store_other_cell _ (by omega)]
      unfold World.load
      simp only [World.allocated]
      rw [get?_append_new]
      rfl

theorem Walk.old {w w1 : World} (he : Ext w w1) (hvalid : w.validIds) {id : Nat}
    (hreg : w.registered id) {s : String} {c : Nat} {p : List Nat}
    (h : Walk w1 id s c p) : Walk w id s c p := by
  obtain ⟨_, o1, ho1, hc1, ht1⟩ := h
  have hlt := hvalid id hreg
  have : ∃ o, w.objs.get? id = some o := by
    rw [List.get?_eq_getElem?]
    exact ⟨w.objs[id], by simp [hlt]⟩
  obtain ⟨o, ho⟩ := this
  obtain ⟨o2, ho2, ha⟩ := he.objs id o ho
  rw [ho1] at ho2
  cases ho2
  exact ⟨hreg, o, ho, by rw [← Object.agrees_Completed ha]; exact hc1,
    by rw [← Object.agrees_target ha]; exact ht1⟩

/-- The structs walked after a visit are those walked before and the struct
the visit created. -/
theorem Effect.walk_cases {env : Env} {w w1 : World} {id c : Nat} {q : List Nat}
    {sf : StructField} (h : Effect env w id c q sf w1) (hvalid : w.validIds)
    {id2 : Nat} {s2 : String} {c2 : Nat} {p2 : List Nat} (hw : Walk w1 id2 s2 c2 p2) :
    Walk w id2 s2 c2 p2 ∨
      (c2 = w.mem.length ∧ p2 = [] ∧ sf.Typ = .Ptr (.Struct s2) ∧
        w1.load w.mem.length [] = some (Zero env (.Struct s2))) := by
  have hext := h.ext
  rcases h.unnamed_cases with hu | ⟨hu, _, _, s, o, ht, ho, ha, hload⟩
  · left
    refine Walk.old hext hvalid ?_ hw
    rcases hw.reg with hr | hr
    · exact Or.inl (by rw [← hu]; exact hr)
    · exact Or.inr (by rw [← hext.named]; exact hr)
  · by_cases hid : id2 = w.objs.length
    · right
      subst hid
      obtain ⟨_, o1, ho1, hc1, ht1⟩ := hw
      rw [ho] at ho1
      cases ho1
      rw [Object.agrees_target ha, ht, createdObject_target] at ht1
      simp only [Option.some.injEq, Prod.mk.injEq] at ht1
      obtain ⟨h1, h2, h3⟩ := ht1
      subst h1
      exact ⟨h2.symm, h3.symm, ht, hload⟩
    · left
      refine Walk.old hext hvalid ?_ hw
      rcases hw.reg with hr | hr
      · rw [hu] at hr
        rcases List.mem_append.mp hr with hr | hr
        · exact Or.inl hr
        · simp only [List.mem_singleton] at hr
          exact absurd hr hid
      · exact Or.inr (by rw [← hext.named]; exact hr)

theorem Walk.cell_lt {w : World} (hs : Sane w) {id : Nat} {s : String} {c : Nat} {p : List Nat}
    (h : Walk w id s c p) : c < w.mem.length := hs.alloc id s c p h

/-- A visit keeps the world sane. -/
theorem Sane.kept {env : Env} {w w1 : World} {id c : Nat} {q : List Nat}
    {sf : StructField} (hs : Sane w) (h : Effect env w id c q sf w1) : Sane w1 := by
  have hext := h.ext
  refine ⟨h.validIds hs.valid, ?_, ?_, ?_⟩
  · intro eid heid
    have hold : eid ∈ w.g.unnamed → ∃ e et v, w1.objs.get? eid = some e ∧
        e.reflectType = some et ∧ e.Value = some (et, v) := by
      intro hm
      obtain ⟨e, et, v, he, het, hv⟩ := hs.cached eid hm
      obtain ⟨e1, he1, ha⟩ := hext.objs eid e he
      exact ⟨e1, et, v, he1, by rw [Object.agrees_reflectType ha, het],
        by rw [Object.agrees_Value ha, hv]⟩
    rcases h.unnamed_cases with hu | ⟨hu, _, _, s, o, ht, ho, ha, _⟩
    · exact hold (by rw [← hu]; exact heid)
    · rw [hu] at heid
      rcases List.mem_append.mp heid with hm | hm
      · exact hold hm
      · simp only [List.mem_singleton] at hm
        subst hm
        exact ⟨o, sf.Typ, .ptr w.mem.length [], ho, by rw [Object.agrees_reflectType ha]; rfl,
          by rw [Object.agrees_Value ha]; rfl⟩
  · intro id2 s2 c2 p2 hw
    rcases h.walk_cases hs.valid hw with h1 | ⟨h1, _, _, hload⟩
    · exact lt_of_lt_of_le (hs.alloc id2 s2 c2 p2 h1) hext.mem
    · rw [h1]; exact load_lt hload
  · intro id2 id3 s2 s3 c2 p2 p3 hw2 hw3 hpre
    rcases h.walk_cases hs.valid hw2 with h2 | ⟨h2, hp2, ht2, _⟩
    · rcases h.walk_cases hs.valid hw3 with h3 | ⟨h3, _, _, _⟩
      · exact hs.separate id2 id3 s2 s3 c2 p2 p3 h2 h3 hpre
      · have := hs.alloc id2 s2 c2 p2 h2
        omega
    · rcases h.walk_cases hs.valid hw3 with h3 | ⟨_, hp3, ht3, _⟩
      · have := hs.alloc id3 s3 c2 p3 h3
        omega
      · rw [ht2] at ht3
        simp only [GoType.Ptr.injEq, GoType.Struct.injEq] at ht3
        exact ⟨by rw [hp2, hp3], ht3.symm⟩


theorem first_ext {env : Env} {w w1 : World} (hc : w.cached) (he : Ext w w1) {t : GoType}
    {e : Nat} (h : findExisting env w t w.g.unnamed = .found e) :
    findExisting env w1 t w1.g.unnamed = .found e := by
  obtain ⟨l, hl⟩ := he.unnamed
  rw [hl]
  apply findExisting_found_append
  rw [← h]
  apply findExisting_congr
  intro id hid
  obtain ⟨o, et, v, ho, _, _⟩ := hc id hid
  obtain ⟨o1, ho1, ha⟩ := he.objs id o ho
  exact ⟨o, o1, ho, ho1, Object.agrees_private ha, Object.agrees_reflectType ha⟩

theorem Singleton.carry {env : Env} {w w1 : World} {t : String} {c : Nat} {q : List Nat}
    (h : Singleton env w t c q) (hc : w.cached) (he : Ext w w1)
    (hload : ∀ v, w.load c q = some v → w1.load c q = some v) : Singleton env w1 t c q := by
  obtain ⟨e, o, v, hf, ho, hv, hl⟩ := h
  obtain ⟨o1, ho1, ha⟩ := he.objs e o ho
  exact ⟨e, o1, v, first_ext hc he hf, ho1, by rw [Object.agrees_Value ha, hv], hload v hl⟩

/-- A visit of a walked struct writes to no field of another walked struct,
and to no other field of the same struct. -/
theorem Effect.load_other {env : Env} {w w1 : World} {id c : Nat} {p : List Nat} {i : Nat}
    {sf : StructField} (hs : Sane w) (h : Effect env w id c (p ++ [i]) sf w1)
    {s : String} (hw : Walk w id s c p)
    {id2 : Nat} {s2 : String} {c2 : Nat} {p2 : List Nat} {i2 : Nat}
    (hw2 : Walk w id2 s2 c2 p2) (hne : ¬ (c2 = c ∧ p2 = p ∧ i2 = i)) {v : Val}
    (hv : w.load c2 (p2 ++ [i2]) = some v) : w1.load c2 (p2 ++ [i2]) = some v := by
  have key : ∀ (ida idb : Nat) (sa sb : String) (pa pb : List Nat) (ia ib : Nat),
      Walk w ida sa c pa → Walk w idb sb c pb → ¬ (pb = pa ∧ ib = ia) →
      ∀ r, pa ++ [ia] ≠ pb ++ [ib] ++ r := by
    intro ida idb sa sb pa pb ia ib hwa hwb hn r heq
    rcases List.eq_nil_or_concat r with hr | ⟨r2, last, hr⟩
    · subst hr
      rw [List.append_nil] at heq
      have := List.append_inj' heq rfl
      exact hn ⟨this.1.symm, by simpa using this.2.symm⟩
    · subst hr
      rw [List.concat_eq_append, ← List.append_assoc] at heq
      have h2 := List.append_inj' heq rfl
      have hpre : pb <+: pa := ⟨[ib] ++ r2, by rw [h2.1]; simp⟩
      obtain ⟨hpp, _⟩ := hs.separate idb ida sb sa c pb pa hwb hwa hpre
      have hlen := congrArg List.length h2.1
      rw [hpp] at hlen
      simp at hlen
  apply h.load_disjoint hv
  intro hcc
  subst hcc
  refine ⟨?_, ?_⟩
  · exact key id id2 s s2 p p2 i i2 hw hw2 (fun hx => hne ⟨rfl, hx.1, hx.2⟩)
  · exact key id2 id s2 s p2 p i2 i hw2 hw (fun hx => hne ⟨rfl, hx.1.symm, hx.2.symm⟩)

theorem explicitStep_noLoad {env : Env} {w : World} (id : Nat) {c : Nat} {p : List Nat}
    {i : Nat} {sf : StructField} {tg : tag}
    (htag : parseTag env sf.Tag = .ok (some tg)) (hexp : sf.Exported = true)
    (hinl : tg.Inline = false)
    (hv : w.load c (p ++ [i]) = none) :
    explicitStep env w id c p i sf = (w, some .panic) := by
  unfold explicitStep
  simp [htag, hexp, hv, hinl]

theorem explicitStep_plain_nil {env : Env} {w : World} (id : Nat) {c : Nat} {p : List Nat}
    {i : Nat} {sf : StructField} {s : String}
    (htag : parseTag env sf.Tag = .ok (some injectOnly)) (hexp : sf.Exported = true)
    (htyp : sf.Typ = .Ptr (.Struct s)) (hnil : w.load c (p ++ [i]) = some .nil) :
    explicitStep env w id c p i sf = injectPointer env w id c (p ++ [i]) sf injectOnly := by
  unfold explicitStep
  simp only [htag, hexp, hnil, htyp, isNilOrZero, GoType.Kind, Val.IsNil, injectOnly,
    isStructPtr, GoType.Elem]
  simp only [Bool.not_true, Bool.false_eq_true, if_false, Bool.false_and, bne_self_eq_false,
    Bool.not_false, Bool.true_and, beq_self_eq_true, if_true]
  simp

/-- The visit of a plain-request pointer field that goes on either found the
field set, or leaves in it the instance of its type. -/
theorem plain_step {env : Env} {w w1 : World} {id c : Nat} {p : List Nat} {i : Nat}
    {sf : StructField} {t : String} (hp : plainPointer env sf t) (hc : w.cached)
    (h : explicitStep env w id c p i sf = (w1, none)) :
    (w1 = w ∧ ∃ z, w.load c (p ++ [i]) = some z ∧ z.IsNil = false) ∨
      (w.load c (p ++ [i]) = some .nil ∧ Singleton env w1 t c (p ++ [i])) := by
  obtain ⟨htag, hexp, htyp⟩ := hp
  cases hl : w.load c (p ++ [i]) with
  | none =>
    rw [explicitStep_noLoad id htag hexp rfl hl] at h
    simp at h
  | some z =>
    cases hz : z.IsNil with
    | false =>
      rw [explicitStep_nonNil id htag hexp htyp hl hz] at h
      simp only [Prod.mk.injEq, and_true] at h
      exact Or.inl ⟨h.symm, z, rfl, hz⟩
    | true =>
      have hznil : z = .nil := by cases z <;> simp_all [Val.IsNil]
      subst hznil
      right
      refine ⟨rfl, ?_⟩
      have hext : Ext w w1 := by
        have := (explicitStep_effect env w id c p i sf).ext
        rw [h] at this; exact this
      cases hf : findExisting env w sf.Typ w.g.unnamed with
      | panic =>
        rw [explicitStep_plain_nil id htag hexp htyp hl] at h
        simp [injectPointer, injectOnly, hf] at h
      | found e =>
        obtain ⟨hmem, o, et, ho, hpriv, het, hass⟩ := findExisting_found hf
        rw [htyp] at hass
        have hety := assignable_ptr hass
        obtain ⟨o2, et2, v, ho2, het2, hv2⟩ := hc e hmem
        rw [ho] at ho2
        cases ho2
        rw [het] at het2
        cases het2
        have hset : setValue env sf.Typ o.Value = some v := by
          rw [hv2, htyp, hety]
          simp [setValue, assignable_self]
        rw [explicitStep_existing id htag hexp htyp hl hf ho hset] at h
        simp only [Prod.mk.injEq, and_true] at h
        obtain ⟨o1, ho1, ha⟩ := hext.objs e o ho
        refine ⟨e, o1, v, ?_, ho1, by rw [Object.agrees_Value ha, hv2, hety], ?_⟩
        · rw [htyp] at hf
          exact first_ext hc hext hf
        · rw [← h, addDependency_load]
          exact load_store_same v hl
      | notFound =>
        by_cases hflag : typeFlag w.g.unnamedType sf.Typ = true
        · exfalso
          have hP := Provide_fresh { w with mem := w.mem ++ [Zero env (.Struct t)] }
            { Value := some (.Ptr (.Struct t), .ptr w.mem.length []), Name := "",
              Completed := false, Fields := none, reflectType := none,
              reflectValue := none, private_ := false, created := true,
              embedded := false } t (.ptr w.mem.length []) rfl rfl rfl
          dsimp only at hP
          rw [htyp] at hflag hf
          rw [explicitStep_plain_nil id htag hexp htyp hl] at h
          simp only [injectPointer, injectOnly, htyp, GoType.Elem, Bool.not_false, if_true,
            hf, hP, hflag, Bool.false_eq_true, if_false] at h
          simp at h
        · have hflag2 : typeFlag w.g.unnamedType sf.Typ = false := by simpa using hflag
          rw [explicitStep_create id htag rfl rfl hexp htyp hl (fun _ => hf)
            (fun _ => hflag2)] at h
          simp only [Prod.mk.injEq, and_true] at h
          have hobj : ((w.allocated env sf.Typ t injectOnly.Private).store c (p ++ [i])
              (.ptr w.mem.length [])).objs.get? w.objs.length =
              some (createdObject sf.Typ w.mem.length false) := by
            simp only [store_objs, World.allocated]
            exact get?_append_new _ _
          obtain ⟨o1, ho1, ha⟩ := (ext_addDependency _ id sf.Name w.objs.length).objs _ _ hobj
          rw [h] at ho1
          refine ⟨w.objs.length, o1, .ptr w.mem.length [], ?_, ho1,
            by rw [Object.agrees_Value ha, htyp]; rfl, ?_⟩
          · obtain ⟨l, hl2⟩ := hext.unnamed
            have hu : w1.g.unnamed = w.g.unnamed ++ [w.objs.length] := by
              rw [← h]; simp [World.allocated, injectOnly]
            rw [hu, findExisting_notFound_append]
            · exact findExisting_single ho1 (by rw [Object.agrees_private ha]; rfl)
                (by rw [Object.agrees_reflectType ha, htyp]; rfl)
            · rw [← htyp, ← hf]
              apply findExisting_congr
              intro k hk
              obtain ⟨o, et, v, ho, _, _⟩ := hc k hk
              obtain ⟨o2, ho2, ha2⟩ := hext.objs k o ho
              exact ⟨o, o2, ho, ho2, Object.agrees_private ha2, Object.agrees_reflectType ha2⟩
          · rw [← h, addDependency_load]
            exact load_store_same _ (load_append (w := w) _ hl)


theorem Visit.walk {env : Env} {w : World} {id c : Nat} {p : List Nat} {i : Nat}
    {sf : StructField} (h : Visit env w id c p i sf) :
    ∃ s, Walk w id s c p ∧ (env.fields s).get? i = some sf := by
  obtain ⟨hreg, o, s, ho, hc, ht, hf⟩ := h
  exact ⟨s, ⟨hreg, o, ho, hc, ht⟩, hf⟩

/-- A visit that goes on keeps the invariant behind the reuse of instances,
and keeps the instance in every field that holds it. -/
theorem reuse_step {env : Env} {w0 : World}
    {step : World → Nat → Nat → List Nat → Nat → StructField → World × Option Outcome}
    (heff : Effectful env step)
    (hown : ∀ w id c p i sf t w1, plainPointer env sf t → w.cached →
      step w id c p i sf = (w1, none) → w1 = w ∨ Singleton env w1 t c (p ++ [i]))
    (w : World) (id c : Nat) (p : List Nat) (i : Nat) (sf : StructField) (w1 : World)
    (hI : Reuse env w0 w) (hv : Visit env w id c p i sf)
    (hstep : step w id c p i sf = (w1, none)) :
    Reuse env w0 w1 ∧ Stable env (Shared env w0) w w1 := by
  have h : Effect env w id c (p ++ [i]) sf w1 := by
    have := heff w id c p i sf
    rw [hstep] at this; exact this
  have hext := h.ext
  obtain ⟨s, hw, hf⟩ := hv.walk
  -- what the visit does to a plain pointer field of a walked struct
  have keep : ∀ id2 c2 p2 i2 sf2 t, Visit env w id2 c2 p2 i2 sf2 → plainPointer env sf2 t →
      (Singleton env w1 t c2 (p2 ++ [i2]) ∨
        ∀ v, w.load c2 (p2 ++ [i2]) = some v → w1.load c2 (p2 ++ [i2]) = some v) := by
    intro id2 c2 p2 i2 sf2 t hv2 hp2
    obtain ⟨s2, hw2, hf2⟩ := hv2.walk
    by_cases hsame : c2 = c ∧ p2 = p ∧ i2 = i
    · obtain ⟨h1, h2, h3⟩ := hsame
      subst h1 h2 h3
      obtain ⟨_, hss⟩ := hI.sane.separate id id2 s s2 c2 p2 p2 hw hw2 (List.prefix_refl _)
      subst hss
      rw [hf] at hf2
      cases hf2
      rcases hown w id c2 p2 i2 sf t w1 hp2 hI.sane.cached hstep with h1 | h1
      · right; intro v hv; rw [h1]; exact hv
      · exact Or.inl h1
    · right
      intro v hv
      exact h.load_other hI.sane hw hw2 hsame hv
  have keepS : ∀ id2 c2 p2 i2 sf2 t, Visit env w id2 c2 p2 i2 sf2 → plainPointer env sf2 t →
      Singleton env w t c2 (p2 ++ [i2]) → Singleton env w1 t c2 (p2 ++ [i2]) := by
    intro id2 c2 p2 i2 sf2 t hv2 hp2 hsing
    rcases keep id2 c2 p2 i2 sf2 t hv2 hp2 with h1 | h1
    · exact h1
    · exact hsing.carry hI.sane.cached hext h1
  refine ⟨⟨hI.sane.kept h, ?_⟩, ?_⟩
  · intro id2 c2 p2 i2 sf2 t hv2 hp2 hnil0
    obtain ⟨s2, hw2, hf2⟩ := hv2.walk
    rcases h.walk_cases hI.sane.valid hw2 with hold | ⟨hc2, hp2nil, _, hload⟩
    · have hv2old : Visit env w id2 c2 p2 i2 sf2 := hold.visit hf2
      rcases hI.fields id2 c2 p2 i2 sf2 t hv2old hp2 hnil0 with h1 | h1
      · rcases keep id2 c2 p2 i2 sf2 t hv2old hp2 with h2 | h2
        · exact Or.inr h2
        · exact Or.inl (h2 _ h1)
      · exact Or.inr (keepS id2 c2 p2 i2 sf2 t hv2old hp2 h1)
    · left
      subst hc2 hp2nil
      rw [Zero_struct] at hload
      have hzero : ((env.fields s2).map
          (fun f => zeroVal env env.structs.length f.Typ)).get? i2 = some .nil := by
        rw [List.get?_eq_getElem?, List.getElem?_map, ← List.get?_eq_getElem?, hf2,
          Option.map_some', hp2.2.2, zeroVal_ptr]
      rw [List.nil_append, ← List.nil_append [i2], load_field hload, hzero]
  · intro id2 c2 p2 i2 sf2 hv2 hshared t hp2 hnil0
    exact keepS id2 c2 p2 i2 sf2 t hv2 hp2 (hshared t hp2 hnil0)

theorem reuse_explicit (env : Env) (w0 : World) :
    Sound env (explicitStep env) (Reuse env w0) (Shared env w0) := by
  intro w id c p i sf w1 hI hv hstep
  have hown : ∀ w id c p i sf t w1, plainPointer env sf t → w.cached →
      explicitStep env w id c p i sf = (w1, none) →
      w1 = w ∨ Singleton env w1 t c (p ++ [i]) := by
    intro w id c p i sf t w1 hp hc hs
    rcases plain_step hp hc hs with h | h
    · exact Or.inl h.1
    · exact Or.inr h.2
  obtain ⟨h1, h2⟩ := reuse_step (explicitStep_effect env) hown w id c p i sf w1 hI hv hstep
  refine ⟨h1, ?_, h2⟩
  intro t hp hnil0
  rcases plain_step hp hI.sane.cached hstep with ⟨hw, z, hz, hnn⟩ | ⟨_, hs⟩
  · subst hw
    rcases hI.fields id c p i sf t hv hp hnil0 with h3 | h3
    · rw [hz] at h3
      cases h3
      simp [Val.IsNil] at hnn
    · exact h3
  · exact hs

theorem reuse_interface (env : Env) (w0 : World) (w : World) (id c : Nat) (p : List Nat)
    (i : Nat) (sf : StructField) (w1 : World) (hI : Reuse env w0 w)
    (hv : Visit env w id c p i sf) (hstep : interfaceStep env w id c p i sf = (w1, none)) :
    Reuse env w0 w1 ∧ Stable env (Shared env w0) w w1 := by
  apply reuse_step (interfaceStep_effect env) ?_ w id c p i sf w1 hI hv hstep
  intro w id c p i sf t w1 hp _ hs
  rw [plain_interfaceStep (Or.inr ⟨hp.1, hp.2.1, t, hp.2.2⟩)] at hs
  simp only [Prod.mk.injEq, and_true] at hs
  exact Or.inl hs.symm


theorem findExisting_filter (env : Env) (w : World) (t : GoType) :
    ∀ (ids : List Nat),
      (∀ id ∈ ids, ∃ o et, w.objs.get? id = some o ∧ o.reflectType = some et) →
      findExisting env w t ids =
        match ids.filter (isCandidate env w t) with
        | [] => .notFound
        | e :: _ => .found e := by
  intro ids
  induction ids with
  | nil => intro _; rfl
  | cons a rest ih =>
    intro h
    obtain ⟨o, et, ho, het⟩ := h a (List.mem_cons_self _ _)
    have hrest := ih (fun id hid => h id (List.mem_cons_of_mem _ hid))
    have hcand := @isCandidate_eq env w t a o et ho het
    simp only [findExisting, ho, het, List.filter_cons, hcand]
    cases hp : o.private_ with
    | true => simpa using hrest
    | false =>
      cases ha : et.AssignableTo env t with
      | true => simp
      | false => simpa using hrest

theorem Object.agrees_created {o o1 : Object} (h : o.agrees o1) : o1.created = o.created := by
  unfold Object.agrees at h
  cases o; cases o1
  simp_all

theorem candidates_congr {env : Env} {w w1 : World} (hc : w.cached) (he : Ext w w1)
    (t : GoType) : w.g.unnamed.filter (isCandidate env w1 t) = candidates env w t := by
  unfold candidates
  apply List.filter_congr
  intro eid heid
  obtain ⟨e, _, _, hobj, _, _⟩ := hc eid heid
  exact isCandidate_ext he t hobj

/-- A visit keeps the invariant behind the uniqueness of created instances. -/
theorem Grown.step {env : Env} {w0 w w1 : World} {id c : Nat} {q : List Nat}
    {sf : StructField} (hg : Grown env w0 w) (hle : w0.objs.length ≤ w.objs.length)
    (h : Effect env w id c q sf w1) : Grown env w0 w1 := by
  have hext := h.ext
  have hcached := hg.sane.cached
  refine ⟨hg.sane.kept h, ?_, ?_⟩
  · intro e he
    have hold : e ∈ w.g.unnamed → e ∈ w0.g.unnamed ∨
        (w0.objs.length ≤ e ∧ ∃ o, w1.objs.get? e = some o ∧ o.created = true) := by
      intro hm
      rcases hg.created e hm with h1 | ⟨h1, o, ho, hcr⟩
      · exact Or.inl h1
      · obtain ⟨o1, ho1, ha⟩ := hext.objs e o ho
        exact Or.inr ⟨h1, o1, ho1, by rw [Object.agrees_created ha, hcr]⟩
    rcases h.unnamed_cases with hu | ⟨hu, _, _, s, o, ht, ho, ha, _⟩
    · exact hold (by rw [← hu]; exact he)
    · rw [hu] at he
      rcases List.mem_append.mp he with hm | hm
      · exact hold hm
      · simp only [List.mem_singleton] at hm
        subst hm
        exact Or.inr ⟨hle, o, ho, by rw [Object.agrees_created ha]; rfl⟩
  · intro t hnone
    have hold := hg.single t hnone
    rcases h.unnamed_cases with hu | ⟨hu, hnf, _, s, o, ht, ho, ha, _⟩
    · unfold candidates
      rw [hu, candidates_congr hcached hext]
      exact hold
    · unfold candidates
      rw [hu, List.filter_append, candidates_congr hcached hext]
      have hcand : isCandidate env w1 (.Ptr (.Struct t)) w.objs.length =
          (sf.Typ.AssignableTo env (.Ptr (.Struct t))) := by
        rw [@isCandidate_eq env w1 _ _ o sf.Typ ho (by rw [Object.agrees_reflectType ha]; rfl),
          Object.agrees_private ha]
        simp [createdObject]
      simp only [List.filter_cons, List.filter_nil, hcand]
      cases hass : sf.Typ.AssignableTo env (.Ptr (.Struct t)) with
      | false => simpa using hold
      | true =>
        have hty := assignable_ptr hass
        rw [hty] at hnf
        have hfilter := findExisting_filter env w (.Ptr (.Struct t))
          w.g.unnamed (fun k hk => by
            obtain ⟨e, et, _, hobj, het, _⟩ := hcached k hk
            exact ⟨e, et, hobj, het⟩)
        rw [hnf] at hfilter
        have hnil : candidates env w (.Ptr (.Struct t)) = [] := by
          unfold candidates
          cases hl : w.g.unnamed.filter (isCandidate env w (.Ptr (.Struct t))) with
          | nil => rfl
          | cons a r => rw [hl] at hfilter; cases hfilter
        rw [hnil]
        simp


theorem Reuse.initial {env : Env} {w0 : World} (hs : Sane w0) : Reuse env w0 w0 :=
  ⟨hs, fun _ _ _ _ _ _ hv _ hnil => Or.inl (hnil hv.reg)⟩

theorem cached_objects {w : World} (hc : w.cached) :
    ∀ k ∈ w.g.unnamed, ∃ o et, w.objs.get? k = some o ∧ o.reflectType = some et := by
  intro k hk
  obtain ⟨e, et, _, hobj, het, _⟩ := hc k hk
  exact ⟨e, et, hobj, het⟩

theorem Grown.begin {env : Env} {w0 : World} (hs : Sane w0) : Grown env w0 w0 := by
  refine ⟨hs, fun e he => Or.inl he, ?_⟩
  intro t hnone
  have hfilter := findExisting_filter env w0 (.Ptr (.Struct t))
    w0.g.unnamed (cached_objects hs.cached)
  rw [hnone] at hfilter
  unfold candidates
  cases hl : w0.g.unnamed.filter (isCandidate env w0 (.Ptr (.Struct t))) with
  | nil => simp
  | cons a r => rw [hl] at hfilter; cases hfilter

/-- After `Populate` the invariant behind the uniqueness of created instances
holds, whatever the outcome. -/
theorem Grown.final (env : Env) {w0 : World} (hs : Sane w0) (ord1 ord3 : List Nat)
    (fuel : Nat) : Grown env w0 (Graph.Populate env ord1 ord3 fuel w0).1 := by
  have := Populate_inv_effect env
    (fun w => Grown env w0 w ∧ w0.objs.length ≤ w.objs.length)
    (fun w w1 id c p i sf hI _ heff =>
      ⟨hI.1.step hI.2 heff, le_trans hI.2 heff.ext.objs_length⟩)
    ord1 ord3 fuel w0 ⟨Grown.begin hs, le_refl _⟩
  exact this.1.1


theorem serverProvided_walk {id : Nat} {s : String} {c : Nat} {p : List Nat}
    (h : Walk serverProvided id s c p) :
    (id = 0 ∧ s = "Server" ∧ c = 0 ∧ p = []) ∨ (id = 1 ∧ s = "Config" ∧ c = 1 ∧ p = []) ∨
      (id = 2 ∧ s = "DB" ∧ c = 2 ∧ p = []) := by
  obtain ⟨hreg, o, ho, _, ht⟩ := h
  have hu : serverProvided.g.unnamed = [0, 1, 2] := rfl
  have hn : serverProvided.g.named = [] := rfl
  unfold World.registered at hreg
  rw [hu, hn] at hreg
  simp only [List.mem_cons, List.mem_singleton, List.not_mem_nil, or_false, List.map_nil] at hreg
  rcases hreg with rfl | rfl | rfl
  · have e : serverProvided.objs.get? 0 = some _ := rfl
    rw [e] at ho
    cases ho
    cases ht
    exact Or.inl ⟨rfl, rfl, rfl, rfl⟩
  · have e : serverProvided.objs.get? 1 = some _ := rfl
    rw [e] at ho
    cases ho
    cases ht
    exact Or.inr (Or.inl ⟨rfl, rfl, rfl, rfl⟩)
  · have e : serverProvided.objs.get? 2 = some _ := rfl
    rw [e] at ho
    cases ho
    cases ht
    exact Or.inr (Or.inr ⟨rfl, rfl, rfl, rfl⟩)

theorem serverProvided_sane : Sane serverProvided := by
  refine ⟨?_, ?_, ?_, ?_⟩
  · intro id hreg
    have hu : serverProvided.g.unnamed = [0, 1, 2] := rfl
    have hn : serverProvided.g.named = [] := rfl
    have hl : serverProvided.objs.length = 3 := rfl
    unfold World.registered at hreg
    rw [hu, hn] at hreg
    simp only [List.mem_cons, List.mem_singleton, List.not_mem_nil, or_false,
      List.map_nil] at hreg
    rw [hl]
    omega
  · intro eid heid
    have hu : serverProvided.g.unnamed = [0, 1, 2] := rfl
    rw [hu] at heid
    simp only [List.mem_cons, List.mem_singleton, List.not_mem_nil, or_false] at heid
    rcases heid with rfl | rfl | rfl
    · exact ⟨_, _, _, rfl, rfl, rfl⟩
    · exact ⟨_, _, _, rfl, rfl, rfl⟩
    · exact ⟨_, _, _, rfl, rfl, rfl⟩
  · intro id s c p hw
    have hl : serverProvided.mem.length = 3 := rfl
    rw [hl]
    rcases serverProvided_walk hw with ⟨_, _, h, _⟩ | ⟨_, _, h, _⟩ | ⟨_, _, h, _⟩ <;> omega
  · intro id id2 s s2 c p p2 hw hw2 _
    rcases serverProvided_walk hw with ⟨_, h1, h2, h3⟩ | ⟨_, h1, h2, h3⟩ | ⟨_, h1, h2, h3⟩ <;>
      rcases serverProvided_walk hw2 with ⟨_, k1, k2, k3⟩ | ⟨_, k1, k2, k3⟩ | ⟨_, k1, k2, k3⟩ <;>
      first
        | (exfalso; omega)
        | exact ⟨by rw [h3, k3], by rw [h1, k1]⟩


/-- The tags `parseTag` returns: a named tag carries no flag. -/
theorem parseTag_named {env : Env} {t : String} {tg : tag}
    (h : parseTag env t = .ok (some tg)) (hn : tg.Name ≠ "") :
    tg.Inline = false ∧ tg.Private = false := by
  unfold parseTag at h
  dsimp only at h
  split at h
  · cases h
  · split at h
    · cases h
    · split at h
      · cases h; exact absurd rfl hn
      · split at h
        · cases h; exact absurd rfl hn
        · split at h
          · cases h; exact absurd rfl hn
          · cases h; exact ⟨rfl, rfl⟩

/-- The outcome of a visit that does not go on is the outcome of the field
loop. -/
theorem fieldLoop_stop {step : World → Nat → StructField → World × Option Outcome}
    {w : World} {i : Nat} {sf : StructField} {r : Outcome} (rest : List StructField)
    (h : (step w i sf).2 = some r) :
    fieldLoop step (sf :: rest) i w = ((step w i sf).1, r) := by
  simp only [fieldLoop]
  split
  · rename_i w1 heq
    rw [heq] at h
    cases h
  · rename_i w1 r1 heq
    rw [heq] at h ⊢
    simp only [Option.some.injEq] at h
    rw [h]

/-- The visit of an exported zero field with a named request is the named
branch. -/
theorem explicitStep_named {env : Env} {w : World} (id : Nat) {c : Nat} {p : List Nat}
    {i : Nat} {sf : StructField} {tg : tag} {z : Val}
    (htag : parseTag env sf.Tag = .ok (some tg)) (hname : tg.Name ≠ "")
    (hexp : sf.Exported = true) (hz : w.load c (p ++ [i]) = some z)
    (hzero : isNilOrZero z sf.Typ = true) :
    explicitStep env w id c p i sf = assignNamed env w id c (p ++ [i]) sf tg := by
  obtain ⟨hinl, _⟩ := parseTag_named htag hname
  unfold explicitStep
  simp [htag, hexp, hinl, hz, hzero, hname]


/-- The target of an object whose cached type is not a pointer to a struct. -/
theorem target_of_notStructPtr {o : Object} {t : GoType} (ht : o.reflectType = some t)
    (hsp : isStructPtr t = false) : o.target = none := by
  unfold Object.target
  split
  · rename_i s _ _ _ hrt _
    rw [ht] at hrt
    simp only [Option.some.injEq] at hrt
    subst hrt
    simp [isStructPtr, GoType.Kind, GoType.Elem] at hsp
  · rfl

/-- A traversal skips a named object whose cached type is not a pointer to a
struct. -/
theorem traverse_named_value (env : Env)
    (step : World → Nat → Nat → List Nat → Nat → StructField → World × Option Outcome)
    {w : World} {id : Nat} {o : Object} {t : GoType} (ho : w.objs.get? id = some o)
    (hname : o.Name ≠ "") (ht : o.reflectType = some t) (hsp : isStructPtr t = false) :
    traverse env step w id = (w, .nil) := by
  unfold traverse
  simp only [ho, Object.ignored, ht, hsp, bne_iff_ne, ne_eq, hname, not_false_eq_true, if_true,
    Bool.not_false]

/-- `Populate` keeps the record of an object that no traversal walks. -/
theorem Populate_keeps_unwalked (env : Env) (ord1 ord3 : List Nat) (fuel : Nat) (w : World)
    {id : Nat} {o : Object} (ho : w.objs.get? id = some o) (ht : o.target = none) :
    (Graph.Populate env ord1 ord3 fuel w).1.objs.get? id = some o := by
  refine (Populate_inv_effect env (fun w1 => w1.objs.get? id = some o) ?_ ord1 ord3 fuel w ho).1
  intro w1 w2 id2 c p i sf hI hv heff
  by_cases hid : id = id2
  · subst hid
    obtain ⟨_, o2, s, ho2, _, ht2, _⟩ := hv
    rw [hI] at ho2
    cases ho2
    rw [ht] at ht2
    cases ht2
  · exact heff.objs_other hI hid


theorem perm_eraseIdx {α : Type} {y : α} :
    ∀ (l : List α) (k : Nat), l.get? k = some y → (y :: l.eraseIdx k).Perm l := by
  intro l
  induction l with
  | nil => intro k h; simp at h
  | cons x rest ih =>
    intro k h
    cases k with
    | zero =>
      simp only [List.get?_cons_zero, Option.some.injEq] at h
      subst h
      simp
    | succ k =>
      simp only [List.get?_cons_succ] at h
      simp only [List.eraseIdx_cons_succ]
      exact (List.Perm.swap x y _).trans ((ih k h).cons x)

theorem rangeOrder_perm {α : Type} (ord : List Nat) (xs : List α) :
    (rangeOrder ord xs).Perm xs := by
  induction ord generalizing xs with
  | nil =>
    cases xs with
    | nil => simp [rangeOrder]
    | cons x rest => simp [rangeOrder]
  | cons c cs ih =>
    cases xs with
    | nil => simp [rangeOrder]
    | cons x rest =>
      simp only [rangeOrder]
      have hlt : c % (rest.length + 1) < (x :: rest).length := by
        simp only [List.length_cons]; exact Nat.mod_lt _ (Nat.succ_pos _)
      have hget : (x :: rest).get? (c % (rest.length + 1)) =
          some ((x :: rest)[c % (rest.length + 1)]) := by
        rw [List.get?_eq_getElem?]; simp [hlt]
      rw [hget]
      exact ((ih _).cons _).trans (perm_eraseIdx _ _ hget)

theorem notEmbedded_filter (w : World) : ∀ (ids : List Nat),
    (∀ id ∈ ids, id < w.objs.length) → notEmbedded w ids = some (ids.filter w.listed) := by
  intro ids
  induction ids with
  | nil => intro _; rfl
  | cons a rest ih =>
    intro h
    have hrest := ih (fun id hid => h id (List.mem_cons_of_mem _ hid))
    have hlt := h a (List.mem_cons_self _ _)
    have hget : w.objs.get? a = some w.objs[a] := by
      rw [List.get?_eq_getElem?]; simp [hlt]
    simp only [notEmbedded, hget, hrest, List.filter_cons, World.listed]
    cases w.objs[a].embedded <;> simp


theorem exists_of_lt {w : World} {id : Nat} (h : id < w.objs.length) :
    ∃ o, w.objs.get? id = some o := by
  rw [List.get?_eq_getElem?]
  exact ⟨w.objs[id], by simp [h]⟩

theorem findExisting_panic_append {env : Env} {w : World} {t : GoType} :
    ∀ (ids extra : List Nat), findExisting env w t ids = .panic →
      findExisting env w t (ids ++ extra) = .panic := by
  intro ids
  induction ids with
  | nil => intro extra h; simp [findExisting] at h
  | cons a rest ih =>
    intro extra h
    simp only [findExisting, List.cons_append] at h ⊢
    split
    · rfl
    · rename_i o ho
      rw [ho] at h
      simp only at h
      split
      · rename_i hp
        simp only [hp, if_true] at h
        exact ih extra h
      · rename_i hp
        simp only [hp, Bool.false_eq_true, if_false] at h
        split
        · rfl
        · rename_i et het
          rw [het] at h
          simp only at h
          split
          · rename_i ha
            simp only [ha, if_true] at h
            cases h
          · rename_i ha
            simp only [ha, Bool.false_eq_true, if_false] at h
            exact ih extra h

/-- A visit does not raise the number of missing field types plus the length
of the unnamed bucket: an object is appended only for a missing type. -/
theorem Effect.measure {env : Env} {w w1 : World} {id c : Nat} {q : List Nat}
    {sf : StructField} (h : Effect env w id c q sf w1) (hvalid : w.validIds)
    (hmem : sf.Typ ∈ env.fieldTypes) :
    missing env w1 + w1.g.unnamed.length ≤ missing env w + w.g.unnamed.length := by
  have hext := h.ext
  have hex : ∀ k ∈ w.g.unnamed, ∃ o, w.objs.get? k = some o :=
    fun k hk => exists_of_lt (hvalid k (Or.inl hk))
  rcases h.unnamed_cases with hu | ⟨hu, hnone, _, s, o, ht, ho, ha, _⟩
  · rw [missing_same hext hu hex, hu]
  · have hcongr : ∀ t, findExisting env w1 t w.g.unnamed = findExisting env w t w.g.unnamed := by
      intro t
      apply findExisting_congr
      intro k hk
      obtain ⟨o2, ho2⟩ := hex k hk
      obtain ⟨o1, ho1, ha1⟩ := hext.objs k o2 ho2
      exact ⟨o2, o1, ho2, ho1, Object.agrees_private ha1, Object.agrees_reflectType ha1⟩
    have hless : missing env w1 + 1 ≤ missing env w := by
      unfold missing
      refine countP_succ_le _ _ _ ?_ hmem ?_ ?_
      · intro t hq
        rw [hu] at hq
        cases hf : findExisting env w t w.g.unnamed with
        | panic =>
          rw [findExisting_panic_append _ _ (by rw [hcongr]; exact hf)] at hq
          simp at hq
        | notFound => rfl
        | found e =>
          rw [findExisting_found_append _ _ (by rw [hcongr]; exact hf)] at hq
          simp at hq
      · rw [hnone]; rfl
      · rw [hu, findExisting_notFound_append _ _ (by rw [hcongr]; exact hnone),
          findExisting_single ho (by rw [Object.agrees_private ha]; rfl)
            (by rw [Object.agrees_reflectType ha]; rfl)]
        rfl
    rw [hu, List.length_append, List.length_singleton]
    omega

theorem Provide_ne_outOfFuel : ∀ (ids : List Nat) (w : World),
    (Graph.Provide w ids).2 ≠ .outOfFuel := by
  intro ids
  induction ids with
  | nil => intro w; simp [Graph.Provide]
  | cons id rest ih =>
    intro w
    simp only [Graph.Provide]
    repeat' split
    all_goals first
      | exact ih _
      | simp


theorem matchProvide_inFuel (r : World × Outcome) (f : World → World)
    (hr : r.2 ≠ .outOfFuel) :
    (match r with
      | (w2, .nil) => (f w2, (none : Option Outcome))
      | (w2, r) => (w2, some r)).2 ≠ some .outOfFuel := by
  obtain ⟨w2, o⟩ := r
  cases o <;> simp at hr ⊢

theorem assignNamed_inFuel (env : Env) (w : World) (id c : Nat) (q : List Nat)
    (sf : StructField) (tg : tag) : (assignNamed env w id c q sf tg).2 ≠ some .outOfFuel := by
  unfold assignNamed
  repeat' split
  all_goals simp

theorem provideInline_inFuel (w : World) (c : Nat) (q : List Nat) (sf : StructField)
    (tg : tag) : (provideInline w c q sf tg).2 ≠ some .outOfFuel := by
  unfold provideInline
  split
  · simp
  · split
    · simp
    · exact matchProvide_inFuel _ _ (Provide_ne_outOfFuel _ _)

theorem makeMapField_inFuel (w : World) (c : Nat) (q : List Nat) (sf : StructField)
    (tg : tag) : (makeMapField w c q sf tg).2 ≠ some .outOfFuel := by
  unfold makeMapField
  split <;> simp

theorem injectPointer_inFuel (env : Env) (w : World) (id c : Nat) (q : List Nat)
    (sf : StructField) (tg : tag) : (injectPointer env w id c q sf tg).2 ≠ some .outOfFuel := by
  unfold injectPointer
  split
  · simp
  · split
    · simp
    · split <;> simp
  · split
    · simp
    · exact matchProvide_inFuel _ _ (Provide_ne_outOfFuel _ _)

theorem explicitStep_inFuel (env : Env) (w : World) (id c : Nat) (p : List Nat) (i : Nat)
    (sf : StructField) : (explicitStep env w id c p i sf).2 ≠ some .outOfFuel := by
  unfold explicitStep
  repeat' split
  all_goals first
    | exact assignNamed_inFuel _ _ _ _ _ _ _
    | exact provideInline_inFuel _ _ _ _ _
    | exact makeMapField_inFuel _ _ _ _ _
    | exact injectPointer_inFuel _ _ _ _ _ _ _
    | simp

theorem interfaceScan_inFuel (env : Env) (id c : Nat) (q : List Nat) (sf : StructField) :
    ∀ (ids : List Nat) (f : Option Nat) (w : World),
      (interfaceScan env id c q sf ids f w).2.1 ≠ some .outOfFuel := by
  intro ids
  induction ids with
  | nil => intro f w; simp [interfaceScan]
  | cons e rest ih =>
    intro f w
    unfold interfaceScan
    repeat' split
    all_goals first
      | exact ih _ _
      | simp

theorem interfaceStep_inFuel (env : Env) (w : World) (id c : Nat) (p : List Nat) (i : Nat)
    (sf : StructField) : (interfaceStep env w id c p i sf).2 ≠ some .outOfFuel := by
  unfold interfaceStep
  repeat' split
  all_goals first
    | simp; done
    | (rename_i h; have := interfaceScan_inFuel env id c (p ++ [i]) sf w.g.unnamed none w
       rw [h] at this; simpa using this)

theorem fieldLoop_inFuel {step : World → Nat → StructField → World × Option Outcome}
    (hstep : ∀ w i sf, (step w i sf).2 ≠ some .outOfFuel) :
    ∀ (rest : List StructField) (i : Nat) (w : World),
      (fieldLoop step rest i w).2 ≠ .outOfFuel := by
  intro rest
  induction rest with
  | nil => intro i w; simp [fieldLoop]
  | cons sf rest ih =>
    intro i w
    simp only [fieldLoop]
    split
    · exact ih _ _
    · rename_i w1 r heq
      have := hstep w i sf
      rw [heq] at this
      simpa using this

theorem traverse_inFuel (env : Env)
    {step : World → Nat → Nat → List Nat → Nat → StructField → World × Option Outcome}
    (hstep : ∀ w id c p i sf, (step w id c p i sf).2 ≠ some .outOfFuel) (w : World) (id : Nat) :
    (traverse env step w id).2 ≠ .outOfFuel := by
  unfold traverse
  repeat' split
  all_goals first
    | exact fieldLoop_inFuel (fun w1 i sf => hstep w1 id _ _ i sf) _ _ _
    | simp

theorem forEachIncomplete_inFuel {f : World → Nat → World × Outcome}
    (hf : ∀ w id, (f w id).2 ≠ .outOfFuel) :
    ∀ (ids : List Nat) (w : World), (forEachIncomplete f ids w).2 ≠ .outOfFuel := by
  intro ids
  induction ids with
  | nil => intro w; simp [forEachIncomplete]
  | cons id rest ih =>
    intro w
    simp only [forEachIncomplete]
    split
    · simp
    · split
      · exact ih _
      · split
        · exact ih _
        · rename_i w1 r _ heq
          have := hf w id
          rw [heq] at this
          exact this


theorem Bounded.preserved {env : Env} {m : Nat} {w w1 : World} {id c : Nat} {p : List Nat}
    {i : Nat} {sf : StructField} (hb : Bounded env m w) (hv : Visit env w id c p i sf)
    (h : Effect env w id c (p ++ [i]) sf w1) : Bounded env m w1 := by
  obtain ⟨_, _, s, _, _, _, hf⟩ := hv
  exact ⟨h.validIds hb.1,
    le_trans (h.measure hb.1 (fields_mem_fieldTypes (List.get?_mem hf))) hb.2⟩

/-- With fuel above the bound the worklist loop does not run out of fuel, and
its result does not depend on the fuel. -/
theorem unnamedLoop_fuel (env : Env) : ∀ (fuel fuel2 i : Nat) (w : World), w.validIds →
    (w.g.unnamed.length - i) + missing env w < fuel →
    (w.g.unnamed.length - i) + missing env w < fuel2 →
    unnamedLoop env fuel i w = unnamedLoop env fuel2 i w ∧
      (unnamedLoop env fuel i w).2 ≠ .outOfFuel := by
  intro fuel
  induction fuel with
  | zero => intro fuel2 i w _ h; omega
  | succ fuel ih =>
    intro fuel2 i w hvalid h1 h2
    cases fuel2 with
    | zero => omega
    | succ fuel2 =>
      simp only [unnamedLoop]
      split
      · exact ⟨rfl, by simp⟩
      · split
        · exact ⟨rfl, by simp⟩
        · rename_i id hid
          have hlt : i < w.g.unnamed.length := get?_lt hid
          split
          · exact ⟨rfl, by simp⟩
          · rename_i o ho
            split
            · exact ih fuel2 (i + 1) w hvalid (by omega) (by omega)
            · rename_i hc
              have hreg : w.registered id := Or.inl (List.get?_mem hid)
              have hinv := traverse_inv (explicitStep_effect env)
                (Bounded env (missing env w + w.g.unnamed.length))
                (fun w2 id2 c p j sf hb hv =>
                  hb.preserved hv (explicitStep_effect env w2 id2 c p j sf))
                hreg ho (by simpa using hc) ⟨hvalid, le_refl _⟩
              have hfuel := traverse_inFuel env (explicitStep_inFuel env) w id
              unfold Graph.populateExplicit
              cases ht : traverse env (explicitStep env) w id with
              | mk w1 r =>
                rw [ht] at hinv hfuel
                obtain ⟨⟨hv1, hm0⟩, he1⟩ := hinv
                have hm1 : missing env w1 + w1.g.unnamed.length ≤
                    missing env w + w.g.unnamed.length := hm0
                have hv1 : w1.validIds := hv1
                obtain ⟨l, hl⟩ := he1.unnamed
                cases r with
                | nil =>
                  simp only
                  have hlen : w.g.unnamed.length ≤ w1.g.unnamed.length := by
                    rw [hl, List.length_append]; omega
                  exact ih fuel2 (i + 1) w1 hv1 (by omega) (by omega)
                | error e => exact ⟨rfl, by simp⟩
                | panic => exact ⟨rfl, by simp⟩
                | outOfFuel => exact absurd rfl hfuel


theorem ifaceProvided_cached : ifaceProvided.cached := by
  intro eid heid
  have hu : ifaceProvided.g.unnamed = [0, 1, 2] := rfl
  rw [hu] at heid
  simp only [List.mem_cons, List.mem_singleton, List.not_mem_nil, or_false] at heid
  rcases heid with rfl | rfl | rfl
  · exact ⟨_, _, _, rfl, rfl, rfl⟩
  · exact ⟨_, _, _, rfl, rfl, rfl⟩
  · exact ⟨_, _, _, rfl, rfl, rfl⟩


theorem assignNamed_cases {env : Env} {w w1 : World} {id c : Nat} {q : List Nat}
    {sf : StructField} {z : Val} {tg : tag} (ha : Annotated env sf tg)
    (hz : w.load c q = some z) (hzero : isNilOrZero z sf.Typ = true) (hname : tg.Name ≠ "")
    (h : assignNamed env w id c q sf tg = (w1, none)) : Explicit env w id c q sf w1 := by
  unfold assignNamed at h
  split at h
  · cases h
  · rename_i eid hlook
    split at h
    · cases h
    · rename_i e he
      split at h
      · cases h
      · rename_i et het
        split at h
        · cases h
        · rename_i hass
          split at h
          · cases h
          · rename_i v hv
            simp only [Prod.mk.injEq, and_true] at h
            subst h
            exact .named tg z eid e et v ha hz hzero hname hlook he het (by simpa using hass) hv

theorem provideInline_cases {env : Env} {w w1 : World} {id c : Nat} {q : List Nat}
    {sf : StructField} {z : Val} {tg : tag} (ha : Annotated env sf tg)
    (hz : w.load c q = some z) (hzero : isNilOrZero z sf.Typ = true) (hname : tg.Name = "")
    (hk : sf.Typ.Kind = .Struct)
    (h : provideInline w c q sf tg = (w1, none)) : Explicit env w id c q sf w1 := by
  unfold provideInline at h
  split at h
  · cases h
  · rename_i hpriv
    split at h
    · cases h
    · rename_i hinl
      obtain ⟨s, hs⟩ := kind_struct_iff.mp hk
      have hP := Provide_fresh w
        { Value := some (.Ptr sf.Typ, .ptr c q), Name := "",
          Completed := false, Fields := none, reflectType := none,
          reflectValue := none, private_ := true, created := false,
          embedded := sf.Anonymous } s (.ptr c q) (by simp [hs]) rfl rfl
      simp only [if_true] at hP
      dsimp only at h
      rw [hP] at h
      simp only [Prod.mk.injEq, and_true] at h
      subst h
      have := @Explicit.inline env w id c q sf tg z s ha hz hzero hname hs
        (by simpa using hpriv) (by simpa using hinl)
      simpa [inlineObject, hs] using this

theorem makeMapField_cases {env : Env} {w w1 : World} {id c : Nat} {q : List Nat}
    {sf : StructField} {z : Val} {tg : tag} (ha : Annotated env sf tg)
    (hz : w.load c q = some z) (hzero : isNilOrZero z sf.Typ = true) (hname : tg.Name = "")
    (hk : sf.Typ.Kind = .Map)
    (h : makeMapField w c q sf tg = (w1, none)) : Explicit env w id c q sf w1 := by
  unfold makeMapField at h
  split at h
  · cases h
  · rename_i hpriv
    simp only [Prod.mk.injEq, and_true] at h
    subst h
    exact .makeMap tg z ha hz hzero hname hk (by simpa using hpriv)

theorem injectPointer_cases {env : Env} {w w1 : World} {id c : Nat} {q : List Nat}
    {sf : StructField} {z : Val} {tg : tag} (ha : Annotated env sf tg)
    (hz : w.load c q = some z) (hzero : isNilOrZero z sf.Typ = true) (hname : tg.Name = "")
    (hsp : isStructPtr sf.Typ = true)
    (h : injectPointer env w id c q sf tg = (w1, none)) : Explicit env w id c q sf w1 := by
  obtain ⟨s, hs⟩ := isStructPtr_iff.mp hsp
  unfold injectPointer at h
  split at h
  · cases h
  · rename_i eid hfound
    split at h
    · cases h
    · rename_i e he
      split at h
      · cases h
      · rename_i v hv
        simp only [Prod.mk.injEq, and_true] at h
        subst h
        cases hpriv : tg.Private
        · simp only [hpriv, Bool.not_false, if_true] at hfound
          exact .found tg z eid e v ha hz hzero hname hsp hpriv hfound he hv
        · simp [hpriv] at hfound
  · rename_i hnf
    simp only [hs, GoType.Elem] at h
    have hP := Provide_fresh { w with mem := w.mem ++ [Zero env (.Struct s)] }
        { Value := some (.Ptr (.Struct s), .ptr w.mem.length []), Name := "",
          Completed := false, Fields := none, reflectType := none,
          reflectValue := none, private_ := tg.Private, created := true,
          embedded := false } s (.ptr w.mem.length []) rfl rfl rfl
    dsimp only at hP h
    rw [hP] at h
    cases hpriv : tg.Private
    · simp only [hpriv, Bool.false_eq_true, if_false] at h
      by_cases hflag : typeFlag w.g.unnamedType (.Ptr (.Struct s)) = true
      · simp only [hflag, if_true] at h
        cases h
      · simp only [hflag, Bool.false_eq_true, if_false, Prod.mk.injEq, and_true] at h
        subst h
        have := @Explicit.create env w id c q sf tg z s ha hz hzero hname hs
          (by intro _; simpa [hpriv, hs] using hnf)
          (by intro _; simpa [hs] using hflag)
        simpa [createdObject, World.allocated, hs, hpriv] using this
    · simp only [hpriv, if_true, Prod.mk.injEq, and_true] at h
      subst h
      have := @Explicit.create env w id c q sf tg z s ha hz hzero hname hs
          (by intro h; rw [hpriv] at h; cases h) (by intro h; rw [hpriv] at h; cases h)
      simpa [createdObject, World.allocated, hs, hpriv] using this

/-- A visit of `populateExplicit` that goes on to the next field took one of the
listed branches. -/
theorem explicitStep_cases {env : Env} {w w1 : World} {id c : Nat} {p : List Nat} {i : Nat}
    {sf : StructField} (h : explicitStep env w id c p i sf = (w1, none)) :
    Explicit env w id c (p ++ [i]) sf w1 := by
  unfold explicitStep at h
  split at h
  · cases h
  · rename_i htag
    simp only [Prod.mk.injEq, and_true] at h
    subst h
    exact .bare htag
  · rename_i tg htag
    split at h
    · cases h
    · rename_i hexp
      split at h
      · cases h
      · rename_i hinl
        have ha : Annotated env sf tg := by
          refine ⟨htag, by simpa using hexp, ?_⟩
          intro hi
          simpa [hi] using hinl
        split at h
        · cases h
        · rename_i z hz
          split at h
          · rename_i hnz
            simp only [Prod.mk.injEq, and_true] at h
            subst h
            exact .kept tg z ha hz (by simpa using hnz)
          · rename_i hzero
            simp only [Bool.not_eq_true, Bool.not_eq_false'] at hzero
            split at h
            · rename_i hname
              exact assignNamed_cases ha hz hzero (by simpa using hname) h
            · rename_i hname
              have hname : tg.Name = "" := by simpa using hname
              split at h
              · rename_i hk
                exact provideInline_cases ha hz hzero hname (by simpa using hk) h
              · split at h
                · rename_i hk
                  simp only [Prod.mk.injEq, and_true] at h
                  subst h
                  exact .deferred tg z ha hz hzero hname (by simpa using hk)
                · split at h
                  · rename_i hk
                    exact makeMapField_cases ha hz hzero hname (by simpa using hk) h
                  · split at h
                    · cases h
                    · rename_i hsp
                      exact injectPointer_cases ha hz hzero hname (by simpa using hsp) h

theorem interfaceScan_cases (env : Env) (id : Nat) {c : Nat} {q : List Nat} (sf : StructField)
    {z : Val} {tg : tag} (htag : parseTag env sf.Tag = .ok (some tg))
    (hk : sf.Typ.Kind = .Interface) (hpriv : tg.Private = false) (hname : tg.Name = "")
    (w : World) (hz : w.load c q = some z) (hzero : isNilOrZero z sf.Typ = true) :
    ∀ (ids : List Nat), (∀ e ∈ ids, e ∈ w.g.unnamed) → ∀ w1 f,
      interfaceScan env id c q sf ids none w = (w1, none, some f) →
      Resolve env w id c q sf w1 := by
  intro ids
  induction ids with
  | nil => intro _ w1 f h; simp [interfaceScan] at h
  | cons a rest ih =>
    intro hsub w1 f h
    have ih2 := ih (fun e he => hsub e (List.mem_cons_of_mem _ he)) w1 f
    simp only [interfaceScan] at h
    split at h
    · cases h
    · rename_i e he
      split at h
      · exact ih2 h
      · rename_i hp
        split at h
        · cases h
        · split at h
          · split at h
            · cases h
            · rename_i v hv
              have hw := @interfaceScan_found_world env id c q sf rest a
                ((w.store c q v).addDependency id sf.Name a)
              rw [h] at hw
              simp only at hw
              subst hw
              exact .assigned tg z a e v htag hk hpriv hz hzero hname (fieldSet_some hv).1
                (hsub a (List.mem_cons_self _ _)) he (by simpa using hp) (fieldSet_some hv).2
          · exact ih2 h

/-- A visit of `populateUnnamedInterface` that goes on to the next field took
one of the listed branches. -/
theorem interfaceStep_cases {env : Env} {w w1 : World} {id c : Nat} {p : List Nat} {i : Nat}
    {sf : StructField} (h : interfaceStep env w id c p i sf = (w1, none)) :
    Resolve env w id c (p ++ [i]) sf w1 := by
  unfold interfaceStep at h
  split at h
  · cases h
  · rename_i htag
    simp only [Prod.mk.injEq, and_true] at h
    subst h
    exact .bare htag
  · rename_i tg htag
    split at h
    · rename_i hk
      simp only [Prod.mk.injEq, and_true] at h
      subst h
      exact .other tg htag (by simpa using hk)
    · rename_i hk
      have hk : sf.Typ.Kind = .Interface := by simpa using hk
      split at h
      · cases h
      · rename_i hpriv
        have hpriv : tg.Private = false := by simpa using hpriv
        split at h
        · cases h
        · rename_i z hz
          split at h
          · rename_i hnz
            simp only [Prod.mk.injEq, and_true] at h
            subst h
            exact .kept tg z htag hk hpriv hz (by simpa using hnz)
          · rename_i hzero
            simp only [Bool.not_eq_true, Bool.not_eq_false'] at hzero
            split at h
            · cases h
            · rename_i hname
              have hname : tg.Name = "" := by simpa using hname
              split at h
              · cases h
              · cases h
              · rename_i w2 f heq
                simp only [Prod.mk.injEq, and_true] at h
                subst h
                exact interfaceScan_cases env id sf htag hk hpriv hname w hz hzero w.g.unnamed
                  (fun _ h => h) _ _ heq

theorem haveTypes_get {env : Env} : ∀ {fs : List Val} {ts : List GoType},
    Val.haveTypes env fs ts = true → ∀ {i : Nat} {t : GoType}, ts.get? i = some t →
    ∃ f, fs.get? i = some f ∧ f.hasType env t = true := by
  intro fs
  induction fs with
  | nil =>
    intro ts h i t ht
    cases ts with
    | nil => simp at ht
    | cons a rest => simp [Val.haveTypes] at h
  | cons v vs ih =>
    intro ts h i t ht
    cases ts with
    | nil => simp at ht
    | cons a rest =>
      simp only [Val.haveTypes, Bool.and_eq_true] at h
      cases i with
      | zero =>
        simp only [List.get?_cons_zero, Option.some.injEq] at ht
        subst ht
        exact ⟨v, rfl, h.1⟩
      | succ k =>
        simp only [List.get?_cons_succ] at ht ⊢
        exact ih h.2 ht

theorem haveTypes_get_val {env : Env} : ∀ {fs : List Val} {ts : List GoType},
    Val.haveTypes env fs ts = true → ∀ {i : Nat} {f : Val}, fs.get? i = some f →
    ∃ t, ts.get? i = some t ∧ f.hasType env t = true := by
  intro fs
  induction fs with
  | nil => intro ts _ i f hf; simp at hf
  | cons v vs ih =>
    intro ts h i f hf
    cases ts with
    | nil => simp [Val.haveTypes] at h
    | cons a rest =>
      simp only [Val.haveTypes, Bool.and_eq_true] at h
      cases i with
      | zero =>
        simp only [List.get?_cons_zero, Option.some.injEq] at hf
        subst hf
        exact ⟨a, rfl, h.1⟩
      | succ k =>
        simp only [List.get?_cons_succ] at hf ⊢
        exact ih h.2 hf

theorem haveTypes_set {env : Env} : ∀ {fs : List Val} {ts : List GoType},
    Val.haveTypes env fs ts = true → ∀ {i : Nat} {t : GoType} {x : Val}, ts.get? i = some t →
    x.hasType env t = true → Val.haveTypes env (fs.set i x) ts = true := by
  intro fs
  induction fs with
  | nil => intro ts h i t x _ _; simpa using h
  | cons v vs ih =>
    intro ts h i t x ht hx
    cases ts with
    | nil => simp [Val.haveTypes] at h
    | cons a rest =>
      simp only [Val.haveTypes, Bool.and_eq_true] at h
      cases i with
      | zero =>
        simp only [List.get?_cons_zero, Option.some.injEq] at ht
        subst ht
        simp only [List.set_cons_zero, Val.haveTypes, Bool.and_eq_true]
        exact ⟨hx, h.2⟩
      | succ k =>
        simp only [List.get?_cons_succ] at ht
        simp only [List.set_cons_succ, Val.haveTypes, Bool.and_eq_true]
        exact ⟨h.1, ih h.2 ht hx⟩

theorem replicate_get? {α : Type} {n i : Nat} (a : α) (h : i < n) :
    (List.replicate n a).get? i = some a := by
  rw [List.get?_eq_getElem?, List.getElem?_replicate]
  simp [h]

theorem fieldTypes_get (env : Env) (s : String) (i : Nat) :
    ((env.fields s).map (fun f => f.Typ)).get? i = ((env.fields s).get? i).map (fun f => f.Typ) := by
  simp [List.get?_eq_getElem?, List.getElem?_map]

/-- The component of a well-shaped value at a typed path exists and is
well-shaped. -/
theorem Val.hasType_get {env : Env} : ∀ {p : List Nat} {v : Val} {t t2 : GoType},
    v.hasType env t = true → typeAt env t p = some t2 →
    ∃ v2, v.get p = some v2 ∧ v2.hasType env t2 = true := by
  intro p
  induction p with
  | nil =>
    intro v t t2 h ht
    simp only [typeAt, Option.some.injEq] at ht
    subst ht
    exact ⟨v, by simp [Val.get], h⟩
  | cons i r ih =>
    intro v t t2 h ht
    cases t with
    | Struct s =>
      simp only [typeAt] at ht
      split at ht
      · rename_i sf hsf
        cases v with
        | struct fs =>
          simp only [Val.hasType] at h
          have hget : ((env.fields s).map (fun f => f.Typ)).get? i = some sf.Typ := by
            rw [fieldTypes_get, hsf]; rfl
          obtain ⟨f, hf, hft⟩ := haveTypes_get h hget
          obtain ⟨v2, hv2, hv2t⟩ := ih hft ht
          exact ⟨v2, by simp only [Val.get, hf]; exact hv2, hv2t⟩
        | nil => simp [Val.hasType, GoType.Kind] at h
        | ptr _ _ => simp [Val.hasType, GoType.Kind] at h
        | map _ => simp [Val.hasType, GoType.Kind] at h
        | other _ => simp [Val.hasType, GoType.Kind] at h
        | iface _ _ => simp [Val.hasType, GoType.Kind] at h
      · cases ht
    | Ptr _ => simp [typeAt] at ht
    | Interface _ => simp [typeAt] at ht
    | Map _ => simp [typeAt] at ht
    | Array n e =>
      simp only [typeAt] at ht
      split at ht
      · rename_i hlt
        cases v with
        | struct fs =>
          simp only [Val.hasType] at h
          obtain ⟨f, hf, hft⟩ := haveTypes_get h (replicate_get? e hlt)
          obtain ⟨v2, hv2, hv2t⟩ := ih hft ht
          exact ⟨v2, by simp only [Val.get, hf]; exact hv2, hv2t⟩
        | nil => simp [Val.hasType, GoType.Kind] at h
        | ptr _ _ => simp [Val.hasType, GoType.Kind] at h
        | map _ => simp [Val.hasType, GoType.Kind] at h
        | other _ => simp [Val.hasType, GoType.Kind] at h
        | iface _ _ => simp [Val.hasType, GoType.Kind] at h
      · cases ht
    | Other _ => simp [typeAt] at ht

/-- Replacing the component at a typed path by a well-shaped value keeps a
value well-shaped. -/
theorem Val.hasType_set {env : Env} : ∀ {p : List Nat} {v x : Val} {t t2 : GoType},
    v.hasType env t = true → typeAt env t p = some t2 → x.hasType env t2 = true →
    (v.set p x).hasType env t = true := by
  intro p
  induction p with
  | nil =>
    intro v x t t2 _ ht hx
    simp only [typeAt, Option.some.injEq] at ht
    subst ht
    simpa [Val.set] using hx
  | cons i r ih =>
    intro v x t t2 h ht hx
    cases t with
    | Struct s =>
      simp only [typeAt] at ht
      split at ht
      · rename_i sf hsf
        cases v with
        | struct fs =>
          simp only [Val.hasType] at h
          have hget : ((env.fields s).map (fun f => f.Typ)).get? i = some sf.Typ := by
            rw [fieldTypes_get, hsf]; rfl
          obtain ⟨f, hf, hft⟩ := haveTypes_get h hget
          simp only [Val.set, hf, Val.hasType]
          exact haveTypes_set h hget (ih hft ht hx)
        | nil => simp [Val.hasType, GoType.Kind] at h
        | ptr _ _ => simp [Val.hasType, GoType.Kind] at h
        | map _ => simp [Val.hasType, GoType.Kind] at h
        | other _ => simp [Val.hasType, GoType.Kind] at h
        | iface _ _ => simp [Val.hasType, GoType.Kind] at h
      · cases ht
    | Ptr _ => simp [typeAt] at ht
    | Interface _ => simp [typeAt] at ht
    | Map _ => simp [typeAt] at ht
    | Array n e =>
      simp only [typeAt] at ht
      split at ht
      · rename_i hlt
        cases v with
        | struct fs =>
          simp only [Val.hasType] at h
          obtain ⟨f, hf, hft⟩ := haveTypes_get h (replicate_get? e hlt)
          simp only [Val.set, hf, Val.hasType]
          exact haveTypes_set h (replicate_get? e hlt) (ih hft ht hx)
        | nil => simp [Val.hasType, GoType.Kind] at h
        | ptr _ _ => simp [Val.hasType, GoType.Kind] at h
        | map _ => simp [Val.hasType, GoType.Kind] at h
        | other _ => simp [Val.hasType, GoType.Kind] at h
        | iface _ _ => simp [Val.hasType, GoType.Kind] at h
      · cases ht
    | Other _ => simp [typeAt] at ht

theorem typeAt_append (env : Env) : ∀ (p q : List Nat) (t : GoType),
    typeAt env t (p ++ q) = (typeAt env t p).bind (fun u => typeAt env u q) := by
  intro p
  induction p with
  | nil => intro q t; simp [typeAt]
  | cons i r ih =>
    intro q t
    cases t with
    | Struct s =>
      simp only [List.cons_append, typeAt]
      split
      · exact ih q _
      · rfl
    | Ptr _ => simp [typeAt]
    | Interface _ => simp [typeAt]
    | Map _ => simp [typeAt]
    | Array n e =>
      simp only [List.cons_append, typeAt]
      split
      · exact ih q _
      · rfl
    | Other _ => simp [typeAt]

theorem typeAt_field {env : Env} {t : GoType} {p : List Nat} {s : String} {i : Nat}
    {sf : StructField} (h : typeAt env t p = some (.Struct s))
    (hf : (env.fields s).get? i = some sf) : typeAt env t (p ++ [i]) = some sf.Typ := by
  rw [typeAt_append, h]
  simp only [Option.bind, typeAt, hf]

mutual
/-- Two zero values of the same shape are equal. -/
theorem Val.zero_unique {env : Env} : ∀ (v v2 : Val) (t : GoType),
    v.hasType env t = true → v2.hasType env t = true → v.isZero = true → v2.isZero = true →
    v = v2
  | .nil, v2, t, h1, h2, _, hz2 => by
    cases v2 with
    | nil => rfl
    | other n =>
      simp only [Val.hasType, Bool.or_eq_true, beq_iff_eq] at h1
      simp only [Val.hasType, beq_iff_eq] at h2
      rw [h2] at h1
      simp at h1
    | struct fs =>
      cases t <;> simp [Val.hasType, GoType.Kind] at h1 h2
    | ptr _ _ => simp [Val.isZero] at hz2
    | map _ => simp [Val.isZero] at hz2
    | iface _ _ => simp [Val.isZero] at hz2
  | .other n, v2, t, h1, h2, hz1, hz2 => by
    cases v2 with
    | nil =>
      simp only [Val.hasType, Bool.or_eq_true, beq_iff_eq] at h2
      simp only [Val.hasType, beq_iff_eq] at h1
      rw [h1] at h2
      simp at h2
    | other m =>
      simp only [Val.isZero, beq_iff_eq] at hz1 hz2
      rw [hz1, hz2]
    | struct fs =>
      cases t <;> simp [Val.hasType, GoType.Kind] at h1 h2
    | ptr _ _ => simp [Val.isZero] at hz2
    | map _ => simp [Val.isZero] at hz2
    | iface _ _ => simp [Val.isZero] at hz2
  | .struct fs, v2, t, h1, h2, hz1, hz2 => by
    cases t with
    | Struct s =>
      cases v2 with
      | struct fs2 =>
        simp only [Val.hasType] at h1 h2
        simp only [Val.isZero] at hz1 hz2
        rw [Val.zeros_unique fs fs2 _ h1 h2 hz1 hz2]
      | nil => simp [Val.hasType, GoType.Kind] at h2
      | other _ => simp [Val.hasType, GoType.Kind] at h2
      | ptr _ _ => simp [Val.isZero] at hz2
      | map _ => simp [Val.isZero] at hz2
      | iface _ _ => simp [Val.isZero] at hz2
    | Array n e =>
      cases v2 with
      | struct fs2 =>
        simp only [Val.hasType] at h1 h2
        simp only [Val.isZero] at hz1 hz2
        rw [Val.zeros_unique fs fs2 _ h1 h2 hz1 hz2]
      | nil => simp [Val.hasType, GoType.Kind] at h2
      | other _ => simp [Val.hasType, GoType.Kind] at h2
      | ptr _ _ => simp [Val.isZero] at hz2
      | map _ => simp [Val.isZero] at hz2
      | iface _ _ => simp [Val.isZero] at hz2
    | Ptr _ => simp [Val.hasType] at h1
    | Interface _ => simp [Val.hasType] at h1
    | Map _ => simp [Val.hasType] at h1
    | Other _ => simp [Val.hasType] at h1
  | .ptr _ _, _, _, _, _, hz1, _ => by simp [Val.isZero] at hz1
  | .map _, _, _, _, _, hz1, _ => by simp [Val.isZero] at hz1
  | .iface _ _, _, _, _, _, hz1, _ => by simp [Val.isZero] at hz1
/-- Two lists of zero values of the same shapes are equal. -/
theorem Val.zeros_unique {env : Env} : ∀ (fs fs2 : List Val) (ts : List GoType),
    Val.haveTypes env fs ts = true → Val.haveTypes env fs2 ts = true →
    Val.allZero fs = true → Val.allZero fs2 = true → fs = fs2
  | [], fs2, ts, h1, h2, _, _ => by
    cases fs2 with
    | nil => rfl
    | cons a rest =>
      cases ts with
      | nil => simp [Val.haveTypes] at h2
      | cons t tr => simp [Val.haveTypes] at h1
  | v :: vs, fs2, ts, h1, h2, hz1, hz2 => by
    cases ts with
    | nil => simp [Val.haveTypes] at h1
    | cons t tr =>
      cases fs2 with
      | nil => simp [Val.haveTypes] at h2
      | cons a rest =>
        simp only [Val.haveTypes, Bool.and_eq_true] at h1 h2
        simp only [Val.allZero, Bool.and_eq_true] at hz1 hz2
        rw [Val.zero_unique v a t h1.1 h2.1 hz1.1 hz2.1,
          Val.zeros_unique vs rest tr h1.2 h2.2 hz1.2 hz2.2]
end

theorem set_get?_same {α : Type} : ∀ {l : List α} {i : Nat} {a : α},
    l.get? i = some a → l.set i a = l := by
  intro l
  induction l with
  | nil => intro i a h; simp at h
  | cons b rest ih =>
    intro i a h
    cases i with
    | zero =>
      simp only [List.get?_cons_zero, Option.some.injEq] at h
      subst h
      rfl
    | succ k =>
      simp only [List.get?_cons_succ] at h
      simp only [List.set_cons_succ, ih h]

theorem Val.set_get_same : ∀ {p : List Nat} {v y : Val}, v.get p = some y → v.set p y = v := by
  intro p
  induction p with
  | nil => intro v y h; simp only [Val.get, Option.some.injEq] at h; subst h; simp [Val.set]
  | cons i r ih =>
    intro v y h
    obtain ⟨fs, f, hv, hf, hfr⟩ := Val.get_cons_struct h
    subst hv
    rw [Val.set_struct y hf, ih hfr, set_get?_same hf]

theorem Env.zeroTyped_all {env : Env} (hz : env.zeroTyped) (s : String) :
    (Zero env (.Struct s)).hasType env (.Struct s) = true := by
  cases hl : env.structs.lookup s with
  | none =>
    have hf : env.fields s = [] := by simp [Env.fields, hl]
    rw [Zero_struct]
    simp [Val.hasType, hf, Val.haveTypes]
  | some fs => exact hz (s, fs) (lookup_mem hl)

theorem Typed.load {env : Env} {ct : List GoType} {w : World} (ht : Typed env ct w)
    {c : Nat} {t u : GoType} {q : List Nat} (hc : ct.get? c = some t)
    (hq : typeAt env t q = some u) : ∃ v, w.load c q = some v ∧ v.hasType env u = true := by
  have hlt : c < w.mem.length := by rw [← ht.len]; exact get?_lt hc
  obtain ⟨m, hm⟩ : ∃ m, w.mem.get? c = some m := by
    rw [List.get?_eq_getElem?, List.getElem?_eq_getElem hlt]; exact ⟨_, rfl⟩
  obtain ⟨v, hv, hvt⟩ := Val.hasType_get (ht.cells c t m hc hm) hq
  exact ⟨v, by simp only [World.load, hm]; exact hv, hvt⟩

theorem Typed.loaded {env : Env} {ct : List GoType} {w : World} (ht : Typed env ct w)
    {c : Nat} {t u : GoType} {q : List Nat} {v : Val} (hc : ct.get? c = some t)
    (hq : typeAt env t q = some u) (hv : w.load c q = some v) : v.hasType env u = true := by
  obtain ⟨v2, hv2, hvt⟩ := ht.load hc hq
  rw [hv] at hv2
  cases hv2
  exact hvt

theorem Typed.fieldType {env : Env} {ct : List GoType} {w : World} (ht : Typed env ct w)
    {id c : Nat} {p : List Nat} {i : Nat} {sf : StructField} (hv : Visit env w id c p i sf) :
    ∃ t, ct.get? c = some t ∧ typeAt env t (p ++ [i]) = some sf.Typ := by
  obtain ⟨s, hw, hf⟩ := hv.walk
  obtain ⟨t, hc, hp⟩ := ht.walks id s c p hw
  exact ⟨t, hc, typeAt_field hp hf⟩

theorem store_same {w : World} {c : Nat} {q : List Nat} {z : Val} (h : w.load c q = some z) :
    w.store c q z = w := by
  unfold World.load at h
  unfold World.store
  split at h
  · rename_i m hm
    rw [Val.set_get_same h, set_get?_same hm]
  · cases h

theorem Val.get_set_prefix : ∀ {q2 : List Nat} {m v : Val} (r : List Nat) (x : Val),
    m.get q2 = some v → (m.set (q2 ++ r) x).get q2 = some (v.set r x) := by
  intro q2
  induction q2 with
  | nil =>
    intro m v r x h
    simp only [Val.get, Option.some.injEq] at h
    subst h
    simp [Val.get]
  | cons i rest ih =>
    intro m v r x h
    obtain ⟨fs, f, hm, hf, hfr⟩ := Val.get_cons_struct h
    subst hm
    rw [List.cons_append, Val.set_struct x hf, Val.get_struct]
    have hlt : i < fs.length := get?_lt hf
    simp only [List.get?_eq_getElem?, List.getElem?_set_self hlt, Option.bind]
    exact ih r x hfr

theorem load_store_prefix {w : World} {c : Nat} {q2 : List Nat} {v : Val} (r : List Nat)
    (x : Val) (h : w.load c q2 = some v) :
    (w.store c (q2 ++ r) x).load c q2 = some (v.set r x) := by
  unfold World.load at h
  split at h
  · rename_i m hm
    have hlt : c < w.mem.length := get?_lt hm
    simp only [World.store, hm, World.load, List.get?_eq_getElem?, List.getElem?_set_self hlt]
    exact Val.get_set_prefix r x h
  · cases h

theorem load_store_below {w : World} {c : Nat} {q : List Nat} {z : Val} (r : List Nat)
    (x : Val) (h : w.load c q = some z) :
    (w.store c q x).load c (q ++ r) = x.get r := by
  rw [load_append_path, load_store_same x h]
  rfl

/-- A write of a well-shaped value over a zero component of a well-formed heap
leaves every component as it is or not zero. -/
theorem Typed.store_cases {env : Env} {ct : List GoType} {w : World} (ht : Typed env ct w)
    {c : Nat} {t u : GoType} {q : List Nat} {z x : Val} (hc : ct.get? c = some t)
    (hq : typeAt env t q = some u) (hz : w.load c q = some z) (hzero : z.isZero = true)
    (hx : x.hasType env u = true)
    {c2 : Nat} {t2 u2 : GoType} {q2 : List Nat} {v : Val} (hc2 : ct.get? c2 = some t2)
    (hq2 : typeAt env t2 q2 = some u2) (hv : w.load c2 q2 = some v) :
    ∃ v1, (w.store c q x).load c2 q2 = some v1 ∧ (v1 = v ∨ v1.isZero = false) := by
  cases hxz : x.isZero with
  | true =>
    have hzx : x = z := Val.zero_unique x z u hx (ht.loaded hc hq hz) hxz hzero
    subst hzx
    rw [store_same hz]
    exact ⟨v, hv, Or.inl rfl⟩
  | false =>
    by_cases hcc : c = c2
    · subst hcc
      rw [hc] at hc2
      cases hc2
      by_cases h1 : ∃ r, q = q2 ++ r
      · obtain ⟨r, hr⟩ := h1
        subst hr
        refine ⟨v.set r x, load_store_prefix r x hv, Or.inr ?_⟩
        have hvr : v.get r = some z := by
          rw [load_append_path, hv] at hz
          exact hz
        cases hs : (v.set r x).isZero with
        | false => rfl
        | true =>
          have := Val.isZero_get hs (Val.get_set_same x hvr)
          rw [hxz] at this
          cases this
      · by_cases h2 : ∃ r, q2 = q ++ r
        · obtain ⟨r, hr⟩ := h2
          subst hr
          rw [load_store_below r x hz]
          rw [typeAt_append, hq] at hq2
          obtain ⟨v1, hv1, hv1t⟩ := Val.hasType_get hx hq2
          refine ⟨v1, hv1, ?_⟩
          cases hs : v1.isZero with
          | false => exact Or.inr rfl
          | true =>
            left
            have hvz : v.isZero = true := by
              rw [load_append_path, hz] at hv
              exact Val.isZero_get hzero hv
            have hvt : v.hasType env u2 = true := by
              rw [load_append_path, hz] at hv
              obtain ⟨v3, hv3, hv3t⟩ := Val.hasType_get (ht.loaded hc hq hz) hq2
              simp only [Option.bind] at hv
              rw [hv] at hv3
              cases hv3
              exact hv3t
            exact Val.zero_unique v1 v u2 hv1t hvt hs hvz
        · refine ⟨v, ?_, Or.inl rfl⟩
          rw [load_store_disjoint w x (fun _ => ⟨fun r hr => h1 ⟨r, hr⟩, fun r hr => h2 ⟨r, hr⟩⟩)]
          exact hv
    · refine ⟨v, ?_, Or.inl rfl⟩
      rw [load_store_other_cell x hcc]
      exact hv

theorem setValue_typed {env : Env} {e : Object} {u : GoType} {x : Val}
    (hv : ∀ t v, e.Value = some (t, v) → v.hasType env t = true)
    (hx : setValue env u e.Value = some x) : x.hasType env u = true := by
  unfold setValue at hx
  split at hx
  · cases hx
  · rename_i t v hval
    have hvt := hv t v hval
    split at hx
    · rename_i hass
      by_cases hsame : t = u
      · subst hsame
        cases t with
        | Interface n =>
          simp only [Option.some.injEq] at hx
          subst hx
          simp [Val.hasType, GoType.Kind]
        | Struct s => simp only [Option.some.injEq] at hx; subst hx; exact hvt
        | Ptr s => simp only [Option.some.injEq] at hx; subst hx; exact hvt
        | Map s => simp only [Option.some.injEq] at hx; subst hx; exact hvt
        | Array n s => simp only [Option.some.injEq] at hx; subst hx; exact hvt
        | Other s => simp only [Option.some.injEq] at hx; subst hx; exact hvt
      · have hne : (t == u) = false := by simpa using hsame
        simp only [GoType.AssignableTo, hne, Bool.false_or] at hass
        cases u with
        | Interface n =>
          simp only [Option.some.injEq] at hx
          subst hx
          simp [Val.hasType, GoType.Kind]
        | Struct b =>
          simp only [Option.some.injEq] at hx
          subst hx
          cases t with
          | Struct a =>
            simp only [Bool.and_eq_true, beq_iff_eq] at hass
            cases v with
            | struct fs =>
              simp only [Val.hasType] at hvt ⊢
              rw [← hass.2]
              exact hvt
            | nil => simp [Val.hasType, GoType.Kind] at hvt
            | ptr _ _ => simp [Val.hasType, GoType.Kind] at hvt
            | map _ => simp [Val.hasType, GoType.Kind] at hvt
            | other _ => simp [Val.hasType, GoType.Kind] at hvt
            | iface _ _ => simp [Val.hasType, GoType.Kind] at hvt
          | Ptr _ => simp at hass
          | Interface _ => simp at hass
          | Map _ => simp at hass
          | Array _ _ => simp at hass
          | Other _ => simp at hass
        | Ptr b => cases t <;> simp at hass
        | Array n b => cases t <;> simp at hass
        | Map b =>
          simp only [Option.some.injEq] at hx
          subst hx
          cases t with
          | Map a => cases v <;> simp [Val.hasType, GoType.Kind] at hvt ⊢
          | Ptr _ => simp at hass
          | Interface _ => simp at hass
          | Struct _ => simp at hass
          | Array _ _ => simp at hass
          | Other _ => simp at hass
        | Other b =>
          simp only [Option.some.injEq] at hx
          subst hx
          cases t with
          | Other a => cases v <;> simp [Val.hasType, GoType.Kind] at hvt ⊢
          | Ptr _ => simp at hass
          | Interface _ => simp at hass
          | Struct _ => simp at hass
          | Array _ _ => simp at hass
          | Map _ => simp at hass
    · cases hx

theorem load_congr {w w1 : World} (h : w1.mem = w.mem) (c : Nat) (q : List Nat) :
    w1.load c q = w.load c q := by
  simp only [World.load, h]

theorem Settles.unchangedMem (env : Env) (ct : List GoType) {w w1 : World} (h : w1.mem = w.mem) :
    Settles env ct w w1 := by
  intro c t q u v _ _ hv
  exact ⟨v, by rw [load_congr h]; exact hv, Or.inl rfl⟩

theorem registered_congr {w w1 : World} (h : w1.g = w.g) (k : Nat) :
    w1.registered k ↔ w.registered k := by
  simp only [World.registered, h]

/-- A well-formed heap stays so when the graph is kept, the registered objects
are kept up to their dependency maps, and the cells keep their shapes. -/
theorem Typed.transfer {env : Env} {ct : List GoType} {w w1 : World} (ht : Typed env ct w)
    (hg : w1.g = w.g)
    (hobjs : ∀ k o1, w.registered k → w1.objs.get? k = some o1 →
      ∃ o, w.objs.get? k = some o ∧ o.agrees o1)
    (hlen : w.objs.length ≤ w1.objs.length) (hmem : w1.mem.length = w.mem.length)
    (hcells : ∀ c t v, ct.get? c = some t → w1.mem.get? c = some v → v.hasType env t = true) :
    Typed env ct w1 := by
  refine ⟨?_, by rw [hmem]; exact ht.len, hcells, ?_, ?_⟩
  · intro k hk
    exact Nat.lt_of_lt_of_le (ht.valid k ((registered_congr hg k).mp hk)) hlen
  · intro id s c p hw
    have hreg := (registered_congr hg id).mp hw.reg
    obtain ⟨o1, ho1, hc1, ht1⟩ := hw.obj
    obtain ⟨o, ho, hag⟩ := hobjs id o1 hreg ho1
    exact ht.walks id s c p ⟨hreg, o, ho, by rw [← Object.agrees_Completed hag]; exact hc1,
      by rw [← Object.agrees_target hag]; exact ht1⟩
  · intro id o1 t v hreg ho1 hval
    have hreg := (registered_congr hg id).mp hreg
    obtain ⟨o, ho, hag⟩ := hobjs id o1 hreg ho1
    exact ht.values id o t v hreg ho (by rw [← Object.agrees_Value hag]; exact hval)

theorem Typed.store_cells {env : Env} {ct : List GoType} {w : World} (ht : Typed env ct w)
    {c : Nat} {t u : GoType} {q : List Nat} {x : Val} (hc : ct.get? c = some t)
    (hq : typeAt env t q = some u) (hx : x.hasType env u = true) :
    ∀ c2 t2 v, ct.get? c2 = some t2 → (w.store c q x).mem.get? c2 = some v →
      v.hasType env t2 = true := by
  intro c2 t2 v hc2 hv
  unfold World.store at hv
  split at hv
  · rename_i m hm
    simp only [List.get?_eq_getElem?] at hv
    by_cases hcc : c = c2
    · subst hcc
      rw [hc] at hc2
      cases hc2
      rw [List.getElem?_set_self (get?_lt hm)] at hv
      cases hv
      exact Val.hasType_set (ht.cells c t m hc hm) hq hx
    · rw [List.getElem?_set_ne hcc] at hv
      exact ht.cells c2 t2 v hc2 (by rw [List.get?_eq_getElem?]; exact hv)
  · exact ht.cells c2 t2 v hc2 hv

/-- An assignment to a visited field that is nil or zero keeps the heap
well-formed and settles its components. -/
theorem Typed.assign {env : Env} {ct : List GoType} {w : World} (ht : Typed env ct w)
    {id c : Nat} {p : List Nat} {i : Nat} {sf : StructField} (hv : Visit env w id c p i sf)
    {z x : Val} (hz : w.load c (p ++ [i]) = some z) (hzero : isNilOrZero z sf.Typ = true)
    (hx : x.hasType env sf.Typ = true) (eid : Nat) :
    Typed env ct ((w.store c (p ++ [i]) x).addDependency id sf.Name eid) ∧
      Settles env ct w ((w.store c (p ++ [i]) x).addDependency id sf.Name eid) := by
  obtain ⟨t, hc, hq⟩ := ht.fieldType hv
  constructor
  · refine ht.transfer (by simp) ?_ (by simp) (by simp) ?_
    · intro k o1 _ ho1
      rw [addDependency_get, store_objs] at ho1
      split at ho1
      · cases h0 : w.objs.get? k with
        | none => rw [h0] at ho1; simp at ho1
        | some o0 =>
          rw [h0] at ho1
          simp only [Option.map, Option.some.injEq] at ho1
          subst ho1
          exact ⟨o0, rfl, Object.agrees_addDependency _ _ _⟩
      · exact ⟨o1, ho1, Object.agrees_refl o1⟩
    · intro c2 t2 v hc2 hv2
      rw [addDependency_mem] at hv2
      exact ht.store_cells hc hq hx c2 t2 v hc2 hv2
  · intro c2 t2 q2 u2 v hc2 hq2 hv2
    rw [load_congr (addDependency_mem _ _ _ _)]
    exact ht.store_cases hc hq hz (isNilOrZero_isZero hzero) hx hc2 hq2 hv2

theorem Typed.junk {env : Env} {ct : List GoType} {w : World} (ht : Typed env ct w)
    (extra : List Object) : Typed env ct { w with objs := w.objs ++ extra } := by
  refine ht.transfer rfl ?_ (by simp) rfl ht.cells
  intro k o1 hreg ho1
  have hlt := ht.valid k hreg
  obtain ⟨o, ho⟩ := exists_of_lt hlt
  have := get?_append_old extra ho
  simp only at ho1
  rw [this] at ho1
  cases ho1
  exact ⟨o1, ho, Object.agrees_refl o1⟩

theorem Typed.counted {env : Env} {ct : List GoType} {w : World} (ht : Typed env ct w)
    (n : List (List (Val × Val))) : Typed env ct { w with maps := n } :=
  ht.transfer rfl (fun _ o1 _ ho1 => ⟨o1, ho1, Object.agrees_refl o1⟩) (Nat.le_refl _) rfl
    ht.cells

theorem get?_append_single {α : Type} {l : List α} {a b : α} {k : Nat}
    (h : (l ++ [a]).get? k = some b) : l.get? k = some b ∨ (k = l.length ∧ b = a) := by
  rw [List.get?_eq_getElem?] at h
  by_cases hk : k < l.length
  · rw [List.getElem?_append_left hk] at h
    exact Or.inl (by rw [List.get?_eq_getElem?]; exact h)
  · rw [List.getElem?_append_right (by omega)] at h
    right
    cases hkk : k - l.length with
    | zero =>
      rw [hkk] at h
      simp only [List.getElem?_cons_zero, Option.some.injEq] at h
      exact ⟨by omega, h.symm⟩
    | succ n => rw [hkk] at h; simp at h

/-- Allocating a zero struct and registering the object created for it keeps
the heap well-formed, with one more cell type. -/
theorem Typed.allocated {env : Env} {ct : List GoType} {w : World} (hzt : env.zeroTyped)
    (ht : Typed env ct w) (s : String) (priv : Bool) :
    Typed env (ct ++ [.Struct s]) (w.allocated env (.Ptr (.Struct s)) s priv) := by
  have hold : ∀ k, (w.allocated env (.Ptr (.Struct s)) s priv).registered k →
      w.registered k ∨ k = w.objs.length := by
    intro k hk
    simp only [World.registered, World.allocated] at hk
    rcases hk with hk | hk
    · cases priv with
      | true => exact Or.inl (Or.inl (by simpa using hk))
      | false =>
        simp only [Bool.false_eq_true, if_false, List.mem_append, List.mem_singleton] at hk
        rcases hk with hk | hk
        · exact Or.inl (Or.inl hk)
        · exact Or.inr hk
    · exact Or.inl (Or.inr hk)
  refine ⟨?_, ?_, ?_, ?_, ?_⟩
  · intro k hk
    simp only [World.allocated, List.length_append, List.length_singleton]
    rcases hold k hk with h | h
    · have := ht.valid k h; omega
    · omega
  · simp [World.allocated, ht.len]
  · intro c t v hc hv
    simp only [World.allocated] at hv
    rcases get?_append_single hc with h | ⟨h1, h2⟩
    · have hlt : c < w.mem.length := by rw [← ht.len]; exact get?_lt h
      obtain ⟨m, hm⟩ : ∃ m, w.mem.get? c = some m := by
        rw [List.get?_eq_getElem?, List.getElem?_eq_getElem hlt]; exact ⟨_, rfl⟩
      rw [get?_append_old _ hm] at hv
      cases hv
      exact ht.cells c t v h hm
    · subst h2
      rw [ht.len] at h1
      subst h1
      rw [get?_append_new] at hv
      cases hv
      exact Env.zeroTyped_all hzt s
  · intro id s2 c p hw
    obtain ⟨o, ho, hcomp, htar⟩ := hw.obj
    simp only [World.allocated] at ho
    rcases get?_append_single ho with h | ⟨h1, h2⟩
    · have hreg : w.registered id := by
        rcases hold id hw.reg with h3 | h3
        · exact h3
        · have := get?_lt h; omega
      obtain ⟨t, hc, hp⟩ := ht.walks id s2 c p ⟨hreg, o, h, hcomp, htar⟩
      exact ⟨t, get?_append_old _ hc, hp⟩
    · subst h2
      rw [createdObject_target] at htar
      simp only [Option.some.injEq, Prod.mk.injEq] at htar
      obtain ⟨hs, hc, hp⟩ := htar
      subst hs; subst hc; subst hp
      refine ⟨.Struct s, ?_, rfl⟩
      rw [← ht.len]
      exact get?_append_new _ _
  · intro id o t v hreg ho hval
    simp only [World.allocated] at ho
    rcases get?_append_single ho with h | ⟨h1, h2⟩
    · have hreg : w.registered id := by
        rcases hold id hreg with h3 | h3
        · exact h3
        · have := get?_lt h; omega
      exact ht.values id o t v hreg h hval
    · subst h2
      simp only [createdObject, Option.some.injEq, Prod.mk.injEq] at hval
      obtain ⟨h3, h4⟩ := hval
      subst h3; subst h4
      simp [Val.hasType, GoType.Kind]

theorem load_allocated (env : Env) {w : World} {c : Nat} {q : List Nat} {v : Val}
    (t : GoType) (s : String) (priv : Bool) (h : w.load c q = some v) :
    (w.allocated env t s priv).load c q = some v := by
  have := load_append (w := w) [Zero env (.Struct s)] h
  simp only [World.load, World.allocated] at this ⊢
  exact this

/-- Every visit of `populateExplicit` that goes on keeps the heap well-formed
and settles its components. -/
theorem Explicit.keepsTyped {env : Env} {ct : List GoType} {w w1 : World} (hzt : env.zeroTyped)
    (ht : Typed env ct w) {id c : Nat} {p : List Nat} {i : Nat} {sf : StructField}
    (hv : Visit env w id c p i sf) (h : Explicit env w id c (p ++ [i]) sf w1) :
    ∃ l, Typed env (ct ++ l) w1 ∧ Settles env ct w w1 := by
  have hnamed : ∀ n eid, w.g.named.lookup n = some eid → w.registered eid := by
    intro n eid hl
    exact Or.inr (List.mem_map.mpr ⟨(n, eid), lookup_mem hl, rfl⟩)
  cases h with
  | bare htag => exact ⟨[], by simpa using ht, Settles.unchangedMem env ct rfl⟩
  | kept tg z ha hz hnz => exact ⟨[], by simpa using ht, Settles.unchangedMem env ct rfl⟩
  | deferred tg z ha hz hzero hname hk => exact ⟨[], by simpa using ht, Settles.unchangedMem env ct rfl⟩
  | named tg z eid e et x ha hz hzero hname hl he het hass hx =>
    have hxt : x.hasType env sf.Typ = true :=
      setValue_typed (fun t v hval => ht.values eid e t v (hnamed _ _ hl) he hval) hx
    obtain ⟨h1, h2⟩ := ht.assign hv hz hzero hxt eid
    exact ⟨[], by simpa using h1, h2⟩
  | inline tg z s ha hz hzero hname hs hpriv hinl =>
    exact ⟨[], by simpa using ht.junk _, Settles.unchangedMem env ct rfl⟩
  | makeMap tg z ha hz hzero hname hk hpriv =>
    obtain ⟨t, hc, hq⟩ := ht.fieldType hv
    have hxt : (Val.map w.maps.length).hasType env sf.Typ = true := by
      simp [Val.hasType, hk]
    have ht2 := ht.counted (w.maps ++ [[]])
    refine ⟨[], ?_, ?_⟩
    · rw [List.append_nil]
      exact ht2.transfer (by simp) (fun k o1 _ ho1 => ⟨o1, by simpa using ho1, Object.agrees_refl o1⟩)
        (by simp) (by simp) (ht2.store_cells hc hq hxt)
    · intro c2 t2 q2 u2 v hc2 hq2 hv2
      exact ht2.store_cases hc hq hz (isNilOrZero_isZero hzero) hxt hc2 hq2 hv2
  | found tg z eid e x ha hz hzero hname hsp hpriv hf he hx =>
    have hxt : x.hasType env sf.Typ = true :=
      setValue_typed (fun t v hval =>
        ht.values eid e t v (Or.inl (findExisting_found hf).1) he hval) hx
    obtain ⟨h1, h2⟩ := ht.assign hv hz hzero hxt eid
    exact ⟨[], by simpa using h1, h2⟩
  | create tg z s ha hz hzero hname hts hnone hflag =>
    have ht2 : Typed env (ct ++ [.Struct s]) (w.allocated env sf.Typ s tg.Private) := by
      rw [hts]; exact ht.allocated hzt s tg.Private
    have hv2 : Visit env (w.allocated env sf.Typ s tg.Private) id c p i sf :=
      hv.later (ext_allocated env w sf.Typ s tg.Private)
    have hz2 := load_allocated env sf.Typ s tg.Private hz
    have hxt : (Val.ptr w.mem.length []).hasType env sf.Typ = true := by
      simp [Val.hasType, hts, GoType.Kind]
    obtain ⟨h1, h2⟩ := ht2.assign hv2 hz2 hzero hxt w.objs.length
    refine ⟨[.Struct s], h1, ?_⟩
    intro c2 t2 q2 u2 v hc2 hq2 hvv
    exact h2 c2 t2 q2 u2 v (get?_append_old _ hc2) hq2
      (load_allocated env sf.Typ s tg.Private hvv)

/-- Every visit of `populateUnnamedInterface` that goes on keeps the heap
well-formed and settles its components. -/
theorem Resolve.staysTyped {env : Env} {ct : List GoType} {w w1 : World}
    (ht : Typed env ct w) {id c : Nat} {p : List Nat} {i : Nat} {sf : StructField}
    (hv : Visit env w id c p i sf) (h : Resolve env w id c (p ++ [i]) sf w1) :
    Typed env ct w1 ∧ Settles env ct w w1 := by
  cases h with
  | bare htag => exact ⟨ht, Settles.unchangedMem env ct rfl⟩
  | other tg htag hk => exact ⟨ht, Settles.unchangedMem env ct rfl⟩
  | kept tg z htag hk hpriv hz hnz => exact ⟨ht, Settles.unchangedMem env ct rfl⟩
  | assigned tg z eid e x htag hk hpriv hz hzero hname hexp hmem he hp hx =>
    have hxt : x.hasType env sf.Typ = true :=
      setValue_typed (fun t v hval => ht.values eid e t v (Or.inl hmem) he hval) hx
    exact ht.assign hv hz hzero hxt eid

theorem Provide_ne_unhandled (n : String) : ∀ (ids : List Nat) (w : World),
    (Graph.Provide w ids).2 ≠ .error (.unhandledNamed n) := by
  intro ids
  induction ids with
  | nil => intro w; simp [Graph.Provide]
  | cons id rest ih =>
    intro w
    simp only [Graph.Provide]
    repeat' split
    all_goals first
      | exact ih _
      | simp

theorem matchProvide_ne_unhandled (n : String) (r : World × Outcome) (f : World → World)
    (hr : r.2 ≠ .error (.unhandledNamed n)) :
    (match r with
      | (w2, .nil) => (f w2, (none : Option Outcome))
      | (w2, r) => (w2, some r)).2 ≠ some (.error (.unhandledNamed n)) := by
  obtain ⟨w2, o⟩ := r
  cases o <;> simp at hr ⊢
  exact hr

theorem assignNamed_ne_unhandled (env : Env) (n : String) (w : World) (id c : Nat)
    (q : List Nat) (sf : StructField) (tg : tag) :
    (assignNamed env w id c q sf tg).2 ≠ some (.error (.unhandledNamed n)) := by
  unfold assignNamed
  repeat' split
  all_goals simp

theorem provideInline_ne_unhandled (n : String) (w : World) (c : Nat) (q : List Nat)
    (sf : StructField) (tg : tag) :
    (provideInline w c q sf tg).2 ≠ some (.error (.unhandledNamed n)) := by
  unfold provideInline
  split
  · simp
  · split
    · simp
    · exact matchProvide_ne_unhandled n _ _ (Provide_ne_unhandled n _ _)

theorem makeMapField_ne_unhandled (n : String) (w : World) (c : Nat) (q : List Nat)
    (sf : StructField) (tg : tag) :
    (makeMapField w c q sf tg).2 ≠ some (.error (.unhandledNamed n)) := by
  unfold makeMapField
  split <;> simp

theorem injectPointer_ne_unhandled (env : Env) (n : String) (w : World) (id c : Nat)
    (q : List Nat) (sf : StructField) (tg : tag) :
    (injectPointer env w id c q sf tg).2 ≠ some (.error (.unhandledNamed n)) := by
  unfold injectPointer
  split
  · simp
  · split
    · simp
    · split <;> simp
  · split
    · simp
    · exact matchProvide_ne_unhandled n _ _ (Provide_ne_unhandled n _ _)

/-- No visit of `populateExplicit` returns the "unhandled named instance"
error. -/
theorem explicitStep_ne_unhandled (env : Env) (n : String) (w : World) (id c : Nat)
    (p : List Nat) (i : Nat) (sf : StructField) :
    (explicitStep env w id c p i sf).2 ≠ some (.error (.unhandledNamed n)) := by
  unfold explicitStep
  repeat' split
  all_goals first
    | exact assignNamed_ne_unhandled _ _ _ _ _ _ _ _
    | exact provideInline_ne_unhandled _ _ _ _ _ _
    | exact makeMapField_ne_unhandled _ _ _ _ _ _
    | exact injectPointer_ne_unhandled _ _ _ _ _ _ _ _
    | simp

theorem fieldLoop_avoids {step : World → Nat → StructField → World × Option Outcome} {e : Err}
    (hstep : ∀ w i sf, (step w i sf).2 ≠ some (.error e)) :
    ∀ (rest : List StructField) (i : Nat) (w : World),
      (fieldLoop step rest i w).2 ≠ .error e := by
  intro rest
  induction rest with
  | nil => intro i w; simp [fieldLoop]
  | cons sf rest ih =>
    intro i w
    have h := hstep w i sf
    simp only [fieldLoop]
    cases hs : step w i sf with
    | mk wa o =>
      rw [hs] at h
      cases o with
      | none => exact ih _ _
      | some r => simpa using h

theorem traverse_avoids (env : Env)
    {step : World → Nat → Nat → List Nat → Nat → StructField → World × Option Outcome} {e : Err}
    (hstep : ∀ w id c p i sf, (step w id c p i sf).2 ≠ some (.error e)) (w : World) (id : Nat) :
    (traverse env step w id).2 ≠ .error e := by
  unfold traverse
  repeat' split
  all_goals first
    | exact fieldLoop_avoids (fun w1 i sf => hstep w1 _ _ _ i sf) _ _ _
    | simp

theorem forEachIncomplete_avoids {f : World → Nat → World × Outcome} {e : Err}
    (hf : ∀ w id, (f w id).2 ≠ .error e) :
    ∀ (ids : List Nat) (w : World), (forEachIncomplete f ids w).2 ≠ .error e := by
  intro ids
  induction ids with
  | nil => intro w; simp [forEachIncomplete]
  | cons id rest ih =>
    intro w
    simp only [forEachIncomplete]
    split
    · simp
    · split
      · exact ih _
      · have h := hf w id
        cases hs : f w id with
        | mk wa r =>
          rw [hs] at h
          cases r with
          | nil => exact ih _
          | error e2 => simpa using h
          | panic => simp
          | outOfFuel => simp

theorem unnamedLoop_avoids (env : Env) {e : Err}
    (hstep : ∀ w id c p i sf, (explicitStep env w id c p i sf).2 ≠ some (.error e)) :
    ∀ (fuel i : Nat) (w : World), (unnamedLoop env fuel i w).2 ≠ .error e := by
  intro fuel
  induction fuel with
  | zero => intro i w; simp [unnamedLoop]
  | succ fuel ih =>
    intro i w
    simp only [unnamedLoop]
    split
    · simp
    · cases hg : w.g.unnamed.get? i with
      | none => simp
      | some id =>
        simp only
        cases ho : w.objs.get? id with
        | none => simp
        | some o =>
          simp only
          split
          · exact ih _ _
          · have h := traverse_avoids env hstep w id
            cases hs : Graph.populateExplicit env w id with
            | mk wa r =>
              unfold Graph.populateExplicit at hs
              rw [hs] at h
              cases r with
              | nil => exact ih _ _
              | error e2 => simpa using h
              | panic => simp
              | outOfFuel => simp

/-- Where an error of a field loop comes from: a visit, in a world in which the
invariant `J` of the visits holds. -/
theorem fieldLoop_raise {env : Env}
    {step : World → Nat → Nat → List Nat → Nat → StructField → World × Option Outcome}
    (hstep : Effectful env step) {J : World → Prop}
    (hJ : ∀ w id c p i sf w1, J w → Visit env w id c p i sf →
      step w id c p i sf = (w1, none) → J w1)
    {id : Nat} {s : String} {c : Nat} {p : List Nat} {e : Err} :
    ∀ (rest : List StructField) (i : Nat) (w w1 : World),
      (∀ k sf, rest.get? k = some sf → (env.fields s).get? (i + k) = some sf) →
      Walk w id s c p → J w →
      fieldLoop (fun w2 j sf => step w2 id c p j sf) rest i w = (w1, .error e) →
      ∃ w2 j sf, J w2 ∧ Visit env w2 id c p j sf ∧
        (step w2 id c p j sf).2 = some (.error e) := by
  intro rest
  induction rest with
  | nil => intro i w w1 _ _ _ h; simp [fieldLoop] at h
  | cons sf rest ih =>
    intro i w w1 hfields hwalk hj h
    have hf0 : (env.fields s).get? i = some sf := by simpa using hfields 0 sf rfl
    have hv : Visit env w id c p i sf := hwalk.visit hf0
    have he := (hstep w id c p i sf).ext
    simp only [fieldLoop] at h
    cases hs : step w id c p i sf with
    | mk wa o =>
      rw [hs] at h he
      cases o with
      | some r =>
        simp only [Prod.mk.injEq] at h
        exact ⟨w, i, sf, hj, hv, by rw [hs, ← h.2]⟩
      | none =>
        simp only at h
        exact ih (i + 1) wa w1
          (fun k sf2 hk => by
            have := hfields (k + 1) sf2 (by simpa using hk)
            rw [show i + 1 + k = i + (k + 1) by omega]; exact this)
          (hwalk.extend he) (hJ w id c p i sf wa hj hv hs) h

theorem traverse_raise {env : Env}
    {step : World → Nat → Nat → List Nat → Nat → StructField → World × Option Outcome}
    (hstep : Effectful env step) {J : World → Prop}
    (hJ : ∀ w id c p i sf w1, J w → Visit env w id c p i sf →
      step w id c p i sf = (w1, none) → J w1)
    {w w1 : World} {id : Nat} {o : Object} {e : Err} (hreg : w.registered id)
    (ho : w.objs.get? id = some o) (hc : o.Completed = false) (hj : J w)
    (h : traverse env step w id = (w1, .error e)) :
    ∃ w2 c p j sf, J w2 ∧ Visit env w2 id c p j sf ∧
      (step w2 id c p j sf).2 = some (.error e) := by
  unfold traverse at h
  simp only [ho] at h
  split at h
  · cases h
  · cases h
  · split at h
    · cases h
    · rename_i s c p ht
      obtain ⟨w2, j, sf, h1, h2, h3⟩ := fieldLoop_raise hstep hJ (env.fields s) 0 w w1
        (fun k sf hk => by simpa using hk) ⟨hreg, o, ho, hc, ht⟩ hj h
      exact ⟨w2, c, p, j, sf, h1, h2, h3⟩

theorem forEachIncomplete_raise {env : Env}
    {step : World → Nat → Nat → List Nat → Nat → StructField → World × Option Outcome}
    (hstep : Effectful env step)
    (hnil : ∀ w id c p i sf, (step w id c p i sf).2 ≠ some .nil) {J : World → Prop}
    (hJ : ∀ w id c p i sf w1, J w → Visit env w id c p i sf →
      step w id c p i sf = (w1, none) → J w1) {e : Err} :
    ∀ (ids : List Nat) (w w1 : World), (∀ id ∈ ids, w.registered id) → J w →
      forEachIncomplete (traverse env step) ids w = (w1, .error e) →
      ∃ w2 id c p j sf, J w2 ∧ Visit env w2 id c p j sf ∧
        (step w2 id c p j sf).2 = some (.error e) := by
  have hS : Sound env step J (fun _ _ _ _ _ _ => True) :=
    fun w id c p i sf w1 hj hv hs => ⟨hJ w id c p i sf w1 hj hv hs, trivial,
      fun _ _ _ _ _ _ _ => trivial⟩
  intro ids
  induction ids with
  | nil => intro w w1 _ _ h; simp [forEachIncomplete] at h
  | cons id rest ih =>
    intro w w1 hreg hj h
    have hregid := hreg id (List.mem_cons_self _ _)
    simp only [forEachIncomplete] at h
    cases ho : w.objs.get? id with
    | none => rw [ho] at h; cases h
    | some o =>
      rw [ho] at h
      simp only at h
      cases hc : o.Completed with
      | true =>
        simp only [hc, if_true] at h
        exact ih w w1 (fun id2 h2 => hreg id2 (List.mem_cons_of_mem _ h2)) hj h
      | false =>
        simp only [hc, Bool.false_eq_true, if_false] at h
        cases ht : traverse env step w id with
        | mk wa r =>
          rw [ht] at h
          cases r with
          | nil =>
            simp only at h
            obtain ⟨hja, hea, _, _⟩ := traverse_post hstep hnil hS hregid ho hc hj ht
            exact ih wa w1
              (fun id2 h2 => hea.registered_of (hreg id2 (List.mem_cons_of_mem _ h2))) hja h
          | error e2 =>
            simp only [Prod.mk.injEq, Outcome.error.injEq] at h
            obtain ⟨h1, h2⟩ := h
            subst h1; subst h2
            obtain ⟨w2, c, p, j, sf, k1, k2, k3⟩ := traverse_raise hstep hJ hregid ho hc hj ht
            exact ⟨w2, id, c, p, j, sf, k1, k2, k3⟩
          | panic => simp only [Prod.mk.injEq] at h; cases h.2
          | outOfFuel => simp only [Prod.mk.injEq] at h; cases h.2

/-- The coverage of the first two passes of `Populate`: when both return nil,
`P` holds of every field of every registered object that is not completed. -/
theorem explicit_passes_post (env : Env) {I : World → Prop}
    {P : World → Nat → Nat → List Nat → Nat → StructField → Prop}
    (hE : Sound env (explicitStep env) I P) (ord1 : List Nat) (fuel : Nat) (w wa wb : World)
    (hi : I w)
    (h1 : forEachIncomplete (Graph.populateExplicit env)
      ((rangeOrder ord1 w.g.named).map Prod.snd) w = (wa, .nil))
    (h2 : unnamedLoop env fuel 0 wa = (wb, .nil)) :
    I wb ∧ Ext w wb ∧ ∀ id, wb.registered id → Done env P wb id := by
  have hnamed : ∀ id ∈ (rangeOrder ord1 w.g.named).map Prod.snd, w.registered id := by
    intro id hid
    obtain ⟨a, ha, rfl⟩ := List.mem_map.mp hid
    exact Or.inr (List.mem_map.mpr ⟨a, mem_rangeOrder ord1 _ ha, rfl⟩)
  obtain ⟨hia, hea, hsa, hda⟩ := forEachIncomplete_post (explicitStep_effect env)
    (explicitStep_ne_nil env) hE _ w wa hnamed hi h1
  obtain ⟨hib, heb, hsb, hdb⟩ := unnamedLoop_post hE fuel 0 wa wb hia
    (fun j id hj _ => absurd hj (Nat.not_lt_zero _)) h2
  refine ⟨hib, hea.trans heb, ?_⟩
  intro id hr
  rcases hr with hr | hr
  · exact hdb id hr
  · rw [heb.named, hea.named] at hr
    obtain ⟨a, ha, rfl⟩ := List.mem_map.mp hr
    have h3 : a.2 ∈ (rangeOrder ord1 w.g.named).map Prod.snd :=
      List.mem_map.mpr ⟨a, rangeOrder_mem ord1 _ ha, rfl⟩
    have hrega : wa.registered a.2 := Or.inr (by rw [hea.named]; exact hr)
    exact (hda a.2 h3).stable hrega heb hsb

theorem Settles.nonzero {env : Env} {ct : List GoType} {w w1 : World}
    (h : Settles env ct w w1) {c : Nat} {t u : GoType} {q : List Nat} {v : Val}
    (hc : ct.get? c = some t) (hq : typeAt env t q = some u) (hv : w.load c q = some v)
    (hnz : v.isZero = false) : ∃ v1, w1.load c q = some v1 ∧ v1.isZero = false := by
  obtain ⟨v1, hv1, h1 | h1⟩ := h c t q u v hc hq hv
  · subst h1; exact ⟨v1, hv1, hnz⟩
  · exact ⟨v1, hv1, h1⟩

theorem Bound.settled {env : Env} {ct : List GoType} {w w1 : World} (ht : Typed env ct w)
    (hs : Settles env ct w w1) : Stable env (Bound env) w w1 := by
  intro id c p i sf hv hb tg htag hname hk
  obtain ⟨v, hload, hnz⟩ := hb tg htag hname hk
  obtain ⟨t, hc, hq⟩ := ht.fieldType hv
  exact hs.nonzero hc hq hload hnz

theorem hasType_interface {env : Env} {v : Val} {t : GoType} (h : v.hasType env t = true)
    (hk : t.Kind = .Interface) (hnn : v.IsNil = false) : v.isZero = false := by
  cases v with
  | nil => simp [Val.IsNil] at hnn
  | iface _ _ => rfl
  | ptr _ _ => rfl
  | map _ => rfl
  | other n => simp [Val.hasType, hk] at h
  | struct fs => cases t <;> simp [Val.hasType, GoType.Kind] at h hk

/-- The visits of `populateExplicit` bind the interface fields that carry a
named request. -/
theorem bound_explicit {env : Env} (hzt : env.zeroTyped) :
    Sound env (explicitStep env) (WellTyped env) (Bound env) := by
  intro w id c p i sf w1 hi hv hstep
  obtain ⟨ct, ht⟩ := hi
  have hex := explicitStep_cases hstep
  obtain ⟨l, ht1, hs⟩ := hex.keepsTyped hzt ht hv
  refine ⟨⟨_, ht1⟩, ?_, fun id2 c2 p2 i2 sf2 hv2 hb => Bound.settled ht hs id2 c2 p2 i2 sf2 hv2 hb⟩
  intro tg htag hname hk
  obtain ⟨t, hc, hq⟩ := ht.fieldType hv
  cases hex with
  | bare htag2 => rw [htag2] at htag; cases htag
  | kept tg2 z ha hz hnz =>
    refine ⟨z, hz, hasType_interface (ht.loaded hc hq hz) hk ?_⟩
    simpa [isNilOrZero, hk] using hnz
  | deferred tg2 z ha hz hzero hname2 hk2 =>
    rw [ha.1] at htag
    cases htag
    exact absurd hname2 hname
  | named tg2 z eid e et x ha hz hzero hname2 hl he het hass hx =>
    refine ⟨x, ?_, ?_⟩
    · rw [load_congr (addDependency_mem _ _ _ _)]
      exact load_store_same x hz
    · unfold setValue at hx
      split at hx
      · cases hx
      · split at hx
        · cases hty : sf.Typ with
          | Interface n => rw [hty] at hx; cases hx; rfl
          | Struct _ => rw [hty] at hk; cases hk
          | Ptr _ => rw [hty] at hk; cases hk
          | Map _ => rw [hty] at hk; cases hk
          | Array _ _ => rw [hty] at hk; cases hk
          | Other _ => rw [hty] at hk; cases hk
        · cases hx
  | inline tg2 z s ha hz hzero hname2 hs2 hpriv hinl => rw [hs2] at hk; cases hk
  | makeMap tg2 z ha hz hzero hname2 hk2 hpriv => rw [hk2] at hk; cases hk
  | found tg2 z eid e x ha hz hzero hname2 hsp hpriv hf he hx =>
    obtain ⟨s, hs2⟩ := isStructPtr_iff.mp hsp
    rw [hs2] at hk; cases hk
  | create tg2 z s ha hz hzero hname2 hts hnone hflag => rw [hts] at hk; cases hk

theorem bound_interface {env : Env} (w : World) (id c : Nat) (p : List Nat) (i : Nat)
    (sf : StructField) (w1 : World) (hi : WellTyped env w) (hv : Visit env w id c p i sf)
    (hstep : interfaceStep env w id c p i sf = (w1, none)) :
    WellTyped env w1 ∧ Stable env (Bound env) w w1 := by
  obtain ⟨ct, ht⟩ := hi
  obtain ⟨ht1, hs⟩ := (interfaceStep_cases hstep).staysTyped ht hv
  exact ⟨⟨ct, ht1⟩, Bound.settled ht hs⟩

theorem interfaceScan_ne_unhandled (env : Env) (n : String) (id c : Nat) (q : List Nat)
    (sf : StructField) : ∀ (ids : List Nat) (f : Option Nat) (w : World),
      (interfaceScan env id c q sf ids f w).2.1 ≠ some (.error (.unhandledNamed n)) := by
  intro ids
  induction ids with
  | nil => intro f w; simp [interfaceScan]
  | cons e rest ih =>
    intro f w
    unfold interfaceScan
    repeat' split
    all_goals first
      | exact ih _ _
      | simp

/-- The "unhandled named instance" error is returned only for a nil interface
field that carries a named request. -/
theorem interfaceStep_unhandled {env : Env} {w : World} {id c : Nat} {p : List Nat} {i : Nat}
    {sf : StructField} {n : String}
    (h : (interfaceStep env w id c p i sf).2 = some (.error (.unhandledNamed n))) :
    ∃ tg z, parseTag env sf.Tag = .ok (some tg) ∧ tg.Name ≠ "" ∧ sf.Typ.Kind = .Interface ∧
      w.load c (p ++ [i]) = some z ∧ isNilOrZero z sf.Typ = true := by
  unfold interfaceStep at h
  split at h
  · simp at h
  · simp at h
  · rename_i tg htag
    split at h
    · simp at h
    · rename_i hk
      split at h
      · simp at h
      · split at h
        · simp at h
        · rename_i z hz
          split at h
          · simp at h
          · rename_i hzero
            split at h
            · rename_i hname
              exact ⟨tg, z, htag, by simpa using hname, by simpa using hk, hz,
                by simpa using hzero⟩
            · exfalso
              have hscan := interfaceScan_ne_unhandled env n id c (p ++ [i]) sf w.g.unnamed none w
              split at h
              · rename_i heq
                rw [heq] at hscan
                exact hscan h
              · simp at h
              · simp at h

/-- In a well-formed heap in which the first two passes have visited every
registered object, no visit of `populateUnnamedInterface` returns the
"unhandled named instance" error. -/
theorem bound_not_unhandled {env : Env} {w : World} {id c : Nat} {p : List Nat} {j : Nat}
    {sf : StructField} {n : String}
    (hd : ∀ id, w.registered id → Done env (Bound env) w id)
    (hv : Visit env w id c p j sf)
    (h : (interfaceStep env w id c p j sf).2 = some (.error (.unhandledNamed n))) : False := by
  obtain ⟨tg, z, htag, hname, hk, hz, hzero⟩ := interfaceStep_unhandled h
  obtain ⟨hreg, o, s, ho, hc, htar, hf⟩ := hv
  obtain ⟨o2, ho2, hb⟩ := hd id hreg
  rw [ho] at ho2
  cases ho2
  obtain ⟨v, hload, hnz⟩ := hb hc s c p htar j sf hf tg htag hname hk
  rw [hz] at hload
  cases hload
  rw [isNilOrZero_isZero hzero] at hnz
  cases hnz

theorem boundEnv_zeroTyped : boundEnv.zeroTyped := by
  intro d hd
  simp only [boundEnv, List.mem_cons, List.mem_singleton, List.not_mem_nil, or_false] at hd
  rcases hd with rfl | rfl <;> rfl

theorem boundProvided_typed : Typed boundEnv [.Struct "H", .Struct "A"] boundProvided := by
  have hu : boundProvided.g.unnamed = [0] := rfl
  have hn : boundProvided.g.named = [("x", 1)] := rfl
  have hreg : ∀ id, boundProvided.registered id → id = 0 ∨ id = 1 := by
    intro id h
    unfold World.registered at h
    rw [hu, hn] at h
    simpa using h
  refine ⟨?_, rfl, ?_, ?_, ?_⟩
  · intro id h
    have hl : boundProvided.objs.length = 2 := rfl
    rw [hl]
    rcases hreg id h with rfl | rfl <;> omega
  · intro c t v hc hv
    have hm : boundProvided.mem = [.struct [.nil], .struct []] := rfl
    rw [hm] at hv
    match c, hc, hv with
    | 0, hc, hv => cases hc; cases hv; rfl
    | 1, hc, hv => cases hc; cases hv; rfl
    | k + 2, hc, _ => simp at hc
  · intro id s c p hw
    obtain ⟨hr, o, ho, _, htar⟩ := hw
    rcases hreg id hr with rfl | rfl
    · have e : boundProvided.objs.get? 0 = some _ := rfl
      rw [e] at ho
      cases ho
      cases htar
      exact ⟨_, rfl, rfl⟩
    · have e : boundProvided.objs.get? 1 = some _ := rfl
      rw [e] at ho
      cases ho
      cases htar
      exact ⟨_, rfl, rfl⟩
  · intro id o t v hr ho hval
    rcases hreg id hr with rfl | rfl
    · have e : boundProvided.objs.get? 0 = some _ := rfl
      rw [e] at ho
      cases ho
      cases hval
      rfl
    · have e : boundProvided.objs.get? 1 = some _ := rfl
      rw [e] at ho
      cases ho
      cases hval
      rfl

theorem Source.persist {env : Env} {w w1 : World} {sf : StructField} {tg : tag} {e : Nat}
    {eo eo1 : Object} {x : Val} (h : Source env w sf tg e eo x) (hc : w.cached)
    (hext : Ext w w1) (hag : eo.agrees eo1) : Source env w1 sf tg e eo1 x := by
  rcases h with ⟨h1, h2⟩ | ⟨h1, h2, h3, h4⟩ | ⟨h1, h2, h3, h4⟩
  · exact Or.inl ⟨h1, by rw [hext.named]; exact h2⟩
  · refine Or.inr (Or.inl ⟨h1, h2, h3, ?_⟩)
    rcases h4 with h4 | h4
    · obtain ⟨l, hl⟩ := hext.unnamed
      exact Or.inl (by rw [hl]; exact List.mem_append_left _ h4)
    · exact Or.inr ⟨by rw [Object.agrees_created hag]; exact h4.1,
        by rw [Object.agrees_private hag]; exact h4.2.1, h4.2.2⟩
  · exact Or.inr (Or.inr ⟨h1, h2, h3, first_ext hc hext h4⟩)

/-- An entry stays backed along an extension of the world that keeps the value
of its field. -/
theorem Entry.transport {env : Env} {w w1 : World} {o o1 : Object} {f : String} {e : Nat}
    (h : Entry env w o f e) (hc : w.cached) (hext : Ext w w1) (hag : o.agrees o1)
    (hload : ∀ s c p i sf tg eo x, o.target = some (s, c, p) →
      (env.fields s).get? i = some sf → sf.Name = f → parseTag env sf.Tag = .ok (some tg) →
      w.objs.get? e = some eo → setValue env sf.Typ eo.Value = some x →
      w.load c (p ++ [i]) = some x → Source env w sf tg e eo x →
      w1.load c (p ++ [i]) = some x) : Entry env w1 o1 f e := by
  obtain ⟨hlive, s, c, p, i, sf, tg, eo, x, h1, h2, h3, h4, h5, h6, h7, h8, h9⟩ := h
  obtain ⟨eo1, heo1, hag1⟩ := hext.objs e eo h6
  refine ⟨by rw [Object.agrees_Completed hag]; exact hlive, s, c, p, i, sf, tg, eo1, x,
    by rw [Object.agrees_target hag]; exact h1, h2, h3, h4, h5, heo1,
    by rw [Object.agrees_Value hag1]; exact h7,
    hload s c p i sf tg eo x h1 h2 h3 h4 h6 h7 h8 h9, h9.persist hc hext hag1⟩

theorem isNilOrZero_nonzero {z : Val} {t : GoType} (h : isNilOrZero z t = true)
    (hnz : z.isZero = false) : False := by
  rw [isNilOrZero_isZero h] at hnz
  cases hnz

theorem kind_of_isStructPtr {t : GoType} (h : isStructPtr t = true) : t.Kind = .Ptr := by
  obtain ⟨s, hs⟩ := isStructPtr_iff.mp h
  rw [hs]; rfl

theorem setValue_interface {env : Env} {t : GoType} {v : Option (GoType × Val)} {x : Val}
    (hk : t.Kind = .Interface) (hx : setValue env t v = some x) : x.isZero = false := by
  unfold setValue at hx
  split at hx
  · cases hx
  · split at hx
    · cases t with
      | Interface n => cases hx; rfl
      | Struct _ => cases hk
      | Ptr _ => cases hk
      | Map _ => cases hk
      | Array _ _ => cases hk
      | Other _ => cases hk
    · cases hx

/-- Two walks over the same field address are walks of the same field. -/
theorem Sane.same_field {env : Env} {w : World} (hs : Sane w) {id id2 : Nat} {s s2 : String}
    {c : Nat} {p : List Nat} {i : Nat} {sf sf2 : StructField} (hw : Walk w id s c p)
    (hw2 : Walk w id2 s2 c p) (hf : (env.fields s).get? i = some sf)
    (hf2 : (env.fields s2).get? i = some sf2) : sf2 = sf := by
  obtain ⟨_, h⟩ := hs.separate id id2 s s2 c p p hw hw2 (List.prefix_refl p)
  subst h
  rw [hf] at hf2
  cases hf2
  rfl

/-- The writes to a visited field leave the fields behind the entries of the
dependency maps as they are, unless the entry's field is the visited one. -/
theorem Entry.load_kept {env : Env} {w w1 : World} {id c : Nat} {p : List Nat} {i : Nat}
    {sf : StructField} (hs : Sane w) (hv : Visit env w id c p i sf)
    (heff : Effect env w id c (p ++ [i]) sf w1)
    {id2 : Nat} {o : Object} (hreg : w.registered id2) (ho : w.objs.get? id2 = some o)
    (hlive : o.Completed = false) {s2 : String} {c2 : Nat} {p2 : List Nat} {i2 : Nat}
    {sf2 : StructField} {x : Val} (htar : o.target = some (s2, c2, p2))
    (hf2 : (env.fields s2).get? i2 = some sf2) (hx : w.load c2 (p2 ++ [i2]) = some x) :
    w1.load c2 (p2 ++ [i2]) = some x ∨ (c2 = c ∧ p2 = p ∧ i2 = i ∧ sf2 = sf) := by
  obtain ⟨s, hw, hf⟩ := hv.walk
  have hw2 : Walk w id2 s2 c2 p2 := ⟨hreg, o, ho, hlive, htar⟩
  by_cases hne : c2 = c ∧ p2 = p ∧ i2 = i
  · obtain ⟨h1, h2, h3⟩ := hne
    subst h1; subst h2; subst h3
    exact Or.inr ⟨rfl, rfl, rfl, hs.same_field hw hw2 hf hf2⟩
  · exact Or.inl (Effect.load_other hs heff hw hw2 hne hx)

/-- A world that differs only by objects appended to the heap keeps the entries
backed. -/
theorem Recorded.idle {env : Env} {w w1 : World} (hs : Sane w) (hr : Recorded env w)
    (hmem : w1.mem = w.mem) (hg : w1.g = w.g) (hobjs : ∃ extra, w1.objs = w.objs ++ extra) :
    Recorded env w1 := by
  obtain ⟨extra, hextra⟩ := hobjs
  have hext : Ext w w1 := by
    refine ⟨⟨[], by rw [hg]; simp⟩, by rw [hg], by rw [hg], by rw [hmem], ?_⟩
    intro k o ho
    exact ⟨o, by rw [hextra]; exact get?_append_old extra ho, Object.agrees_refl o⟩
  intro id o f e hreg ho hdep
  have hreg0 := (registered_congr hg id).mp hreg
  obtain ⟨o0, ho0⟩ := exists_of_lt (hs.valid id hreg0)
  have : w1.objs.get? id = some o0 := by rw [hextra]; exact get?_append_old extra ho0
  rw [this] at ho
  cases ho
  exact (hr id o f e hreg0 ho0 hdep).transport hs.cached hext (Object.agrees_refl o)
    (fun s c p i sf tg eo x _ _ _ _ _ _ hx _ => by rw [load_congr hmem]; exact hx)

/-- The map branch keeps the entries backed. -/
theorem Recorded.mapMade {env : Env} {w : World} {id c : Nat} {p : List Nat} {i : Nat}
    {sf : StructField} {tg : tag} {z : Val} (hs : Sane w) (hr : Recorded env w)
    (hv : Visit env w id c p i sf) (htag : parseTag env sf.Tag = .ok (some tg))
    (hname : tg.Name = "") (hk : sf.Typ.Kind = .Map) (hz : w.load c (p ++ [i]) = some z)
    (hzero : isNilOrZero z sf.Typ = true) :
    Recorded env (({ w with maps := w.maps ++ [[]] } : World).store c (p ++ [i]) (.map w.maps.length)) := by
  have heff : Effect env w id c (p ++ [i]) sf
      (({ w with maps := w.maps ++ [[]] } : World).store c (p ++ [i]) (.map w.maps.length)) :=
    .makeMap z hz hzero
  intro id2 o f e hreg ho hdep
  have hreg0 : w.registered id2 := (registered_congr (by simp) id2).mp hreg
  have ho0 : w.objs.get? id2 = some o := by simpa using ho
  have hen := hr id2 o f e hreg0 ho0 hdep
  refine hen.transport hs.cached heff.ext (Object.agrees_refl o) ?_
  intro s2 c2 p2 i2 sf2 tg2 eo x htar hf2 _ htag2 _ _ hx hsrc
  rcases Entry.load_kept hs hv heff hreg0 ho0 hen.1 htar hf2 hx with h | ⟨h1, h2, h3, h4⟩
  · exact h
  · exfalso
    subst h1; subst h2; subst h3; subst h4
    rw [htag] at htag2
    cases htag2
    rw [hz] at hx
    cases hx
    rcases hsrc with ⟨k1, _⟩ | ⟨_, k2, _, _⟩ | ⟨_, k2, _, _⟩
    · exact k1 hname
    · exact isNilOrZero_nonzero hzero k2
    · rw [kind_of_isStructPtr k2] at hk
      cases hk

/-- An assignment of the value of an object the directive allows keeps the
entries backed. -/
theorem Recorded.bind {env : Env} {w : World} {id c : Nat} {p : List Nat} {i : Nat}
    {sf : StructField} {tg : tag} {z x : Val} {e : Nat} {eo : Object} (hs : Sane w)
    (hr : Recorded env w) (hv : Visit env w id c p i sf)
    (htag : parseTag env sf.Tag = .ok (some tg)) (hexp : sf.Exported = true)
    (hz : w.load c (p ++ [i]) = some z) (hzero : isNilOrZero z sf.Typ = true)
    (he : w.objs.get? e = some eo) (hx : setValue env sf.Typ eo.Value = some x)
    (hsrc : (tg.Name ≠ "" ∧ w.g.named.lookup tg.Name = some e) ∨
      (tg.Name = "" ∧ isStructPtr sf.Typ = true ∧ tg.Private = false ∧
        findExisting env w sf.Typ w.g.unnamed = .found e) ∨
      (tg.Name = "" ∧ sf.Typ.Kind = .Interface ∧ e ∈ w.g.unnamed ∧ eo.private_ = false)) :
    Recorded env ((w.store c (p ++ [i]) x).addDependency id sf.Name e) := by
  have heff : Effect env w id c (p ++ [i]) sf
      ((w.store c (p ++ [i]) x).addDependency id sf.Name e) := by
    refine .assign z x e eo hz hzero he hx ?_
    rcases hsrc with ⟨_, h⟩ | ⟨_, _, _, h⟩ | ⟨_, _, h1, h2⟩
    · exact Or.inl ⟨_, h⟩
    · obtain ⟨hmem, e2, et, he2, hp, _, _⟩ := findExisting_found h
      rw [he] at he2
      cases he2
      exact Or.inr ⟨hmem, hp⟩
    · exact Or.inr ⟨h1, h2⟩
  have hext := heff.ext
  obtain ⟨hregv, ov, sv, hov, hcv, htv, hfv⟩ := hv
  have hvisit : Visit env w id c p i sf := ⟨hregv, ov, sv, hov, hcv, htv, hfv⟩
  intro id2 o f e2 hreg ho hdep
  have hreg0 : w.registered id2 := (registered_congr (by simp) id2).mp hreg
  -- the old entries
  have hold : ∀ o0, w.objs.get? id2 = some o0 → o0.agrees o → o0.dependency f = some e2 →
      (id2 = id → f ≠ sf.Name) → Entry env ((w.store c (p ++ [i]) x).addDependency id sf.Name e)
        o f e2 := by
    intro o0 ho0 hag hdep0 hother
    have hen := hr id2 o0 f e2 hreg0 ho0 hdep0
    refine hen.transport hs.cached hext hag ?_
    intro s2 c2 p2 i2 sf2 tg2 eo2 x2 htar hf2 hname2 htag2 heo2 hx2 hload2 hsrc2
    rcases Entry.load_kept hs hvisit heff hreg0 ho0 hen.1 htar hf2 hload2
      with h | ⟨h1, h2, h3, h4⟩
    · exact h
    · rw [h1, h2, h3] at hload2 ⊢
      rw [h4] at htag2 hx2 hsrc2
      rw [htag] at htag2
      have htg : tg2 = tg := by
        simp only [Except.ok.injEq, Option.some.injEq] at htag2
        exact htag2.symm
      rw [htg] at hsrc2
      rw [hz] at hload2
      have hzx : x2 = z := (Option.some.inj hload2).symm
      rw [hzx] at hx2 hsrc2 ⊢
      have hsame : e2 = e → w.load c (p ++ [i]) = some z →
          ((w.store c (p ++ [i]) x).addDependency id sf.Name e).load c (p ++ [i]) = some z := by
        intro h _
        rw [h, he] at heo2
        have heo : eo2 = eo := (Option.some.inj heo2).symm
        rw [heo, hx] at hx2
        rw [← Option.some.inj hx2, load_congr (addDependency_mem _ _ _ _)]
        exact load_store_same _ hz
      rcases hsrc with ⟨k1, k2⟩ | ⟨k1, k2, k3, k4⟩ | ⟨k1, k2, _, _⟩
      · rcases hsrc2 with ⟨_, j2⟩ | ⟨j1, _, _, _⟩ | ⟨j1, _, _, _⟩
        · rw [k2] at j2
          exact hsame (Option.some.inj j2).symm hz
        · exact absurd j1 k1
        · exact absurd j1 k1
      · rcases hsrc2 with ⟨j1, _⟩ | ⟨_, j2, _, _⟩ | ⟨_, _, _, j4⟩
        · exact absurd k1 j1
        · exact absurd j2 (by rw [isNilOrZero_isZero hzero]; simp)
        · rw [k4] at j4
          exact hsame (Scan.found.inj j4).symm hz
      · rcases hsrc2 with ⟨j1, _⟩ | ⟨_, j2, _, _⟩ | ⟨_, j2, _, _⟩
        · exact absurd k1 j1
        · exact absurd j2 (by rw [isNilOrZero_isZero hzero]; simp)
        · rw [kind_of_isStructPtr j2] at k2
          cases k2
  rw [addDependency_get, store_objs] at ho
  by_cases hid : id2 = id
  · subst hid
    rw [if_pos rfl, hov] at ho
    simp only [Option.map, Option.some.injEq] at ho
    subst ho
    by_cases hf : f = sf.Name
    · subst hf
      rw [Object.dependency_addDependency_self] at hdep
      have he2 : e2 = e := (Option.some.inj hdep).symm
      rw [he2]
      obtain ⟨eo1, heo1, hag1⟩ := hext.objs e eo he
      refine ⟨by rw [(Object.addDependency_same ov _ _).2.2.1]; exact hcv, sv, c, p, i, sf, tg,
        eo1, x, ?_, hfv, rfl, htag, hexp, heo1, by rw [Object.agrees_Value hag1]; exact hx, ?_, ?_⟩
      · rw [Object.agrees_target (Object.agrees_addDependency ov _ _)]
        exact htv
      · rw [load_congr (addDependency_mem _ _ _ _)]
        exact load_store_same _ hz
      · rcases hsrc with ⟨k1, k2⟩ | ⟨k1, k2, k3, k4⟩ | ⟨k1, k2, k3, _⟩
        · exact Or.inl ⟨k1, by simpa using k2⟩
        · exact Or.inr (Or.inr ⟨k1, k2, k3, first_ext hs.cached hext k4⟩)
        · exact Or.inr (Or.inl ⟨k1, setValue_interface k2 hx, Or.inr k2,
            Or.inl (by simpa using k3)⟩)
    · exact hold ov hov (Object.agrees_addDependency ov _ _)
        (by rw [← Object.dependency_addDependency_ne ov e (Ne.symm hf)]; exact hdep)
        (fun _ => hf)
  · rw [if_neg hid] at ho
    exact hold o ho (Object.agrees_refl o) hdep (fun h => absurd h hid)

theorem allocated_registered {env : Env} {w : World} {t : GoType} {s : String} {priv : Bool}
    {k : Nat} (hk : (w.allocated env t s priv).registered k) :
    w.registered k ∨ k = w.objs.length := by
  simp only [World.registered, World.allocated] at hk
  rcases hk with hk | hk
  · cases priv with
    | true => exact Or.inl (Or.inl (by simpa using hk))
    | false =>
      simp only [Bool.false_eq_true, if_false, List.mem_append, List.mem_singleton] at hk
      rcases hk with hk | hk
      · exact Or.inl (Or.inl hk)
      · exact Or.inr hk
  · exact Or.inl (Or.inr hk)

theorem setValue_self {env : Env} {t : GoType} (v : Val) (hk : t.Kind ≠ .Interface) :
    setValue env t (some (t, v)) = some v := by
  unfold setValue
  simp only [assignable_self, if_true]
  cases t with
  | Interface n => exact absurd rfl hk
  | Struct _ => rfl
  | Ptr _ => rfl
  | Map _ => rfl
  | Array _ _ => rfl
  | Other _ => rfl

/-- The creation of an instance for a pointer field keeps the entries
backed. -/
theorem Recorded.created {env : Env} {w : World} {id c : Nat} {p : List Nat} {i : Nat}
    {sf : StructField} {tg : tag} {z : Val} {s : String} (hs : Sane w) (hr : Recorded env w)
    (hv : Visit env w id c p i sf) (htag : parseTag env sf.Tag = .ok (some tg))
    (hexp : sf.Exported = true) (hname : tg.Name = "")
    (hz : w.load c (p ++ [i]) = some z) (hzero : isNilOrZero z sf.Typ = true)
    (ht : sf.Typ = .Ptr (.Struct s))
    (hnone : tg.Private = false → findExisting env w sf.Typ w.g.unnamed = .notFound)
    (hflag : tg.Private = false → typeFlag w.g.unnamedType sf.Typ = false) :
    Recorded env (((w.allocated env sf.Typ s tg.Private).store c (p ++ [i])
      (.ptr w.mem.length [])).addDependency id sf.Name w.objs.length) := by
  have heff : Effect env w id c (p ++ [i]) sf
      (((w.allocated env sf.Typ s tg.Private).store c (p ++ [i])
        (.ptr w.mem.length [])).addDependency id sf.Name w.objs.length) :=
    .create z s tg.Private hz hzero ht hflag hnone
  have hext := heff.ext
  obtain ⟨hregv, ov, sv, hov, hcv, htv, hfv⟩ := hv
  have hvisit : Visit env w id c p i sf := ⟨hregv, ov, sv, hov, hcv, htv, hfv⟩
  have hidlt : id < w.objs.length := hs.valid id hregv
  have hloadnew : (((w.allocated env sf.Typ s tg.Private).store c (p ++ [i])
      (.ptr w.mem.length [])).addDependency id sf.Name w.objs.length).load c (p ++ [i]) =
      some (.ptr w.mem.length []) := by
    rw [load_congr (addDependency_mem _ _ _ _)]
    exact load_store_same _ (load_allocated env sf.Typ s tg.Private hz)
  intro id2 o f e2 hreg ho hdep
  have hreg1 : (w.allocated env sf.Typ s tg.Private).registered id2 :=
    (registered_congr (by simp) id2).mp hreg
  have hold : ∀ o0, w.registered id2 → w.objs.get? id2 = some o0 → o0.agrees o →
      o0.dependency f = some e2 →
      Entry env (((w.allocated env sf.Typ s tg.Private).store c (p ++ [i])
        (.ptr w.mem.length [])).addDependency id sf.Name w.objs.length) o f e2 := by
    intro o0 hreg0 ho0 hag hdep0
    have hen := hr id2 o0 f e2 hreg0 ho0 hdep0
    refine hen.transport hs.cached hext hag ?_
    intro s2 c2 p2 i2 sf2 tg2 eo2 x2 htar hf2 hname2 htag2 heo2 hx2 hload2 hsrc2
    rcases Entry.load_kept hs hvisit heff hreg0 ho0 hen.1 htar hf2 hload2
      with h | ⟨h1, h2, h3, h4⟩
    · exact h
    · exfalso
      rw [h1, h2, h3] at hload2
      rw [h4] at htag2 hsrc2
      rw [htag] at htag2
      have htg : tg2 = tg := by
        simp only [Except.ok.injEq, Option.some.injEq] at htag2
        exact htag2.symm
      rw [htg] at hsrc2
      rw [hz] at hload2
      have hzx : x2 = z := (Option.some.inj hload2).symm
      rw [hzx] at hsrc2
      rcases hsrc2 with ⟨j1, _⟩ | ⟨_, j2, _, _⟩ | ⟨_, _, j3, j4⟩
      · exact j1 hname
      · exact isNilOrZero_nonzero hzero j2
      · rw [hnone j3] at j4
        cases j4
  rw [addDependency_get, store_objs] at ho
  simp only [World.allocated] at ho
  rcases allocated_registered hreg1 with hreg0 | hnew
  · have hlt : id2 < w.objs.length := hs.valid id2 hreg0
    obtain ⟨o0, ho0⟩ := exists_of_lt hlt
    rw [get?_append_old _ ho0] at ho
    by_cases hid : id2 = id
    · rw [if_pos hid] at ho
      simp only [Option.map, Option.some.injEq] at ho
      rw [hid, hov] at ho0
      have ho0v : o0 = ov := (Option.some.inj ho0).symm
      rw [ho0v] at ho
      subst ho
      by_cases hf : f = sf.Name
      · rw [hf, Object.dependency_addDependency_self] at hdep
        have he2 : e2 = w.objs.length := (Option.some.inj hdep).symm
        rw [he2, hf]
        have hne : w.objs.length ≠ id := by omega
        have hobj : (((w.allocated env sf.Typ s tg.Private).store c (p ++ [i])
            (.ptr w.mem.length [])).addDependency id sf.Name w.objs.length).objs.get?
            w.objs.length = some (createdObject sf.Typ w.mem.length tg.Private) := by
          rw [addDependency_get, store_objs, if_neg hne]
          simp only [World.allocated]
          exact get?_append_new _ _
        refine ⟨by rw [(Object.addDependency_same ov _ _).2.2.1]; exact hcv, sv, c, p, i, sf, tg,
          _, .ptr w.mem.length [], ?_, hfv, rfl, htag, hexp, hobj, ?_, hloadnew, ?_⟩
        · rw [Object.agrees_target (Object.agrees_addDependency ov _ _)]
          exact htv
        · exact setValue_self _ (by rw [ht]; simp [GoType.Kind])
        · refine Or.inr (Or.inl ⟨hname, rfl, Or.inl (by rw [ht]; rfl), ?_⟩)
          cases hp : tg.Private with
          | true => exact Or.inr ⟨rfl, by simp [createdObject], rfl⟩
          | false =>
            left
            rw [addDependency_g, store_g]
            simp [World.allocated, hp]
      · exact hold ov (by rw [hid] at hreg0; exact hid ▸ hreg0) (by rw [hid]; exact hov)
          (Object.agrees_addDependency ov _ _)
          (by rw [← Object.dependency_addDependency_ne ov w.objs.length (Ne.symm hf)]; exact hdep)
    · rw [if_neg hid] at ho
      have ho1 : o0 = o := Option.some.inj ho
      subst ho1
      exact hold o0 hreg0 ho0 (Object.agrees_refl o0) hdep
  · exfalso
    have hne : id2 ≠ id := by omega
    rw [if_neg hne, hnew, get?_append_new] at ho
    rw [← Option.some.inj ho] at hdep
    simp [Object.dependency, createdObject] at hdep

/-- The visits of `populateExplicit` that go on keep the world sane and the
entries of the dependency maps backed. -/
theorem recorded_explicit (env : Env) :
    Sound env (explicitStep env) (fun w => Sane w ∧ Recorded env w)
      (fun _ _ _ _ _ _ => True) := by
  intro w id c p i sf w1 hi hv hstep
  obtain ⟨hs, hr⟩ := hi
  have heff := explicitStep_effect env w id c p i sf
  rw [hstep] at heff
  refine ⟨⟨hs.kept heff, ?_⟩, trivial, fun _ _ _ _ _ _ _ => trivial⟩
  cases explicitStep_cases hstep with
  | bare htag => exact hr
  | kept tg z ha hz hnz => exact hr
  | deferred tg z ha hz hzero hname hk => exact hr
  | named tg z eid e et x ha hz hzero hname hl he het hass hx =>
    exact hr.bind hs hv ha.1 ha.2.1 hz hzero he hx (Or.inl ⟨hname, hl⟩)
  | inline tg z s ha hz hzero hname hs2 hpriv hinl =>
    exact hr.idle hs rfl rfl ⟨_, rfl⟩
  | makeMap tg z ha hz hzero hname hk hpriv =>
    exact hr.mapMade hs hv ha.1 hname hk hz hzero
  | found tg z eid e x ha hz hzero hname hsp hpriv hf he hx =>
    exact hr.bind hs hv ha.1 ha.2.1 hz hzero he hx (Or.inr (Or.inl ⟨hname, hsp, hpriv, hf⟩))
  | create tg z s ha hz hzero hname hts hnone hflag =>
    exact hr.created hs hv ha.1 ha.2.1 hname hz hzero hts hnone hflag

/-- The visits of `populateUnnamedInterface` that go on keep the world sane and
the entries of the dependency maps backed. -/
theorem recorded_interface (env : Env) (w : World) (id c : Nat) (p : List Nat) (i : Nat)
    (sf : StructField) (w1 : World) (hi : Sane w ∧ Recorded env w)
    (hv : Visit env w id c p i sf) (hstep : interfaceStep env w id c p i sf = (w1, none)) :
    (Sane w1 ∧ Recorded env w1) ∧ Stable env (fun _ _ _ _ _ _ => True) w w1 := by
  obtain ⟨hs, hr⟩ := hi
  have heff := interfaceStep_effect env w id c p i sf
  rw [hstep] at heff
  refine ⟨⟨hs.kept heff, ?_⟩, fun _ _ _ _ _ _ _ => trivial⟩
  cases interfaceStep_cases hstep with
  | bare htag => exact hr
  | other tg htag hk => exact hr
  | kept tg z htag hk hpriv hz hnz => exact hr
  | assigned tg z eid e x htag hk hpriv hz hzero hname hexp hmem he hp hx =>
    exact hr.bind hs hv htag hexp hz hzero he hx (Or.inr (Or.inr ⟨hname, hk, hmem, hp⟩))

theorem Env.distinct_fields {env : Env} (h : env.distinctNames) {s : String} {i j : Nat}
    {sf sf2 : StructField} (hi : (env.fields s).get? i = some sf)
    (hj : (env.fields s).get? j = some sf2) (he : sf.Exported = true)
    (he2 : sf2.Exported = true) (hn : sf.Name = sf2.Name) : sf = sf2 := by
  cases hl : env.structs.lookup s with
  | none =>
    have : env.fields s = [] := by simp [Env.fields, hl]
    rw [this] at hi
    simp at hi
  | some fs =>
    have hfs : env.fields s = fs := by simp [Env.fields, hl]
    rw [hfs] at hi hj
    have hnd := h (s, fs) (lookup_mem hl)
    have hm1 : sf ∈ fs.filter (fun f => f.Exported) :=
      List.mem_filter.mpr ⟨List.get?_mem hi, he⟩
    have hm2 : sf2 ∈ fs.filter (fun f => f.Exported) :=
      List.mem_filter.mpr ⟨List.get?_mem hj, he2⟩
    exact List.inj_on_of_nodup_map hnd hm1 hm2 hn

/-- Every visit of `populateExplicit` that goes on leaves a trace of the listed
kinds. -/
theorem explicitStep_traced {env : Env} {w w2 : World} {id c : Nat} {p : List Nat} {i : Nat}
    {sf : StructField} {o : Object} (ho : w.objs.get? id = some o)
    (h : explicitStep env w id c p i sf = (w2, none)) :
    Traced env w w2 id c (p ++ [i]) sf o := by
  have hbind : ∀ (z x : Val) (e : Nat) (eo : Object), w.load c (p ++ [i]) = some z →
      w.objs.get? e = some eo → setValue env sf.Typ eo.Value = some x → w.registered e →
      Traced env w ((w.store c (p ++ [i]) x).addDependency id sf.Name e) id c (p ++ [i]) sf o := by
    intro z x e eo hz he hx hreg
    refine Or.inr (Or.inr ⟨e, if e = id then eo.addDependency sf.Name e else eo, x,
      ?_, ?_, ?_, ?_, Or.inl hreg⟩)
    · rw [addDependency_get, store_objs, if_pos rfl, ho]; rfl
    · rw [addDependency_get, store_objs, he]
      by_cases hid : e = id <;> simp [hid]
    · by_cases hid : e = id
      · rw [if_pos hid, (Object.addDependency_same eo _ _).1]; exact hx
      · rw [if_neg hid]; exact hx
    · rw [load_congr (addDependency_mem _ _ _ _)]
      exact load_store_same _ hz
  cases explicitStep_cases h with
  | bare htag => exact Or.inl ⟨rfl, ho⟩
  | kept tg z ha hz hnz => exact Or.inl ⟨rfl, ho⟩
  | deferred tg z ha hz hzero hname hk => exact Or.inl ⟨rfl, ho⟩
  | named tg z eid e et x ha hz hzero hname hl he het hass hx =>
    exact hbind z x eid e hz he hx
      (Or.inr (List.mem_map.mpr ⟨(tg.Name, eid), lookup_mem hl, rfl⟩))
  | inline tg z s ha hz hzero hname hs2 hpriv hinl =>
    exact Or.inl ⟨rfl, get?_append_old _ ho⟩
  | makeMap tg z ha hz hzero hname hk hpriv =>
    refine Or.inr (Or.inl ⟨w.maps.length, ?_, hk, by simpa using ho⟩)
    exact load_store_same _ hz
  | found tg z eid e x ha hz hzero hname hsp hpriv hf he hx =>
    exact hbind z x eid e hz he hx (Or.inl (findExisting_found hf).1)
  | create tg z s ha hz hzero hname hts hnone hflag =>
    have hidlt : id < w.objs.length := get?_lt ho
    have hne : w.objs.length ≠ id := by omega
    refine Or.inr (Or.inr ⟨w.objs.length, createdObject sf.Typ w.mem.length tg.Private,
      .ptr w.mem.length [], ?_, ?_, ?_, ?_, Or.inr ⟨by simp, rfl⟩⟩)
    · rw [addDependency_get, store_objs, if_pos rfl]
      simp only [World.allocated]
      rw [get?_append_old _ ho]
      rfl
    · rw [addDependency_get, store_objs, if_neg hne]
      simp only [World.allocated]
      exact get?_append_new _ _
    · exact setValue_self _ (by rw [hts]; simp [GoType.Kind])
    · rw [load_congr (addDependency_mem _ _ _ _)]
      exact load_store_same _ (load_allocated env sf.Typ s tg.Private hz)

/-- Every visit of `populateUnnamedInterface` that goes on leaves a trace of
the listed kinds. -/
theorem interfaceStep_traced {env : Env} {w w2 : World} {id c : Nat} {p : List Nat} {i : Nat}
    {sf : StructField} {o : Object} (ho : w.objs.get? id = some o)
    (h : interfaceStep env w id c p i sf = (w2, none)) :
    Traced env w w2 id c (p ++ [i]) sf o := by
  cases interfaceStep_cases h with
  | bare htag => exact Or.inl ⟨rfl, ho⟩
  | other tg htag hk => exact Or.inl ⟨rfl, ho⟩
  | kept tg z htag hk hpriv hz hnz => exact Or.inl ⟨rfl, ho⟩
  | assigned tg z eid e x htag hk hpriv hz hzero hname hexp hmem he hp hx =>
    refine Or.inr (Or.inr ⟨eid, if eid = id then e.addDependency sf.Name eid else e, x,
      ?_, ?_, ?_, ?_, Or.inl (Or.inl hmem)⟩)
    · rw [addDependency_get, store_objs, if_pos rfl, ho]; rfl
    · rw [addDependency_get, store_objs, he]
      by_cases hid : eid = id <;> simp [hid]
    · by_cases hid : eid = id
      · rw [if_pos hid, (Object.addDependency_same e _ _).1]; exact hx
      · rw [if_neg hid]; exact hx
    · rw [load_congr (addDependency_mem _ _ _ _)]
      exact load_store_same _ hz

theorem serverEnv_distinctNames : serverEnv.distinctNames := by
  intro d hd
  simp only [serverEnv, List.mem_cons, List.mem_singleton, List.not_mem_nil, or_false] at hd
  rcases hd with rfl | rfl | rfl | rfl | rfl | rfl | rfl <;> decide

theorem serverProvided_fresh (id : Nat) (o : Object) (hreg : serverProvided.registered id)
    (ho : serverProvided.objs.get? id = some o) : o.Fields = none := by
  have hu : serverProvided.g.unnamed = [0, 1, 2] := rfl
  have hn : serverProvided.g.named = [] := rfl
  unfold World.registered at hreg
  rw [hu, hn] at hreg
  simp only [List.mem_cons, List.mem_singleton, List.not_mem_nil, or_false, List.map_nil] at hreg
  rcases hreg with rfl | rfl | rfl
  · have e : serverProvided.objs.get? 0 = some _ := rfl
    rw [e] at ho
    cases ho
    rfl
  · have e : serverProvided.objs.get? 1 = some _ := rfl
    rw [e] at ho
    cases ho
    rfl
  · have e : serverProvided.objs.get? 2 = some _ := rfl
    rw [e] at ho
    cases ho
    rfl

theorem mapInsert_same : ∀ (m : List (String × Nat)) (k : String) (v : Nat),
    m.lookup k = some v → mapInsert m k v = m := by
  intro m
  induction m with
  | nil => intro k v h; simp at h
  | cons a rest ih =>
    intro k v h
    obtain ⟨k1, v1⟩ := a
    simp only [List.lookup] at h
    simp only [mapInsert]
    by_cases hk : k1 == k
    · have hk2 : (k == k1) = true := by
        rw [beq_iff_eq] at hk ⊢; exact hk.symm
      rw [hk2] at h
      simp only [Option.some.injEq] at h
      rw [if_pos hk]
      rw [beq_iff_eq] at hk
      rw [hk, h]
    · have hk2 : (k == k1) = false := by
        cases hh : k == k1 with
        | false => rfl
        | true =>
          rw [beq_iff_eq] at hh
          exact absurd (by rw [hh]; exact beq_self_eq_true k1) hk
      rw [hk2] at h
      rw [if_neg hk, ih k v h]

theorem Object.addDependency_idle {o : Object} {n : String} {e : Nat}
    (h : o.dependency n = some e) : o.addDependency n e = o := by
  unfold Object.dependency at h
  unfold Object.addDependency
  cases hF : o.Fields with
  | none => rw [hF] at h; cases h
  | some m =>
    rw [hF] at h
    simp only at h ⊢
    rw [mapInsert_same m n e h, ← hF]

theorem addDependency_recorded {w : World} {id : Nat} {o : Object} {n : String} {e : Nat}
    (ho : w.objs.get? id = some o) (h : o.dependency n = some e) :
    w.addDependency id n e = w := by
  unfold World.addDependency
  rw [ho]
  simp only [World.setObj, Object.addDependency_idle h, set_get?_same ho]

/-- A settled field is left alone by a visit of `populateExplicit`, up to the
wrapper the visit allocates for an inline struct. -/
theorem Settled.replay {env : Env} {w : World} {id c : Nat} {p : List Nat} {i : Nat}
    {sf : StructField} (h : Settled env w id c p i sf) :
    explicitStep env w id c p i sf = (w, none) ∨
      explicitStep env w id c p i sf =
        ({ w with objs := w.objs ++ [inlineObject sf.Typ c (p ++ [i]) sf.Anonymous] }, none) := by
  rcases h with htag | ⟨tg, z, ⟨htag, hexp, hin⟩, hz, hb⟩
  · exact Or.inl (explicitStep_bare w id c p i htag)
  · have hinl : (tg.Inline && sf.Typ.Kind != .Struct) = false := by
      cases hI : tg.Inline with
      | false => rfl
      | true => simp [hin hI]
    have hunf : explicitStep env w id c p i sf =
        (if !isNilOrZero z sf.Typ then (w, none)
        else if tg.Name != "" then assignNamed env w id c (p ++ [i]) sf tg
        else if sf.Typ.Kind == .Struct then provideInline w c (p ++ [i]) sf tg
        else if sf.Typ.Kind == .Interface then (w, none)
        else if sf.Typ.Kind == .Map then makeMapField w c (p ++ [i]) sf tg
        else if !isStructPtr sf.Typ then (w, some (.error (.unsupported sf.Name)))
        else injectPointer env w id c (p ++ [i]) sf tg) := by
      unfold explicitStep
      simp only [htag, hexp, hinl, hz, Bool.not_true, Bool.false_eq_true, if_false]
    rw [hunf]
    cases hzero : isNilOrZero z sf.Typ with
    | false => exact Or.inl (by simp)
    | true =>
      simp only [Bool.not_true, Bool.false_eq_true, if_false]
      rcases hb with hnz | ⟨hname, hk⟩ | ⟨hname, hk, hpriv, hinline⟩ | ⟨e, eo, o, hsrc, he, hx, ho, hdep⟩
      · rw [hzero] at hnz; cases hnz
      · left
        simp [hname, hk]
      · right
        obtain ⟨s, hs⟩ := kind_struct_iff.mp hk
        have hP := Provide_fresh w
          { Value := some (.Ptr sf.Typ, .ptr c (p ++ [i])), Name := "",
            Completed := false, Fields := none, reflectType := none,
            reflectValue := none, private_ := true, created := false,
            embedded := sf.Anonymous } s (.ptr c (p ++ [i])) (by simp [hs]) rfl rfl
        simp only [if_true] at hP
        simp only [hname, bne_self_eq_false, Bool.false_eq_true, if_false, hk, beq_self_eq_true,
          if_true, provideInline, hpriv, hinline, Bool.not_true]
        rw [hP]
        simp [inlineObject, hs]
      · left
        have hsame : (w.store c (p ++ [i]) z).addDependency id sf.Name e = w := by
          rw [store_same hz]
          exact addDependency_recorded ho hdep
        rcases hsrc with ⟨hname, hl, et, het, hass⟩ | ⟨hname, hsp, hpriv, hf⟩
        · have hn : (tg.Name != "") = true := by simpa using hname
          simp only [hn, if_true, assignNamed, hl, he, het, hass, Bool.not_true,
            Bool.false_eq_true, if_false, hx, hsame]
        · have hkp := kind_of_isStructPtr hsp
          simp only [hname, bne_self_eq_false, Bool.false_eq_true, if_false, hkp, hsp,
            Bool.not_true, injectPointer, hpriv, Bool.not_false, if_true, hf, he, hx, hsame]
          simp

/-- A resolved field is left alone by a visit of `populateUnnamedInterface`. -/
theorem Resolved.rerun {env : Env} {w : World} {id c : Nat} {p : List Nat} {i : Nat}
    {sf : StructField} (h : Resolved env w id c p i sf) :
    interfaceStep env w id c p i sf = (w, none) := by
  unfold interfaceStep
  rcases h with htag | ⟨tg, htag, hk | ⟨hpriv, z, hz, hnz⟩⟩
  · simp only [htag]
  · simp only [htag]
    simp [hk]
  · simp only [htag, hpriv, hz]
    by_cases hk : sf.Typ.Kind = .Interface
    · have hnil : isNilOrZero z sf.Typ = false := by
        cases hh : isNilOrZero z sf.Typ with
        | false => rfl
        | true => exact absurd hnz (by rw [isNilOrZero_isZero hh]; simp)
      simp [hk, hnil]
    · simp [hk]

theorem nodup_index {α β : Type} (f : α → β) (pr : α → Bool) :
    ∀ (l : List α) (i j : Nat) (a b : α), ((l.filter pr).map f).Nodup →
      l.get? i = some a → l.get? j = some b → pr a = true → pr b = true → f a = f b →
      i = j := by
  intro l
  induction l with
  | nil => intro i j a b _ hi; simp at hi
  | cons x rest ih =>
    intro i j a b hnd hi hj ha hb hf
    have hmem : ∀ (k : Nat) (y : α), rest.get? k = some y → pr y = true →
        f y ∈ (rest.filter pr).map f := by
      intro k y hk hy
      exact List.mem_map.mpr ⟨y, List.mem_filter.mpr ⟨List.get?_mem hk, hy⟩, rfl⟩
    cases i with
    | zero =>
      simp only [List.get?_cons_zero, Option.some.injEq] at hi
      subst hi
      cases j with
      | zero => rfl
      | succ j =>
        exfalso
        simp only [List.get?_cons_succ] at hj
        simp only [List.filter_cons, ha, if_true, List.map_cons, List.nodup_cons] at hnd
        exact hnd.1 (by rw [hf]; exact hmem j b hj hb)
    | succ i =>
      simp only [List.get?_cons_succ] at hi
      cases j with
      | zero =>
        exfalso
        simp only [List.get?_cons_zero, Option.some.injEq] at hj
        subst hj
        simp only [List.filter_cons, hb, if_true, List.map_cons, List.nodup_cons] at hnd
        exact hnd.1 (by rw [← hf]; exact hmem i a hi ha)
      | succ j =>
        simp only [List.get?_cons_succ] at hj
        have hnd2 : ((rest.filter pr).map f).Nodup := by
          simp only [List.filter_cons] at hnd
          split at hnd
          · simp only [List.map_cons, List.nodup_cons] at hnd
            exact hnd.2
          · exact hnd
        rw [ih i j a b hnd2 hi hj ha hb hf]

/-- Two exported fields of a struct type with the same name are the same
field. -/
theorem Env.distinct_index {env : Env} (h : env.distinctNames) {s : String} {i j : Nat}
    {sf sf2 : StructField} (hi : (env.fields s).get? i = some sf)
    (hj : (env.fields s).get? j = some sf2) (he : sf.Exported = true)
    (he2 : sf2.Exported = true) (hn : sf.Name = sf2.Name) : i = j := by
  cases hl : env.structs.lookup s with
  | none =>
    have : env.fields s = [] := by simp [Env.fields, hl]
    rw [this] at hi
    simp at hi
  | some fs =>
    have hfs : env.fields s = fs := by simp [Env.fields, hl]
    rw [hfs] at hi hj
    exact nodup_index (fun f => f.Name) (fun f => f.Exported) fs i j sf sf2
      (h (s, fs) (lookup_mem hl)) hi hj he he2 hn

theorem first_valid {env : Env} {w w1 : World} (hv : w.validIds) (he : Ext w w1) {t : GoType}
    {e : Nat} (h : findExisting env w t w.g.unnamed = .found e) :
    findExisting env w1 t w1.g.unnamed = .found e := by
  obtain ⟨l, hl⟩ := he.unnamed
  rw [hl]
  apply findExisting_found_append
  rw [← h]
  apply findExisting_congr
  intro id hid
  obtain ⟨o, ho⟩ := exists_of_lt (hv id (Or.inl hid))
  obtain ⟨o1, ho1, ha⟩ := he.objs id o ho
  exact ⟨o, o1, ho, ho1, Object.agrees_private ha, Object.agrees_reflectType ha⟩

theorem Records.nothing (env : Env) (w : World) (id : Nat) (sf : StructField) :
    Records env w w id sf :=
  fun _ o ho => ⟨o, ho, Or.inl rfl⟩

theorem Records.bound {env : Env} {w : World} {id : Nat} {sf : StructField} {e : Nat}
    (c : Nat) (q : List Nat) (x : Val) (hb : Binds env w sf e) :
    Records env w ((w.store c q x).addDependency id sf.Name e) id sf := by
  intro k o ho
  rw [addDependency_get, store_objs, ho]
  by_cases hk : k = id
  · rw [if_pos hk]
    exact ⟨_, rfl, Or.inr ⟨hk, e, rfl, hb⟩⟩
  · rw [if_neg hk]
    exact ⟨o, rfl, Or.inl rfl⟩

/-- What the visits of `populateExplicit` that go on do to the records of the
objects. -/
theorem Explicit.recording {env : Env} {w w1 : World} {id c : Nat} {q : List Nat}
    {sf : StructField} (h : Explicit env w id c q sf w1) : Records env w w1 id sf := by
  cases h with
  | bare htag => exact Records.nothing env w id sf
  | kept tg z ha hz hnz => exact Records.nothing env w id sf
  | deferred tg z ha hz hzero hname hk => exact Records.nothing env w id sf
  | named tg z eid e et x ha hz hzero hname hl he het hass hx =>
    exact Records.bound c q x ⟨tg, ha.1, ha.2.1, Or.inl ⟨hname, hl⟩⟩
  | inline tg z s ha hz hzero hname hs hpriv hinl =>
    intro k o ho
    exact ⟨o, get?_append_old _ ho, Or.inl rfl⟩
  | makeMap tg z ha hz hzero hname hk hpriv =>
    intro k o ho
    exact ⟨o, by simpa using ho, Or.inl rfl⟩
  | found tg z eid e x ha hz hzero hname hsp hpriv hf he hx =>
    exact Records.bound c q x ⟨tg, ha.1, ha.2.1, Or.inr (Or.inl ⟨hname, hsp, hpriv, hf⟩)⟩
  | create tg z s ha hz hzero hname hts hnone hflag =>
    intro k o ho
    rw [addDependency_get, store_objs]
    simp only [World.allocated]
    rw [get?_append_old _ ho]
    by_cases hk : k = id
    · rw [if_pos hk]
      refine ⟨_, rfl, Or.inr ⟨hk, w.objs.length, rfl, tg, ha.1, ha.2.1,
        Or.inr (Or.inr (Or.inr ⟨hname, isStructPtr_iff.mpr ⟨s, hts⟩, hnone⟩))⟩⟩
    · rw [if_neg hk]
      exact ⟨o, rfl, Or.inl rfl⟩

/-- What the visits of `populateUnnamedInterface` that go on do to the records
of the objects. -/
theorem Resolve.recordsEdge {env : Env} {w w1 : World} {id c : Nat} {q : List Nat}
    {sf : StructField} (h : Resolve env w id c q sf w1) : Records env w w1 id sf := by
  cases h with
  | bare htag => exact Records.nothing env w id sf
  | other tg htag hk => exact Records.nothing env w id sf
  | kept tg z htag hk hpriv hz hnz => exact Records.nothing env w id sf
  | assigned tg z eid e x htag hk hpriv hz hzero hname hexp hmem he hp hx =>
    exact Records.bound c q x ⟨tg, htag, hexp, Or.inr (Or.inr (Or.inl ⟨hname, hk⟩))⟩

theorem nonzero_not_nilOrZero {z : Val} {t : GoType} (h : z.isZero = false) :
    isNilOrZero z t = false := by
  cases hh : isNilOrZero z t with
  | false => rfl
  | true => rw [isNilOrZero_isZero hh] at h; cases h

theorem Origin.outlives {env : Env} {w w1 : World} {sf : StructField} {tg : tag} {e : Nat}
    {eo eo1 : Object} (h : Origin env w sf tg e eo) (hv : w.validIds) (hext : Ext w w1)
    (hag : eo.agrees eo1) : Origin env w1 sf tg e eo1 := by
  rcases h with ⟨h1, h2, et, h3, h4⟩ | ⟨h1, h2, h3, h4⟩
  · exact Or.inl ⟨h1, by rw [hext.named]; exact h2, et,
      by rw [Object.agrees_reflectType hag]; exact h3, h4⟩
  · exact Or.inr ⟨h1, h2, h3, first_valid hv hext h4⟩

/-- A settled field stays settled by the visit of any field. -/
theorem Settled.stays {env : Env} {ct : List GoType} {w w1 : World} (hnames : env.distinctNames)
    (ht : Typed env ct w) (hext : Ext w w1) (hset : Settles env ct w w1)
    {id2 c2 : Nat} {p2 : List Nat} {i2 : Nat} {sf2 : StructField}
    (hv2 : Visit env w id2 c2 p2 i2 sf2) (hrec : Records env w w1 id2 sf2) :
    Stable env (Settled env) w w1 := by
  intro id c p i sf hv hs
  rcases hs with htag | ⟨tg, z, ha, hz, hb⟩
  · exact Or.inl htag
  · obtain ⟨t, hc, hq⟩ := ht.fieldType hv
    obtain ⟨z1, hz1, hcase⟩ := hset c t (p ++ [i]) sf.Typ z hc hq hz
    rcases hcase with heq | hnz
    · subst heq
      refine Or.inr ⟨tg, z1, ha, hz1, ?_⟩
      rcases hb with h1 | h2 | h3 | ⟨e, eo, o, horg, he, hx, ho, hdep⟩
      · exact Or.inl h1
      · exact Or.inr (Or.inl h2)
      · exact Or.inr (Or.inr (Or.inl h3))
      · refine Or.inr (Or.inr (Or.inr ?_))
        obtain ⟨eo1, heo1, hag1⟩ := hext.objs e eo he
        obtain ⟨o1, ho1, hcases⟩ := hrec id o ho
        refine ⟨e, eo1, o1, horg.outlives ht.valid hext hag1, heo1,
          by rw [Object.agrees_Value hag1]; exact hx, ho1, ?_⟩
        rcases hcases with h | ⟨hid, e2, ho2, tg2, htag2, hexp2, hbind⟩
        · rw [h]; exact hdep
        · rw [ho2]
          by_cases hn : sf2.Name = sf.Name
          · -- the visit is a visit of this field
            obtain ⟨_, ov, sv, hov, _, htv, hfv⟩ := hv
            obtain ⟨_, ov2, sv2, hov2, _, htv2, hfv2⟩ := hv2
            rw [← hid, hov] at hov2
            have hsame : ov2 = ov := (Option.some.inj hov2).symm
            rw [hsame, htv] at htv2
            simp only [Option.some.injEq, Prod.mk.injEq] at htv2
            obtain ⟨hs1, _, _⟩ := htv2
            rw [← hs1] at hfv2
            have hidx : i = i2 := Env.distinct_index hnames hfv hfv2 ha.2.1 hexp2 hn.symm
            rw [← hidx, hfv] at hfv2
            have hsf : sf2 = sf := (Option.some.inj hfv2).symm
            rw [hsf] at htag2 hbind ⊢
            rw [ha.1] at htag2
            have htg : tg2 = tg := by
              simp only [Except.ok.injEq, Option.some.injEq] at htag2
              exact htag2.symm
            rw [htg] at hbind
            rw [Object.dependency_addDependency_self]
            rcases horg with ⟨k1, k2, _⟩ | ⟨k1, k2, k3, k4⟩
            · rcases hbind with ⟨_, j2⟩ | ⟨j1, _⟩ | ⟨j1, _⟩ | ⟨j1, _⟩
              · rw [k2] at j2; exact j2.symm
              · exact absurd j1 k1
              · exact absurd j1 k1
              · exact absurd j1 k1
            · rcases hbind with ⟨j1, _⟩ | ⟨_, _, _, j4⟩ | ⟨_, j2⟩ | ⟨_, _, j3⟩
              · exact absurd k1 j1
              · rw [k4] at j4
                rw [Scan.found.inj j4]
              · rw [kind_of_isStructPtr k2] at j2; cases j2
              · rw [j3 k3] at k4; cases k4
          · rw [Object.dependency_addDependency_ne o e2 hn]
            exact hdep
    · exact Or.inr ⟨tg, z1, ha, hz1, Or.inl (nonzero_not_nilOrZero hnz)⟩

/-- A resolved field stays resolved by the visit of any field. -/
theorem Resolved.remains {env : Env} {ct : List GoType} {w w1 : World} (ht : Typed env ct w)
    (hset : Settles env ct w w1) : Stable env (Resolved env) w w1 := by
  intro id c p i sf hv hs
  rcases hs with htag | ⟨tg, htag, hk | ⟨hpriv, z, hz, hnz⟩⟩
  · exact Or.inl htag
  · exact Or.inr ⟨tg, htag, Or.inl hk⟩
  · obtain ⟨t, hc, hq⟩ := ht.fieldType hv
    obtain ⟨z1, hz1, hnz1⟩ := hset.nonzero hc hq hz hnz
    exact Or.inr ⟨tg, htag, Or.inr ⟨hpriv, z1, hz1, hnz1⟩⟩

/-- The visits of `populateExplicit` that go on settle the visited field and
keep the settled fields settled. -/
theorem settled_explicit {env : Env} (hzt : env.zeroTyped) (hnames : env.distinctNames) :
    Sound env (explicitStep env) (WellTyped env) (Settled env) := by
  intro w id c p i sf w1 hi hv hstep
  obtain ⟨ct, ht⟩ := hi
  have hex := explicitStep_cases hstep
  obtain ⟨l, ht1, hset⟩ := hex.keepsTyped hzt ht hv
  have hext : Ext w w1 := by
    have := (explicitStep_effect env w id c p i sf).ext
    rw [hstep] at this; exact this
  refine ⟨⟨_, ht1⟩, ?_, Settled.stays hnames ht hext hset hv hex.recording⟩
  obtain ⟨_, ov, sv, hov, _, _, _⟩ := hv
  have hassign : ∀ (tg : tag) (z x : Val) (eid : Nat) (e : Object), Annotated env sf tg →
      w.load c (p ++ [i]) = some z → w.objs.get? eid = some e →
      setValue env sf.Typ e.Value = some x →
      Ext w ((w.store c (p ++ [i]) x).addDependency id sf.Name eid) →
      (∀ eo1, e.agrees eo1 →
        Origin env ((w.store c (p ++ [i]) x).addDependency id sf.Name eid) sf tg eid eo1) →
      Settled env ((w.store c (p ++ [i]) x).addDependency id sf.Name eid) id c p i sf := by
    intro tg z x eid e ha hz he hx hext2 horg
    obtain ⟨eo1, heo1, hag1⟩ := hext2.objs eid e he
    refine Or.inr ⟨tg, x, ha, ?_, Or.inr (Or.inr (Or.inr ⟨eid, eo1, ov.addDependency sf.Name eid,
      horg eo1 hag1, heo1, by rw [Object.agrees_Value hag1]; exact hx, ?_,
      Object.dependency_addDependency_self _ _ _⟩))⟩
    · rw [load_congr (addDependency_mem _ _ _ _)]
      exact load_store_same _ hz
    · rw [addDependency_get, store_objs, if_pos rfl, hov]
      rfl
  cases hex with
  | bare htag => exact Or.inl htag
  | kept tg z ha hz hnz => exact Or.inr ⟨tg, z, ha, hz, Or.inl hnz⟩
  | deferred tg z ha hz hzero hname hk => exact Or.inr ⟨tg, z, ha, hz, Or.inr (Or.inl ⟨hname, hk⟩)⟩
  | named tg z eid e et x ha hz hzero hname hl he het hass hx =>
    exact hassign tg z x eid e ha hz he hx hext (fun eo1 hag1 =>
      Or.inl ⟨hname, by simpa using hl, et, by rw [Object.agrees_reflectType hag1]; exact het,
        hass⟩)
  | inline tg z s ha hz hzero hname hs hpriv hinl =>
    exact Or.inr ⟨tg, z, ha, hz, Or.inr (Or.inr (Or.inl ⟨hname, by rw [hs]; rfl, hpriv, hinl⟩))⟩
  | makeMap tg z ha hz hzero hname hk hpriv =>
    refine Or.inr ⟨tg, .map w.maps.length, ha, load_store_same _ hz, Or.inl ?_⟩
    simp [isNilOrZero, hk, Val.isZero]
  | found tg z eid e x ha hz hzero hname hsp hpriv hf he hx =>
    exact hassign tg z x eid e ha hz he hx hext (fun _ _ =>
      Or.inr ⟨hname, hsp, hpriv, first_valid ht.valid hext hf⟩)
  | create tg z s ha hz hzero hname hts hnone hflag =>
    refine Or.inr ⟨tg, .ptr w.mem.length [], ha, ?_, Or.inl ?_⟩
    · rw [load_congr (addDependency_mem _ _ _ _)]
      exact load_store_same _ (load_allocated env sf.Typ s tg.Private hz)
    · simp [isNilOrZero, hts, GoType.Kind, Val.IsNil]

/-- The visits of `populateUnnamedInterface` that go on keep the settled fields
settled. -/
theorem settled_interface {env : Env} (hnames : env.distinctNames) (w : World) (id c : Nat)
    (p : List Nat) (i : Nat) (sf : StructField) (w1 : World) (hi : WellTyped env w)
    (hv : Visit env w id c p i sf) (hstep : interfaceStep env w id c p i sf = (w1, none)) :
    Stable env (Settled env) w w1 := by
  obtain ⟨ct, ht⟩ := hi
  have hre := interfaceStep_cases hstep
  obtain ⟨_, hset⟩ := hre.staysTyped ht hv
  have hext : Ext w w1 := by
    have := (interfaceStep_effect env w id c p i sf).ext
    rw [hstep] at this; exact this
  exact Settled.stays hnames ht hext hset hv hre.recordsEdge

/-- The visits of `populateUnnamedInterface` that go on resolve the visited
field and keep the resolved fields resolved. -/
theorem resolved_interface (env : Env) :
    Sound env (interfaceStep env) (WellTyped env) (Resolved env) := by
  intro w id c p i sf w1 hi hv hstep
  obtain ⟨ct, ht⟩ := hi
  have hre := interfaceStep_cases hstep
  obtain ⟨ht1, hset⟩ := hre.staysTyped ht hv
  refine ⟨⟨ct, ht1⟩, ?_, Resolved.remains ht hset⟩
  obtain ⟨t, hc, hq⟩ := ht.fieldType hv
  cases hre with
  | bare htag => exact Or.inl htag
  | other tg htag hk => exact Or.inr ⟨tg, htag, Or.inl hk⟩
  | kept tg z htag hk hpriv hz hnz =>
    refine Or.inr ⟨tg, htag, Or.inr ⟨hpriv, z, hz, hasType_interface (ht.loaded hc hq hz) hk ?_⟩⟩
    simpa [isNilOrZero, hk] using hnz
  | assigned tg z eid e x htag hk hpriv hz hzero hname hexp hmem he hp hx =>
    refine Or.inr ⟨tg, htag, Or.inr ⟨hpriv, x, ?_, setValue_interface hk hx⟩⟩
    rw [load_congr (addDependency_mem _ _ _ _)]
    exact load_store_same _ hz

theorem Walkable.extended {w w1 : World} {id : Nat} (h : Walkable w id) (he : Ext w w1) :
    Walkable w1 id := by
  obtain ⟨o, ho, hcases⟩ := h
  obtain ⟨o1, ho1, ha⟩ := he.objs id o ho
  refine ⟨o1, ho1, ?_⟩
  rw [Object.agrees_Completed ha, Object.agrees_ignored ha, Object.agrees_target ha]
  exact hcases

theorem traverse_walkable {env : Env}
    {step : World → Nat → Nat → List Nat → Nat → StructField → World × Option Outcome}
    {w w1 : World} {id : Nat} (h : traverse env step w id = (w1, .nil)) : Walkable w id := by
  unfold traverse at h
  split at h
  · cases h
  · rename_i o ho
    refine ⟨o, ho, ?_⟩
    split at h
    · cases h
    · rename_i hign; exact Or.inr (Or.inl hign)
    · rename_i hign
      split at h
      · cases h
      · rename_i s c p ht
        exact Or.inr (Or.inr ⟨hign, s, c, p, ht⟩)

theorem forEachIncomplete_walkable {env : Env}
    {step : World → Nat → Nat → List Nat → Nat → StructField → World × Option Outcome}
    (hstep : Effectful env step) :
    ∀ (ids : List Nat) (w w1 : World), (∀ id ∈ ids, w.registered id) →
      forEachIncomplete (traverse env step) ids w = (w1, .nil) →
      Ext w w1 ∧ ∀ id ∈ ids, Walkable w1 id := by
  intro ids
  induction ids with
  | nil =>
    intro w w1 _ h
    simp only [forEachIncomplete, Prod.mk.injEq] at h
    obtain ⟨h, _⟩ := h
    subst h
    exact ⟨Ext.refl w, fun id hid => by simp at hid⟩
  | cons id rest ih =>
    intro w w1 hreg h
    have hregid := hreg id (List.mem_cons_self _ _)
    simp only [forEachIncomplete] at h
    cases ho : w.objs.get? id with
    | none => rw [ho] at h; cases h
    | some o =>
      rw [ho] at h
      simp only at h
      cases hc : o.Completed with
      | true =>
        simp only [hc, if_true] at h
        obtain ⟨he1, hd1⟩ := ih w w1 (fun id2 h2 => hreg id2 (List.mem_cons_of_mem _ h2)) h
        refine ⟨he1, ?_⟩
        intro id2 hid2
        rcases List.mem_cons.mp hid2 with h2 | h2
        · subst h2
          exact Walkable.extended ⟨o, ho, Or.inl hc⟩ he1
        · exact hd1 id2 h2
      | false =>
        simp only [hc, Bool.false_eq_true, if_false] at h
        cases ht : traverse env step w id with
        | mk wa r =>
          rw [ht] at h
          cases r with
          | nil =>
            simp only at h
            have hea : Ext w wa := by
              have := (traverse_inv hstep (fun _ => True) (fun _ _ _ _ _ _ _ _ => trivial)
                hregid ho hc trivial).2
              rw [ht] at this; exact this
            obtain ⟨he1, hd1⟩ := ih wa w1
              (fun id2 h2 => hea.registered_of (hreg id2 (List.mem_cons_of_mem _ h2))) h
            refine ⟨hea.trans he1, ?_⟩
            intro id2 hid2
            rcases List.mem_cons.mp hid2 with h2 | h2
            · subst h2
              exact (traverse_walkable ht).extended (hea.trans he1)
            · exact hd1 id2 h2
          | error e => simp only [Prod.mk.injEq] at h; cases h.2
          | panic => simp only [Prod.mk.injEq] at h; cases h.2
          | outOfFuel => simp only [Prod.mk.injEq] at h; cases h.2

theorem unnamedLoop_walkable {env : Env} :
    ∀ (fuel i : Nat) (w w1 : World),
      (∀ j id, j < i → w.g.unnamed.get? j = some id → Walkable w id) →
      unnamedLoop env fuel i w = (w1, .nil) →
      Ext w w1 ∧ ∀ id ∈ w1.g.unnamed, Walkable w1 id := by
  intro fuel
  induction fuel with
  | zero => intro i w w1 _ h; simp [unnamedLoop] at h
  | succ fuel ih =>
    intro i w w1 hdone h
    simp only [unnamedLoop] at h
    by_cases hlen : i = w.g.unnamed.length
    · simp only [hlen, beq_self_eq_true, if_true, Prod.mk.injEq] at h
      obtain ⟨h, _⟩ := h
      subst h
      refine ⟨Ext.refl w, ?_⟩
      intro id hid
      obtain ⟨j, hj⟩ := List.get?_of_mem hid
      exact hdone j id (by rw [hlen]; exact get?_lt hj) hj
    · have hne : (i == w.g.unnamed.length) = false := by simpa using hlen
      simp only [hne, Bool.false_eq_true, if_false] at h
      cases hg : w.g.unnamed.get? i with
      | none => rw [hg] at h; cases h
      | some id =>
        rw [hg] at h
        simp only at h
        have hregid : w.registered id := Or.inl (List.get?_mem hg)
        cases ho : w.objs.get? id with
        | none => rw [ho] at h; cases h
        | some o =>
          rw [ho] at h
          simp only at h
          have hnext : ∀ (wa : World), Ext w wa → Walkable wa id →
              ∀ j id2, j < i + 1 → wa.g.unnamed.get? j = some id2 → Walkable wa id2 := by
            intro wa hea hda j id2 hj hjid
            obtain ⟨l, hl⟩ := hea.unnamed
            have hilt : i < w.g.unnamed.length := get?_lt hg
            have hjold : w.g.unnamed.get? j = some id2 := by
              rw [hl, List.get?_eq_getElem?, List.getElem?_append_left (by omega)] at hjid
              rw [List.get?_eq_getElem?]; exact hjid
            by_cases hji : j = i
            · subst hji
              rw [hg] at hjold
              cases hjold
              exact hda
            · exact (hdone j id2 (by omega) hjold).extended hea
          cases hc : o.Completed with
          | true =>
            simp only [hc, if_true] at h
            exact ih (i + 1) w w1 (hnext w (Ext.refl w) ⟨o, ho, Or.inl hc⟩) h
          | false =>
            simp only [hc, Bool.false_eq_true, if_false] at h
            cases ht : Graph.populateExplicit env w id with
            | mk wa r =>
              rw [ht] at h
              cases r with
              | nil =>
                simp only at h
                have hea : Ext w wa := by
                  have := (traverse_inv (explicitStep_effect env) (fun _ => True)
                    (fun _ _ _ _ _ _ _ _ => trivial) hregid ho hc trivial).2
                  unfold Graph.populateExplicit at ht
                  rw [ht] at this; exact this
                obtain ⟨he1, hd1⟩ := ih (i + 1) wa w1
                  (hnext wa hea ((traverse_walkable ht).extended hea)) h
                exact ⟨hea.trans he1, hd1⟩
              | error e => simp only [Prod.mk.injEq] at h; cases h.2
              | panic => simp only [Prod.mk.injEq] at h; cases h.2
              | outOfFuel => simp only [Prod.mk.injEq] at h; cases h.2

/-- The coverage of a successful `Populate`: every registered object is
walkable, every field of every registered object that is not completed has the
property `P` the visits of `populateExplicit` establish, and the property `Q`
the visits of `populateUnnamedInterface` establish. -/
theorem Populate_cover (env : Env) {I : World → Prop}
    {P Q : World → Nat → Nat → List Nat → Nat → StructField → Prop}
    (hE : Sound env (explicitStep env) I P) (hN : Sound env (interfaceStep env) I Q)
    (hNP : ∀ w id c p i sf w1, I w → Visit env w id c p i sf →
      interfaceStep env w id c p i sf = (w1, none) → Stable env P w w1)
    (ord1 ord3 : List Nat) (fuel : Nat) (w w1 : World) (hi : I w)
    (h : Graph.Populate env ord1 ord3 fuel w = (w1, .nil)) :
    I w1 ∧ Ext w w1 ∧ ∀ id, w1.registered id →
      Done env P w1 id ∧ Done env Q w1 id ∧ Walkable w1 id := by
  have hnamed : ∀ (ord : List Nat) (w2 : World),
      ∀ id ∈ (rangeOrder ord w2.g.named).map Prod.snd, w2.registered id := by
    intro ord w2 id hid
    obtain ⟨a, ha, rfl⟩ := List.mem_map.mp hid
    exact Or.inr (List.mem_map.mpr ⟨a, mem_rangeOrder ord _ ha, rfl⟩)
  obtain ⟨_, hext, hdoneP⟩ := Populate_post env hE
    (fun w id c p i sf w1 hi hv hs => ⟨(hN w id c p i sf w1 hi hv hs).1,
      hNP w id c p i sf w1 hi hv hs⟩) ord1 ord3 fuel w w1 hi h
  unfold Graph.Populate at h
  cases h1 : forEachIncomplete (Graph.populateExplicit env)
      ((rangeOrder ord1 w.g.named).map Prod.snd) w with
  | mk wa r1 =>
  rw [h1] at h
  cases r1 with
  | error e => simp only [Prod.mk.injEq] at h; cases h.2
  | panic => simp only [Prod.mk.injEq] at h; cases h.2
  | outOfFuel => simp only [Prod.mk.injEq] at h; cases h.2
  | nil =>
  simp only at h
  cases h2 : unnamedLoop env fuel 0 wa with
  | mk wb r2 =>
  rw [h2] at h
  cases r2 with
  | error e => simp only [Prod.mk.injEq] at h; cases h.2
  | panic => simp only [Prod.mk.injEq] at h; cases h.2
  | outOfFuel => simp only [Prod.mk.injEq] at h; cases h.2
  | nil =>
  simp only at h
  obtain ⟨hib, hewb, _⟩ := explicit_passes_post env hE ord1 fuel w wa wb hi h1 h2
  obtain ⟨hea, hwa⟩ := forEachIncomplete_walkable (explicitStep_effect env) _ w wa
    (hnamed ord1 w) h1
  obtain ⟨heb, hwb⟩ := unnamedLoop_walkable fuel 0 wa wb
    (fun j id hj _ => absurd hj (Nat.not_lt_zero _)) h2
  have hwalkb : ∀ id, wb.registered id → Walkable wb id := by
    intro id hr
    rcases hr with hr | hr
    · exact hwb id hr
    · rw [heb.named, hea.named] at hr
      obtain ⟨a, ha, rfl⟩ := List.mem_map.mp hr
      exact (hwa a.2 (List.mem_map.mpr ⟨a, rangeOrder_mem ord1 _ ha, rfl⟩)).extended heb
  have hS : Sound env (interfaceStep env) (fun w2 => I w2 ∧ w2.g = wb.g) Q := by
    intro w2 id c p i sf w3 hi2 hv hstep
    obtain ⟨hi3, hq3, hs3⟩ := hN w2 id c p i sf w3 hi2.1 hv hstep
    have hg3 : w3.g = w2.g := by
      have := interfaceStep_g env w2 id c p i sf
      rw [hstep] at this; exact this
    exact ⟨⟨hi3, by rw [hg3, hi2.2]⟩, hq3, hs3⟩
  cases h3 : forEachIncomplete (Graph.populateUnnamedInterface env) wb.g.unnamed wb with
  | mk wc r3 =>
  rw [h3] at h
  cases r3 with
  | error e => simp only [Prod.mk.injEq] at h; cases h.2
  | panic => simp only [Prod.mk.injEq] at h; cases h.2
  | outOfFuel => simp only [Prod.mk.injEq] at h; cases h.2
  | nil =>
  simp only at h
  obtain ⟨hic, hec, _, hdc⟩ := forEachIncomplete_post (interfaceStep_effect env)
    (interfaceStep_ne_nil env) hS wb.g.unnamed wb wc (fun id hid => Or.inl hid) ⟨hib, rfl⟩ h3
  obtain ⟨hi1, he1, hs1, hd1⟩ := forEachIncomplete_post (interfaceStep_effect env)
    (interfaceStep_ne_nil env) hS _ wc w1 (hnamed ord3 wc) hic h
  refine ⟨hi1.1, hext, ?_⟩
  intro id hr
  have hrb : wb.registered id := by
    unfold World.registered at hr ⊢
    rw [hi1.2] at hr; exact hr
  refine ⟨hdoneP id hr, ?_, (hwalkb id hrb).extended (hec.trans he1)⟩
  rcases hrb with hu | hn
  · exact (hdc id hu).stable (hec.registered_of (Or.inl hu)) he1 hs1
  · have hn1 : id ∈ (rangeOrder ord3 wc.g.named).map Prod.snd := by
      rw [hec.named]
      obtain ⟨a, ha, rfl⟩ := List.mem_map.mp hn
      exact List.mem_map.mpr ⟨a, rangeOrder_mem ord3 _ ha, rfl⟩
    exact hd1 id hn1

theorem Junk.empty (w : World) : Junk w w :=
  ⟨rfl, rfl, rfl, [], by simp, fun o ho => by simp at ho⟩

theorem Junk.extends {w1 w : World} (h : Junk w1 w) : Ext w1 w := by
  obtain ⟨hm, _, hg, extra, hextra, _⟩ := h
  refine ⟨⟨[], by rw [hg]; simp⟩, by rw [hg], by rw [hg], by rw [hm], ?_⟩
  intro k o ho
  exact ⟨o, by rw [hextra]; exact get?_append_old extra ho, Object.agrees_refl o⟩

theorem Junk.keeps {w1 w : World} (h : Junk w1 w) {k : Nat} {o : Object}
    (ho : w1.objs.get? k = some o) : w.objs.get? k = some o := by
  obtain ⟨_, _, _, extra, hextra, _⟩ := h
  rw [hextra]
  exact get?_append_old extra ho

theorem Junk.wrapped {w1 w : World} (h : Junk w1 w) (t : GoType) (c : Nat) (q : List Nat)
    (a : Bool) : Junk w1 { w with objs := w.objs ++ [inlineObject t c q a] } := by
  obtain ⟨hm, hmaps, hg, extra, hextra, hall⟩ := h
  refine ⟨hm, hmaps, hg, extra ++ [inlineObject t c q a], ?_, ?_⟩
  · simp only [hextra, List.append_assoc]
  · intro o ho
    rcases List.mem_append.mp ho with h1 | h1
    · exact hall o h1
    · simp only [List.mem_singleton] at h1
      subst h1
      exact ⟨rfl, rfl⟩

theorem Settled.withJunk {env : Env} {w1 w : World} (hv : w1.validIds) (hj : Junk w1 w)
    {id c : Nat} {p : List Nat} {i : Nat} {sf : StructField} (h : Settled env w1 id c p i sf) :
    Settled env w id c p i sf := by
  rcases h with htag | ⟨tg, z, ha, hz, hb⟩
  · exact Or.inl htag
  · refine Or.inr ⟨tg, z, ha, by rw [load_congr hj.1]; exact hz, ?_⟩
    rcases hb with h1 | h2 | h3 | ⟨e, eo, o, horg, he, hx, ho, hdep⟩
    · exact Or.inl h1
    · exact Or.inr (Or.inl h2)
    · exact Or.inr (Or.inr (Or.inl h3))
    · exact Or.inr (Or.inr (Or.inr ⟨e, eo, o, horg.outlives hv hj.extends (Object.agrees_refl eo),
        hj.keeps he, hx, hj.keeps ho, hdep⟩))

theorem Resolved.amidJunk {env : Env} {w1 w : World} (hj : Junk w1 w)
    {id c : Nat} {p : List Nat} {i : Nat} {sf : StructField} (h : Resolved env w1 id c p i sf) :
    Resolved env w id c p i sf := by
  rcases h with htag | ⟨tg, htag, hk | ⟨hpriv, z, hz, hnz⟩⟩
  · exact Or.inl htag
  · exact Or.inr ⟨tg, htag, Or.inl hk⟩
  · exact Or.inr ⟨tg, htag, Or.inr ⟨hpriv, z, by rw [load_congr hj.1]; exact hz, hnz⟩⟩

theorem fieldLoop_replay
    {step : World → Nat → Nat → List Nat → Nat → StructField → World × Option Outcome}
    {P : World → Nat → Nat → List Nat → Nat → StructField → Prop} {w1 : World}
    (hstep : ∀ w id c p i sf, Junk w1 w → P w1 id c p i sf →
      ∃ w2, step w id c p i sf = (w2, none) ∧ Junk w1 w2)
    {id c : Nat} {p : List Nat} :
    ∀ (rest : List StructField) (i : Nat) (w : World),
      (∀ k sf, rest.get? k = some sf → P w1 id c p (i + k) sf) → Junk w1 w →
      ∃ w2, fieldLoop (fun w3 j sf => step w3 id c p j sf) rest i w = (w2, .nil) ∧
        Junk w1 w2 := by
  intro rest
  induction rest with
  | nil => intro i w _ hj; exact ⟨w, rfl, hj⟩
  | cons sf rest ih =>
    intro i w hp hj
    obtain ⟨wa, hs, hja⟩ := hstep w id c p i sf hj (by simpa using hp 0 sf rfl)
    obtain ⟨w2, h2, hj2⟩ := ih (i + 1) wa
      (fun k sf2 hk => by
        have := hp (k + 1) sf2 (by simpa using hk)
        rw [show i + 1 + k = i + (k + 1) by omega]; exact this) hja
    exact ⟨w2, by simp only [fieldLoop, hs]; exact h2, hj2⟩

theorem traverse_replay {env : Env}
    {step : World → Nat → Nat → List Nat → Nat → StructField → World × Option Outcome}
    {P : World → Nat → Nat → List Nat → Nat → StructField → Prop} {w1 : World}
    (hstep : ∀ w id c p i sf, Junk w1 w → P w1 id c p i sf →
      ∃ w2, step w id c p i sf = (w2, none) ∧ Junk w1 w2)
    {w : World} {id : Nat} {o : Object} (ho : w1.objs.get? id = some o)
    (hc : o.Completed = false) (hw : Walkable w1 id) (hd : Done env P w1 id)
    (hj : Junk w1 w) :
    ∃ w2, traverse env step w id = (w2, .nil) ∧ Junk w1 w2 := by
  obtain ⟨o2, ho2, hcases⟩ := hw
  rw [ho] at ho2
  cases ho2
  obtain ⟨o3, ho3, hfields⟩ := hd
  rw [ho] at ho3
  cases ho3
  unfold traverse
  rw [hj.keeps ho]
  rcases hcases with h | h | ⟨h, s, c, p, ht⟩
  · rw [hc] at h; cases h
  · simp only [h]
    exact ⟨w, rfl, hj⟩
  · simp only [h, ht]
    exact fieldLoop_replay hstep (env.fields s) 0 w
      (fun k sf hk => by simpa using hfields hc s c p ht k sf hk) hj

theorem forEachIncomplete_replay {env : Env}
    {step : World → Nat → Nat → List Nat → Nat → StructField → World × Option Outcome}
    {P : World → Nat → Nat → List Nat → Nat → StructField → Prop} {w1 : World}
    (hstep : ∀ w id c p i sf, Junk w1 w → P w1 id c p i sf →
      ∃ w2, step w id c p i sf = (w2, none) ∧ Junk w1 w2) :
    ∀ (ids : List Nat) (w : World),
      (∀ id ∈ ids, Walkable w1 id ∧ Done env P w1 id) → Junk w1 w →
      ∃ w2, forEachIncomplete (traverse env step) ids w = (w2, .nil) ∧ Junk w1 w2 := by
  intro ids
  induction ids with
  | nil => intro w _ hj; exact ⟨w, rfl, hj⟩
  | cons id rest ih =>
    intro w hall hj
    obtain ⟨hw, hd⟩ := hall id (List.mem_cons_self _ _)
    obtain ⟨o, ho, _⟩ := hw
    have hrest := fun id2 h2 => hall id2 (List.mem_cons_of_mem _ h2)
    simp only [forEachIncomplete, hj.keeps ho]
    cases hc : o.Completed with
    | true =>
      simp only [if_true]
      exact ih w hrest hj
    | false =>
      simp only [Bool.false_eq_true, if_false]
      obtain ⟨wa, hs, hja⟩ := traverse_replay hstep ho hc (hall id (List.mem_cons_self _ _)).1
        hd hj
      rw [hs]
      exact ih wa hrest hja

theorem unnamedLoop_replay {env : Env} {w1 : World}
    (hstep : ∀ w id c p i sf, Junk w1 w → Settled env w1 id c p i sf →
      ∃ w2, explicitStep env w id c p i sf = (w2, none) ∧ Junk w1 w2)
    (hall : ∀ id ∈ w1.g.unnamed, Walkable w1 id ∧ Done env (Settled env) w1 id) :
    ∀ (fuel i : Nat) (w : World), Junk w1 w → i ≤ w1.g.unnamed.length →
      w1.g.unnamed.length - i < fuel →
      ∃ w2, unnamedLoop env fuel i w = (w2, .nil) ∧ Junk w1 w2 := by
  intro fuel
  induction fuel with
  | zero => intro i w _ _ h; omega
  | succ fuel ih =>
    intro i w hj hle hfuel
    have hg : w.g.unnamed = w1.g.unnamed := by rw [hj.2.2.1]
    simp only [unnamedLoop, hg]
    by_cases hlen : i = w1.g.unnamed.length
    · simp only [hlen, beq_self_eq_true, if_true]
      exact ⟨w, rfl, hj⟩
    · have hne : (i == w1.g.unnamed.length) = false := by simpa using hlen
      simp only [hne, Bool.false_eq_true, if_false]
      have hlt : i < w1.g.unnamed.length := by omega
      obtain ⟨id, hid⟩ : ∃ id, w1.g.unnamed.get? i = some id := by
        rw [List.get?_eq_getElem?, List.getElem?_eq_getElem hlt]; exact ⟨_, rfl⟩
      obtain ⟨hw, hd⟩ := hall id (List.get?_mem hid)
      obtain ⟨o, ho, _⟩ := hw
      simp only [hid, hj.keeps ho]
      cases hc : o.Completed with
      | true =>
        simp only [if_true]
        exact ih (i + 1) w hj (by omega) (by omega)
      | false =>
        simp only [Bool.false_eq_true, if_false]
        obtain ⟨wa, hs, hja⟩ := traverse_replay hstep ho hc (hall id (List.get?_mem hid)).1
          hd hj
        unfold Graph.populateExplicit
        rw [hs]
        exact ih (i + 1) wa hja (by omega) (by omega)

/-- A second run of `Populate` on a world in which every field is settled and
resolved returns nil and changes nothing but for wrappers of inline structs
appended to the heap. -/
theorem Populate_replay {env : Env} {w1 : World} (hv : w1.validIds)
    (hall : ∀ id, w1.registered id →
      Done env (Settled env) w1 id ∧ Done env (Resolved env) w1 id ∧ Walkable w1 id)
    (ord1 ord3 : List Nat) (fuel : Nat) (hfuel : w1.g.unnamed.length < fuel) :
    ∃ w2, Graph.Populate env ord1 ord3 fuel w1 = (w2, .nil) ∧ Junk w1 w2 := by
  have hE : ∀ w id c p i sf, Junk w1 w → Settled env w1 id c p i sf →
      ∃ w2, explicitStep env w id c p i sf = (w2, none) ∧ Junk w1 w2 := by
    intro w id c p i sf hj hs
    rcases (Settled.withJunk hv hj hs).replay with h | h
    · exact ⟨w, h, hj⟩
    · exact ⟨_, h, hj.wrapped _ _ _ _⟩
  have hN : ∀ w id c p i sf, Junk w1 w → Resolved env w1 id c p i sf →
      ∃ w2, interfaceStep env w id c p i sf = (w2, none) ∧ Junk w1 w2 := by
    intro w id c p i sf hj hs
    exact ⟨w, (Resolved.amidJunk hj hs).rerun, hj⟩
  have hnamed : ∀ (ord : List Nat) (w : World), w.g = w1.g →
      ∀ id ∈ (rangeOrder ord w.g.named).map Prod.snd, w1.registered id := by
    intro ord w hg id hid
    obtain ⟨a, ha, rfl⟩ := List.mem_map.mp hid
    rw [hg] at ha
    exact Or.inr (List.mem_map.mpr ⟨a, mem_rangeOrder ord _ ha, rfl⟩)
  obtain ⟨wa, h1, hja⟩ := @forEachIncomplete_replay env _ _ w1 hE
    ((rangeOrder ord1 w1.g.named).map Prod.snd) w1
    (fun id hid => ⟨(hall id (hnamed ord1 w1 rfl id hid)).2.2,
      (hall id (hnamed ord1 w1 rfl id hid)).1⟩) (Junk.empty w1)
  obtain ⟨wb, h2, hjb⟩ := unnamedLoop_replay hE
    (fun id hid => ⟨(hall id (Or.inl hid)).2.2, (hall id (Or.inl hid)).1⟩) fuel 0 wa hja
    (Nat.zero_le _) (by omega)
  obtain ⟨wc, h3, hjc⟩ := @forEachIncomplete_replay env _ _ w1 hN wb.g.unnamed wb
    (fun id hid => by
      rw [hjb.2.2.1] at hid
      exact ⟨(hall id (Or.inl hid)).2.2, (hall id (Or.inl hid)).2.1⟩) hjb
  obtain ⟨wd, h4, hjd⟩ := @forEachIncomplete_replay env _ _ w1 hN
    ((rangeOrder ord3 wc.g.named).map Prod.snd) wc
    (fun id hid => ⟨(hall id (hnamed ord3 wc hjc.2.2.1 id hid)).2.2,
      (hall id (hnamed ord3 wc hjc.2.2.1 id hid)).2.1⟩) hjc
  refine ⟨wd, ?_, hjd⟩
  unfold Graph.Populate Graph.populateExplicit Graph.populateUnnamedInterface
  simp only [h1, h2, h3, h4]

theorem inlineEnv_zeroTyped : inlineEnv.zeroTyped := by
  intro d hd
  simp only [inlineEnv, List.mem_cons, List.mem_singleton, List.not_mem_nil, or_false] at hd
  rcases hd with rfl | rfl | rfl <;> rfl

theorem inlineEnv_distinctNames : inlineEnv.distinctNames := by
  intro d hd
  simp only [inlineEnv, List.mem_cons, List.mem_singleton, List.not_mem_nil, or_false] at hd
  rcases hd with rfl | rfl | rfl <;> decide

theorem inlineProvided_typed : Typed inlineEnv [.Struct "P"] inlineProvided := by
  have hu : inlineProvided.g.unnamed = [0] := rfl
  have hn : inlineProvided.g.named = [] := rfl
  have hreg : ∀ id, inlineProvided.registered id → id = 0 := by
    intro id h
    unfold World.registered at h
    rw [hu, hn] at h
    simpa using h
  refine ⟨?_, rfl, ?_, ?_, ?_⟩
  · intro id h
    have hl : inlineProvided.objs.length = 1 := rfl
    rw [hl, hreg id h]
    omega
  · intro c t v hc hv
    have hm : inlineProvided.mem = [.struct [.struct [.nil]]] := rfl
    rw [hm] at hv
    match c, hc, hv with
    | 0, hc, hv => cases hc; cases hv; rfl
    | k + 1, hc, _ => simp at hc
  · intro id s c p hw
    obtain ⟨hr, o, ho, _, htar⟩ := hw
    have h0 := hreg id hr
    subst h0
    have e : inlineProvided.objs.get? 0 = some _ := rfl
    rw [e] at ho
    cases ho
    cases htar
    exact ⟨_, rfl, rfl⟩
  · intro id o t v hr ho hval
    have h0 := hreg id hr
    subst h0
    have e : inlineProvided.objs.get? 0 = some _ := rfl
    rw [e] at ho
    cases ho
    cases hval
    rfl

/-- An object registered after an effect was registered before, or is the
object the effect created for a request that is not private. -/
theorem Effect.registered_new {env : Env} {w w1 : World} {id c : Nat} {q : List Nat}
    {sf : StructField} (h : Effect env w id c q sf w1) (hid : id < w.objs.length) {k : Nat}
    (hr : w1.registered k) :
    w.registered k ∨
      (k = w.objs.length ∧ w1.objs.get? k = some (createdObject sf.Typ w.mem.length false)) := by
  cases h with
  | skip => exact Or.inl hr
  | assign z x eid e hz hzero he hx hsrc =>
    exact Or.inl ((registered_congr (by simp) k).mp hr)
  | inline z s hz hs => exact Or.inl hr
  | makeMap z hz hzero => exact Or.inl ((registered_congr (by simp) k).mp hr)
  | createFailed z s hz ht => exact Or.inl hr
  | create z s priv hz hzero ht hflag hnone =>
    have hr1 : (w.allocated env sf.Typ s priv).registered k :=
      (registered_congr (by simp) k).mp hr
    cases priv with
    | true => exact Or.inl (by simpa [World.registered, World.allocated] using hr1)
    | false =>
      rcases allocated_registered hr1 with h1 | h1
      · exact Or.inl h1
      · refine Or.inr ⟨h1, ?_⟩
        rw [addDependency_get, store_objs, if_neg (by omega), h1]
        simp only [World.allocated]
        exact get?_append_new _ _

/-- The record of an object after an effect: the record it had, or that record
with one more dependency when the object is the visited one, or the record of
the object the effect built. -/
theorem Effect.record_cases {env : Env} {w w1 : World} {id c : Nat} {q : List Nat}
    {sf : StructField} (h : Effect env w id c q sf w1) (hid : id < w.objs.length) {k : Nat}
    {o1 : Object} (ho : w1.objs.get? k = some o1) :
    (∃ o, w.objs.get? k = some o ∧
      (o1 = o ∨ (k = id ∧ ∃ d, o1 = o.addDependency sf.Name d ∧
        (w.registered d ∨ d = w.objs.length)))) ∨
    (k = w.objs.length ∧
      ((∃ priv, o1 = createdObject sf.Typ w.mem.length priv) ∨
        o1 = inlineObject sf.Typ c q sf.Anonymous)) := by
  have hadd : ∀ (objs : List Object) (d : Nat),
      (if k = id then (objs.get? k).map (fun o => o.addDependency sf.Name d) else objs.get? k) =
        some o1 →
      ∃ o, objs.get? k = some o ∧ (o1 = o ∨ (k = id ∧ o1 = o.addDependency sf.Name d)) := by
    intro objs d hh
    by_cases hk : k = id
    · rw [if_pos hk] at hh
      cases h0 : objs.get? k with
      | none => rw [h0] at hh; simp at hh
      | some o =>
        rw [h0] at hh
        simp only [Option.map, Option.some.injEq] at hh
        exact ⟨o, rfl, Or.inr ⟨hk, hh.symm⟩⟩
    · rw [if_neg hk] at hh
      exact ⟨o1, hh, Or.inl rfl⟩
  cases h with
  | skip => exact Or.inl ⟨o1, ho, Or.inl rfl⟩
  | assign z x eid e hz hzero he hx hsrc =>
    rw [addDependency_get, store_objs] at ho
    obtain ⟨o, h1, h2⟩ := hadd _ _ ho
    refine Or.inl ⟨o, h1, ?_⟩
    rcases h2 with h2 | ⟨h2, h3⟩
    · exact Or.inl h2
    · refine Or.inr ⟨h2, eid, h3, Or.inl ?_⟩
      rcases hsrc with ⟨n, hn⟩ | ⟨hm, _⟩
      · exact Or.inr (List.mem_map.mpr ⟨(n, eid), lookup_mem hn, rfl⟩)
      · exact Or.inl hm
  | inline z s hz hs =>
    rcases get?_append_single ho with h1 | ⟨h1, h2⟩
    · exact Or.inl ⟨o1, h1, Or.inl rfl⟩
    · exact Or.inr ⟨h1, Or.inr h2⟩
  | makeMap z hz hzero =>
    rw [store_objs] at ho
    exact Or.inl ⟨o1, ho, Or.inl rfl⟩
  | createFailed z s hz ht =>
    rcases get?_append_single ho with h1 | ⟨h1, h2⟩
    · exact Or.inl ⟨o1, h1, Or.inl rfl⟩
    · exact Or.inr ⟨h1, Or.inl ⟨false, h2⟩⟩
  | create z s priv hz hzero ht hflag hnone =>
    rw [addDependency_get, store_objs] at ho
    obtain ⟨o, h1, h2⟩ := hadd _ _ ho
    simp only [World.allocated] at h1
    rcases get?_append_single h1 with h3 | ⟨h3, h4⟩
    · refine Or.inl ⟨o, h3, ?_⟩
      rcases h2 with h2 | ⟨h2, h5⟩
      · exact Or.inl h2
      · exact Or.inr ⟨h2, w.objs.length, h5, Or.inr rfl⟩
    · rcases h2 with h2 | ⟨h2, _⟩
      · exact Or.inr ⟨h3, Or.inl ⟨priv, by rw [h2, h4]⟩⟩
      · omega

/-- An entry of a dependency map after an effect was there before, or is the
entry of the visited field, for an object that was registered or is the one
the effect created. -/
theorem Effect.entry_cases {env : Env} {w w1 : World} {id c : Nat} {q : List Nat}
    {sf : StructField} (h : Effect env w id c q sf w1) (hid : id < w.objs.length)
    {id2 : Nat} {f2 : String} {e : Nat} (he : w1.entry id2 f2 e) :
    w.entry id2 f2 e ∨ (id2 = id ∧ f2 = sf.Name ∧ (w.registered e ∨ e = w.objs.length)) := by
  obtain ⟨hreg, o2, ho2, hdep⟩ := he
  rcases h.record_cases hid ho2 with ⟨o, ho, hcase⟩ | ⟨hk, hnew⟩
  · have hreg0 : w.registered id2 := by
      rcases h.registered_new hid hreg with h1 | ⟨h1, _⟩
      · exact h1
      · exact absurd (get?_lt ho) (by omega)
    rcases hcase with h1 | ⟨h1, d, h2, h3⟩
    · exact Or.inl ⟨hreg0, o, ho, by rw [← h1]; exact hdep⟩
    · by_cases hf : f2 = sf.Name
      · rw [h2, hf, Object.dependency_addDependency_self] at hdep
        have : e = d := (Option.some.inj hdep).symm
        exact Or.inr ⟨h1, hf, by rw [this]; exact h3⟩
      · rw [h2, Object.dependency_addDependency_ne _ _ (Ne.symm hf)] at hdep
        exact Or.inl ⟨hreg0, o, ho, hdep⟩
  · exfalso
    rcases hnew with ⟨priv, h1⟩ | h1
    · rw [h1] at hdep; simp [Object.dependency, createdObject] at hdep
    · rw [h1] at hdep; simp [Object.dependency, inlineObject] at hdep

/-- Effects keep the created private objects out of the buckets and recorded
at most once. -/
theorem Owned.afterEffect {env : Env} {w w1 : World} {id c : Nat} {q : List Nat} {sf : StructField}
    (ho : Owned w) (h : Effect env w id c q sf w1) (hid : id < w.objs.length)
    (hv : w.validIds) (hent : ∀ id2 f2 e, w.entry id2 f2 e → e < w.objs.length) :
    Owned w1 := by
  intro e eo heo hcr hpr
  rcases h.record_cases hid heo with ⟨o, ho0, hcase⟩ | ⟨hk, hnew⟩
  · have hlt : e < w.objs.length := get?_lt ho0
    have hflags : o.created = true ∧ o.private_ = true ∧ eo.Name = o.Name := by
      rcases hcase with h1 | ⟨_, d, h1, _⟩
      · rw [← h1]; exact ⟨hcr, hpr, rfl⟩
      · rw [h1] at hcr hpr ⊢
        rw [(Object.addDependency_same o _ _).2.2.2.2.2.2.1] at hcr
        rw [(Object.addDependency_same o _ _).2.2.2.2.2.1] at hpr
        exact ⟨hcr, hpr, (Object.addDependency_same o _ _).2.1⟩
    obtain ⟨hname, hnreg, huniq⟩ := ho e o ho0 hflags.1 hflags.2.1
    refine ⟨by rw [hflags.2.2]; exact hname, ?_, ?_⟩
    · intro hreg
      rcases h.registered_new hid hreg with h1 | ⟨h1, _⟩
      · exact hnreg h1
      · omega
    · intro id2 f2 id3 f3 h2 h3
      rcases h.entry_cases hid h2 with k2 | ⟨_, _, k2 | k2⟩
      · rcases h.entry_cases hid h3 with k3 | ⟨_, _, k3 | k3⟩
        · exact huniq id2 f2 id3 f3 k2 k3
        · exact absurd k3 hnreg
        · omega
      · exact absurd k2 hnreg
      · omega
  · have hnone : ∀ id2 f2, ¬ w.entry id2 f2 e := by
      intro id2 f2 h2
      have := hent id2 f2 e h2
      omega
    rcases hnew with ⟨priv, h1⟩ | h1
    · have hp : priv = true := by rw [h1] at hpr; simpa [createdObject] using hpr
      refine ⟨by rw [h1]; rfl, ?_, ?_⟩
      · intro hreg
        rcases h.registered_new hid hreg with h2 | ⟨_, h2⟩
        · have := hv e h2
          omega
        · rw [heo, h1, hp] at h2
          simp [createdObject] at h2
      · intro id2 f2 id3 f3 h2 h3
        rcases h.entry_cases hid h2 with k2 | ⟨k2, k2f, _⟩
        · exact absurd k2 (hnone id2 f2)
        · rcases h.entry_cases hid h3 with k3 | ⟨k3, k3f, _⟩
          · exact absurd k3 (hnone id3 f3)
          · exact ⟨by rw [k2, k3], by rw [k2f, k3f]⟩
    · rw [h1] at hcr
      simp [inlineObject] at hcr

/-- Effects keep the cached types and values of the registered and the created
objects. -/
theorem Kept.cachedAfter {env : Env} {w w1 : World} {id c : Nat} {q : List Nat} {sf : StructField}
    (hk : Kept w) (h : Effect env w id c q sf w1) (hid : id < w.objs.length) : Kept w1 := by
  intro k o1 ho1 hor
  rcases h.record_cases hid ho1 with ⟨o, ho, hcase⟩ | ⟨hlen, hnew⟩
  · have hlt : k < w.objs.length := get?_lt ho
    have hsame : o1.reflectType = o.reflectType ∧ o1.reflectValue = o.reflectValue ∧
        o1.Value = o.Value ∧ o1.created = o.created := by
      rcases hcase with h1 | ⟨_, d, h1, _⟩
      · rw [h1]; exact ⟨rfl, rfl, rfl, rfl⟩
      · rw [h1]
        have := Object.addDependency_same o sf.Name d
        exact ⟨this.2.2.2.1, this.2.2.2.2.1, this.1, this.2.2.2.2.2.2.1⟩
    have hor0 : w.registered k ∨ o.created = true := by
      rcases hor with h1 | h1
      · rcases h.registered_new hid h1 with h2 | ⟨h2, _⟩
        · exact Or.inl h2
        · omega
      · exact Or.inr (by rw [← hsame.2.2.2]; exact h1)
    obtain ⟨c1, c2⟩ := hk k o ho hor0
    exact ⟨by rw [hsame.1, hsame.2.2.1]; exact c1, by rw [hsame.2.1, hsame.2.2.1]; exact c2⟩
  · rcases hnew with ⟨priv, h1⟩ | h1
    · rw [h1]; exact ⟨rfl, rfl⟩
    · rw [h1]; exact ⟨rfl, rfl⟩

theorem Inert.rest (w : World) : Inert w w := ⟨rfl, ⟨[], by simp⟩, [], by simp⟩

theorem assignNamed_halts {env : Env} {w w1 : World} {id c : Nat} {q : List Nat}
    {sf : StructField} {tg : tag} {r : Outcome}
    (h : assignNamed env w id c q sf tg = (w1, some r)) : w1 = w := by
  unfold assignNamed at h
  repeat' split at h
  all_goals simp only [Prod.mk.injEq, reduceCtorEq, and_false] at h
  all_goals exact h.1.symm

theorem provideInline_halts {w w1 : World} {c : Nat} {q : List Nat} {sf : StructField}
    {tg : tag} {r : Outcome} (hk : sf.Typ.Kind = .Struct)
    (h : provideInline w c q sf tg = (w1, some r)) : w1 = w := by
  unfold provideInline at h
  split at h
  · simp only [Prod.mk.injEq] at h; exact h.1.symm
  · split at h
    · simp only [Prod.mk.injEq] at h; exact h.1.symm
    · obtain ⟨s, hs⟩ := kind_struct_iff.mp hk
      have hP := Provide_fresh w
        { Value := some (.Ptr sf.Typ, .ptr c q), Name := "",
          Completed := false, Fields := none, reflectType := none,
          reflectValue := none, private_ := true, created := false,
          embedded := sf.Anonymous } s (.ptr c q) (by simp [hs]) rfl rfl
      simp only [if_true] at hP
      dsimp only at h
      rw [hP] at h
      simp at h

theorem makeMapField_halts {w w1 : World} {c : Nat} {q : List Nat} {sf : StructField}
    {tg : tag} {r : Outcome} (h : makeMapField w c q sf tg = (w1, some r)) : w1 = w := by
  unfold makeMapField at h
  split at h
  · simp only [Prod.mk.injEq] at h; exact h.1.symm
  · simp at h

theorem injectPointer_halts {env : Env} {w w1 : World} {id c : Nat} {q : List Nat}
    {sf : StructField} {tg : tag} {r : Outcome} (hsp : isStructPtr sf.Typ = true)
    (h : injectPointer env w id c q sf tg = (w1, some r)) : Inert w w1 := by
  obtain ⟨s, hs⟩ := isStructPtr_iff.mp hsp
  unfold injectPointer at h
  split at h
  · simp only [Prod.mk.injEq] at h; rw [← h.1]; exact Inert.rest w
  · split at h
    · simp only [Prod.mk.injEq] at h; rw [← h.1]; exact Inert.rest w
    · split at h
      · simp only [Prod.mk.injEq] at h; rw [← h.1]; exact Inert.rest w
      · simp at h
  · simp only [hs, GoType.Elem] at h
    have hP := Provide_fresh { w with mem := w.mem ++ [Zero env (.Struct s)] }
        { Value := some (.Ptr (.Struct s), .ptr w.mem.length []), Name := "",
          Completed := false, Fields := none, reflectType := none,
          reflectValue := none, private_ := tg.Private, created := true,
          embedded := false } s (.ptr w.mem.length []) rfl rfl rfl
    dsimp only at hP h
    rw [hP] at h
    cases hpriv : tg.Private
    · rw [hpriv] at h
      simp only [Bool.false_eq_true, if_false] at h
      by_cases hflag : typeFlag w.g.unnamedType (.Ptr (.Struct s)) = true
      · simp only [hflag, if_true, Prod.mk.injEq] at h
        rw [← h.1]
        exact ⟨rfl, ⟨_, rfl⟩, _, rfl⟩
      · simp only [hflag, if_false] at h
        simp at h
    · rw [hpriv] at h
      simp at h

/-- A visit of `populateExplicit` that ends the traversal leaves the world as it
was, up to a variable and an object appended to the heap. -/
theorem explicitStep_halts {env : Env} {w w1 : World} {id c : Nat} {p : List Nat} {i : Nat}
    {sf : StructField} {r : Outcome} (h : explicitStep env w id c p i sf = (w1, some r)) :
    Inert w w1 := by
  unfold explicitStep at h
  split at h
  · simp only [Prod.mk.injEq] at h; rw [← h.1]; exact Inert.rest w
  · simp at h
  · split at h
    · simp only [Prod.mk.injEq] at h; rw [← h.1]; exact Inert.rest w
    · split at h
      · simp only [Prod.mk.injEq] at h; rw [← h.1]; exact Inert.rest w
      · split at h
        · simp only [Prod.mk.injEq] at h; rw [← h.1]; exact Inert.rest w
        · split at h
          · simp at h
          · split at h
            · rw [assignNamed_halts h]; exact Inert.rest w
            · split at h
              · rename_i hk
                rw [provideInline_halts (by simpa using hk) h]; exact Inert.rest w
              · split at h
                · simp at h
                · split at h
                  · rw [makeMapField_halts h]; exact Inert.rest w
                  · split at h
                    · simp only [Prod.mk.injEq] at h; rw [← h.1]; exact Inert.rest w
                    · rename_i hsp
                      exact injectPointer_halts (by simpa using hsp) h

theorem load_inert {w w1 : World} (h : Inert w w1) {c : Nat} {q : List Nat} {v : Val}
    (hv : w.load c q = some v) : w1.load c q = some v := by
  obtain ⟨_, _, cells, hc⟩ := h
  have := load_append cells hv
  unfold World.load at this ⊢
  rw [hc]
  exact this

/-- A world that differs only by variables and objects appended to the heap
keeps the entries backed. -/
theorem Recorded.grown {env : Env} {w w1 : World} (hs : Sane w) (hr : Recorded env w)
    (h : Inert w w1) : Recorded env w1 := by
  obtain ⟨hg, ⟨extra, hextra⟩, cells, hcells⟩ := h
  have hin : Inert w w1 := ⟨hg, ⟨extra, hextra⟩, cells, hcells⟩
  have hext : Ext w w1 := by
    refine ⟨⟨[], by rw [hg]; simp⟩, by rw [hg], by rw [hg], by rw [hcells]; simp, ?_⟩
    intro k o ho
    exact ⟨o, by rw [hextra]; exact get?_append_old extra ho, Object.agrees_refl o⟩
  intro id o f e hreg ho hdep
  have hreg0 := (registered_congr hg id).mp hreg
  obtain ⟨o0, ho0⟩ := exists_of_lt (hs.valid id hreg0)
  have : w1.objs.get? id = some o0 := by rw [hextra]; exact get?_append_old extra ho0
  rw [this] at ho
  cases ho
  exact (hr id o f e hreg0 ho0 hdep).transport hs.cached hext (Object.agrees_refl o)
    (fun s c p i sf tg eo x _ _ _ _ _ _ hx _ => load_inert hin hx)

/-- The scan of the unnamed bucket for an interface field, however it ends,
leaves the world as it was or as the assignment of the first candidate left
it. -/
theorem interfaceScan_any (env : Env) (id : Nat) {c : Nat} {q : List Nat} (sf : StructField)
    {z : Val} {tg : tag} (htag : parseTag env sf.Tag = .ok (some tg))
    (hk : sf.Typ.Kind = .Interface) (hpriv : tg.Private = false) (hname : tg.Name = "")
    (w : World) (hz : w.load c q = some z) (hzero : isNilOrZero z sf.Typ = true) :
    ∀ (ids : List Nat), (∀ e ∈ ids, e ∈ w.g.unnamed) →
      (interfaceScan env id c q sf ids none w).1 = w ∨
        Resolve env w id c q sf (interfaceScan env id c q sf ids none w).1 := by
  intro ids
  induction ids with
  | nil => intro _; exact Or.inl rfl
  | cons a rest ih =>
    intro hsub
    have ih2 := ih (fun e he => hsub e (List.mem_cons_of_mem _ he))
    simp only [interfaceScan]
    split
    · exact Or.inl rfl
    · rename_i e he
      split
      · exact ih2
      · rename_i hp
        split
        · exact Or.inl rfl
        · split
          · split
            · exact Or.inl rfl
            · rename_i v hv
              right
              rw [interfaceScan_found_world]
              exact .assigned tg z a e v htag hk hpriv hz hzero hname (fieldSet_some hv).1
                (hsub a (List.mem_cons_self _ _)) he (by simpa using hp) (fieldSet_some hv).2
          · exact ih2

/-- A visit of `populateUnnamedInterface`, however it ends, leaves the world as
it was or as one of the branches that go on leaves it. -/
theorem interfaceStep_any (env : Env) (w : World) (id c : Nat) (p : List Nat) (i : Nat)
    (sf : StructField) :
    (interfaceStep env w id c p i sf).1 = w ∨
      Resolve env w id c (p ++ [i]) sf (interfaceStep env w id c p i sf).1 := by
  unfold interfaceStep
  split
  · exact Or.inl rfl
  · exact Or.inl rfl
  · rename_i tg htag
    split
    · exact Or.inl rfl
    · rename_i hk
      have hk : sf.Typ.Kind = .Interface := by simpa using hk
      split
      · exact Or.inl rfl
      · rename_i hpriv
        have hpriv : tg.Private = false := by simpa using hpriv
        split
        · exact Or.inl rfl
        · rename_i z hz
          split
          · exact Or.inl rfl
          · rename_i hzero
            simp only [Bool.not_eq_true, Bool.not_eq_false'] at hzero
            split
            · exact Or.inl rfl
            · rename_i hname
              have hname : tg.Name = "" := by simpa using hname
              have hscan := interfaceScan_any env id sf htag hk hpriv hname w hz hzero
                w.g.unnamed (fun _ h => h)
              split
              · rename_i w2 r f heq
                rw [heq] at hscan
                exact hscan
              · rename_i w2 heq
                rw [heq] at hscan
                exact hscan
              · rename_i w2 f heq
                rw [heq] at hscan
                exact hscan

theorem Recorded.inHeap {env : Env} {w : World} (hr : Recorded env w) {id : Nat} {f : String}
    {e : Nat} (h : w.entry id f e) : e < w.objs.length := by
  obtain ⟨hreg, o, ho, hdep⟩ := h
  obtain ⟨_, _, _, _, _, _, _, eo, _, _, _, _, _, _, heo, _⟩ := hr id o f e hreg ho hdep
  exact get?_lt heo

/-- Every visit of `populateExplicit`, however it ends, keeps the world sane
and tracked. -/
theorem tracked_explicit (env : Env) (w : World) (id c : Nat) (p : List Nat) (i : Nat)
    (sf : StructField) (hi : Sane w ∧ Tracked env w) (hv : Visit env w id c p i sf) :
    Sane (explicitStep env w id c p i sf).1 ∧ Tracked env (explicitStep env w id c p i sf).1 := by
  obtain ⟨hs, _, hr, ho, hk⟩ := hi
  have heff := explicitStep_effect env w id c p i sf
  have hid : id < w.objs.length := hs.valid id hv.reg
  refine ⟨hs.kept heff, (hs.kept heff).valid, ?_, ho.afterEffect heff hid hs.valid (fun _ _ _ h => hr.inHeap h),
    hk.cachedAfter heff hid⟩
  cases hstep : explicitStep env w id c p i sf with
  | mk w1 r =>
    cases r with
    | none => exact ((recorded_explicit env) w id c p i sf w1 ⟨hs, hr⟩ hv hstep).1.2
    | some r => exact hr.grown hs (explicitStep_halts hstep)

/-- Every visit of `populateUnnamedInterface`, however it ends, keeps the world
sane and tracked. -/
theorem tracked_interface (env : Env) (w : World) (id c : Nat) (p : List Nat) (i : Nat)
    (sf : StructField) (hi : Sane w ∧ Tracked env w) (hv : Visit env w id c p i sf) :
    Sane (interfaceStep env w id c p i sf).1 ∧
      Tracked env (interfaceStep env w id c p i sf).1 := by
  obtain ⟨hs, _, hr, ho, hk⟩ := hi
  have heff := interfaceStep_effect env w id c p i sf
  have hid : id < w.objs.length := hs.valid id hv.reg
  refine ⟨hs.kept heff, (hs.kept heff).valid, ?_, ho.afterEffect heff hid hs.valid (fun _ _ _ h => hr.inHeap h),
    hk.cachedAfter heff hid⟩
  have hany := interfaceStep_any env w id c p i sf
  generalize (interfaceStep env w id c p i sf).1 = w1 at hany ⊢
  rcases hany with h | h
  · rw [h]; exact hr
  · cases h with
    | bare htag => exact hr
    | other tg htag hk => exact hr
    | kept tg z htag hk hpriv hz hnz => exact hr
    | assigned tg z eid e x htag hk hpriv hz hzero hname hexp hmem he hp hx =>
      exact hr.bind hs hv htag hexp hz hzero he hx (Or.inr (Or.inr ⟨hname, hk, hmem, hp⟩))

/-- A call of `Populate` on a sane tracked world, however it ends, leaves a
sane tracked world. -/
theorem Tracked.afterPopulate {env : Env} {w : World} (hs : Sane w) (ht : Tracked env w)
    (ord1 ord3 : List Nat) (fuel : Nat) :
    Sane (Graph.Populate env ord1 ord3 fuel w).1 ∧
      Tracked env (Graph.Populate env ord1 ord3 fuel w).1 :=
  (Populate_inv env (fun w1 => Sane w1 ∧ Tracked env w1)
    (fun w1 id c p i sf hi hv => tracked_explicit env w1 id c p i sf hi hv)
    (fun w1 id c p i sf hi hv => tracked_interface env w1 id c p i sf hi hv)
    ord1 ord3 fuel w ⟨hs, ht⟩).1

theorem Source.registered_or_created {env : Env} {w : World} {sf : StructField} {tg : tag}
    {e : Nat} {eo : Object} {x : Val} (h : Source env w sf tg e eo x) :
    w.registered e ∨ eo.created = true := by
  rcases h with ⟨_, h⟩ | ⟨_, _, _, h | h⟩ | ⟨_, _, _, h⟩
  · exact Or.inl (Or.inr (List.mem_map.mpr ⟨(tg.Name, e), lookup_mem h, rfl⟩))
  · exact Or.inl (Or.inl h)
  · exact Or.inr h.1
  · exact Or.inl (Or.inl (findExisting_found h).1)

/-- A tracked world stays tracked when the caller provides or allocates: the
values are kept, the buckets are appended to, the records of the registered and
of the created objects are kept, no created object appears, and an object that
enters a bucket has no dependency map, carries its cached type and is not a
created private object. -/
theorem Tracked.handed {env : Env} {w w1 : World} (ht : Tracked env w)
    (hload : ∀ c q v, w.load c q = some v → w1.load c q = some v)
    (hun : ∃ l, w1.g.unnamed = w.g.unnamed ++ l)
    (hnm : ∃ l, w1.g.named = w.g.named ++ l)
    (hstable : ∀ k o, w.objs.get? k = some o → (w.registered k ∨ o.created = true) →
      w1.objs.get? k = some o)
    (hcreated : ∀ k o1, w1.objs.get? k = some o1 → o1.created = true →
      w.objs.get? k = some o1)
    (hnew : ∀ k, w1.registered k → ¬ w.registered k →
      ∃ o1, w1.objs.get? k = some o1 ∧ o1.Fields = none ∧ o1.isCached ∧
        (o1.created = true → o1.private_ = false)) :
    Tracked env w1 := by
  obtain ⟨hv, hr, ho, hk⟩ := ht
  obtain ⟨lu, hlu⟩ := hun
  obtain ⟨ln, hln⟩ := hnm
  have hregmono : ∀ k, w.registered k → w1.registered k := by
    intro k h
    rcases h with h | h
    · exact Or.inl (by rw [hlu]; exact List.mem_append_left _ h)
    · exact Or.inr (by rw [hln, List.map_append]; exact List.mem_append_left _ h)
  -- a registered object of the new world with an entry was registered before
  have hentry : ∀ id o1 f e, w1.registered id → w1.objs.get? id = some o1 →
      o1.dependency f = some e → w.registered id ∧ w.objs.get? id = some o1 := by
    intro id o1 f e hreg ho1 hdep
    by_cases hold : w.registered id
    · obtain ⟨o, ho0⟩ := exists_of_lt (hv id hold)
      have := hstable id o ho0 (Or.inl hold)
      rw [ho1] at this
      exact ⟨hold, by rw [this]; exact ho0⟩
    · exfalso
      obtain ⟨o2, ho2, hf, _⟩ := hnew id hreg hold
      rw [ho1] at ho2
      cases ho2
      rw [Object.dependency, hf] at hdep
      cases hdep
  have hentry2 : ∀ id f e, w1.entry id f e → w.entry id f e := by
    rintro id f e ⟨hreg, o1, ho1, hdep⟩
    obtain ⟨h1, h2⟩ := hentry id o1 f e hreg ho1 hdep
    exact ⟨h1, o1, h2, hdep⟩
  refine ⟨?_, ?_, ?_, ?_⟩
  · intro k hreg
    by_cases hold : w.registered k
    · obtain ⟨o, ho0⟩ := exists_of_lt (hv k hold)
      exact get?_lt (hstable k o ho0 (Or.inl hold))
    · obtain ⟨o1, ho1, _⟩ := hnew k hreg hold
      exact get?_lt ho1
  · intro id o1 f e hreg ho1 hdep
    obtain ⟨hreg0, ho0⟩ := hentry id o1 f e hreg ho1 hdep
    obtain ⟨hlive, s, c, p, i, sf, tg, eo, x, h1, h2, h3, h4, h5, h6, h7, h8, h9⟩ :=
      hr id o1 f e hreg0 ho0 hdep
    refine ⟨hlive, s, c, p, i, sf, tg, eo, x, h1, h2, h3, h4, h5,
      hstable e eo h6 h9.registered_or_created, h7, hload _ _ _ h8, ?_⟩
    rcases h9 with ⟨k1, k2⟩ | ⟨k1, k2, k3, k4⟩ | ⟨k1, k2, k3, k4⟩
    · refine Or.inl ⟨k1, ?_⟩
      rw [hln, List.lookup_append, k2]
      rfl
    · refine Or.inr (Or.inl ⟨k1, k2, k3, ?_⟩)
      rcases k4 with k4 | k4
      · exact Or.inl (by rw [hlu]; exact List.mem_append_left _ k4)
      · exact Or.inr k4
    · refine Or.inr (Or.inr ⟨k1, k2, k3, ?_⟩)
      rw [hlu]
      apply findExisting_found_append
      rw [findExisting_congr w.g.unnamed (fun id2 hid2 => by
        obtain ⟨o2, ho2⟩ := exists_of_lt (hv id2 (Or.inl hid2))
        exact ⟨o2, o2, ho2, hstable id2 o2 ho2 (Or.inl (Or.inl hid2)), rfl, rfl⟩)]
      exact k4
  · intro e eo heo hcr hpr
    have heo0 := hcreated e eo heo hcr
    obtain ⟨hname, hnreg, huniq⟩ := ho e eo heo0 hcr hpr
    refine ⟨hname, ?_, ?_⟩
    · intro hreg
      obtain ⟨o1, ho1, _, _, hnp⟩ := hnew e hreg hnreg
      rw [heo] at ho1
      cases ho1
      rw [hnp hcr] at hpr
      cases hpr
    · intro id2 f2 id3 f3 h2 h3
      exact huniq id2 f2 id3 f3 (hentry2 _ _ _ h2) (hentry2 _ _ _ h3)
  · intro k o1 ho1 hor
    by_cases hcr : o1.created = true
    · exact hk k o1 (hcreated k o1 ho1 hcr) (Or.inr hcr)
    · have hreg : w1.registered k := by
        rcases hor with h | h
        · exact h
        · exact absurd h hcr
      by_cases hold : w.registered k
      · obtain ⟨o, ho0⟩ := exists_of_lt (hv k hold)
        have := hstable k o ho0 (Or.inl hold)
        rw [ho1] at this
        cases this
        exact hk k o1 ho0 (Or.inl hold)
      · obtain ⟨o2, ho2, _, hc, _⟩ := hnew k hreg hold
        rw [ho1] at ho2
        cases ho2
        exact hc

theorem Object.recache_cached {o : Object} (h : o.isCached) :
    { o with reflectType := o.Value.map Prod.fst, reflectValue := o.Value } = o := by
  obtain ⟨h1, h2⟩ := h
  cases o
  simp only [Object.mk.injEq, true_and, and_true] at h1 h2 ⊢
  exact ⟨h1.symm, h2.symm⟩

theorem setObj_same {w : World} {id : Nat} {o : Object} (h : w.objs.get? id = some o) :
    w.setObj id o = w := by
  unfold World.setObj
  rw [set_get?_same h]

theorem get?_set_other {α : Type} (l : List α) {i k : Nat} (a : α) (h : k ≠ i) :
    (l.set i a).get? k = l.get? k := by
  rw [List.get?_eq_getElem?, List.get?_eq_getElem?, List.getElem?_set_ne (Ne.symm h)]

theorem get?_set_self {α : Type} {l : List α} {i : Nat} {a b : α}
    (h : (l.set i a).get? i = some b) : b = a := by
  rw [List.get?_eq_getElem?] at h
  by_cases hlt : i < l.length
  · rw [List.getElem?_set_self hlt] at h
    exact (Option.some.inj h).symm
  · rw [List.getElem?_eq_none (by simpa using hlt)] at h
    cases h

/-- Caching the type and value of an object, as `Provide` does first, keeps the
world tracked. -/
theorem Tracked.recache {env : Env} {w : World} {id : Nat} {o : Object} (ht : Tracked env w)
    (ho : w.objs.get? id = some o) :
    Tracked env
      (w.setObj id { o with reflectType := o.Value.map Prod.fst, reflectValue := o.Value }) := by
  by_cases hrc : w.registered id ∨ o.created = true
  · rw [Object.recache_cached (ht.2.2.2 id o ho hrc), setObj_same ho]
    exact ht
  · have hne : ∀ k o2, w.objs.get? k = some o2 → (w.registered k ∨ o2.created = true) →
        k ≠ id := by
      intro k o2 ho2 hor hk
      subst hk
      rw [ho] at ho2
      cases ho2
      exact hrc hor
    refine ht.handed (fun _ _ _ h => h) ⟨[], by simp [World.setObj]⟩
      ⟨[], by simp [World.setObj]⟩ ?_ ?_ ?_
    · intro k o2 ho2 hor
      simp only [World.setObj]
      rw [get?_set_other _ _ (hne k o2 ho2 hor)]
      exact ho2
    · intro k o1 ho1 hcr
      simp only [World.setObj] at ho1
      by_cases hk : k = id
      · exfalso
        rw [hk] at ho1
        have := get?_set_self ho1
        rw [this] at hcr
        exact hrc (Or.inr hcr)
      · rw [get?_set_other _ _ hk] at ho1
        exact ho1
    · intro k hreg hnot
      exact absurd hreg hnot

/-- Appending a provided object to the unnamed bucket keeps the world
tracked. -/
theorem Tracked.enlist {env : Env} {w : World} {id : Nat} {ob : Object} (ht : Tracked env w)
    (ho : w.objs.get? id = some ob) (hf : ob.Fields = none) (hc : ob.isCached)
    (hp : ob.private_ = false) :
    Tracked env { w with g := { w.g with unnamed := w.g.unnamed ++ [id] } } := by
  refine ht.handed (fun _ _ _ h => h) ⟨[id], rfl⟩ ⟨[], by simp⟩ (fun _ _ h _ => h)
    (fun _ _ h _ => h) ?_
  intro k hreg hnot
  have hk : k = id := by
    rcases hreg with h | h
    · simp only [List.mem_append, List.mem_singleton] at h
      rcases h with h | h
      · exact absurd (Or.inl h) hnot
      · exact h
    · exact absurd (Or.inr h) hnot
  rw [hk]
  exact ⟨ob, ho, hf, hc, fun _ => hp⟩

/-- Entering a provided object in the named bucket keeps the world tracked. -/
theorem Tracked.enroll {env : Env} {w : World} {id : Nat} {ob : Object} (ht : Tracked env w)
    (ho : w.objs.get? id = some ob) (hf : ob.Fields = none) (hc : ob.isCached)
    (hn : ob.Name ≠ "") :
    Tracked env { w with g := { w.g with named := w.g.named ++ [(ob.Name, id)] } } := by
  refine ht.handed (fun _ _ _ h => h) ⟨[], by simp⟩ ⟨[(ob.Name, id)], rfl⟩ (fun _ _ h _ => h)
    (fun _ _ h _ => h) ?_
  intro k hreg hnot
  have hk : k = id := by
    rcases hreg with h | h
    · exact absurd (Or.inl h) hnot
    · simp only [List.map_append, List.mem_append, List.map_cons, List.map_nil,
        List.mem_singleton] at h
      rcases h with h | h
      · exact absurd (Or.inr h) hnot
      · exact h
  rw [hk]
  refine ⟨ob, ho, hf, hc, fun hcr => ?_⟩
  cases hp : ob.private_ with
  | false => rfl
  | true => exact absurd (ht.2.2.1 id ob ho hcr hp).1 hn

theorem setObj_get_self {w : World} {id : Nat} {o ob : Object} (h : w.objs.get? id = some o) :
    (w.setObj id ob).objs.get? id = some ob := by
  simp only [World.setObj]
  rw [List.get?_eq_getElem?, List.getElem?_set_self (get?_lt h)]

/-- A call of `Provide`, however it ends, keeps the world tracked. -/
theorem Tracked.supplied {env : Env} : ∀ (ids : List Nat) (w : World), Tracked env w →
    Tracked env (Graph.Provide w ids).1 := by
  intro ids
  induction ids with
  | nil => intro w h; exact h
  | cons id rest ih =>
    intro w ht
    simp only [Graph.Provide]
    split
    · exact ht
    · rename_i o ho
      have h1 := ht.recache ho
      have hrec := @setObj_get_self w id o o.recache ho
      split
      · exact h1
      · rename_i hfields
        have hf : o.Fields = none := by
          cases hh : o.Fields with
          | none => rfl
          | some m => rw [hh] at hfields; simp at hfields
        split
        · split
          · exact h1
          · split
            · exact h1
            · split
              · rename_i hpriv
                split
                · exact h1
                · exact ih _ (@Tracked.enlist env _ id o.recache h1 hrec hf ⟨rfl, rfl⟩
                    (by simpa using hpriv))
              · exact ih _ h1
        · rename_i hname
          split
          · exact h1
          · exact ih _ (@Tracked.enroll env _ id o.recache h1 hrec hf ⟨rfl, rfl⟩
              (by simpa using hname))

/-- Variables, maps and objects the caller allocates keep the world tracked. -/
theorem Tracked.afterAlloc {env : Env} {w : World} (ht : Tracked env w) (mem : List Val)
    (maps : List (List (Val × Val))) (objs : List Object) (h : ∀ o ∈ objs, o.created = false) :
    Tracked env
      { w with mem := w.mem ++ mem, maps := w.maps ++ maps, objs := w.objs ++ objs } := by
  refine ht.handed (fun _ _ _ hv => load_append mem hv) ⟨[], by simp⟩ ⟨[], by simp⟩
    (fun _ _ ho _ => get?_append_old objs ho) ?_ (fun _ hreg hnot => absurd hreg hnot)
  intro k o1 ho1 hcr
  rcases get?_append_cases ho1 with h1 | h1
  · exact h1
  · rw [h o1 h1] at hcr
    cases hcr

/-- Every graph a caller builds is tracked. -/
theorem Built.tracked {env : Env} {w : World} (h : Built env w) : Tracked env w := by
  induction h with
  | empty =>
    refine ⟨?_, ?_, ?_, ?_⟩
    · intro k hk
      simp [World.registered, World.fresh] at hk
    · intro id o f e hreg
      simp [World.registered, World.fresh] at hreg
    · intro e eo heo
      simp [World.fresh] at heo
    · intro k o ho
      simp [World.fresh] at ho
  | alloc mem maps objs hall _ ih => exact ih.afterAlloc mem maps objs hall
  | provide ids _ ih => exact Tracked.supplied ids _ ih
  | populate ord1 ord3 fuel _ hs ih => exact (ih.afterPopulate hs ord1 ord3 fuel).2

/-- An entry that is backed by a field, in a world whose created private
objects are recorded at most once, is justified. -/
theorem Entry.justifiedBy {env : Env} {w : World} {id : Nat} {o : Object} {f : String}
    {e : Nat} (h : Entry env w o f e) (hown : Owned w) (hreg : w.registered id)
    (ho : w.objs.get? id = some o) (hdep : o.dependency f = some e) :
    Justified env w id o f e := by
  obtain ⟨_, s, c, p, i, sf, tg, eo, x, h1, h2, h3, h4, _, h6, h7, h8, h9⟩ := h
  refine ⟨s, c, p, i, sf, tg, eo, x, h1, h2, h3, h4, h6, h7, h8, ?_⟩
  rcases h9 with ⟨_, k⟩ | ⟨_, _, _, k⟩ | ⟨_, _, _, k⟩
  · exact Or.inl ⟨_, k⟩
  · rcases k with k | ⟨k1, k2, k3⟩
    · exact Or.inr (Or.inl k)
    · refine Or.inr (Or.inr ⟨k1, k2, k3, ?_⟩)
      intro id2 f2 h2e
      exact (hown e eo h6 k1 k2).2.2 id f id2 f2 ⟨hreg, o, ho, hdep⟩ h2e
  · exact Or.inr (Or.inl (findExisting_found k).1)

theorem serverProvided_built : Built serverEnv serverProvided :=
  Built.provide [0, 1, 2]
    (Built.alloc serverMem [] (provideAll serverVals) (by decide) Built.empty)

theorem serverPopulated_built : Built serverEnv serverPopulated :=
  Built.populate [] [] 20 serverProvided_built serverProvided_sane

theorem serverPopulated_sane : Sane serverPopulated :=
  (serverProvided_built.tracked.afterPopulate serverProvided_sane [] [] 20).1

/-! ## Registration -/

/-- C1 (the code departs from it): `Provide` accepts two unnamed objects that are
not private and have the identical type `*A`, in one call and in two calls:
both calls return nil and the unnamed bucket holds both objects, because the
type set `unnamedType` that the duplicate check reads is never written. -/
theorem provide_accepts_duplicate_unnamed_type :
    Graph.Provide dupWorld [0, 1] =
        ({ dupWorld with
            objs := [{ Object.provided (.Ptr (.Struct "A")) (.ptr 0 []) "" false with
                        reflectType := some (.Ptr (.Struct "A")),
                        reflectValue := some (.Ptr (.Struct "A"), .ptr 0 []) },
                     { Object.provided (.Ptr (.Struct "A")) (.ptr 1 []) "" false with
                        reflectType := some (.Ptr (.Struct "A")),
                        reflectValue := some (.Ptr (.Struct "A"), .ptr 1 []) }],
            g := { unnamed := [0, 1], unnamedType := [], named := [] } }, Outcome.nil) ∧
      Graph.Provide (Graph.Provide dupWorld [0]).1 [1] = Graph.Provide dupWorld [0, 1] ∧
      (Graph.Provide (Graph.Provide dupWorld [1]).1 [0]).2 = Outcome.nil ∧
      (Graph.Provide (Graph.Provide dupWorld [1]).1 [0]).1.g.unnamed = [1, 0] := by
  refine ⟨rfl, rfl, rfl, rfl⟩

/-! ## Frame properties of `Populate` -/

/-- C4 (amended): a field of a registered object that holds a non-zero value
when `Populate` is called holds the same value when `Populate` returns,
whatever the outcome, and no dependency is recorded for it, provided that,
when the value has components (it is a struct or an array), the struct of no
registered object that is not completed lies inside the field: neither the
field itself, nor a struct nested in it, nor an element of it at any depth. -/
theorem nonzero_field_kept (env : Env) (ord1 ord3 : List Nat) (fuel : Nat) (w : World)
    (id : Nat) (object : Object) (s : String) (c : Nat) (p : List Nat) (i : Nat)
    (sf : StructField) (v : Val)
    (hvalid : w.validIds)
    (hobj : w.objs.get? id = some object)
    (htarget : object.target = some (s, c, p))
    (hfield : (env.fields s).get? i = some sf)
    (hnames : ∀ j sf2, (env.fields s).get? j = some sf2 → sf2.Name = sf.Name → j = i)
    (hv : w.load c (p ++ [i]) = some v) (hnz : v.isZero = false)
    (hsep : v.isLeaf = false → ∀ id2 o2 s2 p2, w.registered id2 → w.objs.get? id2 = some o2 →
      o2.Completed = false → o2.target = some (s2, c, p2) → ∀ r, p2 ≠ (p ++ [i]) ++ r) :
    (Graph.Populate env ord1 ord3 fuel w).1.load c (p ++ [i]) = some v ∧
    ∃ o1, (Graph.Populate env ord1 ord3 fuel w).1.objs.get? id = some o1 ∧
      o1.dependency sf.Name = object.dependency sf.Name := by
  have key := Populate_inv_effect env
    (fun w1 => w1.validIds ∧ w1.load c (p ++ [i]) = some v ∧
      (∃ o1, w1.objs.get? id = some o1 ∧ o1.target = some (s, c, p) ∧
        o1.dependency sf.Name = object.dependency sf.Name) ∧
      (v.isLeaf = false → ∀ id2 o2 s2 p2, w1.registered id2 → w1.objs.get? id2 = some o2 →
        o2.Completed = false → o2.target = some (s2, c, p2) → ∀ r, p2 ≠ (p ++ [i]) ++ r))
    ?_ ord1 ord3 fuel w ⟨hvalid, hv, ⟨object, hobj, htarget, rfl⟩, hsep⟩
  · exact ⟨key.1.2.1, by
      obtain ⟨o1, ho1, _, hd⟩ := key.1.2.2.1
      exact ⟨o1, ho1, hd⟩⟩
  · intro w1 w2 id2 c2 p2 j sf2 ⟨hval1, hv1, ⟨o1, ho1, ht1, hd1⟩, hsep1⟩ hvis heff
    obtain ⟨hreg2, ob2, s2, hob2, hcomp2, htar2, hfld2⟩ := hvis
    have hout : c2 = c → ∀ r z, r ≠ [] → p2 ++ [j] = (p ++ [i]) ++ r →
        w1.load c2 (p2 ++ [j]) = some z → False := by
      intro hc r z hr hq hz
      subst hc
      cases hleaf : v.isLeaf with
      | true =>
        rw [hq, load_append_path, hv1] at hz
        simp [Val.get_leaf hleaf hr] at hz
      | false =>
        rcases List.eq_nil_or_concat r with h0 | ⟨r2, x, hrx⟩
        · exact hr h0
        · subst hrx
          rw [List.concat_eq_append, ← List.append_assoc] at hq
          have := List.append_inj_left' hq rfl
          exact hsep1 hleaf id2 ob2 s2 p2 hreg2 hob2 hcomp2 htar2 r2 this
    refine ⟨heff.validIds hval1, heff.load_frame hv1 hnz hout, ?_, ?_⟩
    · by_cases hid : id = id2
      · subst hid
        rw [ho1] at hob2
        cases hob2
        rw [ht1] at htar2
        cases htar2
        rcases heff.objs_self ho1 with hsame | ⟨z, d, hz, hzero, hnew⟩
        · exact ⟨o1, hsame, ht1, hd1⟩
        · refine ⟨_, hnew, by rw [Object.agrees_target (Object.agrees_addDependency _ _ _), ht1], ?_⟩
          by_cases hn : sf2.Name = sf.Name
          · have hji := hnames j sf2 hfld2 hn
            subst hji
            rw [hz] at hv1
            cases hv1
            rw [hzero] at hnz
            cases hnz
          · rw [Object.dependency_addDependency_ne _ _ hn, hd1]
      · exact ⟨o1, heff.objs_other ho1 hid, ht1, hd1⟩
    · intro hleaf id3 o3 s3 p3 hreg3 ho3 hcomp3 htar3
      rcases heff.registered_old hval1 hreg3 ho3 with ⟨hold, o, ho, ha⟩ | ⟨s4, ht4⟩
      · exact hsep1 hleaf id3 o s3 p3 hold ho
          (by rw [← Object.agrees_Completed ha, hcomp3])
          (by rw [← Object.agrees_target ha, htar3])
      · rw [htar3] at ht4
        simp only [Option.some.injEq, Prod.mk.injEq] at ht4
        have := load_lt hv1
        omega


/-- C5 (amended): `Populate` leaves the record of a registered object with
`Completed = true` (its `Fields` map included) exactly as it was and never
traverses it (the loops skip it), and it leaves the object's struct as it was
provided that the struct does not overlap the struct of a registered object
that is not completed (neither contains it, nor lies inside it, nor coincides
with it).  The object can still be assigned to fields of other objects, as in
the example: `a.B` receives the completed `b`, whose own field stays nil. -/
theorem completed_object_kept (env : Env) (ord1 ord3 : List Nat) (fuel : Nat) (w : World)
    (id : Nat) (object : Object)
    (hvalid : w.validIds)
    (hobj : w.objs.get? id = some object) (hcomp : object.Completed = true) :
    (Graph.Populate env ord1 ord3 fuel w).1.objs.get? id = some object ∧
    (∀ s c p v, object.target = some (s, c, p) → w.load c p = some v →
      (∀ id2 o2 s2 p2, w.registered id2 → w.objs.get? id2 = some o2 →
        o2.Completed = false → o2.target = some (s2, c, p2) →
        (∀ r, p2 ≠ p ++ r) ∧ (∀ r, p ≠ p2 ++ r)) →
      (Graph.Populate env ord1 ord3 fuel w).1.load c p = some v) ∧
    (∀ f rest, forEachIncomplete f (id :: rest) w = forEachIncomplete f rest w) ∧
    (∀ k i, w.g.unnamed.get? i = some id → i ≠ w.g.unnamed.length →
      unnamedLoop env (k + 1) i w = unnamedLoop env k (i + 1) w) ∧
    ((Graph.Populate completedEnv [] [] 3 (Graph.Provide completedWorld [0, 1]).1).2 = .nil ∧
      (Graph.Populate completedEnv [] [] 3 (Graph.Provide completedWorld [0, 1]).1).1.mem =
        [.struct [.ptr 1 []], .struct [.nil]]) := by
  refine ⟨?_, ?_, ?_, ?_, rfl, rfl⟩
  · have key := Populate_inv_effect env
      (fun w1 => w1.objs.get? id = some object) ?_ ord1 ord3 fuel w hobj
    · exact key.1
    · intro w1 w2 id2 c2 p2 j sf2 ho1 hvis heff
      obtain ⟨_, ob2, s2, hob2, hcomp2, _, _⟩ := hvis
      have hne : id ≠ id2 := by
        intro h
        subst h
        rw [ho1] at hob2
        cases hob2
        rw [hcomp] at hcomp2
        cases hcomp2
      exact heff.objs_other ho1 hne
  · intro s c p v htarget hv hsep
    have key := Populate_inv_effect env
      (fun w1 => w1.validIds ∧ w1.load c p = some v ∧
        (∀ id2 o2 s2 p2, w1.registered id2 → w1.objs.get? id2 = some o2 →
          o2.Completed = false → o2.target = some (s2, c, p2) →
          (∀ r, p2 ≠ p ++ r) ∧ (∀ r, p ≠ p2 ++ r)))
      ?_ ord1 ord3 fuel w ⟨hvalid, hv, hsep⟩
    · exact key.1.2.1
    · intro w1 w2 id2 c2 p2 j sf2 ⟨hval1, hv1, hsep1⟩ hvis heff
      obtain ⟨hreg2, ob2, s2, hob2, hcomp2, htar2, hfld2⟩ := hvis
      refine ⟨heff.validIds hval1, heff.load_disjoint hv1 ?_, ?_⟩
      · intro hc
        subst hc
        obtain ⟨h1, h2⟩ := hsep1 id2 ob2 s2 p2 hreg2 hob2 hcomp2 htar2
        constructor
        · intro r hq
          rcases List.eq_nil_or_concat r with h0 | ⟨r2, x, hrx⟩
          · subst h0
            rw [List.append_nil] at hq
            exact h2 [j] hq.symm
          · subst hrx
            rw [List.concat_eq_append, ← List.append_assoc] at hq
            exact h1 r2 (List.append_inj_left' hq rfl)
        · intro r hq
          exact h2 ([j] ++ r) (by rw [hq, List.append_assoc])
      · intro id3 o3 s3 p3 hreg3 ho3 hcomp3 htar3
        rcases heff.registered_old hval1 hreg3 ho3 with ⟨hold, o, ho, ha⟩ | ⟨s4, ht4⟩
        · exact hsep1 id3 o s3 p3 hold ho
            (by rw [← Object.agrees_Completed ha, hcomp3])
            (by rw [← Object.agrees_target ha, htar3])
        · rw [htar3] at ht4
          simp only [Option.some.injEq, Prod.mk.injEq] at ht4
          have := load_lt hv1
          omega
  · intro f rest
    simp only [forEachIncomplete, hobj, hcomp, if_true]
  · intro k i hi hne
    have hne2 : (i == w.g.unnamed.length) = false := by simpa using hne
    simp only [unnamedLoop, hobj, hcomp, hi, hne2, if_true, Bool.false_eq_true, if_false]


/-- C4 (counterexample): the field `S` of `p` is annotated and holds the
non-zero value `S{B: 1}` when `Populate` is called; `&p.S` is registered too,
`Populate` returns nil, and afterwards the field holds `S{A: &T{}, B: 1}`. -/
theorem nonzero_struct_field_changed :
    (overlapEnv.fields "P").get? 0 = some (exportedField "S" (.Struct "S") "inject:\"inline\"") ∧
    parseTag overlapEnv "inject:\"inline\"" = .ok (some injectInline) ∧
    (Graph.Provide overlapWorld [0, 1]).2 = .nil ∧
    (Graph.Provide overlapWorld [0, 1]).1.g.unnamed = [0, 1] ∧
    (Graph.Provide overlapWorld [0, 1]).1.load 0 [0] = some (.struct [.nil, .other 1]) ∧
    isNilOrZero (.struct [.nil, .other 1]) (.Struct "S") = false ∧
    (Graph.Populate overlapEnv [] [] 4 (Graph.Provide overlapWorld [0, 1]).1).2 = .nil ∧
    (Graph.Populate overlapEnv [] [] 4 (Graph.Provide overlapWorld [0, 1]).1).1.load 0 [0] =
      some (.struct [.ptr 1 [], .other 1]) := by
  refine ⟨rfl, rfl, rfl, rfl, rfl, rfl, rfl, rfl⟩

/-- C4 (second counterexample): the field `Arr` of `p` is annotated and holds
the non-zero array `[1]E{{B: 1}}` when `Populate` is called; `&p.Arr[0]` is
registered too, `Populate` returns nil, and afterwards the field holds
`[1]E{{A: &T{}, B: 1}}`. -/
theorem nonzero_array_field_changed :
    (arrayEnv.fields "P").get? 0 =
      some (exportedField "Arr" (.Array 1 (.Struct "E")) "inject:\"\"") ∧
    parseTag arrayEnv "inject:\"\"" = .ok (some injectOnly) ∧
    (Graph.Provide arrayWorld [0, 1]).2 = .nil ∧
    (Graph.Provide arrayWorld [0, 1]).1.g.unnamed = [0, 1] ∧
    (Graph.Provide arrayWorld [0, 1]).1.load 0 [0] = some (.struct [.struct [.nil, .other 1]]) ∧
    isNilOrZero (.struct [.struct [.nil, .other 1]]) (.Array 1 (.Struct "E")) = false ∧
    (Graph.Populate arrayEnv [] [] 4 (Graph.Provide arrayWorld [0, 1]).1).2 = .nil ∧
    (Graph.Populate arrayEnv [] [] 4 (Graph.Provide arrayWorld [0, 1]).1).1.load 0 [0] =
      some (.struct [.struct [.ptr 1 [], .other 1]]) := by
  refine ⟨rfl, rfl, rfl, rfl, rfl, rfl, rfl, rfl⟩

/-- C5 (counterexample): `p` is registered with `Completed = true` and no other
registered object wraps the value `p`; `&p.S` is registered and not completed,
`Populate` returns nil, and afterwards the struct of `p` has changed from
`P{S: S{}}` to `P{S: S{A: &T{}}}`. -/
theorem completed_struct_changed :
    (Graph.Provide overlapCompletedWorld [0, 1]).2 = .nil ∧
    (Graph.Provide overlapCompletedWorld [0, 1]).1.g.unnamed = [0, 1] ∧
    ((Graph.Provide overlapCompletedWorld [0, 1]).1.objs.map (fun o => (o.Value, o.Completed))) =
      [(some (.Ptr (.Struct "P"), .ptr 0 []), true), (some (.Ptr (.Struct "S"), .ptr 0 [0]), false)] ∧
    (Graph.Provide overlapCompletedWorld [0, 1]).1.load 0 [] =
      some (.struct [.struct [.nil, .other 0]]) ∧
    (Graph.Populate overlapEnv [] [] 4 (Graph.Provide overlapCompletedWorld [0, 1]).1).2 = .nil ∧
    (Graph.Populate overlapEnv [] [] 4 (Graph.Provide overlapCompletedWorld [0, 1]).1).1.load 0 [] =
      some (.struct [.struct [.ptr 1 [], .other 0]]) := by
  refine ⟨rfl, rfl, rfl, rfl, rfl, rfl⟩


/-- C4 (witness): `a.B` holds `b` before and after `Populate`, and no
dependency is recorded for `B`.  In the array example with `p` alone
registered, the struct of no registered object lies inside `p.Arr`, and the
field holds `[1]E{{B: 1}}` before and after `Populate`. -/
theorem nonzero_field_kept_witness :
    ((Graph.Populate completedEnv [] [] 3 keptWorld).1.load 0 ([] ++ [0]) = some (.ptr 1 []) ∧
      ∃ o1, (Graph.Populate completedEnv [] [] 3 keptWorld).1.objs.get? 0 = some o1 ∧
        o1.dependency "B" = none) ∧
    ((Graph.Populate arrayEnv [] [] 3 arrayAlone).1.load 0 ([] ++ [0]) =
        some (.struct [.struct [.nil, .other 1]]) ∧
      ∃ o1, (Graph.Populate arrayEnv [] [] 3 arrayAlone).1.objs.get? 0 = some o1 ∧
        o1.dependency "Arr" = none) :=
  ⟨nonzero_field_kept completedEnv [] [] 3 keptWorld 0
    { Object.provided (.Ptr (.Struct "A")) (.ptr 0 []) "" false with
        reflectType := some (.Ptr (.Struct "A")),
        reflectValue := some (.Ptr (.Struct "A"), .ptr 0 []) }
    "A" 0 [] 0 (exportedField "B" (.Ptr (.Struct "B")) "inject:\"\"") (.ptr 1 [])
    (validIds_of_unnamed [0] rfl rfl (by decide)) rfl rfl rfl
    (by
      intro j sf2 h _
      match j with
      | 0 => rfl
      | k + 1 => simp [completedEnv, Env.fields, List.lookup] at h)
    rfl rfl (by intro h; cases h),
   nonzero_field_kept arrayEnv [] [] 3 arrayAlone 0
    { Object.provided (.Ptr (.Struct "P")) (.ptr 0 []) "" false with
        reflectType := some (.Ptr (.Struct "P")),
        reflectValue := some (.Ptr (.Struct "P"), .ptr 0 []) }
    "P" 0 [] 0 (exportedField "Arr" (.Array 1 (.Struct "E")) "inject:\"\"")
    (.struct [.struct [.nil, .other 1]])
    (validIds_of_unnamed [0] rfl rfl (by decide)) rfl rfl rfl
    (by
      intro j sf2 h _
      match j with
      | 0 => rfl
      | k + 1 => simp [arrayEnv, Env.fields, List.lookup] at h)
    rfl rfl
    (by
      intro _ id2 o2 s2 p2 hreg ho _ htar r h
      have hu : arrayAlone.g.unnamed = [0] := rfl
      have hn : arrayAlone.g.named = [] := rfl
      unfold World.registered at hreg
      rw [hu, hn] at hreg
      simp only [List.mem_singleton, List.map_nil, List.not_mem_nil, or_false] at hreg
      subst hreg
      have e : arrayAlone.objs.get? 0 = some _ := rfl
      rw [e] at ho
      cases ho
      cases htar
      simp at h)⟩

/-- C5 (witness): the completed `b` of the example keeps its record and its
struct. -/
theorem completed_object_kept_witness :
    (Graph.Populate completedEnv [] [] 3 completedProvided).1.objs.get? 1 =
      some { Object.provided (.Ptr (.Struct "B")) (.ptr 1 []) "" true with
        reflectType := some (.Ptr (.Struct "B")),
        reflectValue := some (.Ptr (.Struct "B"), .ptr 1 []) } ∧
    (Graph.Populate completedEnv [] [] 3 completedProvided).1.load 1 [] = some (.struct [.nil]) :=
  have h := completed_object_kept completedEnv [] [] 3 completedProvided 1
    { Object.provided (.Ptr (.Struct "B")) (.ptr 1 []) "" true with
        reflectType := some (.Ptr (.Struct "B")),
        reflectValue := some (.Ptr (.Struct "B"), .ptr 1 []) }
    (validIds_of_unnamed [0, 1] rfl rfl (by decide)) rfl rfl
  ⟨h.1, h.2.1 "B" 1 [] (.struct [.nil]) rfl rfl (by
    intro id2 o2 s2 p2 hreg ho hc ht
    have h01 : id2 = 0 ∨ id2 = 1 := by
      rcases hreg with hr | hr
      · have : id2 ∈ [0, 1] := hr
        simpa using this
      · have : id2 ∈ ([] : List Nat) := hr
        simp at this
    rcases h01 with h0 | h1
    · subst h0
      have : o2 = { Object.provided (.Ptr (.Struct "A")) (.ptr 0 []) "" false with
        reflectType := some (.Ptr (.Struct "A")),
        reflectValue := some (.Ptr (.Struct "A"), .ptr 0 []) } := by
        have e : completedProvided.objs.get? 0 = some _ := rfl
        rw [e] at ho
        exact (Option.some.inj ho).symm
      subst this
      simp [Object.target, Object.provided] at ht
    · subst h1
      have : o2 = { Object.provided (.Ptr (.Struct "B")) (.ptr 1 []) "" true with
        reflectType := some (.Ptr (.Struct "B")),
        reflectValue := some (.Ptr (.Struct "B"), .ptr 1 []) } := by
        have e : completedProvided.objs.get? 1 = some _ := rfl
        rw [e] at ho
        exact (Option.some.inj ho).symm
      subst this
      simp [Object.provided] at hc)⟩


/-! ## Private and inline objects -/

/-- C9 (the code departs from it): the object created for the private field
`a.B` is not appended to the unnamed bucket and is not visited: `Populate`
returns nil, `a.B` points to the new `B` in cell 1, the bucket still holds the
object of `a` only, and the plain pointer field `C` of the new `B` is nil. -/
theorem private_created_object_not_visited :
    (Graph.Provide privateWorld [0]).2 = .nil ∧
    (Graph.Populate privateEnv [] [] 3 (Graph.Provide privateWorld [0]).1).2 = .nil ∧
    (Graph.Populate privateEnv [] [] 3 (Graph.Provide privateWorld [0]).1).1.g.unnamed = [0] ∧
    (Graph.Populate privateEnv [] [] 3 (Graph.Provide privateWorld [0]).1).1.mem =
      [.struct [.ptr 1 []], .struct [.nil]] ∧
    (Graph.Populate privateEnv [] [] 3 (Graph.Provide privateWorld [0]).1).1.objs.get? 1 =
      some (createdObject (.Ptr (.Struct "B")) 1 true) := by
  refine ⟨rfl, rfl, rfl, rfl, rfl⟩

/-- C10 (the code departs from it): the object built for the inline struct field
`p.S` is private, so `Provide` does not append it to the unnamed bucket and the
nested struct is never traversed: `Populate` returns nil, the bucket still
holds the object of `p` only, and the plain pointer field `p.S.F` is nil. -/
theorem inline_struct_not_traversed :
    (Graph.Provide inlineWorld [0]).2 = .nil ∧
    (Graph.Populate inlineEnv [] [] 3 (Graph.Provide inlineWorld [0]).1).2 = .nil ∧
    (Graph.Populate inlineEnv [] [] 3 (Graph.Provide inlineWorld [0]).1).1.g.unnamed = [0] ∧
    (Graph.Populate inlineEnv [] [] 3 (Graph.Provide inlineWorld [0]).1).1.mem =
      [.struct [.struct [.nil]]] ∧
    (Graph.Populate inlineEnv [] [] 3 (Graph.Provide inlineWorld [0]).1).1.objs.get? 1 =
      some (inlineObject (.Struct "S") 0 [0] false) := by
  refine ⟨rfl, rfl, rfl, rfl, rfl⟩

/-! ## Creation of instances -/

/-- C7: when the traversal of an object visits an exported, nil,
plain-request pointer-to-struct field and no object of the unnamed bucket that
is not private has an assignable type, the visit goes on without error, the
field holds a pointer to a newly allocated cell that holds the zero value of
the pointee type, a created object wrapping that pointer is appended to the
unnamed bucket, and `Objects` returns that object in every later world,
whatever the random source draws. -/
theorem plain_pointer_field_created (env : Env) (w : World) (id c : Nat) (p : List Nat)
    (i : Nat) (sf : StructField) (s : String) (object : Object)
    (hvalid : w.validIds)
    (hobj : w.objs.get? id = some object)
    (htag : parseTag env sf.Tag = .ok (some injectOnly))
    (hexp : sf.Exported = true)
    (htyp : sf.Typ = .Ptr (.Struct s))
    (hnil : w.load c (p ++ [i]) = some .nil)
    (hnone : findExisting env w sf.Typ w.g.unnamed = .notFound)
    (hflag : typeFlag w.g.unnamedType sf.Typ = false) :
    (explicitStep env w id c p i sf).2 = none ∧
    w.load w.mem.length [] = none ∧
    (explicitStep env w id c p i sf).1.load w.mem.length [] = some (Zero env (.Struct s)) ∧
    (explicitStep env w id c p i sf).1.load c (p ++ [i]) = some (.ptr w.mem.length []) ∧
    w.objs.get? w.objs.length = none ∧
    (explicitStep env w id c p i sf).1.objs.get? w.objs.length =
      some (createdObject (.Ptr (.Struct s)) w.mem.length false) ∧
    (explicitStep env w id c p i sf).1.g.unnamed = w.g.unnamed ++ [w.objs.length] ∧
    ∀ w2, Later env (fun _ => True) (explicitStep env w id c p i sf).1 w2 →
      ∀ ord rnd, ∃ out, Graph.Objects w2 ord rnd = some out ∧ w.objs.length ∈ out := by
  have hstep := explicitStep_create id htag rfl rfl hexp htyp hnil (fun _ => hnone)
    (fun _ => hflag)
  have hc : c < w.mem.length := load_lt hnil
  have hid : id < w.objs.length := get?_lt hobj
  have hnewobj : (explicitStep env w id c p i sf).1.objs.get? w.objs.length =
      some (createdObject (.Ptr (.Struct s)) w.mem.length false) := by
    rw [hstep, addDependency_get, if_neg (by omega), store_objs]
    simp only [World.allocated, htyp]
    exact get?_append_new _ _
  have hunnamed : (explicitStep env w id c p i sf).1.g.unnamed = w.g.unnamed ++ [w.objs.length] := by
    rw [hstep]; simp [World.allocated, injectOnly]
  refine ⟨by rw [hstep], ?_, ?_, ?_, ?_, hnewobj, hunnamed, ?_⟩
  · simp [World.load]
  · rw [hstep, addDependency_load, load_store_other_cell _ (by omega)]
    unfold World.load
    simp only [World.allocated]
    rw [get?_append_new]
    rfl
  · rw [hstep, addDependency_load]
    exact load_store_same _ (load_append (w := w) _ hnil)
  · simp
  · intro w2 hl ord rnd
    refine Later.objects_mem hl ?_ (by rw [hunnamed]; simp) hnewobj rfl ord rnd
    exact (explicitStep_effect env w id c p i sf).validIds hvalid


/-- C7 (witness): the visit of the nil field `a.B` creates a `B` in cell 1 and
appends the created object 1 to the unnamed bucket. -/
theorem plain_pointer_field_created_witness :
    (explicitStep completedEnv plainWorld 0 0 [] 0
        (exportedField "B" (.Ptr (.Struct "B")) "inject:\"\"")).1.load 0 ([] ++ [0]) =
      some (.ptr 1 []) ∧
    (explicitStep completedEnv plainWorld 0 0 [] 0
        (exportedField "B" (.Ptr (.Struct "B")) "inject:\"\"")).1.g.unnamed = [0] ++ [1] :=
  have h := plain_pointer_field_created completedEnv plainWorld 0 0 [] 0
    (exportedField "B" (.Ptr (.Struct "B")) "inject:\"\"") "B"
    { Object.provided (.Ptr (.Struct "A")) (.ptr 0 []) "" false with
        reflectType := some (.Ptr (.Struct "A")),
        reflectValue := some (.Ptr (.Struct "A"), .ptr 0 []) }
    (validIds_of_unnamed [0] rfl rfl (by decide)) rfl rfl rfl rfl rfl rfl rfl
  ⟨h.2.2.2.1, h.2.2.2.2.2.2.1⟩

/-- C6 (amended): when the traversal of pass 3 visits an exported, nil,
plain-request interface field, the visit goes on without error if and only if
exactly one object of the unnamed bucket is not private and assignable to the
field's type, and then the field holds that object's value and the dependency
is recorded; with no such object the visit fails with the missing-dependency
error, with two or more with the ambiguity error naming the first two; the
traversal returns the error of the visit at once (`Populate` returns it unless
an earlier visit has failed). -/
theorem interface_field_resolution (env : Env) (w : World) (id c : Nat) (p : List Nat)
    (i : Nat) (sf : StructField) (n : String) (object : Object)
    (hobj : w.objs.get? id = some object)
    (hcached : w.cached)
    (htag : parseTag env sf.Tag = .ok (some injectOnly))
    (hexp : sf.Exported = true)
    (hk : sf.Typ = .Interface n)
    (hnil : w.load c (p ++ [i]) = some .nil) :
    ((interfaceStep env w id c p i sf).2 = none ↔ (candidates env w sf.Typ).length = 1) ∧
    (∀ a, candidates env w sf.Typ = [a] →
      (interfaceStep env w id c p i sf).1.load c (p ++ [i]) = some (ifaceValue w a) ∧
      ∃ o1, (interfaceStep env w id c p i sf).1.objs.get? id = some o1 ∧
        o1.dependency sf.Name = some a) ∧
    (candidates env w sf.Typ = [] →
      interfaceStep env w id c p i sf = (w, some (.error (.noAssignable sf.Name)))) ∧
    (∀ a b rest, candidates env w sf.Typ = a :: b :: rest →
      (interfaceStep env w id c p i sf).2 = some (.error (.twoAssignable sf.Name a b))) ∧
    (∀ r rest, (interfaceStep env w id c p i sf).2 = some r →
      (fieldLoop (fun w1 j sf1 => interfaceStep env w1 id c p j sf1) (sf :: rest) i w).2 = r) := by
  have hscan := interfaceScan_start env id (c := c) (q := p ++ [i]) hk hexp
    w.g.unnamed w hcached
  have hstep : interfaceStep env w id c p i sf =
      match interfaceScan env id c (p ++ [i]) sf w.g.unnamed none w with
      | (w1, some r, _) => (w1, some r)
      | (w1, none, none) => (w1, some (.error (.noAssignable sf.Name)))
      | (w1, none, some _) => (w1, none) := by
    unfold interfaceStep
    simp only [htag, hk, hnil, isNilOrZero, GoType.Kind, Val.IsNil, injectOnly]
    rfl
  have hcand : candidates env w sf.Typ = w.g.unnamed.filter (isCandidate env w sf.Typ) := rfl
  rw [← hcand] at hscan
  refine ⟨?_, ?_, ?_, ?_, ?_⟩
  · rw [hstep, hscan]
    rcases hc : candidates env w sf.Typ with _ | ⟨a, _ | ⟨b, rest⟩⟩ <;> simp
  · intro a ha
    rw [hstep, hscan, ha]
    refine ⟨?_, ?_⟩
    · simp only [addDependency_load]
      exact load_store_same _ hnil
    · refine ⟨object.addDependency sf.Name a, ?_, Object.dependency_addDependency_self _ _ _⟩
      simp only [addDependency_get, if_true, store_objs, hobj, Option.map]
  · intro h0
    rw [hstep, hscan, h0]
  · intro a b rest h2
    rw [hstep, hscan, h2]
  · intro r rest hr
    simp only [fieldLoop]
    split
    · rename_i w1 heq
      rw [heq] at hr
      cases hr
    · rename_i w1 r1 heq
      rw [heq] at hr
      simp only [Option.some.injEq] at hr
      exact hr


/-- C6 (counterexample): passes 1 and 2 succeed and the exported, nil,
plain-request interface field `h.Y` has no candidate, yet `Populate` does not
return the missing-dependency error: the visit of `h.X`, which has two
candidates, fails first with the ambiguity error. -/
theorem populate_returns_first_interface_error :
    (Graph.Provide ifaceWorld [0, 1, 2]).2 = .nil ∧
    unnamedLoop ifaceEnv 4 0 (Graph.Provide ifaceWorld [0, 1, 2]).1 =
      ((Graph.Provide ifaceWorld [0, 1, 2]).1, .nil) ∧
    (ifaceEnv.fields "H").get? 1 = some (exportedField "Y" (.Interface "I2") "inject:\"\"") ∧
    (Graph.Provide ifaceWorld [0, 1, 2]).1.load 0 [1] = some .nil ∧
    candidates ifaceEnv (Graph.Provide ifaceWorld [0, 1, 2]).1 (.Interface "I2") = [] ∧
    candidates ifaceEnv (Graph.Provide ifaceWorld [0, 1, 2]).1 (.Interface "I1") = [1, 2] ∧
    (Graph.Populate ifaceEnv [] [] 4 (Graph.Provide ifaceWorld [0, 1, 2]).1).2 =
      .error (.twoAssignable "X" 1 2) := by
  refine ⟨rfl, rfl, rfl, rfl, rfl, rfl, rfl⟩

/-- Every object of the unnamed bucket of `ifaceOneWorld` carries its cached
type. -/
theorem ifaceOneWorld_cached : ifaceOneWorld.cached := by
  intro eid he
  have h01 : eid = 0 ∨ eid = 1 := by
    have : eid ∈ [0, 1] := he
    simpa using this
  rcases h01 with h | h
  · subst h; exact ⟨_, _, _, rfl, rfl, rfl⟩
  · subst h; exact ⟨_, _, _, rfl, rfl, rfl⟩

/-- C6 (witness): with the single candidate `a`, the visit of `h.X` goes on
without error and `h.X` holds `a`. -/
theorem interface_field_resolution_witness :
    (interfaceStep ifaceEnv ifaceOneWorld 0 0 [] 0
        (exportedField "X" (.Interface "I1") "inject:\"\"")).1.load 0 ([] ++ [0]) =
      some (.iface (.Ptr (.Struct "A")) (.ptr 1 [])) :=
  ((interface_field_resolution ifaceEnv ifaceOneWorld 0 0 [] 0
    (exportedField "X" (.Interface "I1") "inject:\"\"") "I1"
    { Object.provided (.Ptr (.Struct "H")) (.ptr 0 []) "" false with
        reflectType := some (.Ptr (.Struct "H")),
        reflectValue := some (.Ptr (.Struct "H"), .ptr 0 []) }
    rfl ifaceOneWorld_cached rfl rfl rfl rfl).2.1 1 rfl).1

/-- C3: a graph of plain pointer fields is populated without error. The caller
provides, each wrapped by `&Object{Value: v}`, the pointers `vals` to structs
of the heap `mem`, and every field of every struct type reachable from their
types through pointer fields is without annotation or an exported
plain-request pointer to a struct. Then `Provide` returns nil, and for every
iteration order of the named bucket and every fuel above the number of
provided objects plus the number of declared fields `Populate` returns nil;
afterwards nothing is named, the unnamed bucket starts with the provided
objects, and every annotated field of every object of the bucket holds a
value that is not nil. The types of the provided objects need not even be
distinct. -/
theorem plain_pointer_graph_populated (env : Env) (mem : List Val)
    (vals : List (String × Nat × List Nat)) (ord1 ord3 : List Nat) (fuel : Nat)
    (hvals : ∀ v ∈ vals, ∃ fs,
      (World.fresh mem (provideAll vals)).load v.2.1 v.2.2 = some (.struct fs) ∧
        fs.length = (env.fields v.1).length)
    (hplain : ∀ s, Reach env (vals.map Prod.fst) s → ∀ sf ∈ env.fields s,
      plainPointerOrBare env sf)
    (hfuel : vals.length + env.fieldTypes.length < fuel) :
    ∃ w1 w2, Graph.Provide (World.fresh mem (provideAll vals)) (List.range vals.length) =
        (w1, .nil) ∧
      Graph.Populate env ord1 ord3 fuel w1 = (w2, .nil) ∧
      w2.g.named = [] ∧ (∃ l, w2.g.unnamed = List.range vals.length ++ l) ∧
      ∀ id ∈ w2.g.unnamed, Filled env w2 id := by
  have hfields : PlainFields env (Reach env (vals.map Prod.fst)) :=
    fun s hs sf hsf => ⟨hplain s hs sf hsf, fun s2 ht => Reach.field hs hsf ht⟩
  have hgood0 : Good env (Reach env (vals.map Prod.fst)) (World.fresh mem (provideAll vals)) :=
    ⟨rfl, fun _ => rfl, fun id hid => by simp [World.fresh] at hid⟩
  obtain ⟨w1, hprov, hg1, hu1⟩ := good_provide (List.range vals.length)
    (World.fresh mem (provideAll vals)) hgood0 (by
      intro id hid
      have hlt : id < vals.length := List.mem_range.mp hid
      obtain ⟨fs, hload, hlen⟩ := hvals vals[id] (List.getElem_mem hlt)
      refine ⟨Object.provided (.Ptr (.Struct vals[id].1)) (.ptr vals[id].2.1 vals[id].2.2) ""
        false, vals[id].1, vals[id].2.1, vals[id].2.2, fs, ?_, rfl, rfl, rfl, rfl, rfl,
        Reach.root (List.mem_map_of_mem _ (List.getElem_mem hlt)), hload, hlen⟩
      simp [World.fresh, provideAll, hlt])
  have hu1x : w1.g.unnamed = List.range vals.length := by
    rw [hu1]; simp [World.fresh]
  have hmiss : missing env w1 ≤ env.fieldTypes.length := List.countP_le_length _
  obtain ⟨w2, hloop, hg2, hp2, hfilled⟩ := good_unnamedLoop hfields fuel 0 w1 hg1
    (Nat.zero_le _) (fun j id hj _ => absurd hj (Nat.not_lt_zero _)) (by
      rw [hu1x, List.length_range]; omega)
  obtain ⟨l, hl⟩ := hp2.ext.unnamed
  refine ⟨w1, w2, hprov, ?_, hg2.named, ⟨l, by rw [hl, hu1x]⟩, hfilled⟩
  have hpass1 : forEachIncomplete (Graph.populateExplicit env)
      ((rangeOrder ord1 w1.g.named).map Prod.snd) w1 = (w1, .nil) := by
    rw [hg1.named]; simp [rangeOrder, forEachIncomplete]
  have hpass3 := plain_interface_pass hfields hg2 w2.g.unnamed (fun _ h => h)
  have hpass4 : forEachIncomplete (Graph.populateUnnamedInterface env)
      ((rangeOrder ord3 w2.g.named).map Prod.snd) w2 = (w2, .nil) := by
    rw [hg2.named]; simp [rangeOrder, forEachIncomplete]
  simp only [Graph.Populate, hpass1, hloop, hpass3, hpass4]

/-- C3 (witness): the test `TestForSingletonPointerDependencyInject`. The
server, the config and the database are provided, `Provide` and `Populate`
return nil, and every annotated field of the six objects of the bucket is
filled. -/
theorem plain_pointer_graph_populated_witness :
    ∃ w1 w2, Graph.Provide (World.fresh serverMem (provideAll serverVals))
        (List.range serverVals.length) = (w1, .nil) ∧
      Graph.Populate serverEnv [] [] 20 w1 = (w2, .nil) ∧
      w2.g.named = [] ∧ (∃ l, w2.g.unnamed = List.range serverVals.length ++ l) ∧
      ∀ id ∈ w2.g.unnamed, Filled serverEnv w2 id :=
  plain_pointer_graph_populated serverEnv serverMem serverVals [] [] 20
    (by
      intro v hv
      simp only [serverVals, List.mem_cons, List.mem_singleton, List.not_mem_nil, or_false] at hv
      rcases hv with rfl | rfl | rfl
      · exact ⟨_, rfl, rfl⟩
      · exact ⟨_, rfl, rfl⟩
      · exact ⟨_, rfl, rfl⟩)
    (fun s _ sf h => serverEnv_plain s sf h) (by decide)


/-- C2 (amended): singleton reuse. Let `Populate` return nil from a sane
world `w0`, in which no struct of a registered object that is not completed
lies inside the struct of another one. Then any two exported plain-request
pointer fields of the same type `*t` that belong to registered objects of the
final world that are not completed (provided, or created and appended during
the run), and that were nil at the start, hold the same value `v`: the value
of the first object `e` of the unnamed bucket that is not private and has type
`*t`. When the unnamed bucket held such an object at the start, `e` is the
first of them; otherwise `e` was created during the run and is the only such
object of the bucket. -/
theorem singleton_reuse (env : Env) (ord1 ord3 : List Nat) (fuel : Nat) (w0 w1 : World)
    (t : String) (id c : Nat) (p : List Nat) (i : Nat) (sf : StructField)
    (id2 c2 : Nat) (p2 : List Nat) (i2 : Nat) (sf2 : StructField)
    (hsane : Sane w0)
    (hpop : Graph.Populate env ord1 ord3 fuel w0 = (w1, .nil))
    (hv : Visit env w1 id c p i sf) (hp : plainPointer env sf t)
    (hnil : nilAtStart w0 id c (p ++ [i]))
    (hv2 : Visit env w1 id2 c2 p2 i2 sf2) (hp2 : plainPointer env sf2 t)
    (hnil2 : nilAtStart w0 id2 c2 (p2 ++ [i2])) :
    ∃ e o v, findExisting env w1 (.Ptr (.Struct t)) w1.g.unnamed = .found e ∧
      w1.objs.get? e = some o ∧ o.Value = some (.Ptr (.Struct t), v) ∧
      w1.load c (p ++ [i]) = some v ∧ w1.load c2 (p2 ++ [i2]) = some v ∧
      (∀ e0, findExisting env w0 (.Ptr (.Struct t)) w0.g.unnamed = .found e0 → e = e0) ∧
      (findExisting env w0 (.Ptr (.Struct t)) w0.g.unnamed = .notFound →
        w0.objs.length ≤ e ∧ e ∉ w0.g.unnamed ∧ o.created = true ∧
          candidates env w1 (.Ptr (.Struct t)) = [e]) := by
  obtain ⟨hreuse, hext, hdone⟩ := Populate_post env (reuse_explicit env w0)
    (reuse_interface env w0) ord1 ord3 fuel w0 w1 (Reuse.initial hsane) hpop
  have hgrown : Grown env w0 w1 := by
    have := Grown.final env hsane ord1 ord3 fuel
    rw [hpop] at this; exact this
  have hshared : ∀ id c p i sf, Visit env w1 id c p i sf → plainPointer env sf t →
      nilAtStart w0 id c (p ++ [i]) → Singleton env w1 t c (p ++ [i]) := by
    intro id c p i sf hv hp hnil
    obtain ⟨hreg, o, s, ho, hc, ht, hf⟩ := hv
    obtain ⟨o1, ho1, hd⟩ := hdone id hreg
    rw [ho] at ho1
    cases ho1
    exact hd hc s c p ht i sf hf t hp hnil
  obtain ⟨e, o, v, hfound, ho, hval, hload⟩ := hshared id c p i sf hv hp hnil
  obtain ⟨e2, o2, v2, hfound2, ho2, hval2, hload2⟩ := hshared id2 c2 p2 i2 sf2 hv2 hp2 hnil2
  rw [hfound] at hfound2
  cases hfound2
  rw [ho] at ho2
  cases ho2
  rw [hval] at hval2
  cases hval2
  refine ⟨e, o, v, hfound, ho, hval, hload, hload2, ?_, ?_⟩
  · intro e0 h0
    have := first_ext hsane.cached hext h0
    rw [hfound] at this
    cases this
    rfl
  · intro hnone
    have hfilter := findExisting_filter env w1 (.Ptr (.Struct t))
      w1.g.unnamed (cached_objects hgrown.sane.cached)
    rw [hfound] at hfilter
    have hsingle := hgrown.single t hnone
    have hcand : candidates env w1 (.Ptr (.Struct t)) = [e] := by
      unfold candidates at hsingle ⊢
      cases hl : w1.g.unnamed.filter (isCandidate env w1 (.Ptr (.Struct t))) with
      | nil => rw [hl] at hfilter; cases hfilter
      | cons a r =>
        rw [hl] at hfilter hsingle
        simp only [Scan.found.injEq] at hfilter
        subst hfilter
        cases r with
        | nil => rfl
        | cons b r2 => simp at hsingle
    have hmem : e ∈ w1.g.unnamed := (findExisting_found hfound).1
    have hnot : e ∉ w0.g.unnamed := by
      intro hin
      have hfilter0 := findExisting_filter env w0 (.Ptr (.Struct t))
        w0.g.unnamed (cached_objects hsane.cached)
      rw [hnone] at hfilter0
      have hc1 : isCandidate env w1 (.Ptr (.Struct t)) e = true := by
        have : e ∈ candidates env w1 (.Ptr (.Struct t)) := by rw [hcand]; simp
        exact (List.mem_filter.mp this).2
      obtain ⟨o0, _, _, ho0, _, _⟩ := hsane.cached e hin
      rw [isCandidate_ext hext _ ho0] at hc1
      have : e ∈ w0.g.unnamed.filter (isCandidate env w0 (.Ptr (.Struct t))) :=
        List.mem_filter.mpr ⟨hin, hc1⟩
      cases hl : w0.g.unnamed.filter (isCandidate env w0 (.Ptr (.Struct t))) with
      | nil => rw [hl] at this; simp at this
      | cons a r => rw [hl] at hfilter0; cases hfilter0
    rcases hgrown.created e hmem with h1 | ⟨h1, o3, ho3, hcr⟩
    · exact absurd h1 hnot
    · rw [ho] at ho3
      cases ho3
      exact ⟨h1, hnot, hcr, hcand⟩


/-- C2 (counterexample): the caller registers `p`, the address of its field
`p.S`, and under the name `x` a struct `S` whose field `F` points to
`t0 := &T{N: 7}`, where `type T struct { N int }` has a size, so that two
variables of type `T` have different addresses.  `Populate` returns nil. The
fields `p.S.F` (of the object `&p.S`) and `p.F` (of the object `p`) are
exported plain-request fields of type `*T`, nil at the start, of registered
objects that are not completed; yet `p.S.F` holds `t0` (cell 1, with
`N == 7`), copied with the named struct, and `p.F` holds the `T` created for
it (cell 2, with `N == 0`). -/
theorem copied_struct_breaks_reuse :
    (copyEnv.fields "T").length = 1 ∧
    copyPopulated.load 1 [] = some (.struct [.other 7]) ∧
    copyPopulated.load 2 [] = some (.struct [.other 0]) ∧
    Graph.Populate copyEnv [] [] 10 copyProvided = (copyPopulated, .nil) ∧
    Visit copyEnv copyPopulated 1 0 [0] 0 (exportedField "F" (.Ptr (.Struct "T")) "inject:\"\"") ∧
    Visit copyEnv copyPopulated 0 0 [] 1 (exportedField "F" (.Ptr (.Struct "T")) "inject:\"\"") ∧
    plainPointer copyEnv (exportedField "F" (.Ptr (.Struct "T")) "inject:\"\"") "T" ∧
    copyProvided.load 0 ([0] ++ [0]) = some .nil ∧
    copyProvided.load 0 ([] ++ [1]) = some .nil ∧
    copyPopulated.load 0 ([0] ++ [0]) = some (.ptr 1 []) ∧
    copyPopulated.load 0 ([] ++ [1]) = some (.ptr 2 []) :=
  ⟨rfl, rfl, rfl, rfl, ⟨Or.inl (by decide), _, "S", rfl, rfl, rfl, rfl⟩,
    ⟨Or.inl (by decide), _, "P", rfl, rfl, rfl, rfl⟩, ⟨rfl, rfl, rfl⟩, rfl, rfl, rfl, rfl⟩

/-- C2 (witness): the test `TestForSingletonPointerDependencyInject`. The
fields `server.UserApi` and `server.PostApi.UserService` hold the one created
`UserService`, and the fields `Conf` of that `UserService` and of the created
`PostController` hold the provided `Config`. -/
theorem singleton_reuse_witness :
    (∃ e o v, findExisting serverEnv serverPopulated (.Ptr (.Struct "UserService"))
        serverPopulated.g.unnamed = .found e ∧
      serverPopulated.objs.get? e = some o ∧ o.Value = some (.Ptr (.Struct "UserService"), v) ∧
      serverPopulated.load 0 ([] ++ [0]) = some v ∧ serverPopulated.load 4 ([] ++ [0]) = some v ∧
      (∀ e0, findExisting serverEnv serverProvided (.Ptr (.Struct "UserService"))
        serverProvided.g.unnamed = .found e0 → e = e0) ∧
      (findExisting serverEnv serverProvided (.Ptr (.Struct "UserService"))
          serverProvided.g.unnamed = .notFound →
        serverProvided.objs.length ≤ e ∧ e ∉ serverProvided.g.unnamed ∧ o.created = true ∧
          candidates serverEnv serverPopulated (.Ptr (.Struct "UserService")) = [e])) ∧
    (∃ e o v, findExisting serverEnv serverPopulated (.Ptr (.Struct "Config"))
        serverPopulated.g.unnamed = .found e ∧
      serverPopulated.objs.get? e = some o ∧ o.Value = some (.Ptr (.Struct "Config"), v) ∧
      serverPopulated.load 3 ([] ++ [1]) = some v ∧ serverPopulated.load 4 ([] ++ [2]) = some v ∧
      (∀ e0, findExisting serverEnv serverProvided (.Ptr (.Struct "Config"))
        serverProvided.g.unnamed = .found e0 → e = e0) ∧
      (findExisting serverEnv serverProvided (.Ptr (.Struct "Config"))
          serverProvided.g.unnamed = .notFound →
        serverProvided.objs.length ≤ e ∧ e ∉ serverProvided.g.unnamed ∧ o.created = true ∧
          candidates serverEnv serverPopulated (.Ptr (.Struct "Config")) = [e])) ∧
    serverPopulated.load 0 [0] = some (.ptr 3 []) ∧
    serverPopulated.load 3 [1] = some (.ptr 1 []) ∧
    serverProvided.objs.get? 1 =
      some { Object.provided (.Ptr (.Struct "Config")) (.ptr 1 []) "" false with
        reflectType := some (.Ptr (.Struct "Config")),
        reflectValue := some (.Ptr (.Struct "Config"), .ptr 1 []) } :=
  ⟨singleton_reuse serverEnv [] [] 20 serverProvided serverPopulated "UserService"
      0 0 [] 0 (exportedField "UserApi" (.Ptr (.Struct "UserService")) "inject:\"\"")
      4 4 [] 0 (exportedField "UserService" (.Ptr (.Struct "UserService")) "inject:\"\"")
      serverProvided_sane rfl
      ⟨Or.inl (by decide), _, "Server", rfl, rfl, rfl, rfl⟩ ⟨rfl, rfl, rfl⟩ (fun _ => rfl)
      ⟨Or.inl (by decide), _, "PostController", rfl, rfl, rfl, rfl⟩ ⟨rfl, rfl, rfl⟩
      (fun h => absurd h (by unfold World.registered; decide)),
    singleton_reuse serverEnv [] [] 20 serverProvided serverPopulated "Config"
      3 3 [] 1 (exportedField "Conf" (.Ptr (.Struct "Config")) "inject:\"\"")
      4 4 [] 2 (exportedField "Conf" (.Ptr (.Struct "Config")) "inject:\"\"")
      serverProvided_sane rfl
      ⟨Or.inl (by decide), _, "UserService", rfl, rfl, rfl, rfl⟩ ⟨rfl, rfl, rfl⟩
      (fun h => absurd h (by unfold World.registered; decide))
      ⟨Or.inl (by decide), _, "PostController", rfl, rfl, rfl, rfl⟩ ⟨rfl, rfl, rfl⟩
      (fun h => absurd h (by unfold World.registered; decide)),
    rfl, rfl, rfl⟩

/-- C14: `parseTag` classifies the result of extracting the key `inject` from
an annotation string. An extraction error is returned as the error; without
error, a key that is not found gives no tag, the value `""` the plain
request, `"inline"` the inline request, `"private"` the private request, and
every other value the named request with that name and both flags false.
Hence at most one of a non-empty name, `Inline` and `Private` holds of a
returned tag. -/
theorem parseTag_classifies (env : Env) (t : String) :
    (∀ e, (env.Extract "inject" t).err = some e → parseTag env t = .error e) ∧
    ((env.Extract "inject" t).err = none →
      ((env.Extract "inject" t).found = false → parseTag env t = .ok none) ∧
      ((env.Extract "inject" t).found = true →
        ((env.Extract "inject" t).value = "" →
          parseTag env t = .ok (some { Name := "", Inline := false, Private := false })) ∧
        ((env.Extract "inject" t).value = "inline" →
          parseTag env t = .ok (some { Name := "", Inline := true, Private := false })) ∧
        ((env.Extract "inject" t).value = "private" →
          parseTag env t = .ok (some { Name := "", Inline := false, Private := true })) ∧
        ((env.Extract "inject" t).value ≠ "" → (env.Extract "inject" t).value ≠ "inline" →
          (env.Extract "inject" t).value ≠ "private" →
          parseTag env t = .ok (some { Name := (env.Extract "inject" t).value,
                                       Inline := false, Private := false })))) ∧
    (∀ tg, parseTag env t = .ok (some tg) →
      (tg.Name ≠ "" → tg.Inline = false ∧ tg.Private = false) ∧
      (tg.Inline = true → tg.Name = "" ∧ tg.Private = false) ∧
      (tg.Private = true → tg.Name = "" ∧ tg.Inline = false)) := by
  refine ⟨?_, ?_, ?_⟩
  · intro e he
    simp [parseTag, he]
  · intro he
    refine ⟨?_, ?_⟩
    · intro hf
      simp [parseTag, he, hf]
    · intro hf
      refine ⟨?_, ?_, ?_, ?_⟩
      · intro hv
        simp [parseTag, he, hf, hv, injectOnly]
      · intro hv
        simp [parseTag, he, hf, hv, injectInline]
      · intro hv
        simp [parseTag, he, hf, hv, injectPrivate]
      · intro h1 h2 h3
        simp [parseTag, he, hf, h1, h2, h3]
  · intro tg h
    unfold parseTag at h
    dsimp only at h
    split at h
    · cases h
    · split at h
      · cases h
      · split at h
        · cases h; simp [injectOnly]
        · split at h
          · cases h; simp [injectInline]
          · split at h
            · cases h; simp [injectPrivate]
            · cases h; simp


/-- C11 (amended): the visit of an exported zero field with a named request,
whatever the kind of the field. Without an object of that name the visit
fails with the missing-name error; with an object whose type is not
assignable to the field's it fails with the not-assignable error; with an
object whose value is nil it panics; otherwise the field is set to the value
of the named object, the edge from the field name to that object is recorded
in `Fields`, and neither an object nor a struct is created and no bucket
changes. A visit that fails ends the traversal with its outcome. -/
theorem named_field_resolution (env : Env) (w : World) (id c : Nat) (p : List Nat) (i : Nat)
    (sf : StructField) (tg : tag) (z : Val) (object : Object)
    (hobj : w.objs.get? id = some object)
    (htag : parseTag env sf.Tag = .ok (some tg)) (hname : tg.Name ≠ "")
    (hexp : sf.Exported = true)
    (hz : w.load c (p ++ [i]) = some z) (hzero : isNilOrZero z sf.Typ = true) :
    (w.g.named.lookup tg.Name = none →
      explicitStep env w id c p i sf =
        (w, some (.error (.namedNotFound tg.Name sf.Name)))) ∧
    (∀ eid e et, w.g.named.lookup tg.Name = some eid → w.objs.get? eid = some e →
      e.reflectType = some et → et.AssignableTo env sf.Typ = false →
      explicitStep env w id c p i sf =
        (w, some (.error (.namedNotAssignable tg.Name sf.Name)))) ∧
    (∀ eid e, w.g.named.lookup tg.Name = some eid → w.objs.get? eid = some e →
      e.reflectType = none → explicitStep env w id c p i sf = (w, some .panic)) ∧
    (∀ eid e et v, w.g.named.lookup tg.Name = some eid → w.objs.get? eid = some e →
      e.reflectType = some et → e.Value = some (et, v) → et.AssignableTo env sf.Typ = true →
      ∃ x w1, x = (match sf.Typ with
                   | .Interface _ => Val.iface et v
                   | _ => v) ∧
        explicitStep env w id c p i sf = (w1, none) ∧
        w1 = (w.store c (p ++ [i]) x).addDependency id sf.Name eid ∧
        w1.load c (p ++ [i]) = some x ∧
        (∃ o1, w1.objs.get? id = some o1 ∧ o1.dependency sf.Name = some eid) ∧
        w1.objs.length = w.objs.length ∧ w1.mem.length = w.mem.length ∧ w1.g = w.g) ∧
    (∀ r rest, (explicitStep env w id c p i sf).2 = some r →
      fieldLoop (fun w1 j sf1 => explicitStep env w1 id c p j sf1) (sf :: rest) i w =
        ((explicitStep env w id c p i sf).1, r)) := by
  have hstep := explicitStep_named id htag hname hexp hz hzero
  refine ⟨?_, ?_, ?_, ?_, ?_⟩
  · intro hl
    rw [hstep]
    simp only [assignNamed, hl]
  · intro eid e et hl he het hass
    rw [hstep]
    simp only [assignNamed, hl, he, het, hass, Bool.not_false, if_true]
  · intro eid e hl he het
    rw [hstep]
    simp only [assignNamed, hl, he, het]
  · intro eid e et v hl he het hv hass
    have hset : setValue env sf.Typ e.Value = some (match sf.Typ with
        | .Interface _ => Val.iface et v
        | _ => v) := by
      rw [hv]
      simp only [setValue, hass, if_true]
      cases sf.Typ <;> rfl
    refine ⟨_, _, rfl, ?_, rfl, ?_, ?_, ?_, ?_, ?_⟩
    · rw [hstep]
      simp only [assignNamed, hl, he, het, hass, hset, Bool.not_true, Bool.false_eq_true, if_false]
    · simp only [addDependency_load]
      exact load_store_same _ hz
    · refine ⟨object.addDependency sf.Name eid, ?_,
        Object.dependency_addDependency_self _ _ _⟩
      simp only [addDependency_get, if_true, store_objs, hobj, Option.map]
    · simp
    · simp
    · simp
  · intro r rest hr
    exact fieldLoop_stop rest hr

/-- C11 (counterexample): the caller provides `a` and, under the name `x`, a
completed object without a value. `Provide` returns nil and `x` is registered.
The field `a.X` is exported, nil and requests `x`; `Populate` neither returns
an error nor sets the field: it panics, at the assignability test on the nil
type of the named object. -/
theorem valueless_named_object_panics :
    (Graph.Provide valuelessWorld [0, 1]).2 = .nil ∧
    (Graph.Provide valuelessWorld [0, 1]).1.g.named.lookup "x" = some 1 ∧
    (Graph.Provide valuelessWorld [0, 1]).1.g.unnamed = [0] ∧
    (namedEnv.fields "A").get? 0 =
      some (exportedField "X" (.Ptr (.Struct "T")) "inject:\"x\"") ∧
    parseTag namedEnv "inject:\"x\"" =
      .ok (some { Name := "x", Inline := false, Private := false }) ∧
    (Graph.Provide valuelessWorld [0, 1]).1.load 0 [0] = some .nil ∧
    Graph.Populate namedEnv [] [] 5 (Graph.Provide valuelessWorld [0, 1]).1 =
      ((Graph.Provide valuelessWorld [0, 1]).1, .panic) :=
  ⟨rfl, rfl, rfl, rfl, rfl, rfl, rfl⟩

/-- C11 (witness): the field `a.X` requests the named `x`, a `*T`: the visit
sets `a.X` to the value of `x` and records the edge `X -> x`.  In the
defined-map example the field `a.M` of type `map[string]int` requests the named
`x`, a `MyMap`: the types differ and are assignable, and the visit sets `a.M`
to the map of `x` and records the edge `M -> x`. -/
theorem named_field_resolution_witness :
    (∃ x w1, x = Val.ptr 1 [] ∧
      explicitStep namedEnv namedProvided 0 0 [] 0
        (exportedField "X" (.Ptr (.Struct "T")) "inject:\"x\"") = (w1, none) ∧
      w1 = (namedProvided.store 0 ([] ++ [0]) x).addDependency 0 "X" 1 ∧
      w1.load 0 ([] ++ [0]) = some x ∧
      (∃ o1, w1.objs.get? 0 = some o1 ∧ o1.dependency "X" = some 1) ∧
      w1.objs.length = namedProvided.objs.length ∧ w1.mem.length = namedProvided.mem.length ∧
      w1.g = namedProvided.g) ∧
    (GoType.Map "MyMap").AssignableTo definedMapEnv (.Map "map[string]int") = true ∧
    (∃ x w1, x = Val.map 0 ∧
      explicitStep definedMapEnv definedMapProvided 0 0 [] 0
        (exportedField "M" (.Map "map[string]int") "inject:\"x\"") = (w1, none) ∧
      w1 = (definedMapProvided.store 0 ([] ++ [0]) x).addDependency 0 "M" 1 ∧
      w1.load 0 ([] ++ [0]) = some x ∧
      (∃ o1, w1.objs.get? 0 = some o1 ∧ o1.dependency "M" = some 1) ∧
      w1.objs.length = definedMapProvided.objs.length ∧
      w1.mem.length = definedMapProvided.mem.length ∧
      w1.g = definedMapProvided.g) :=
  ⟨(named_field_resolution namedEnv namedProvided 0 0 [] 0
      (exportedField "X" (.Ptr (.Struct "T")) "inject:\"x\"")
      { Name := "x", Inline := false, Private := false } .nil
      { Object.provided (.Ptr (.Struct "A")) (.ptr 0 []) "" false with
          reflectType := some (.Ptr (.Struct "A")),
          reflectValue := some (.Ptr (.Struct "A"), .ptr 0 []) }
      rfl rfl (by decide) rfl rfl rfl).2.2.2.1 1
      { Object.provided (.Ptr (.Struct "T")) (.ptr 1 []) "x" false with
          reflectType := some (.Ptr (.Struct "T")),
          reflectValue := some (.Ptr (.Struct "T"), .ptr 1 []) }
      (.Ptr (.Struct "T")) (.ptr 1 []) rfl rfl rfl rfl rfl,
    rfl,
    (named_field_resolution definedMapEnv definedMapProvided 0 0 [] 0
      (exportedField "M" (.Map "map[string]int") "inject:\"x\"")
      { Name := "x", Inline := false, Private := false } .nil
      { Object.provided (.Ptr (.Struct "A")) (.ptr 0 []) "" false with
          reflectType := some (.Ptr (.Struct "A")),
          reflectValue := some (.Ptr (.Struct "A"), .ptr 0 []) }
      rfl rfl (by decide) rfl rfl rfl).2.2.2.1 1
      { Object.provided (.Map "MyMap") (.map 0) "x" false with
          reflectType := some (.Map "MyMap"),
          reflectValue := some (.Map "MyMap", .map 0) }
      (.Map "MyMap") (.map 0) rfl rfl rfl rfl rfl⟩

/-- C12 (amended): the visit of an exported nil map field by the traversal of
`populateExplicit`.  With the plain request the visit fails with the error that
a map must be named or private, changes nothing (the field stays nil) and ends
the traversal with that error.  With the private request the visit goes on and
the field holds a map made by the visit: it is not nil, it did not exist in the
heap before the visit and so differs from every map of the heap (those held by
the registered objects and by the fields included), it exists after the visit
and has no entry, every other map is as it was, no dependency is recorded, no
object is added and no bucket changes. -/
theorem map_field_resolution (env : Env) (w : World) (id c : Nat) (p : List Nat) (i : Nat)
    (sf : StructField) (n : String)
    (hexp : sf.Exported = true) (hmap : sf.Typ = .Map n)
    (hnil : w.load c (p ++ [i]) = some .nil) :
    (parseTag env sf.Tag = .ok (some injectOnly) →
      explicitStep env w id c p i sf = (w, some (.error (.mapNotPrivate sf.Name))) ∧
      ∀ rest, fieldLoop (fun w1 j sf1 => explicitStep env w1 id c p j sf1) (sf :: rest) i w =
        (w, .error (.mapNotPrivate sf.Name))) ∧
    (parseTag env sf.Tag = .ok (some injectPrivate) →
      ∃ w1, explicitStep env w id c p i sf = (w1, none) ∧
        w1.load c (p ++ [i]) = some (.map w.maps.length) ∧
        isNilOrZero (.map w.maps.length) sf.Typ = false ∧
        w.maps.get? w.maps.length = none ∧
        w1.maps.get? w.maps.length = some [] ∧
        w1.maps = w.maps ++ [[]] ∧
        (∀ k o t m, w.objs.get? k = some o → o.Value = some (t, .map m) → m < w.maps.length →
          w1.load c (p ++ [i]) ≠ some (.map m)) ∧
        (∀ c2 q2 m, w.load c2 q2 = some (.map m) → m < w.maps.length →
          w1.load c (p ++ [i]) ≠ some (.map m)) ∧
        w1.objs = w.objs ∧ w1.g = w.g ∧ w1.mem.length = w.mem.length) := by
  refine ⟨?_, ?_⟩
  · intro htag
    have hstep : explicitStep env w id c p i sf =
        (w, some (.error (.mapNotPrivate sf.Name))) := by
      unfold explicitStep
      simp [htag, hexp, hnil, hmap, isNilOrZero, GoType.Kind, Val.isZero, injectOnly,
        makeMapField]
    refine ⟨hstep, fun rest => ?_⟩
    have := @fieldLoop_stop (fun w1 j sf1 => explicitStep env w1 id c p j sf1) w i sf
      (.error (.mapNotPrivate sf.Name)) rest (by simp only [hstep])
    simpa only [hstep] using this
  · intro htag
    have hstep : explicitStep env w id c p i sf =
        (({ w with maps := w.maps ++ [[]] } : World).store c (p ++ [i]) (.map w.maps.length),
          none) := by
      unfold explicitStep
      simp [htag, hexp, hnil, hmap, isNilOrZero, GoType.Kind, Val.isZero, injectPrivate,
        makeMapField]
    have hload : (({ w with maps := w.maps ++ [[]] } : World).store c (p ++ [i])
        (.map w.maps.length)).load c (p ++ [i]) = some (.map w.maps.length) :=
      load_store_same (w := { w with maps := w.maps ++ [[]] }) _ hnil
    refine ⟨_, hstep, hload, by simp [hmap, isNilOrZero, GoType.Kind, Val.isZero],
      by simp, ?_, by simp, ?_, ?_, by simp, by simp, by simp⟩
    · rw [store_maps]
      exact get?_append_new _ _
    · intro k o t m _ _ hm
      rw [hload]
      intro h
      simp only [Option.some.injEq, Val.map.injEq] at h
      omega
    · intro c2 q2 m _ hm
      rw [hload]
      intro h
      simp only [Option.some.injEq, Val.map.injEq] at h
      omega

/-- C12 (counterexample): in `m := &M{}` the plain-request map field `B` comes
before the private map field `A`.  The object is registered and not completed,
both fields are exported and nil, and `Populate` returns the map error for `B`:
the field `A` is never visited and is still nil on return. -/
theorem private_map_field_left_nil :
    mapFirstProvided.g.unnamed = [0] ∧
    (mapFirstProvided.objs.get? 0).map (fun o => (o.Completed, o.target)) =
      some (false, some ("M", 0, [])) ∧
    (mapFirstEnv.fields "M").get? 1 =
      some (exportedField "A" (.Map "map[string]int") "inject:\"private\"") ∧
    parseTag mapFirstEnv "inject:\"private\"" = .ok (some injectPrivate) ∧
    mapFirstProvided.load 0 [1] = some .nil ∧
    Graph.Populate mapFirstEnv [] [] 3 mapFirstProvided =
      (mapFirstProvided, .error (.mapNotPrivate "B")) ∧
    (Graph.Populate mapFirstEnv [] [] 3 mapFirstProvided).1.load 0 [1] = some .nil :=
  ⟨rfl, rfl, rfl, rfl, rfl, rfl, rfl⟩

/-- C12 (witness): the heap holds the map 0, with one entry, which is the value
of the registered object `x`.  In `m := &M{}` the visit of the private map
field `A` makes the map 1, without entries, and leaves the map 0 as it was;
the visit of the plain map field `B` fails.  `Populate` on this graph makes the
map of `m.A`, returns the map error of `m.B` and leaves `m.B` nil. -/
theorem map_field_resolution_witness :
    (∃ w1, explicitStep mapEnv mapHeldProvided 0 0 [] 0
        (exportedField "A" (.Map "map[string]int") "inject:\"private\"") = (w1, none) ∧
      w1.load 0 ([] ++ [0]) = some (.map mapHeldProvided.maps.length) ∧
      isNilOrZero (.map mapHeldProvided.maps.length) (.Map "map[string]int") = false ∧
      mapHeldProvided.maps.get? mapHeldProvided.maps.length = none ∧
      w1.maps.get? mapHeldProvided.maps.length = some [] ∧
      w1.maps = mapHeldProvided.maps ++ [[]] ∧
      (∀ k o t m, mapHeldProvided.objs.get? k = some o → o.Value = some (t, .map m) →
        m < mapHeldProvided.maps.length → w1.load 0 ([] ++ [0]) ≠ some (.map m)) ∧
      (∀ c2 q2 m, mapHeldProvided.load c2 q2 = some (.map m) →
        m < mapHeldProvided.maps.length → w1.load 0 ([] ++ [0]) ≠ some (.map m)) ∧
      w1.objs = mapHeldProvided.objs ∧ w1.g = mapHeldProvided.g ∧
      w1.mem.length = mapHeldProvided.mem.length) ∧
    explicitStep mapEnv mapHeldProvided 0 0 [] 1
        (exportedField "B" (.Map "map[string]int") "inject:\"\"") =
      (mapHeldProvided, some (.error (.mapNotPrivate "B"))) ∧
    mapHeldProvided.g.named = [("x", 1)] ∧
    (mapHeldProvided.objs.get? 1).map (fun o => o.Value) =
      some (some (.Map "map[string]int", .map 0)) ∧
    (explicitStep mapEnv mapHeldProvided 0 0 [] 0
        (exportedField "A" (.Map "map[string]int") "inject:\"private\"")).1.load 0 [0] =
      some (.map 1) ∧
    (explicitStep mapEnv mapHeldProvided 0 0 [] 0
        (exportedField "A" (.Map "map[string]int") "inject:\"private\"")).1.maps =
      [[(.other 1, .other 2)], []] ∧
    (Graph.Populate mapEnv [] [] 5 mapHeldProvided).2 = .error (.mapNotPrivate "B") ∧
    (Graph.Populate mapEnv [] [] 5 mapHeldProvided).1.load 0 [0] = some (.map 1) ∧
    (Graph.Populate mapEnv [] [] 5 mapHeldProvided).1.load 0 [1] = some .nil ∧
    (Graph.Populate mapEnv [] [] 5 mapHeldProvided).1.maps = [[(.other 1, .other 2)], []] :=
  ⟨(map_field_resolution mapEnv mapHeldProvided 0 0 [] 0
      (exportedField "A" (.Map "map[string]int") "inject:\"private\"") "map[string]int"
      rfl rfl rfl).2 rfl,
    ((map_field_resolution mapEnv mapHeldProvided 0 0 [] 1
      (exportedField "B" (.Map "map[string]int") "inject:\"\"") "map[string]int"
      rfl rfl rfl).1 rfl).1, rfl, rfl, rfl, rfl, rfl, rfl, rfl, rfl⟩

/-- C13 (amended): named objects. When the name of the object `id` is not
empty and already registered, `Provide` returns an error at that object (the
duplicate-name error, when its `Fields` map is nil) and leaves both buckets
as they were, so that the name still maps to the first object. A named object
with a value that is not nil and not a pointer to a struct, whose name is new
and whose `Fields` map is nil, is accepted and added to the named bucket; the
traversals of `Populate` skip such an object without error and `Populate`
leaves its record as it was, whatever it returns. -/
theorem named_object_registration (env : Env) (w : World) (id : Nat) (rest : List Nat)
    (o : Object) (hobj : w.objs.get? id = some o) (hname : o.Name ≠ "") :
    (∀ first, w.g.named.lookup o.Name = some first →
      (∃ e, (Graph.Provide w (id :: rest)).2 = .error e) ∧
      (o.Fields = none → (Graph.Provide w (id :: rest)).2 = .error (.twoNamed o.Name)) ∧
      (Graph.Provide w (id :: rest)).1.g = w.g) ∧
    (∀ t v, o.Value = some (t, v) → isStructPtr t = false → o.Fields = none →
      w.g.named.lookup o.Name = none →
      (Graph.Provide w [id]).2 = .nil ∧
      (Graph.Provide w [id]).1.g.named = w.g.named ++ [(o.Name, id)] ∧
      (Graph.Provide w [id]).1.g.unnamed = w.g.unnamed ∧
      (Graph.Provide w [id]).1.objs.get? id =
        some { o with reflectType := some t, reflectValue := some (t, v) }) ∧
    (∀ t, o.reflectType = some t → isStructPtr t = false →
      Graph.populateExplicit env w id = (w, .nil) ∧
      Graph.populateUnnamedInterface env w id = (w, .nil) ∧
      ∀ ord1 ord3 fuel, (Graph.Populate env ord1 ord3 fuel w).1.objs.get? id = some o) := by
  have hne : (o.Name == "") = false := by simpa using hname
  have hlt := get?_lt hobj
  refine ⟨?_, ?_, ?_⟩
  · intro first hl
    cases hF : o.Fields with
    | some m =>
      have hP : Graph.Provide w (id :: rest) =
          (w.setObj id { o with reflectType := o.Value.map Prod.fst, reflectValue := o.Value },
            .error .fieldsSpecified) := by
        simp only [Graph.Provide, hobj, hF, Option.isSome, if_true]
      rw [hP]
      exact ⟨⟨_, rfl⟩, (fun h => by cases h), rfl⟩
    | none =>
      have hP : Graph.Provide w (id :: rest) =
          (w.setObj id { o with reflectType := o.Value.map Prod.fst, reflectValue := o.Value },
            .error (.twoNamed o.Name)) := by
        simp only [Graph.Provide, hobj, hF, Option.isSome, hne, Bool.false_eq_true, if_false]
        simp only [World.setObj, hl]
      rw [hP]
      exact ⟨⟨_, rfl⟩, fun _ => rfl, rfl⟩
  · intro t v hV hsp hF hl
    have hP : Graph.Provide w [id] =
        ({ w.setObj id { o with reflectType := o.Value.map Prod.fst, reflectValue := o.Value }
            with g := { w.g with named := w.g.named ++ [(o.Name, id)] } }, .nil) := by
      simp only [Graph.Provide, hobj, hF, Option.isSome, hne, Bool.false_eq_true, if_false]
      simp only [World.setObj, hl]
    rw [hP]
    refine ⟨rfl, rfl, rfl, ?_⟩
    simp only [World.setObj, hV, Option.map]
    rw [List.get?_eq_getElem?, List.getElem?_set]
    simp [hlt]
  · intro t ht hsp
    exact ⟨traverse_named_value env _ hobj hname ht hsp,
      traverse_named_value env _ hobj hname ht hsp,
      fun ord1 ord3 fuel => Populate_keeps_unwalked env ord1 ord3 fuel w hobj
        (target_of_notStructPtr ht hsp)⟩

/-- C13 (counterexample): the named object `&Object{Name: "x"}` has a value
that is not a pointer to a struct (it is nil). `Provide` accepts it, and
`Populate` does not skip it: it panics at the test of its nil type. -/
theorem valueless_object_not_skipped :
    (Object.valueless "x" false).Value = none ∧
    Graph.Provide valuelessAlone [0] =
      ({ valuelessAlone with g := { unnamed := [], unnamedType := [], named := [("x", 0)] } },
        .nil) ∧
    Graph.populateExplicit namedEnv (Graph.Provide valuelessAlone [0]).1 0 =
      ((Graph.Provide valuelessAlone [0]).1, .panic) ∧
    Graph.Populate namedEnv [] [] 5 (Graph.Provide valuelessAlone [0]).1 =
      ((Graph.Provide valuelessAlone [0]).1, .panic) :=
  ⟨rfl, rfl, rfl, rfl⟩

/-- C13 (witness): `x` is registered with the value 7; providing the object
with the value 8 under the same name fails and `x` still maps to the first
object, which `Populate` skips and leaves as it was. -/
theorem named_object_registration_witness :
    ((∃ e, (Graph.Provide renamedProvided [1]).2 = .error e) ∧
      ((Object.provided (.Other "int") (.other 8) "x" false).Fields = none →
        (Graph.Provide renamedProvided [1]).2 = .error (.twoNamed "x")) ∧
      (Graph.Provide renamedProvided [1]).1.g = renamedProvided.g) ∧
    (Graph.populateExplicit namedEnv renamedProvided 0 = (renamedProvided, .nil) ∧
      Graph.populateUnnamedInterface namedEnv renamedProvided 0 = (renamedProvided, .nil) ∧
      ∀ ord1 ord3 fuel, (Graph.Populate namedEnv ord1 ord3 fuel renamedProvided).1.objs.get? 0 =
        some { Object.provided (.Other "int") (.other 7) "x" false with
          reflectType := some (.Other "int"),
          reflectValue := some (.Other "int", .other 7) }) :=
  ⟨(named_object_registration namedEnv renamedProvided 1 []
      (Object.provided (.Other "int") (.other 8) "x" false) rfl (by decide)).1 0 rfl,
    (named_object_registration namedEnv renamedProvided 0 []
      { Object.provided (.Other "int") (.other 7) "x" false with
          reflectType := some (.Other "int"),
          reflectValue := some (.Other "int", .other 7) } rfl (by decide)).2.2
      (.Other "int") rfl rfl⟩


/-- C15 (amended): when no bucket holds a dangling object, `Objects` returns,
for every draw of the random source and every iteration order of the named
bucket, a permutation of the objects of the unnamed bucket that are not
embedded followed by those of the named bucket that are not embedded. Hence an
object occurs in the result if and only if it is registered and not embedded,
and it occurs as often as it is registered: exactly once when each object is
registered once. `Objects` reads the buckets and writes only to the slice it
made, so it is a function of the graph that returns no new graph. -/
theorem objects_is_permutation (w : World) (ord : List Nat) (rnd : Nat → Nat)
    (hvalid : w.validIds) :
    ∃ out, Graph.Objects w ord rnd = some out ∧
      out.Perm (w.g.unnamed.filter w.listed ++ (w.g.named.map Prod.snd).filter w.listed) ∧
      (∀ id, id ∈ out ↔ w.registered id ∧ ∃ o, w.objs.get? id = some o ∧ o.embedded = false) ∧
      (∀ id, out.count id =
        if w.listed id then (w.g.unnamed ++ w.g.named.map Prod.snd).count id else 0) ∧
      ((w.g.unnamed ++ w.g.named.map Prod.snd).Nodup → out.Nodup) := by
  have hu : ∀ id ∈ w.g.unnamed, id < w.objs.length := fun id h => hvalid id (Or.inl h)
  have hn : ∀ id ∈ (rangeOrder ord w.g.named).map Prod.snd, id < w.objs.length := by
    intro id h
    obtain ⟨a, ha, rfl⟩ := List.mem_map.mp h
    exact hvalid _ (Or.inr (List.mem_map.mpr ⟨a, mem_rangeOrder ord _ ha, rfl⟩))
  have hperm : (shuffle rnd
      (w.g.unnamed.filter w.listed ++
        ((rangeOrder ord w.g.named).map Prod.snd).filter w.listed).length 0
      (w.g.unnamed.filter w.listed ++
        ((rangeOrder ord w.g.named).map Prod.snd).filter w.listed)).Perm
      (w.g.unnamed.filter w.listed ++ (w.g.named.map Prod.snd).filter w.listed) :=
    (shuffle_perm rnd _ 0 _).trans
      (List.Perm.append_left _ (((rangeOrder_perm ord w.g.named).map Prod.snd).filter _))
  have hcount : ∀ (l : List Nat) (id : Nat),
      (l.filter w.listed).count id = if w.listed id then l.count id else 0 := by
    intro l id
    induction l with
    | nil => simp
    | cons a rest ih =>
      by_cases ha : a = id
      · subst ha
        cases hl : w.listed a <;> simp [List.filter_cons, hl, ih]
      · have hc : ∀ l2 : List Nat, (a :: l2).count id = l2.count id := by
          intro l2
          rw [List.count_cons]
          simp [ha]
        cases hl : w.listed a with
        | false =>
          simp only [List.filter_cons, hl, Bool.false_eq_true, if_false, hc]
          exact ih
        | true =>
          simp only [List.filter_cons, hl, if_true, hc]
          exact ih
  refine ⟨_, by simp only [Graph.Objects, notEmbedded_filter w _ hu, notEmbedded_filter w _ hn],
    hperm, ?_, ?_, ?_⟩
  · intro id
    rw [hperm.mem_iff, ← List.filter_append, List.mem_filter]
    simp only [World.registered, List.mem_append, World.listed]
    constructor
    · rintro ⟨hr, hl⟩
      refine ⟨hr, ?_⟩
      cases ho : w.objs.get? id with
      | none => rw [ho] at hl; cases hl
      | some o => rw [ho] at hl; exact ⟨o, rfl, by simpa using hl⟩
    · rintro ⟨hr, o, ho, he⟩
      exact ⟨hr, by rw [ho]; simp [he]⟩
  · intro id
    rw [hperm.count_eq, ← List.filter_append]
    exact hcount _ id
  · intro hnd
    rw [hperm.nodup_iff, ← List.filter_append]
    exact hnd.filter _

/-- C15 (witness): the objects of the test after `Provide`, with the random
source that always draws 0. -/
theorem objects_is_permutation_witness :
    ∃ out, Graph.Objects serverProvided [] (fun _ => 0) = some out ∧
      out.Perm (serverProvided.g.unnamed.filter serverProvided.listed ++
        (serverProvided.g.named.map Prod.snd).filter serverProvided.listed) ∧
      (∀ id, id ∈ out ↔ serverProvided.registered id ∧
        ∃ o, serverProvided.objs.get? id = some o ∧ o.embedded = false) ∧
      (∀ id, out.count id =
        if serverProvided.listed id then
          (serverProvided.g.unnamed ++ serverProvided.g.named.map Prod.snd).count id
        else 0) ∧
      ((serverProvided.g.unnamed ++ serverProvided.g.named.map Prod.snd).Nodup → out.Nodup) :=
  objects_is_permutation serverProvided [] (fun _ => 0) serverProvided_sane.valid

/-- C15 (counterexample): the call `Provide(o1, o1)` returns nil and leaves the
object `o1`, which is not embedded, twice in the unnamed bucket; `Objects` then
lists it twice, whatever the random source draws. -/
theorem object_provided_twice_listed_twice :
    (Graph.Provide (World.fresh [.struct []]
      [Object.provided (.Ptr (.Struct "A")) (.ptr 0 []) "" false]) [0, 0]).2 = .nil ∧
    twiceProvided.g.unnamed = [0, 0] ∧ twiceProvided.g.named = [] ∧
    (twiceProvided.objs.get? 0).map (fun o => o.embedded) = some false ∧
    ∀ ord rnd, Graph.Objects twiceProvided ord rnd = some [0, 0] ∧
      ([0, 0] : List Nat).count 0 = 2 := by
  refine ⟨rfl, rfl, rfl, rfl, fun ord rnd => ⟨?_, rfl⟩⟩
  have h : ∀ x y : Nat, swapAt (swapAt [0, 0] 0 (x % 1)) 1 (y % 2) = [0, 0] := by
    intro x y
    have hx : x % 1 = 0 := Nat.mod_one x
    rw [hx]
    rcases Nat.mod_two_eq_zero_or_one y with hy | hy <;> rw [hy] <;> rfl
  have hn : rangeOrder ord twiceProvided.g.named = [] := by
    have : twiceProvided.g.named = [] := rfl
    rw [this]
    cases ord <;> rfl
  simp only [Graph.Objects, hn]
  exact congrArg some (h (rnd 0) (rnd 1))


/-- C16: `Populate` terminates. With any fuel above the length of the unnamed
bucket plus the number of declared fields, the worklist loop over the growing
unnamed bucket reaches the end of the bucket or returns an error: `Populate`
does not run out of fuel and its result is the same for every such fuel.
Each visit appends at most one object to the unnamed bucket, and the bucket
grows by at most the number of declared fields. -/
theorem populate_terminates (env : Env) (ord1 ord3 : List Nat) (w : World) (fuel fuel2 : Nat)
    (hvalid : w.validIds)
    (h1 : w.g.unnamed.length + env.fieldTypes.length < fuel)
    (h2 : w.g.unnamed.length + env.fieldTypes.length < fuel2) :
    (Graph.Populate env ord1 ord3 fuel w).2 ≠ .outOfFuel ∧
    Graph.Populate env ord1 ord3 fuel w = Graph.Populate env ord1 ord3 fuel2 w ∧
    (Graph.Populate env ord1 ord3 fuel w).1.g.unnamed.length ≤
      w.g.unnamed.length + env.fieldTypes.length ∧
    (∀ w2 id c p i sf, ∃ l, (explicitStep env w2 id c p i sf).1.g.unnamed = w2.g.unnamed ++ l ∧
      l.length ≤ 1) := by
  have hmiss : missing env w ≤ env.fieldTypes.length := List.countP_le_length _
  have hb0 : Bounded env (missing env w + w.g.unnamed.length) w := ⟨hvalid, le_refl _⟩
  have hnamed : ∀ (ord : List Nat) (w1 : World),
      ∀ id ∈ (rangeOrder ord w1.g.named).map Prod.snd, w1.registered id := by
    intro ord w1 id hid
    obtain ⟨a, ha, rfl⟩ := List.mem_map.mp hid
    exact Or.inr (List.mem_map.mpr ⟨a, mem_rangeOrder ord _ ha, rfl⟩)
  have hpass1 := forEachIncomplete_inv (explicitStep_effect env)
    (Bounded env (missing env w + w.g.unnamed.length))
    (fun w2 id2 c p j sf hb hv => hb.preserved hv (explicitStep_effect env w2 id2 c p j sf))
    _ w (hnamed ord1 w) hb0
  have hfuel1 := forEachIncomplete_inFuel
    (fun w2 id => traverse_inFuel env (explicitStep_inFuel env) w2 id)
    ((rangeOrder ord1 w.g.named).map Prod.snd) w
  have hall := Populate_inv_effect env (Bounded env (missing env w + w.g.unnamed.length))
    (fun w2 w3 id2 c p j sf hb hv heff => hb.preserved hv heff) ord1 ord3 fuel w hb0
  refine ⟨?_, ?_, ?_, ?_⟩
  · unfold Graph.Populate
    unfold Graph.populateExplicit at *
    cases hp1 : forEachIncomplete (traverse env (explicitStep env))
        ((rangeOrder ord1 w.g.named).map Prod.snd) w with
    | mk w1 r1 =>
      rw [hp1] at hpass1 hfuel1
      cases r1 with
      | nil =>
        simp only
        have hm1 : missing env w1 + w1.g.unnamed.length ≤
            missing env w + w.g.unnamed.length := hpass1.1.2
        have hloop := unnamedLoop_fuel env fuel fuel2 0 w1 hpass1.1.1 (by omega) (by omega)
        cases hp2 : unnamedLoop env fuel 0 w1 with
        | mk w2 r2 =>
          rw [hp2] at hloop
          cases r2 with
          | nil =>
            simp only
            have hfuel3 := forEachIncomplete_inFuel
              (fun w3 id => traverse_inFuel env (interfaceStep_inFuel env) w3 id)
              w2.g.unnamed w2
            unfold Graph.populateUnnamedInterface
            cases hp3 : forEachIncomplete (traverse env (interfaceStep env)) w2.g.unnamed w2 with
            | mk w3 r3 =>
              rw [hp3] at hfuel3
              cases r3 with
              | nil =>
                simp only
                exact forEachIncomplete_inFuel
                  (fun w4 id => traverse_inFuel env (interfaceStep_inFuel env) w4 id) _ _
              | error e => simp
              | panic => simp
              | outOfFuel => exact absurd rfl hfuel3
          | error e => simp
          | panic => simp
          | outOfFuel => exact absurd rfl hloop.2
      | error e => simp
      | panic => simp
      | outOfFuel => exact absurd rfl hfuel1
  · unfold Graph.Populate
    unfold Graph.populateExplicit at *
    cases hp1 : forEachIncomplete (traverse env (explicitStep env))
        ((rangeOrder ord1 w.g.named).map Prod.snd) w with
    | mk w1 r1 =>
      rw [hp1] at hpass1
      cases r1 with
      | nil =>
        simp only
        have hm1 : missing env w1 + w1.g.unnamed.length ≤
            missing env w + w.g.unnamed.length := hpass1.1.2
        have hloop := unnamedLoop_fuel env fuel fuel2 0 w1 hpass1.1.1 (by omega) (by omega)
        rw [hloop.1]
      | error e => rfl
      | panic => rfl
      | outOfFuel => rfl
  · have hm : missing env (Graph.Populate env ord1 ord3 fuel w).1 +
        (Graph.Populate env ord1 ord3 fuel w).1.g.unnamed.length ≤
        missing env w + w.g.unnamed.length := hall.1.2
    omega
  · intro w2 id c p i sf
    rcases (explicitStep_effect env w2 id c p i sf).unnamed_cases with hu | ⟨hu, _⟩
    · exact ⟨[], by rw [hu]; simp, by simp⟩
    · exact ⟨[w2.objs.length], hu, by simp⟩

/-- C16 (witness): on the graph of the test `Populate` does not run out of
fuel with 20 steps, and 30 steps give the same result. -/
theorem populate_terminates_witness :
    (Graph.Populate serverEnv [] [] 20 serverProvided).2 ≠ .outOfFuel ∧
    Graph.Populate serverEnv [] [] 20 serverProvided =
      Graph.Populate serverEnv [] [] 30 serverProvided ∧
    (Graph.Populate serverEnv [] [] 20 serverProvided).1.g.unnamed.length ≤
      serverProvided.g.unnamed.length + serverEnv.fieldTypes.length ∧
    (∀ w2 id c p i sf, ∃ l,
      (explicitStep serverEnv w2 id c p i sf).1.g.unnamed = w2.g.unnamed ++ l ∧ l.length ≤ 1) :=
  populate_terminates serverEnv [] [] serverProvided 20 30 serverProvided_sane.valid
    (by decide) (by decide)


/-- C19 (amended): interface resolution is not atomic on ambiguity. When the
traversal of pass 3 visits an exported, nil, plain-request interface field
for which the unnamed bucket holds two or more objects that are not private
and assignable, `a` being the first and `b` the second of them in
registration order, the visit fails with the two-assignable-values error for
`a` and `b`, and the traversal ends with that error; yet the field has been
set to the value of `a` and the edge from the field name to `a` has been
recorded in the `Fields` map of the object. -/
theorem ambiguous_interface_not_atomic (env : Env) (w : World) (id c : Nat) (p : List Nat)
    (i : Nat) (sf : StructField) (n : String) (object : Object) (a b : Nat) (more : List Nat)
    (hobj : w.objs.get? id = some object)
    (hcached : w.cached)
    (htag : parseTag env sf.Tag = .ok (some injectOnly))
    (hexp : sf.Exported = true)
    (hk : sf.Typ = .Interface n)
    (hnil : w.load c (p ++ [i]) = some .nil)
    (hcand : candidates env w sf.Typ = a :: b :: more) :
    interfaceStep env w id c p i sf =
      ((w.store c (p ++ [i]) (ifaceValue w a)).addDependency id sf.Name a,
        some (.error (.twoAssignable sf.Name a b))) ∧
    (∀ rest, fieldLoop (fun w1 j sf1 => interfaceStep env w1 id c p j sf1) (sf :: rest) i w =
      ((w.store c (p ++ [i]) (ifaceValue w a)).addDependency id sf.Name a,
        .error (.twoAssignable sf.Name a b))) ∧
    ((w.store c (p ++ [i]) (ifaceValue w a)).addDependency id sf.Name a).load c (p ++ [i]) =
      some (ifaceValue w a) ∧
    (∃ o1, ((w.store c (p ++ [i]) (ifaceValue w a)).addDependency id sf.Name a).objs.get? id =
        some o1 ∧ o1.dependency sf.Name = some a) ∧
    (∃ l1 l2, w.g.unnamed = l1 ++ a :: l2 ∧ ∀ x ∈ l1, isCandidate env w sf.Typ x = false) := by
  have hscan := interfaceScan_start env id (c := c) (q := p ++ [i]) hk hexp
    w.g.unnamed w hcached
  have hstep0 : interfaceStep env w id c p i sf =
      match interfaceScan env id c (p ++ [i]) sf w.g.unnamed none w with
      | (w1, some r, _) => (w1, some r)
      | (w1, none, none) => (w1, some (.error (.noAssignable sf.Name)))
      | (w1, none, some _) => (w1, none) := by
    unfold interfaceStep
    simp only [htag, hk, hnil, isNilOrZero, GoType.Kind, Val.IsNil, injectOnly]
    rfl
  have hc : candidates env w sf.Typ = w.g.unnamed.filter (isCandidate env w sf.Typ) := rfl
  rw [← hc, hcand] at hscan
  have hstep : interfaceStep env w id c p i sf =
      ((w.store c (p ++ [i]) (ifaceValue w a)).addDependency id sf.Name a,
        some (.error (.twoAssignable sf.Name a b))) := by
    rw [hstep0, hscan]
  refine ⟨hstep, ?_, ?_, ?_, ?_⟩
  · intro rest
    have := @fieldLoop_stop (fun w1 j sf1 => interfaceStep env w1 id c p j sf1) w i sf
      (.error (.twoAssignable sf.Name a b)) rest (by simp only [hstep])
    simpa only [hstep] using this
  · simp only [addDependency_load]
    exact load_store_same _ hnil
  · refine ⟨object.addDependency sf.Name a, ?_, Object.dependency_addDependency_self _ _ _⟩
    simp only [addDependency_get, if_true, store_objs, hobj, Option.map]
  · rw [hc] at hcand
    obtain ⟨l1, l2, h1, h2, _⟩ := List.filter_eq_cons_iff.mp hcand
    exact ⟨l1, l2, h1, fun x hx => by simpa using h2 x hx⟩

/-- C19 (counterexample): the field `h.x` is a nil plain-request interface
field of an object that is not completed, and the unnamed bucket holds the two
assignable candidates `a` and `b`; but the field is not exported, so
`populateExplicit` fails in pass 2: `Populate` returns the unexported-field
error, not the two-assignable-values error, and the field is still nil and no
edge is recorded. -/
theorem unexported_interface_field_fails_earlier :
    (hiddenEnv.fields "H").get? 0 =
      some { Name := "x", Typ := .Interface "I1", Tag := "inject:\"\"", Exported := false,
             Anonymous := false } ∧
    parseTag hiddenEnv "inject:\"\"" = .ok (some injectOnly) ∧
    hiddenProvided.g.unnamed = [0, 1, 2] ∧
    hiddenProvided.load 0 [0] = some .nil ∧
    candidates hiddenEnv hiddenProvided (.Interface "I1") = [1, 2] ∧
    Graph.Populate hiddenEnv [] [] 5 hiddenProvided = (hiddenProvided, .error (.unexported "x")) ∧
    (hiddenProvided.objs.map (fun o => o.Fields)) = [none, none, none] :=
  ⟨rfl, rfl, rfl, rfl, rfl, rfl, rfl⟩

/-- C19 (witness): the visit of `h.X`, for which `a` and `b` are assignable,
fails with the two-assignable-values error after it has set `h.X` to `a` and
recorded the edge `X -> a`; `Populate` returns that error. -/
theorem ambiguous_interface_not_atomic_witness :
    (interfaceStep ifaceEnv ifaceProvided 0 0 [] 0
        (exportedField "X" (.Interface "I1") "inject:\"\"") =
      ((ifaceProvided.store 0 ([] ++ [0]) (ifaceValue ifaceProvided 1)).addDependency 0 "X" 1,
        some (.error (.twoAssignable "X" 1 2))) ∧
    (∀ rest, fieldLoop (fun w1 j sf1 => interfaceStep ifaceEnv w1 0 0 [] j sf1)
        (exportedField "X" (.Interface "I1") "inject:\"\"" :: rest) 0 ifaceProvided =
      ((ifaceProvided.store 0 ([] ++ [0]) (ifaceValue ifaceProvided 1)).addDependency 0 "X" 1,
        .error (.twoAssignable "X" 1 2))) ∧
    ((ifaceProvided.store 0 ([] ++ [0]) (ifaceValue ifaceProvided 1)).addDependency 0 "X"
        1).load 0 ([] ++ [0]) = some (ifaceValue ifaceProvided 1) ∧
    (∃ o1, ((ifaceProvided.store 0 ([] ++ [0]) (ifaceValue ifaceProvided 1)).addDependency 0
        "X" 1).objs.get? 0 = some o1 ∧ o1.dependency "X" = some 1) ∧
    (∃ l1 l2, ifaceProvided.g.unnamed = l1 ++ 1 :: l2 ∧
      ∀ x ∈ l1, isCandidate ifaceEnv ifaceProvided (.Interface "I1") x = false)) ∧
    Graph.Populate ifaceEnv [] [] 5 ifaceProvided =
      ((ifaceProvided.store 0 [0] (ifaceValue ifaceProvided 1)).addDependency 0 "X" 1,
        .error (.twoAssignable "X" 1 2)) ∧
    ifaceValue ifaceProvided 1 = .iface (.Ptr (.Struct "A")) (.ptr 1 []) :=
  ⟨ambiguous_interface_not_atomic ifaceEnv ifaceProvided 0 0 [] 0
      (exportedField "X" (.Interface "I1") "inject:\"\"") "I1"
      { Object.provided (.Ptr (.Struct "H")) (.ptr 0 []) "" false with
          reflectType := some (.Ptr (.Struct "H")),
          reflectValue := some (.Ptr (.Struct "H"), .ptr 0 []) }
      1 2 [] rfl ifaceProvided_cached rfl rfl rfl rfl rfl,
    rfl, rfl⟩


/-- C20: for every well-formed graph, `Populate` never returns the "unhandled
named instance" error of pass 3, whatever the orders of the map iterations and
the step budget: a visit of `populateUnnamedInterface` reaches an interface
field that carries a named request only after passes 1 and 2 returned nil, and
then they have set the field to a value that is not nil, so the field is
skipped before the named check.  When `Populate` returns nil, every interface
field with a named request of every registered object that is not completed
holds a value that is not zero. -/
theorem unhandled_named_unreachable (env : Env) (ct : List GoType) (w : World)
    (hzt : env.zeroTyped) (ht : Typed env ct w) (ord1 ord3 : List Nat) (fuel : Nat)
    (n : String) :
    (Graph.Populate env ord1 ord3 fuel w).2 ≠ .error (.unhandledNamed n) ∧
      ∀ w1, Graph.Populate env ord1 ord3 fuel w = (w1, .nil) →
        ∀ id, w1.registered id → Done env (Bound env) w1 id := by
  have hI : WellTyped env w := ⟨ct, ht⟩
  refine ⟨?_, fun w1 h =>
    (Populate_post env (bound_explicit hzt) bound_interface ord1 ord3 fuel w w1 hI h).2.2⟩
  intro h
  cases hP : Graph.Populate env ord1 ord3 fuel w with
  | mk w1 r =>
  rw [hP] at h
  simp only at h
  subst h
  have hnamed : ∀ (ord : List Nat) (w2 : World),
      ∀ id ∈ (rangeOrder ord w2.g.named).map Prod.snd, w2.registered id := by
    intro ord w2 id hid
    obtain ⟨a, ha, rfl⟩ := List.mem_map.mp hid
    exact Or.inr (List.mem_map.mpr ⟨a, mem_rangeOrder ord _ ha, rfl⟩)
  unfold Graph.Populate at hP
  cases h1 : forEachIncomplete (Graph.populateExplicit env)
      ((rangeOrder ord1 w.g.named).map Prod.snd) w with
  | mk wa r1 =>
  rw [h1] at hP
  have ha1 := forEachIncomplete_avoids (e := .unhandledNamed n)
    (traverse_avoids env (explicitStep_ne_unhandled env n))
    ((rangeOrder ord1 w.g.named).map Prod.snd) w
  unfold Graph.populateExplicit at h1
  rw [h1] at ha1
  cases r1 with
  | error e =>
    simp only [Prod.mk.injEq, Outcome.error.injEq] at hP
    exact ha1 (by rw [hP.2])
  | panic => simp only [Prod.mk.injEq] at hP; cases hP.2
  | outOfFuel => simp only [Prod.mk.injEq] at hP; cases hP.2
  | nil =>
  simp only at hP
  cases h2 : unnamedLoop env fuel 0 wa with
  | mk wb r2 =>
  rw [h2] at hP
  have ha2 := unnamedLoop_avoids env (e := .unhandledNamed n) (explicitStep_ne_unhandled env n)
    fuel 0 wa
  rw [h2] at ha2
  cases r2 with
  | error e =>
    simp only [Prod.mk.injEq, Outcome.error.injEq] at hP
    exact ha2 (by rw [hP.2])
  | panic => simp only [Prod.mk.injEq] at hP; cases hP.2
  | outOfFuel => simp only [Prod.mk.injEq] at hP; cases hP.2
  | nil =>
  simp only at hP
  obtain ⟨hib, _, hdb⟩ := explicit_passes_post env (bound_explicit hzt) ord1 fuel w wa wb hI h1 h2
  have hJ : ∀ w2 id c p i sf w3,
      (WellTyped env w2 ∧ ∀ id, w2.registered id → Done env (Bound env) w2 id) →
      Visit env w2 id c p i sf → interfaceStep env w2 id c p i sf = (w3, none) →
      (WellTyped env w3 ∧ ∀ id, w3.registered id → Done env (Bound env) w3 id) := by
    intro w2 id c p i sf w3 hj hv hs
    obtain ⟨hi3, hs3⟩ := bound_interface w2 id c p i sf w3 hj.1 hv hs
    have he3 : Ext w2 w3 := by
      have := (interfaceStep_effect env w2 id c p i sf).ext
      rw [hs] at this; exact this
    have hg3 : w3.g = w2.g := by
      have := interfaceStep_g env w2 id c p i sf
      rw [hs] at this; exact this
    refine ⟨hi3, ?_⟩
    intro id2 hr
    have hr2 := (registered_congr hg3 id2).mp hr
    exact (hj.2 id2 hr2).stable hr2 he3 hs3
  have hS : Sound env (interfaceStep env)
      (fun w2 => WellTyped env w2 ∧ ∀ id, w2.registered id → Done env (Bound env) w2 id)
      (fun _ _ _ _ _ _ => True) :=
    fun w2 id c p i sf w3 hj hv hs => ⟨hJ w2 id c p i sf w3 hj hv hs, trivial,
      fun _ _ _ _ _ _ _ => trivial⟩
  cases h3 : forEachIncomplete (Graph.populateUnnamedInterface env) wb.g.unnamed wb with
  | mk wc r3 =>
  rw [h3] at hP
  unfold Graph.populateUnnamedInterface at h3 hP
  cases r3 with
  | error e =>
    simp only [Prod.mk.injEq, Outcome.error.injEq] at hP
    obtain ⟨hP1, hP2⟩ := hP
    subst hP1; subst hP2
    obtain ⟨w2, id, c, p, j, sf, k1, k2, k3⟩ := forEachIncomplete_raise
      (interfaceStep_effect env) (interfaceStep_ne_nil env) hJ wb.g.unnamed wb wc
      (fun id hid => Or.inl hid) ⟨hib, hdb⟩ h3
    exact bound_not_unhandled k1.2 k2 k3
  | panic => simp only [Prod.mk.injEq] at hP; cases hP.2
  | outOfFuel => simp only [Prod.mk.injEq] at hP; cases hP.2
  | nil =>
  simp only at hP
  obtain ⟨hjc, _, _, _⟩ := forEachIncomplete_post (interfaceStep_effect env)
    (interfaceStep_ne_nil env) hS wb.g.unnamed wb wc (fun id hid => Or.inl hid) ⟨hib, hdb⟩ h3
  obtain ⟨w2, id, c, p, j, sf, k1, k2, k3⟩ := forEachIncomplete_raise
    (interfaceStep_effect env) (interfaceStep_ne_nil env) hJ _ wc w1 (hnamed ord3 wc) hjc hP
  exact bound_not_unhandled k1.2 k2 k3

/-- The named-interface example satisfies the hypotheses of C20: `Populate`
returns nil there and leaves the object named `x` in the interface field. -/
theorem unhandled_named_unreachable_witness :
    boundEnv.zeroTyped ∧ Typed boundEnv [.Struct "H", .Struct "A"] boundProvided ∧
      ((Graph.Populate boundEnv [] [] 5 boundProvided).2 ≠ .error (.unhandledNamed "x") ∧
        ∀ w1, Graph.Populate boundEnv [] [] 5 boundProvided = (w1, .nil) →
          ∀ id, w1.registered id → Done boundEnv (Bound boundEnv) w1 id) ∧
      (Graph.Populate boundEnv [] [] 5 boundProvided).2 = .nil ∧
      (Graph.Populate boundEnv [] [] 5 boundProvided).1.load 0 [0] =
        some (.iface (.Ptr (.Struct "A")) (.ptr 1 [])) :=
  ⟨boundEnv_zeroTyped, boundProvided_typed,
    unhandled_named_unreachable boundEnv [.Struct "H", .Struct "A"] boundProvided
      boundEnv_zeroTyped boundProvided_typed [] [] 5 "x", rfl, rfl⟩

/-- C18 (amended): take a graph the caller built by calls of `Provide` and of
`Populate`, without writing to the structs and objects it had handed over, each
call of `Populate` being made on a sane graph (no bucket holds a dangling
object, and no struct of a registered object that is not completed lies inside
the struct of another one), in a program whose exported field names are
distinct within each struct type.  When `Populate` returns on such a graph,
whatever the outcome, every entry `f -> e` of the dependency map of every
registered object is justified: `f` names an annotated field of the object's
struct, the field holds the value of `e` now, and `e` is a registered named
object, an object of the unnamed bucket, or an object created for that field (a
created private object, for a field with the private request, to which no other
entry refers).  No exported field with a nameless directive whose type is a map
or a struct type has an entry.  And every visit of the two traversals that goes
on either leaves the field and the dependency map of the visited object alone,
or makes a map and leaves the dependency map alone, or assigns the value of an
object, which was registered before or is created by the visit, and records the
edge from the field's name to that object. -/
theorem dependency_entries_justified (env : Env) (ord1 ord3 : List Nat) (fuel : Nat)
    (w0 w1 : World) (r : Outcome) (hb : Built env w0) (hs : Sane w0)
    (hnames : env.distinctNames)
    (h : Graph.Populate env ord1 ord3 fuel w0 = (w1, r)) :
    (∀ id o f e, w1.registered id → w1.objs.get? id = some o → o.dependency f = some e →
      Justified env w1 id o f e) ∧
    (∀ id o s c p i sf tg, w1.registered id → w1.objs.get? id = some o →
      o.target = some (s, c, p) → (env.fields s).get? i = some sf →
      parseTag env sf.Tag = .ok (some tg) → sf.Exported = true → tg.Name = "" →
      (sf.Typ.Kind = .Map ∨ sf.Typ.Kind = .Struct) → o.dependency sf.Name = none) ∧
    (∀ w id c p i sf w2 o, w.objs.get? id = some o →
      (explicitStep env w id c p i sf = (w2, none) ∨
        interfaceStep env w id c p i sf = (w2, none)) →
      Traced env w w2 id c (p ++ [i]) sf o) := by
  have ht := (hb.tracked.afterPopulate hs ord1 ord3 fuel).2
  rw [h] at ht
  obtain ⟨_, hr1, hown, _⟩ := ht
  refine ⟨fun id o f e hreg ho hdep =>
    (hr1 id o f e hreg ho hdep).justifiedBy hown hreg ho hdep, ?_, ?_⟩
  · intro id o s c p i sf tg hreg ho htar hf htag hexp hname hk
    cases hdep : o.dependency sf.Name with
    | none => rfl
    | some e =>
      exfalso
      obtain ⟨_, s2, c2, p2, i2, sf2, tg2, eo, x, h1, h2, h3, h4, h5, _, _, _, h9⟩ :=
        hr1 id o sf.Name e hreg ho hdep
      rw [htar] at h1
      simp only [Option.some.injEq, Prod.mk.injEq] at h1
      obtain ⟨hs2, _, _⟩ := h1
      rw [← hs2] at h2
      have hsf : sf2 = sf := Env.distinct_fields hnames h2 hf h5 hexp h3
      rw [hsf, htag] at h4
      have htg : tg2 = tg := by
        simp only [Except.ok.injEq, Option.some.injEq] at h4
        exact h4.symm
      rw [hsf, htg] at h9
      rcases h9 with ⟨j1, _⟩ | ⟨_, _, j3, _⟩ | ⟨_, j2, _, _⟩
      · exact j1 hname
      · rcases hk with hk | hk <;> rcases j3 with j3 | j3 <;> rw [hk] at j3 <;> cases j3
      · have := kind_of_isStructPtr j2
        rcases hk with hk | hk <;> rw [hk] at this <;> cases this
  · intro w id c p i sf w2 o ho hstep
    rcases hstep with hstep | hstep
    · exact explicitStep_traced ho hstep
    · exact interfaceStep_traced ho hstep

/-- C18 (counterexample): with `type S struct { F *T "inject:\"\"" }` and
`type P struct { S S "inject:\"x\"" }`, provide `&p`, the named value `S{}` and
`&p.S`.  `Populate` returns nil and records the edge `S -> x` for `p`, but the
later traversal of `&p.S` fills `p.S.F`: the field `p.S` no longer holds the
value of `x`, and the entry is not justified. -/
theorem named_struct_field_drifts :
    Graph.Populate driftEnv [] [] 10 driftProvided = (driftPopulated, .nil) ∧
      driftPopulated.registered 0 ∧
      ∃ o eo, driftPopulated.objs.get? 0 = some o ∧ o.dependency "S" = some 1 ∧
        o.target = some ("P", 0, []) ∧
        driftPopulated.objs.get? 1 = some eo ∧
        setValue driftEnv (.Struct "S") eo.Value = some (.struct [.nil]) ∧
        driftPopulated.load 0 [0] = some (.struct [.ptr 1 []]) ∧
        ¬ Justified driftEnv driftPopulated 0 o "S" 1 := by
  refine ⟨rfl, Or.inl (by decide),
    { Object.provided (.Ptr (.Struct "P")) (.ptr 0 []) "" false with
      Fields := some [("S", 1)], reflectType := some (.Ptr (.Struct "P")),
      reflectValue := some (.Ptr (.Struct "P"), .ptr 0 []) },
    { Object.provided (.Struct "S") (.struct [.nil]) "x" false with
      reflectType := some (.Struct "S"),
      reflectValue := some (.Struct "S", .struct [.nil]) },
    rfl, rfl, rfl, rfl, rfl, rfl, ?_⟩
  rintro ⟨s, c, p, i, sf, tg, eo, x, h1, h2, h3, _, h5, h6, h7, _⟩
  have htar : ({ Object.provided (.Ptr (.Struct "P")) (.ptr 0 []) "" false with
      Fields := some [("S", 1)], reflectType := some (.Ptr (.Struct "P")),
      reflectValue := some (.Ptr (.Struct "P"), .ptr 0 []) } : Object).target =
      some ("P", 0, []) := rfl
  rw [htar] at h1
  simp only [Option.some.injEq, Prod.mk.injEq] at h1
  obtain ⟨hs, hc, hp⟩ := h1
  subst hs
  subst hc
  subst hp
  have hfields : driftEnv.fields "P" = [exportedField "S" (.Struct "S") "inject:\"x\""] := rfl
  rw [hfields] at h2
  have he : driftPopulated.objs.get? 1 = some _ := rfl
  rw [he] at h5
  cases h5
  match i, h2 with
  | 0, h2 =>
    simp only [List.get?_cons_zero, Option.some.injEq] at h2
    subst h2
    have hl : driftPopulated.load 0 ([] ++ [0]) = some (.struct [.ptr 1 []]) := rfl
    rw [hl] at h7
    have h6b : (some (Val.struct [Val.nil]) : Option Val) = some x := h6
    have := h7.trans h6b.symm
    simp at this
  | k + 1, h2 => simp at h2

/-- C18 (witness): the graph of `TestForSingletonPointerDependencyInject` after
its first call of `Populate`, whose dependency maps are filled (the one of the
server lists the two created controllers), satisfies the hypotheses of C18, and
a second call of `Populate` on it returns nil. -/
theorem dependency_entries_justified_witness :
    Built serverEnv serverPopulated ∧ Sane serverPopulated ∧ serverEnv.distinctNames ∧
      Graph.Populate serverEnv [] [] 20 serverPopulated = (serverPopulated, .nil) ∧
      ((∀ id o f e, serverPopulated.registered id → serverPopulated.objs.get? id = some o →
          o.dependency f = some e → Justified serverEnv serverPopulated id o f e) ∧
        (∀ id o s c p i sf tg, serverPopulated.registered id →
          serverPopulated.objs.get? id = some o →
          o.target = some (s, c, p) → (serverEnv.fields s).get? i = some sf →
          parseTag serverEnv sf.Tag = .ok (some tg) → sf.Exported = true → tg.Name = "" →
          (sf.Typ.Kind = .Map ∨ sf.Typ.Kind = .Struct) → o.dependency sf.Name = none) ∧
        (∀ w id c p i sf w2 o, w.objs.get? id = some o →
          (explicitStep serverEnv w id c p i sf = (w2, none) ∨
            interfaceStep serverEnv w id c p i sf = (w2, none)) →
          Traced serverEnv w w2 id c (p ++ [i]) sf o)) ∧
      (serverPopulated.objs.get? 0).map (fun o => o.Fields) =
        some (some [("UserApi", 3), ("PostApi", 4)]) :=
  ⟨serverPopulated_built, serverPopulated_sane, serverEnv_distinctNames, rfl,
    dependency_entries_justified serverEnv [] [] 20 serverPopulated serverPopulated .nil
      serverPopulated_built serverPopulated_sane serverEnv_distinctNames rfl, rfl⟩

/-- C17: let `Populate` return nil on a well-formed heap (no bucket holds a
dangling object and every value has the shape of its Go type) of a program whose
exported field names are distinct within each struct type, as Go demands.  Then
a second call of `Populate`, whatever the order in which it ranges over the
named bucket, returns nil as soon as its worklist loop is given more steps than
the unnamed bucket has objects, and it leaves both buckets, the memory (so every
field value), the number of maps made and the record of every object (so every
dependency map) as they were.  The only objects it allocates are the wrappers of
inline struct fields: they are private, not created, and in no bucket. -/
theorem populate_idempotent (env : Env) (ct : List GoType) (w0 w1 : World)
    (hzt : env.zeroTyped) (hnames : env.distinctNames) (ht : Typed env ct w0)
    (ord1 ord3 : List Nat) (fuel : Nat)
    (h : Graph.Populate env ord1 ord3 fuel w0 = (w1, .nil))
    (ord1b ord3b : List Nat) (fuel2 : Nat) (hfuel : w1.g.unnamed.length < fuel2) :
    ∃ w2, Graph.Populate env ord1b ord3b fuel2 w1 = (w2, .nil) ∧
      w2.g = w1.g ∧ w2.mem = w1.mem ∧ w2.maps = w1.maps ∧
      (∀ id o, w1.objs.get? id = some o → w2.objs.get? id = some o) ∧
      (∀ id o, w1.objs.length ≤ id → w2.objs.get? id = some o →
        o.created = false ∧ o.private_ = true ∧ ¬ w2.registered id) := by
  obtain ⟨⟨ct1, ht1⟩, _, hall⟩ := Populate_cover env (settled_explicit hzt hnames)
    (resolved_interface env) (settled_interface hnames) ord1 ord3 fuel w0 w1 ⟨ct, ht⟩ h
  obtain ⟨w2, h2, hj⟩ := Populate_replay ht1.valid hall ord1b ord3b fuel2 hfuel
  refine ⟨w2, h2, hj.2.2.1, hj.1, hj.2.1, fun id o ho => hj.keeps ho, ?_⟩
  intro id o hid ho
  obtain ⟨_, _, hg, extra, hextra, hjunk⟩ := hj
  rw [hextra] at ho
  have ho2 : extra.get? (id - w1.objs.length) = some o := by
    rw [List.get?_eq_getElem?] at ho ⊢
    rw [List.getElem?_append_right hid] at ho
    exact ho
  obtain ⟨h3, h4⟩ := hjunk o (List.get?_mem ho2)
  refine ⟨h3, h4, ?_⟩
  intro hreg
  have hreg1 : w1.registered id := by
    unfold World.registered at hreg ⊢
    rw [hg] at hreg
    exact hreg
  have := ht1.valid id hreg1
  omega

/-- The inline example satisfies the hypotheses of C17; the second call
allocates one more wrapper for the inline struct and changes nothing else. -/
theorem populate_idempotent_witness :
    inlineEnv.zeroTyped ∧ inlineEnv.distinctNames ∧
      Typed inlineEnv [.Struct "P"] inlineProvided ∧
      Graph.Populate inlineEnv [] [] 3 inlineProvided = (inlinePopulated, .nil) ∧
      inlinePopulated.g.unnamed.length < 3 ∧
      (∃ w2, Graph.Populate inlineEnv [] [] 3 inlinePopulated = (w2, .nil) ∧
        w2.g = inlinePopulated.g ∧ w2.mem = inlinePopulated.mem ∧
        w2.maps = inlinePopulated.maps ∧
        (∀ id o, inlinePopulated.objs.get? id = some o → w2.objs.get? id = some o) ∧
        (∀ id o, inlinePopulated.objs.length ≤ id → w2.objs.get? id = some o →
          o.created = false ∧ o.private_ = true ∧ ¬ w2.registered id)) ∧
      inlinePopulated.objs.length = 2 ∧
      (Graph.Populate inlineEnv [] [] 3 inlinePopulated).1.objs.length = 3 :=
  ⟨inlineEnv_zeroTyped, inlineEnv_distinctNames, inlineProvided_typed, rfl, by decide,
    populate_idempotent inlineEnv [.Struct "P"] inlineProvided inlinePopulated
      inlineEnv_zeroTyped inlineEnv_distinctNames inlineProvided_typed [] [] 3 rfl [] [] 3
      (by decide), rfl, rfl⟩

end Inject
